import Mathlib

/-!
# KamiShibai engine: model data, asset cache, timer

A shallow embedding of `Engine/CredibleModelData.{h,cpp}`,
`Engine/AssetManager.{h,cpp}` and `Engine/CredibleTimer.{h,cpp}`.

Conventions of the embedding.

* `float` values are idealised as rationals, a 4x4 float matrix is a
  4x4 rational matrix and `XMMATRIX::operator*` / `XMMatrixMultiply` is the
  matrix product.
* A raw pointer into a container owned by the model is the index of the
  pointee in that container: a `CredibleNode*` is an index into `Nodes`, a
  `CredibleMesh*` is a pair (node index, mesh index).  A null node pointer is
  `none`.  A texture handle (`ID3D11ShaderResourceView*`) is a natural number,
  `0` being `nullptr`.
* `std::map` / `std::unordered_map` members that the code only searches and
  assigns are finite maps `K → Option V`.
* An operation whose C++ behaviour is undefined on some input (subscript out of
  range, dereferencing a null pointer or a pointer to no object of the model,
  reading past the end of the buffer, overflow of the `int` cursor) returns
  `none` there.  A report of the `MUKASHIDEBUG_CRITICALERROR` family is
  counted and execution goes on; so the bone pass of `initializeFromKsm`,
  which reports a bone name that no node has and then files the pointer held
  at `Nodes.end()`, goes on with a pointer to no node of the model filed.
* The device context is the list of the calls it has received, in order
  (`DeviceCall`); the GPU buffers of a mesh are named by the pointer to the
  mesh.
* A `std::function` member is named by a number; calling it is recorded in a
  list of the callbacks invoked, and it is taken to return without touching
  the object that holds it.
* Library functions of DirectXMath / DirectXCollision whose floating point
  definition is outside the repository are fields of `DirectXMath`; every
  theorem holds for every such library.
-/

namespace Engine

/-! ## Scalars, vectors, matrices -/

/-- A wide string, as the sequence of its 16-bit code units. -/
abbrev wstring := List Nat

/-- The 4x4 float matrix `XMFLOAT4X4` (and its register form `XMMATRIX`). -/
abbrev XMFLOAT4X4 := Matrix (Fin 4) (Fin 4) ℚ

/-- The struct `XMFLOAT3`. -/
structure XMFLOAT3 where
  x : ℚ
  y : ℚ
  z : ℚ
  deriving DecidableEq

/-- The struct `XMFLOAT4`. -/
structure XMFLOAT4 where
  x : ℚ
  y : ℚ
  z : ℚ
  w : ℚ
  deriving DecidableEq

/-- The four-lane register vector `XMVECTOR`. -/
structure XMVECTOR where
  x : ℚ
  y : ℚ
  z : ℚ
  w : ℚ
  deriving DecidableEq

/-- `XMVectorSet(x, y, z, w)`. -/
def XMVectorSet (x y z w : ℚ) : XMVECTOR := ⟨x, y, z, w⟩

/-- `XMStoreFloat3`: the first three lanes. -/
def XMStoreFloat3 (v : XMVECTOR) : XMFLOAT3 := ⟨v.x, v.y, v.z⟩

/-- `XMVector3TransformNormal(V, M)`: the row vector `(x, y, z, 0)` times `M`. -/
def XMVector3TransformNormal (v : XMVECTOR) (m : XMFLOAT4X4) : XMVECTOR :=
  ⟨v.x * m 0 0 + v.y * m 1 0 + v.z * m 2 0,
   v.x * m 0 1 + v.y * m 1 1 + v.z * m 2 1,
   v.x * m 0 2 + v.y * m 1 2 + v.z * m 2 2,
   v.x * m 0 3 + v.y * m 1 3 + v.z * m 2 3⟩

/-- `XMVector3TransformCoord(V, M)`: the row vector `(x, y, z, 1)` times `M`,
every lane divided by the resulting `w`. -/
def XMVector3TransformCoord (v : XMVECTOR) (m : XMFLOAT4X4) : XMVECTOR :=
  let r : XMVECTOR :=
    ⟨v.x * m 0 0 + v.y * m 1 0 + v.z * m 2 0 + m 3 0,
     v.x * m 0 1 + v.y * m 1 1 + v.z * m 2 1 + m 3 1,
     v.x * m 0 2 + v.y * m 1 2 + v.z * m 2 2 + m 3 2,
     v.x * m 0 3 + v.y * m 1 3 + v.z * m 2 3 + m 3 3⟩
  ⟨r.x / r.w, r.y / r.w, r.z / r.w, r.w / r.w⟩

/-- The struct `BoundingBox` of DirectXCollision. -/
structure BoundingBox where
  Center : XMFLOAT3
  Extents : XMFLOAT3
  deriving DecidableEq

/-- The library functions the code calls and the repository does not define. -/
structure DirectXMath where
  /-- `XMMatrixInverse(&det, M)`. -/
  XMMatrixInverse : XMFLOAT4X4 → XMFLOAT4X4
  /-- `MathHelper::Inverse(M)`, applied in place by the code. -/
  MathHelperInverse : XMFLOAT4X4 → XMFLOAT4X4
  /-- `XMVector3Normalize(V)`. -/
  XMVector3Normalize : XMVECTOR → XMVECTOR
  /-- `BoundingBox::Intersects(Origin, Direction, Dist)`; `Dist` is an output
  that the code never reads. -/
  BoundingBoxIntersects : BoundingBox → XMVECTOR → XMVECTOR → Bool
  /-- `TriangleTests::Intersects(Origin, Direction, V0, V1, V2, Dist)`; `Dist`
  is an output that the code never reads. -/
  TriangleTestsIntersects : XMVECTOR → XMVECTOR → XMVECTOR → XMVECTOR → XMVECTOR → Bool

/-- `std::vector::resize(n, val)`. -/
def vectorResize {α : Type} (v : List α) (n : Nat) (val : α) : List α :=
  v.take n ++ List.replicate (n - v.length) val

/-! ## Data model (`CredibleModelData.h`) -/

/-- The struct `CredibleBone`. -/
structure CredibleBone where
  Name : wstring
  Offset : XMFLOAT4X4
  deriving DecidableEq

/-- The struct `Material` of `LightHelper.h`, with the four colours the code
assigns. -/
structure Material where
  Ambient : XMFLOAT4
  Diffuse : XMFLOAT4
  Specular : XMFLOAT4
  Reflect : XMFLOAT4
  deriving DecidableEq

/-- The two index formats the code selects between. -/
inductive DXGI_FORMAT where
  | DXGI_FORMAT_R16_UINT
  | DXGI_FORMAT_R32_UINT
  deriving DecidableEq

/-- The struct `CredibleMesh`.  The GPU buffers `VB` and `IB`, the unused
`Instance` and the scratch list `translatedVertices` are left out. -/
structure CredibleMesh where
  VertexCount : Nat
  FaceCount : Nat
  IndexCount : Nat
  DiffuseTexture : Nat
  DefaultDiffuseTextureName : wstring
  NormalTexture : Nat
  MeshMaterial : Material
  MaterialOpacity : ℚ
  MaterialShininess : ℚ
  SpecularStrength : ℚ
  NumBones : Nat
  Bones : List CredibleBone
  IndexBufferFormat : DXGI_FORMAT
  PositionalVertices : List XMFLOAT3
  Indices : List Nat
  MeshBoundingBox : BoundingBox
  deriving DecidableEq

/-- The struct `CredibleNode`.  `Children` and `Parent` are node pointers. -/
structure CredibleNode where
  Name : wstring
  Enabled : Bool
  Children : List Nat
  Parent : Option Nat
  LocalTransform : XMFLOAT4X4
  GlobalTransform : XMFLOAT4X4
  Meshes : List CredibleMesh
  ChannelIndex : Nat
  deriving DecidableEq

/-- The struct `Keyframe` of `AnimationData.h`. -/
structure Keyframe where
  Translation : XMFLOAT3
  Scale : XMFLOAT3
  RotationQuat : XMFLOAT4
  TimePos : ℚ
  deriving DecidableEq

/-- The struct `BoneAnimation` of `AnimationData.h`. -/
structure BoneAnimation where
  Keyframes : List Keyframe
  deriving DecidableEq

/-- The struct `AnimationClip` of `AnimationData.h`. -/
structure AnimationClip where
  Name : wstring
  Duration : ℚ
  TicksPerSecond : ℚ
  BoneAnimations : List BoneAnimation
  TotalFrames : Nat
  deriving DecidableEq

/-- The class `CredibleModelData`.  `ModelAnimationData` is the list of the
clips added to it; `_device` and `_animationTimer` are left out. -/
structure CredibleModelData where
  ModelAnimationData : List AnimationClip
  Nodes : List CredibleNode
  RootNode : Option Nat
  _vertexStride : Nat
  _globalBoneTransforms : List XMFLOAT4X4
  _numMeshes : Nat
  _numMaterials : Nat
  _numTextures : Nat
  _numAnimations : Nat
  _hasAnimations : Bool
  _boundingBox : BoundingBox
  _allMeshes : List (Nat × Nat)
  _boneNodesByName : wstring → Option Nat
  _textureMapping : Nat → Option Nat

/-- `CredibleMesh::HasBones`. -/
def CredibleMesh.HasBones (mesh : CredibleMesh) : Bool := decide (mesh.NumBones > 0)

/-! ## Ray intersection (`CredibleModelData.cpp`, lines 77-174) -/

/-- The three corner vectors of triangle `n`, as both queries build them:
`XMVectorSet(PositionalVertices[Indices[3n+k]].x, .y, .z, 0.0f)`. -/
def CredibleMesh.triangle (mesh : CredibleMesh) (n : Nat) :
    Option (XMVECTOR × XMVECTOR × XMVECTOR) := do
  let i0 ← mesh.Indices[n * 3 + 0]?
  let i1 ← mesh.Indices[n * 3 + 1]?
  let i2 ← mesh.Indices[n * 3 + 2]?
  let p0 ← mesh.PositionalVertices[i0]?
  let p1 ← mesh.PositionalVertices[i1]?
  let p2 ← mesh.PositionalVertices[i2]?
  pure (XMVectorSet p0.x p0.y p0.z 0, XMVectorSet p1.x p1.y p1.z 0,
        XMVectorSet p2.x p2.y p2.z 0)

/-- The ray that `CredibleMesh::IntersectedBy` tests with (lines 88-102), as
the pair (`newRayOrigin`, `newRayDirection`). -/
def CredibleMesh.IntersectedBy.localRay (dx : DirectXMath)
    (rayOrigin rayDirection : XMVECTOR) (worldTransform inverseView : XMFLOAT4X4) :
    XMVECTOR × XMVECTOR :=
  let world := worldTransform
  let inverseWorld := dx.XMMatrixInverse world
  let toLocal := inverseView * inverseWorld
  let newRayDirection := rayDirection
  let _newRayOrigin := rayOrigin
  let newRayOrigin := XMVector3TransformCoord newRayDirection toLocal
  let newRayDirection := XMVector3TransformNormal newRayDirection toLocal
  let newRayDirection := dx.XMVector3Normalize newRayDirection
  (newRayOrigin, newRayDirection)

/-- The triangle loop of `CredibleMesh::IntersectedBy` (lines 110-131) over the
triangle numbers still to visit: it returns at the first hit. -/
def CredibleMesh.IntersectedBy.scan (dx : DirectXMath) (mesh : CredibleMesh)
    (nodeTransformMatrix : XMFLOAT4X4) (o d : XMVECTOR) : List Nat → Option Bool
  | [] => some false
  | n :: rest =>
    match mesh.triangle n with
    | none => none
    | some (v0, v1, v2) =>
      let v0 := XMVector3TransformCoord v0 nodeTransformMatrix
      let v1 := XMVector3TransformCoord v1 nodeTransformMatrix
      let v2 := XMVector3TransformCoord v2 nodeTransformMatrix
      if dx.TriangleTestsIntersects o d v0 v1 v2 then some true
      else CredibleMesh.IntersectedBy.scan dx mesh nodeTransformMatrix o d rest

/-- `CredibleMesh::IntersectedBy`. -/
def CredibleMesh.IntersectedBy (dx : DirectXMath) (mesh : CredibleMesh)
    (rayOrigin rayDirection : XMVECTOR) (worldTransform nodeTransform inverseView : XMFLOAT4X4) :
    Option Bool :=
  let nodeTransformMatrix := nodeTransform.transpose
  let ray := CredibleMesh.IntersectedBy.localRay dx rayOrigin rayDirection worldTransform inverseView
  if dx.BoundingBoxIntersects mesh.MeshBoundingBox ray.1 ray.2 then
    CredibleMesh.IntersectedBy.scan dx mesh nodeTransformMatrix ray.1 ray.2
      (List.range (mesh.Indices.length / 3))
  else some false

/-- One iteration of the loop of `CredibleMesh::GetAllIntersectionsBy`
(lines 147-170) on the list collected so far. -/
def CredibleMesh.GetAllIntersectionsBy.step (dx : DirectXMath) (mesh : CredibleMesh)
    (rayOrigin rayDirection : XMVECTOR) (translation : Option XMFLOAT4X4)
    (intersections : List XMFLOAT3) (n : Nat) : Option (List XMFLOAT3) :=
  match mesh.triangle n with
  | none => none
  | some (v0, v1, v2) =>
    let (v0, v1, v2) :=
      match translation with
      | some t => (XMVector3TransformCoord v0 t, XMVector3TransformCoord v1 t,
                   XMVector3TransformCoord v2 t)
      | none => (v0, v1, v2)
    if dx.TriangleTestsIntersects rayOrigin rayDirection v0 v1 v2 then
      some (intersections ++ [XMStoreFloat3 v0])
    else some intersections

/-- `CredibleMesh::GetAllIntersectionsBy`. -/
def CredibleMesh.GetAllIntersectionsBy (dx : DirectXMath) (mesh : CredibleMesh)
    (rayOrigin rayDirection : XMVECTOR) (translation : Option XMFLOAT4X4) :
    Option (List XMFLOAT3) :=
  (List.range (mesh.Indices.length / 3)).foldlM
    (CredibleMesh.GetAllIntersectionsBy.step dx mesh rayOrigin rayDirection translation) []

/-! ## Transforms (`CredibleModelData.cpp`, lines 260-274 and 453-498) -/

/-- The `while (parentNode)` loop of `CalculateGlobalTransform`: `gt` is the
value of `node->GlobalTransform` so far, the second argument is `parentNode`.
The first argument bounds the number of iterations. -/
def CredibleModelData.CalculateGlobalTransform.loop (Nodes : List CredibleNode) :
    Nat → Option Nat → XMFLOAT4X4 → Option XMFLOAT4X4
  | _, none, gt => some gt
  | 0, some _, _ => none
  | fuel + 1, some p, gt =>
    match Nodes[p]? with
    | none => none
    | some parentNode =>
      let lt := parentNode.LocalTransform
      let result := lt * gt
      CredibleModelData.CalculateGlobalTransform.loop Nodes fuel parentNode.Parent result

/-- `CredibleModelData::CalculateGlobalTransform(node)`, for a node whose
ancestors are in `Nodes`; the result is the node with its new global
transform.  A parent chain without repetition has at most `Nodes.length`
nodes, which is the bound given to the loop. -/
def CredibleModelData.CalculateGlobalTransform (Nodes : List CredibleNode)
    (node : CredibleNode) : Option CredibleNode :=
  (CredibleModelData.CalculateGlobalTransform.loop Nodes Nodes.length node.Parent
      node.LocalTransform).map
    fun g => { node with GlobalTransform := g }

/-- The loop of `calculateGlobalBoneMatrices` (lines 468-479) over the bone
numbers still to visit; `acc` is `_globalBoneTransforms`. -/
def CredibleModelData.calculateGlobalBoneMatrices.loop (self : CredibleModelData)
    (mesh : CredibleMesh) (globalInverseMeshTransform : XMFLOAT4X4) :
    List Nat → List XMFLOAT4X4 → Option (List XMFLOAT4X4)
  | [], acc => some acc
  | a :: rest, acc =>
    match mesh.Bones[a]? with
    | none => none
    | some bone =>
      match self._boneNodesByName bone.Name with
      | none => none
      | some p =>
        match self.Nodes[p]? with
        | none => none
        | some boneNode =>
          let currentGlobalTransform := boneNode.GlobalTransform
          let git := globalInverseMeshTransform
          let cgt := currentGlobalTransform
          let om := bone.Offset
          let result := git * cgt * om
          CredibleModelData.calculateGlobalBoneMatrices.loop self mesh
            globalInverseMeshTransform rest (acc.set a result)

/-- `CredibleModelData::calculateGlobalBoneMatrices(node, mesh)`; the result
is the new value of `_globalBoneTransforms`. -/
def CredibleModelData.calculateGlobalBoneMatrices (dx : DirectXMath)
    (self : CredibleModelData) (node : Nat) (mesh : CredibleMesh) :
    Option (List XMFLOAT4X4) :=
  let identity : XMFLOAT4X4 := 1
  let resized := vectorResize self._globalBoneTransforms mesh.NumBones identity
  match self.Nodes[node]? with
  | none => none
  | some n =>
    let globalInverseMeshTransform := dx.MathHelperInverse n.GlobalTransform
    CredibleModelData.calculateGlobalBoneMatrices.loop self mesh globalInverseMeshTransform
      (List.range mesh.NumBones) resized

/-! ## Ray queries on the whole model (`CredibleModelData.cpp`, lines 50-75 and 176-199) -/

/-- The inner loop of `CredibleModelData::IntersectedBy` (lines 59-73) over
the meshes of `node` still to visit: `some true` is the `return true`, `some
false` the end of the loop. -/
def CredibleModelData.IntersectedBy.meshes (dx : DirectXMath) (rayOrigin rayDirection : XMVECTOR)
    (worldTransform inverseView : XMFLOAT4X4) (node : CredibleNode) :
    List CredibleMesh → Option Bool
  | [] => some false
  | mesh :: rest =>
    match mesh.IntersectedBy dx rayOrigin rayDirection worldTransform node.GlobalTransform
        inverseView with
    | none => none
    | some result =>
      if result then some true
      else
        CredibleModelData.IntersectedBy.meshes dx rayOrigin rayDirection worldTransform
          inverseView node rest

/-- The outer loop of `CredibleModelData::IntersectedBy` (lines 57-74) over
the nodes still to visit. -/
def CredibleModelData.IntersectedBy.nodes (dx : DirectXMath) (rayOrigin rayDirection : XMVECTOR)
    (worldTransform inverseView : XMFLOAT4X4) : List CredibleNode → Option Bool
  | [] => some false
  | node :: rest =>
    match CredibleModelData.IntersectedBy.meshes dx rayOrigin rayDirection worldTransform
        inverseView node node.Meshes with
    | none => none
    | some true => some true
    | some false =>
      CredibleModelData.IntersectedBy.nodes dx rayOrigin rayDirection worldTransform inverseView
        rest

/-- `CredibleModelData::IntersectedBy(rayOrigin, rayDirection, worldTransform,
inverseView)`. -/
def CredibleModelData.IntersectedBy (dx : DirectXMath) (self : CredibleModelData)
    (rayOrigin rayDirection : XMVECTOR) (worldTransform inverseView : XMFLOAT4X4) :
    Option Bool :=
  CredibleModelData.IntersectedBy.nodes dx rayOrigin rayDirection worldTransform inverseView
    self.Nodes

/-- The inner loop of `CredibleModelData::GetAllIntersectionsBy` (lines
185-195) over the meshes still to visit; the last argument is
`intersections`. -/
def CredibleModelData.GetAllIntersectionsBy.meshes (dx : DirectXMath)
    (rayOrigin rayDirection : XMVECTOR) (translation : Option XMFLOAT4X4) :
    List CredibleMesh → List XMFLOAT3 → Option (List XMFLOAT3)
  | [], intersections => some intersections
  | mesh :: rest, intersections =>
    match mesh.GetAllIntersectionsBy dx rayOrigin rayDirection translation with
    | none => none
    | some i =>
      CredibleModelData.GetAllIntersectionsBy.meshes dx rayOrigin rayDirection translation rest
        (intersections ++ i)

/-- The outer loop of `CredibleModelData::GetAllIntersectionsBy` (lines
183-196) over the nodes still to visit. -/
def CredibleModelData.GetAllIntersectionsBy.nodes (dx : DirectXMath)
    (rayOrigin rayDirection : XMVECTOR) (translation : Option XMFLOAT4X4) :
    List CredibleNode → List XMFLOAT3 → Option (List XMFLOAT3)
  | [], intersections => some intersections
  | node :: rest, intersections =>
    match CredibleModelData.GetAllIntersectionsBy.meshes dx rayOrigin rayDirection translation
        node.Meshes intersections with
    | none => none
    | some intersections =>
      CredibleModelData.GetAllIntersectionsBy.nodes dx rayOrigin rayDirection translation rest
        intersections

/-- `CredibleModelData::GetAllIntersectionsBy(rayOrigin, rayDirection,
translation)`; a null `translation` is `none`. -/
def CredibleModelData.GetAllIntersectionsBy (dx : DirectXMath) (self : CredibleModelData)
    (rayOrigin rayDirection : XMVECTOR) (translation : Option XMFLOAT4X4) :
    Option (List XMFLOAT3) :=
  CredibleModelData.GetAllIntersectionsBy.nodes dx rayOrigin rayDirection translation self.Nodes
    []

/-! ## Platform, external collaborators -/

/-- Facts of the build target that the sources rely on without stating. -/
structure Platform where
  /-- The float whose object representation is the given 32-bit pattern. -/
  floatOfBits : Nat → ℚ
  /-- Value of `sizeof(size_t)`. -/
  sizeofSizeT : Nat
  /-- Number of bytes of `VertexPositionNormalTextureBoneWeight` that follow
  its position, normal and texture coordinate. -/
  sizeofBoneWeights : Nat
  /-- The value read from a pointer member that no constructor assigned. -/
  indeterminate : Nat

/-- The value of `(size_t)-1`. -/
def Platform.SIZE_MAX (pf : Platform) : Nat := 2 ^ (8 * pf.sizeofSizeT) - 1

/-- The file system and the texture loaders, as the cache sees them. -/
structure World where
  /-- The content of the file a `std::ifstream` opens at a path, `none` when
  the stream is not open. -/
  files : wstring → Option (List Nat)
  /-- `CreateDDSTextureFromMemory` on the block read (`none` for the null
  block): the handle stored in `ret`, `0` when the call failed. -/
  CreateDDSTextureFromMemory : Option (List Nat) → Nat
  /-- `CreateWICTextureFromFile` on a path: the handle stored in `ret`, `0`
  when the call failed. -/
  CreateWICTextureFromFile : wstring → Nat

/-- The enumerators and the path table of `InstanceSaveTypes.h` that the cache
uses. -/
structure InstanceSaveTypes where
  ITEM_SLOT_BEGIN : Nat
  ITEM_SLOT_END : Nat
  Doodad_Hitodama : Nat
  Doodad_Fire : Nat
  InstanceTypeToModelPath : Nat → wstring

/-! ## PathString (`KsmCreatorLib/PathString.h`) -/

/-- The code units of the two directory separators, backslash and slash. -/
def PathString.isSeparator (c : Nat) : Bool := c == 92 || c == 47

/-- Modelled from the spec: `PathString::GetFileNameOnly` is not in the
sources; the spec says the texture key is the "filename only
(directory-independent)", which is the text after the last separator. -/
def PathString.GetFileNameOnly (path : wstring) : wstring :=
  (path.reverse.takeWhile fun c => !PathString.isSeparator c).reverse

/-- Modelled from the spec: `PathString::GetFullFileName` is not in the
sources; the spec calls its result the name of the default diffuse texture,
such as "skin.dds" for a mesh whose diffuse path ends in that file. -/
def PathString.GetFullFileName (path : wstring) : wstring :=
  (path.reverse.takeWhile fun c => !PathString.isSeparator c).reverse

/-- Modelled from the spec: `PathString::GetExtension` is not in the sources;
the code compares its result with ".dds", so it is the text of the file name
from its last dot on, empty when the name has no dot. -/
def PathString.GetExtension (path : wstring) : wstring :=
  let name := PathString.GetFileNameOnly path
  if 46 ∈ name then 46 :: (name.reverse.takeWhile fun c => c != 46).reverse else []

/-! ## Asset cache state and `GetTexture` (`AssetManager.cpp`, lines 275-354) -/

/-- The class `AssetManager`, with the members the modelled functions use.
`_loadedModels` holds, for a key, the address of the owned model object and
the object.  The last three fields are not members: they count the calls of
`MUKASHIDEBUG_CRITICALERROR`, list the paths handed to a texture loader, and
count the model objects allocated so far (the next object gets the next
address). -/
structure AssetManager where
  _assetRootDirectory : wstring
  _d3dDevice : Nat
  _loadedTextures : wstring → Option Nat
  _loadedModels : Nat → Option (Nat × CredibleModelData)
  _defaultTextures : Nat → Option (Nat → Option wstring)
  _instanceToModelInstance : Nat → Option Nat
  /-- Modelled from the spec: the macro `MUKASHIDEBUG_CRITICALERROR` is not in
  the sources.  Section 7 of the spec says the error is logged and the caller
  receives a null where the call site permits it, and the code has statements
  after every use of the macro (`return nullptr` in `GetTexture` and in
  `LoadKsmModel`), so a call is counted and control goes on. -/
  criticalErrors : Nat
  /-- The paths handed to `CreateDDSTextureFromMemory` or
  `CreateWICTextureFromFile` so far, in order. -/
  textureLoads : List wstring
  /-- The number of `make_unique<CredibleModelData>` calls so far. -/
  modelsConstructed : Nat

/-- `AssetManager::GetTexture`. -/
def AssetManager.GetTexture (w : World) (self : AssetManager) (assetRelativePath : wstring) :
    Nat × AssetManager :=
  if self._d3dDevice = 0 then
    (0, { self with criticalErrors := self.criticalErrors + 1 })
  else
    let key := PathString.GetFileNameOnly assetRelativePath
    match self._loadedTextures key with
    | some ret => (ret, self)
    | none =>
      let filePath := self._assetRootDirectory ++ assetRelativePath
      let ext := PathString.GetExtension filePath
      let loaded : Nat × Nat :=
        if ext = [46, 100, 100, 115] ∨ ext = [46, 68, 68, 83] then
          let memBlock := w.files filePath
          let opened := if memBlock.isSome then 0 else 1
          let ret := w.CreateDDSTextureFromMemory memBlock
          (ret, opened + if ret = 0 then 2 else 0)
        else
          let ret := w.CreateWICTextureFromFile filePath
          (ret, if ret = 0 then 2 else 0)
      (loaded.1,
        { self with
          _loadedTextures := Function.update self._loadedTextures key (some loaded.1)
          criticalErrors := self.criticalErrors + loaded.2
          textureLoads := self.textureLoads ++ [filePath] })

/-! ## DataReader (`DataReader.h`) -/

/-- The value of a little-endian byte sequence. -/
def DataReader.leValue : List Nat → Nat
  | [] => 0
  | b :: bs => b % 256 + 256 * DataReader.leValue bs

/-- The value of `INT_MAX`; the cursor `readerPosition` is an `int`
(`CredibleModelData.cpp`, lines 503, 534, 662). -/
def INT_MAX : Nat := 2147483647

/-- Modelled from the spec: `DataReader::Read<T>` for an unsigned integer type
of `n` bytes is not in the sources; the spec says it decodes a fixed-width
little-endian scalar at the cursor and advances the cursor by its size.  The
read stays within the buffer and the cursor within `int`. -/
def DataReader.ReadUnsigned (n : Nat) (data : List Nat) (readerPosition : Nat) :
    Option (Nat × Nat) :=
  if readerPosition + n ≤ data.length ∧ readerPosition + n ≤ INT_MAX then
    some (DataReader.leValue ((data.drop readerPosition).take n), readerPosition + n)
  else none

/-- `DataReader::Read<UINT>` (and `Read<INT>` converted to `UINT`). -/
def DataReader.ReadUINT (data : List Nat) (readerPosition : Nat) : Option (Nat × Nat) :=
  DataReader.ReadUnsigned 4 data readerPosition

/-- `DataReader::Read<wchar_t>`, one 16-bit code unit. -/
def DataReader.ReadWchar (data : List Nat) (readerPosition : Nat) : Option (Nat × Nat) :=
  DataReader.ReadUnsigned 2 data readerPosition

/-- `DataReader::Read<size_t>`. -/
def DataReader.ReadSizeT (pf : Platform) (data : List Nat) (readerPosition : Nat) :
    Option (Nat × Nat) :=
  DataReader.ReadUnsigned pf.sizeofSizeT data readerPosition

/-- `DataReader::Read<bool>`: one byte, true when nonzero. -/
def DataReader.ReadBool (data : List Nat) (readerPosition : Nat) : Option (Bool × Nat) :=
  (DataReader.ReadUnsigned 1 data readerPosition).map fun r => (decide (r.1 ≠ 0), r.2)

/-- `DataReader::Read<float>`. -/
def DataReader.ReadFloat (pf : Platform) (data : List Nat) (readerPosition : Nat) :
    Option (ℚ × Nat) :=
  (DataReader.ReadUINT data readerPosition).map fun r => (pf.floatOfBits r.1, r.2)

/-- Modelled from the spec: `DataReader::ReadArray<T>(data, count, position)`
is not in the sources; the spec says it reads a homogeneous array of `count`
elements, the count supplied by the caller. -/
def DataReader.ReadArray {α : Type} (read : List Nat → Nat → Option (α × Nat))
    (data : List Nat) : Nat → Nat → Option (List α × Nat)
  | 0, readerPosition => some ([], readerPosition)
  | count + 1, readerPosition =>
    match read data readerPosition with
    | none => none
    | some (a, p) =>
      match DataReader.ReadArray read data count p with
      | none => none
      | some (as, q) => some (a :: as, q)

/-- Modelled from the spec: `DataReader::ReadString<wchar_t, UINT>` is not in
the sources; the spec says it first reads a count, then that many code
units. -/
def DataReader.ReadString (data : List Nat) (readerPosition : Nat) : Option (wstring × Nat) :=
  match DataReader.ReadUINT data readerPosition with
  | none => none
  | some (count, p) => DataReader.ReadArray DataReader.ReadWchar data count p

/-- `DataReader::Read<XMFLOAT3>`. -/
def DataReader.ReadXMFLOAT3 (pf : Platform) (data : List Nat) (readerPosition : Nat) :
    Option (XMFLOAT3 × Nat) :=
  match DataReader.ReadArray (DataReader.ReadFloat pf) data 3 readerPosition with
  | some ([x, y, z], p) => some (⟨x, y, z⟩, p)
  | _ => none

/-- `DataReader::Read<XMFLOAT4>`. -/
def DataReader.ReadXMFLOAT4 (pf : Platform) (data : List Nat) (readerPosition : Nat) :
    Option (XMFLOAT4 × Nat) :=
  match DataReader.ReadArray (DataReader.ReadFloat pf) data 4 readerPosition with
  | some ([x, y, z, w], p) => some (⟨x, y, z, w⟩, p)
  | _ => none

/-- The matrix whose sixteen members `_11, _12, ..., _44` are the given floats,
in that order. -/
def XMFLOAT4X4.ofList (l : List ℚ) : XMFLOAT4X4 :=
  Matrix.of fun i j => l.getD (4 * i.val + j.val) 0

/-- `DataReader::Read<XMFLOAT4X4>`. -/
def DataReader.ReadXMFLOAT4X4 (pf : Platform) (data : List Nat) (readerPosition : Nat) :
    Option (XMFLOAT4X4 × Nat) :=
  (DataReader.ReadArray (DataReader.ReadFloat pf) data 16 readerPosition).map
    fun r => (XMFLOAT4X4.ofList r.1, r.2)

/-- The struct `XMFLOAT2`. -/
structure XMFLOAT2 where
  x : ℚ
  y : ℚ
  deriving DecidableEq

/-- The struct `VertexPositionNormalTexture` of DirectXTK. -/
structure VertexPositionNormalTexture where
  position : XMFLOAT3
  normal : XMFLOAT3
  textureCoordinate : XMFLOAT2
  deriving DecidableEq

/-- Value of `sizeof(VertexPositionNormalTexture)`. -/
def sizeofVertexPositionNormalTexture : Nat := 32

/-- `DataReader::Read<VertexPositionNormalTexture>`. -/
def DataReader.ReadVertex (pf : Platform) (data : List Nat) (readerPosition : Nat) :
    Option (VertexPositionNormalTexture × Nat) :=
  match DataReader.ReadArray (DataReader.ReadFloat pf) data 8 readerPosition with
  | some ([px, py, pz, nx, ny, nz, u, v], p) => some (⟨⟨px, py, pz⟩, ⟨nx, ny, nz⟩, ⟨u, v⟩⟩, p)
  | _ => none

/-- One element of `ReadArray<VertexPositionNormalTextureBoneWeight>`: the
three leading members, then the bone weight and index bytes, which the mesh
constructor copies to the vertex buffer only. -/
def DataReader.ReadVertexBoneWeight (pf : Platform) (data : List Nat) (readerPosition : Nat) :
    Option (VertexPositionNormalTexture × Nat) :=
  match DataReader.ReadVertex pf data readerPosition with
  | none => none
  | some (v, p) =>
    if p + pf.sizeofBoneWeights ≤ data.length ∧ p + pf.sizeofBoneWeights ≤ INT_MAX then
      some (v, p + pf.sizeofBoneWeights)
    else none

/-! ## Deserialisation (`CredibleModelData.cpp`, lines 500-806) -/

/-- One iteration of the bone loop of the mesh constructor (lines 792-800). -/
def DataReader.ReadBone (pf : Platform) (data : List Nat) (readerPosition : Nat) :
    Option (CredibleBone × Nat) :=
  match DataReader.ReadString data readerPosition with
  | none => none
  | some (Name, p) =>
  match DataReader.ReadXMFLOAT4X4 pf data p with
  | none => none
  | some (Offset, p) => some ({ Name := Name, Offset := Offset }, p)

/-- The constructor `CredibleMesh(data, readerPosition, device)`: the mesh,
the new reader position and the asset cache after the texture look-ups.  The
creation of the two GPU buffers is left out, the subscripts `&indices[0]`
(lines 704, 721) and `&vertices[0]` (lines 745, 764) apart, which are out of
range when the vector is empty. -/
def CredibleMesh.ofKsm (pf : Platform) (w : World) (data : List Nat) (readerPosition : Nat)
    (assets : AssetManager) : Option (CredibleMesh × Nat × AssetManager) :=
  match DataReader.ReadUINT data readerPosition with
  | none => none
  | some (NumBones, p) =>
  match DataReader.ReadUINT data p with
  | none => none
  | some (FaceCount, p) =>
  match DataReader.ReadUINT data p with
  | none => none
  | some (VertexCount, p) =>
  match DataReader.ReadUINT data p with
  | none => none
  | some (IndexCount, p) =>
  match DataReader.ReadXMFLOAT4 pf data p with
  | none => none
  | some (Diffuse, p) =>
  match DataReader.ReadXMFLOAT4 pf data p with
  | none => none
  | some (Ambient, p) =>
  match DataReader.ReadXMFLOAT4 pf data p with
  | none => none
  | some (Reflect, p) =>
  match DataReader.ReadXMFLOAT4 pf data p with
  | none => none
  | some (Specular, p) =>
  match DataReader.ReadFloat pf data p with
  | none => none
  | some (MaterialOpacity, p) =>
  match DataReader.ReadFloat pf data p with
  | none => none
  | some (MaterialShininess, p) =>
  match DataReader.ReadFloat pf data p with
  | none => none
  | some (SpecularStrength, p) =>
  match DataReader.ReadBool data p with
  | none => none
  | some (indicesAre16Bit, p) =>
  match DataReader.ReadArray DataReader.ReadUINT data IndexCount p with
  | none => none
  | some (iPtr, p) =>
  if IndexCount = 0 then none else
  let IndexBufferFormat :=
    if indicesAre16Bit then DXGI_FORMAT.DXGI_FORMAT_R16_UINT
    else DXGI_FORMAT.DXGI_FORMAT_R32_UINT
  let Indices := iPtr
  match DataReader.ReadBool data p with
  | none => none
  | some (containsAnimations, p) =>
  match (if containsAnimations then
      DataReader.ReadArray (DataReader.ReadVertexBoneWeight pf) data VertexCount p
    else DataReader.ReadArray (DataReader.ReadVertex pf) data VertexCount p) with
  | none => none
  | some (vertices, p) =>
  if VertexCount = 0 then none else
  let PositionalVertices := vertices.map fun v => v.position
  match DataReader.ReadString data p with
  | none => none
  | some (diffusePath, p) =>
  let diffuse : Nat × wstring × AssetManager :=
    if diffusePath ≠ [] then
      ((assets.GetTexture w diffusePath).1, PathString.GetFullFileName diffusePath,
        (assets.GetTexture w diffusePath).2)
    else (pf.indeterminate, [], assets)
  match DataReader.ReadString data p with
  | none => none
  | some (normalPath, p) =>
  let normal : Nat × AssetManager :=
    if normalPath ≠ [] then diffuse.2.2.GetTexture w normalPath
    else (pf.indeterminate, diffuse.2.2)
  match DataReader.ReadArray (DataReader.ReadBone pf) data NumBones p with
  | none => none
  | some (Bones, p) =>
  match DataReader.ReadXMFLOAT3 pf data p with
  | none => none
  | some (Center, p) =>
  match DataReader.ReadXMFLOAT3 pf data p with
  | none => none
  | some (Extents, p) =>
  some
    ({ VertexCount := VertexCount, FaceCount := FaceCount, IndexCount := IndexCount,
       DiffuseTexture := diffuse.1, DefaultDiffuseTextureName := diffuse.2.1,
       NormalTexture := normal.1,
       MeshMaterial :=
         { Ambient := Ambient, Diffuse := Diffuse, Specular := Specular, Reflect := Reflect },
       MaterialOpacity := MaterialOpacity, MaterialShininess := MaterialShininess,
       SpecularStrength := SpecularStrength, NumBones := NumBones, Bones := Bones,
       IndexBufferFormat := IndexBufferFormat, PositionalVertices := PositionalVertices,
       Indices := Indices, MeshBoundingBox := { Center := Center, Extents := Extents } },
     p, normal.2)

/-- The mesh loop of the node constructor (lines 654-657). -/
def CredibleNode.ofKsm.meshes (pf : Platform) (w : World) (data : List Nat) :
    Nat → Nat → AssetManager → Option (List CredibleMesh × Nat × AssetManager)
  | 0, p, assets => some ([], p, assets)
  | m + 1, p, assets =>
    match CredibleMesh.ofKsm pf w data p assets with
    | none => none
    | some (mesh, p, assets) =>
      match CredibleNode.ofKsm.meshes pf w data m p assets with
      | none => none
      | some (rest, p, assets) => some (mesh :: rest, p, assets)

/-- The default constructor `CredibleNode()`. -/
def CredibleNode.default (pf : Platform) : CredibleNode :=
  { Name := [], Enabled := true, Children := [], Parent := none, LocalTransform := 1,
    GlobalTransform := 1, Meshes := [], ChannelIndex := pf.SIZE_MAX }

/-- The constructor `CredibleNode(data, parent, readerPosition, device)`, the
nodes constructed before it being `Nodes`. -/
def CredibleNode.ofKsm (pf : Platform) (w : World) (data : List Nat) (parent : Option Nat)
    (readerPosition : Nat) (Nodes : List CredibleNode) (assets : AssetManager) :
    Option (CredibleNode × Nat × AssetManager) :=
  match DataReader.ReadString data readerPosition with
  | none => none
  | some (Name, p) =>
  match DataReader.ReadXMFLOAT4X4 pf data p with
  | none => none
  | some (LocalTransform, p) =>
  match CredibleModelData.CalculateGlobalTransform Nodes
      { CredibleNode.default pf with
        Name := Name, LocalTransform := LocalTransform, Parent := parent } with
  | none => none
  | some this =>
  match DataReader.ReadSizeT pf data p with
  | none => none
  | some (ChannelIndex, p) =>
  match DataReader.ReadUINT data p with
  | none => none
  | some (meshCount, p) =>
  match CredibleNode.ofKsm.meshes pf w data meshCount p assets with
  | none => none
  | some (Meshes, p, assets) =>
  some ({ this with ChannelIndex := ChannelIndex, Meshes := Meshes }, p, assets)

/-- The statement `node->Children.push_back(child)` on the node at a
pointer. -/
def pushChild (Nodes : List CredibleNode) (node child : Nat) : List CredibleNode :=
  match Nodes[node]? with
  | none => Nodes
  | some n => Nodes.set node { n with Children := n.Children ++ [child] }

/-- The child loop of `readNodeTree` (lines 514-518); `readChild` is the
recursive call. -/
def CredibleModelData.readNodeTree.children
    (readChild : CredibleModelData → Option Nat → Nat → AssetManager →
      Option (Nat × CredibleModelData × Nat × AssetManager))
    (ksmNode : Nat) :
    Nat → CredibleModelData → Nat → AssetManager →
      Option (CredibleModelData × Nat × AssetManager)
  | 0, self, p, assets => some (self, p, assets)
  | c + 1, self, p, assets =>
    match readChild self (some ksmNode) p assets with
    | none => none
    | some (child, self, p, assets) =>
      CredibleModelData.readNodeTree.children readChild ksmNode c
        { self with Nodes := pushChild self.Nodes ksmNode child } p assets

/-- `CredibleModelData::readNodeTree`: the pointer to the node read, the
model, the reader position and the asset cache.  The first argument bounds
the depth of the recursion. -/
def CredibleModelData.readNodeTree (pf : Platform) (w : World) (data : List Nat) :
    Nat → CredibleModelData → Option Nat → Nat → AssetManager →
      Option (Nat × CredibleModelData × Nat × AssetManager)
  | 0, _, _, _, _ => none
  | fuel + 1, self, parent, readerPosition, assets =>
    match CredibleNode.ofKsm pf w data parent readerPosition self.Nodes assets with
    | none => none
    | some (node, p, assets) =>
      let ksmNode := self.Nodes.length
      let self := { self with Nodes := self.Nodes ++ [node] }
      match DataReader.ReadUINT data p with
      | none => none
      | some (childCount, p) =>
        match CredibleModelData.readNodeTree.children
            (CredibleModelData.readNodeTree pf w data fuel) ksmNode childCount self p assets with
        | none => none
        | some (self, p, assets) =>
          some (ksmNode,
            { self with
              _allMeshes := self._allMeshes ++
                (List.range node.Meshes.length).map fun m => (ksmNode, m) },
            p, assets)

/-- The mesh a mesh pointer points to. -/
def CredibleModelData.meshAt (self : CredibleModelData) (ptr : Nat × Nat) :
    Option CredibleMesh :=
  match self.Nodes[ptr.1]? with
  | none => none
  | some node => node.Meshes[ptr.2]?

/-- The inner loop of the bone pass of `initializeFromKsm` (lines 566-577)
over the bones still to visit: `_boneNodesByName` and the number of critical
errors reported.  `std::find_if` gives the position of the first node that has
the name of the bone, `Nodes.end()` when there is none;
`MUKASHIDEBUG_CRITICALERROR_ONFALSE` reports and goes on; the pointer filed
is the one held at `found`, which at `Nodes.end()` is a pointer to no node of
the model, the index `Nodes.length`. -/
def CredibleModelData.initializeFromKsm.bones (Nodes : List CredibleNode) :
    List CredibleBone → (wstring → Option Nat) → Nat → (wstring → Option Nat) × Nat
  | [], table, criticalErrors => (table, criticalErrors)
  | bone :: rest, table, criticalErrors =>
    let found := Nodes.findIdx fun node => decide (node.Name = bone.Name)
    let criticalErrors := if found ≠ Nodes.length then criticalErrors else criticalErrors + 1
    CredibleModelData.initializeFromKsm.bones Nodes rest
      (Function.update table bone.Name (some found)) criticalErrors

/-- The outer loop of the bone pass of `initializeFromKsm` (lines 557-578)
over the values of `i` still to visit. -/
def CredibleModelData.initializeFromKsm.meshes (self : CredibleModelData) :
    List Nat → (wstring → Option Nat) → Nat → Option ((wstring → Option Nat) × Nat)
  | [], table, criticalErrors => some (table, criticalErrors)
  | i :: rest, table, criticalErrors =>
    match self._allMeshes[i]? with
    | none => none
    | some ptr =>
      match self.meshAt ptr with
      | none => none
      | some mesh =>
        if mesh.NumBones ≤ mesh.Bones.length then
          CredibleModelData.initializeFromKsm.meshes self rest
            (CredibleModelData.initializeFromKsm.bones self.Nodes
              (mesh.Bones.take mesh.NumBones) table criticalErrors).1
            (CredibleModelData.initializeFromKsm.bones self.Nodes
              (mesh.Bones.take mesh.NumBones) table criticalErrors).2
        else none

/-- One keyframe (lines 601-607). -/
def DataReader.ReadKeyframe (pf : Platform) (data : List Nat) (readerPosition : Nat) :
    Option (Keyframe × Nat) :=
  match DataReader.ReadXMFLOAT3 pf data readerPosition with
  | none => none
  | some (Translation, p) =>
  match DataReader.ReadXMFLOAT3 pf data p with
  | none => none
  | some (Scale, p) =>
  match DataReader.ReadXMFLOAT4 pf data p with
  | none => none
  | some (RotationQuat, p) =>
  match DataReader.ReadFloat pf data p with
  | none => none
  | some (TimePos, p) =>
  some ({ Translation := Translation, Scale := Scale, RotationQuat := RotationQuat,
          TimePos := TimePos }, p)

/-- One bone animation track (lines 595-610). -/
def DataReader.ReadBoneAnimation (pf : Platform) (data : List Nat) (readerPosition : Nat) :
    Option (BoneAnimation × Nat) :=
  match DataReader.ReadUINT data readerPosition with
  | none => none
  | some (keyFrameCount, p) =>
  match DataReader.ReadArray (DataReader.ReadKeyframe pf) data keyFrameCount p with
  | none => none
  | some (Keyframes, p) => some ({ Keyframes := Keyframes }, p)

/-- One animation clip (lines 584-615). -/
def DataReader.ReadAnimationClip (pf : Platform) (data : List Nat) (readerPosition : Nat) :
    Option (AnimationClip × Nat) :=
  match DataReader.ReadString data readerPosition with
  | none => none
  | some (Name, p) =>
  match DataReader.ReadFloat pf data p with
  | none => none
  | some (Duration, p) =>
  match DataReader.ReadFloat pf data p with
  | none => none
  | some (TicksPerSecond, p) =>
  match DataReader.ReadUINT data p with
  | none => none
  | some (boneAnimationCount, p) =>
  match DataReader.ReadArray (DataReader.ReadBoneAnimation pf) data boneAnimationCount p with
  | none => none
  | some (BoneAnimations, p) =>
  match DataReader.ReadUINT data p with
  | none => none
  | some (TotalFrames, p) =>
  some ({ Name := Name, Duration := Duration, TicksPerSecond := TicksPerSecond,
          BoneAnimations := BoneAnimations, TotalFrames := TotalFrames }, p)

/-- `CredibleModelData::initializeFromKsm(data)` on the object `self`: the
object and the asset cache afterwards.  A node tree read within the buffer is
no deeper than the buffer is long, which bounds the recursion. -/
def CredibleModelData.initializeFromKsm (pf : Platform) (w : World) (data : List Nat)
    (self : CredibleModelData) (assets : AssetManager) :
    Option (CredibleModelData × AssetManager) :=
  let readerPos := 0
  match DataReader.ReadUINT data readerPos with
  | none => none
  | some (_numMeshes, readerPos) =>
  match DataReader.ReadUINT data readerPos with
  | none => none
  | some (_numMaterials, readerPos) =>
  match DataReader.ReadUINT data readerPos with
  | none => none
  | some (_numTextures, readerPos) =>
  match DataReader.ReadUINT data readerPos with
  | none => none
  | some (_numAnimations, readerPos) =>
  let _hasAnimations := decide (_numAnimations > 0)
  match CredibleModelData.readNodeTree pf w data (data.length + 1)
      { self with
        _numMeshes := _numMeshes, _numMaterials := _numMaterials,
        _numTextures := _numTextures, _numAnimations := _numAnimations,
        _hasAnimations := _hasAnimations }
      none readerPos assets with
  | none => none
  | some (RootNode, self, readerPos, assets) =>
  let _vertexStride :=
    if _hasAnimations then sizeofVertexPositionNormalTexture + pf.sizeofBoneWeights
    else sizeofVertexPositionNormalTexture
  match CredibleModelData.initializeFromKsm.meshes self (List.range _numMeshes)
      self._boneNodesByName assets.criticalErrors with
  | none => none
  | some (table, criticalErrors) =>
  match DataReader.ReadArray (DataReader.ReadAnimationClip pf) data _numAnimations
      readerPos with
  | none => none
  | some (clips, readerPos) =>
  match DataReader.ReadXMFLOAT3 pf data readerPos with
  | none => none
  | some (Center, readerPos) =>
  match DataReader.ReadXMFLOAT3 pf data readerPos with
  | none => none
  | some (Extents, _) =>
  some
    ({ self with
       RootNode := some RootNode, _vertexStride := _vertexStride, _boneNodesByName := table,
       ModelAnimationData := self.ModelAnimationData ++ clips,
       _boundingBox := { Center := Center, Extents := Extents } },
     { assets with criticalErrors := criticalErrors })

/-- The members of a `CredibleModelData` when the body of a constructor
starts: the containers are empty, the scalar members hold whatever `junk`
holds. -/
def CredibleModelData.raw (junk : CredibleModelData) : CredibleModelData :=
  { junk with
    ModelAnimationData := [], Nodes := [], _globalBoneTransforms := [], _allMeshes := [],
    _boneNodesByName := fun _ => none, _textureMapping := fun _ => none }

/-- The constructor `CredibleModelData(data, device, readSubsetAsInstanceType)`. -/
def CredibleModelData.ofKsm (pf : Platform) (w : World) (junk : CredibleModelData)
    (data : List Nat) (assets : AssetManager) : Option (CredibleModelData × AssetManager) :=
  CredibleModelData.initializeFromKsm pf w data (CredibleModelData.raw junk) assets

/-! ## Procedural geometry (`CredibleModelData.cpp`, lines 237-258 and 808-894) -/

/-- The struct `GeometryGenerator::MeshData`. -/
structure GeometryGenerator.MeshData where
  Vertices : List VertexPositionNormalTexture
  Indices : List Nat

/-- The constant `USHORT_MAX`. -/
def USHORT_MAX : Nat := 65535

/-- The constructor `CredibleMesh(meshData, diffuseTexture, normalTexture,
device)`.  The counts are `UINT`; the members it does not assign keep the
values of their own default constructors.  The creation of the two GPU
buffers is left out. -/
def CredibleMesh.ofMeshData (meshData : GeometryGenerator.MeshData)
    (diffuseTexture normalTexture : Nat) : CredibleMesh :=
  let IndexCount := meshData.Indices.length % 2 ^ 32
  let indicesAre16Bit := decide (IndexCount < USHORT_MAX)
  { NumBones := 0
    FaceCount := (meshData.Indices.length / 3) % 2 ^ 32
    VertexCount := meshData.Vertices.length % 2 ^ 32
    IndexCount := IndexCount
    MeshMaterial :=
      { Diffuse := ⟨4 / 5, 4 / 5, 4 / 5, 4 / 5⟩, Ambient := ⟨4 / 5, 4 / 5, 4 / 5, 4 / 5⟩,
        Reflect := ⟨0, 0, 0, 0⟩, Specular := ⟨1 / 5, 1 / 5, 1 / 5, 16⟩ }
    MaterialOpacity := 1
    MaterialShininess := 1
    SpecularStrength := 16
    IndexBufferFormat :=
      if indicesAre16Bit then DXGI_FORMAT.DXGI_FORMAT_R16_UINT
      else DXGI_FORMAT.DXGI_FORMAT_R32_UINT
    Indices := meshData.Indices.take IndexCount
    PositionalVertices := meshData.Vertices.map fun vertex => vertex.position
    DiffuseTexture := diffuseTexture
    NormalTexture := normalTexture
    DefaultDiffuseTextureName := []
    Bones := []
    MeshBoundingBox := { Center := ⟨0, 0, 0⟩, Extents := ⟨1, 1, 1⟩ } }

/-- The constructor `CredibleNode(name)`. -/
def CredibleNode.ofName (pf : Platform) (name : wstring) : CredibleNode :=
  { CredibleNode.default pf with Name := name }

/-- `CredibleModelData::initializeFromMeshData`. -/
def CredibleModelData.initializeFromMeshData (pf : Platform) (self : CredibleModelData)
    (meshData : GeometryGenerator.MeshData) (diffuseTexture normalTexture : Nat) :
    CredibleModelData :=
  let RootNode := self.Nodes.length
  let child := self.Nodes.length + 1
  let rootNode : CredibleNode :=
    { CredibleNode.ofName pf [82, 111, 111, 116, 78, 111, 100, 101] with Children := [child] }
  let childNode : CredibleNode :=
    { CredibleNode.ofName pf [77, 101, 115, 104, 68, 97, 116, 97] with
      Meshes := [CredibleMesh.ofMeshData meshData diffuseTexture normalTexture]
      Parent := some RootNode }
  { self with RootNode := some RootNode, Nodes := self.Nodes ++ [rootNode, childNode] }

/-- The constructor `CredibleModelData(device, meshData, diffuseTexture)`. -/
def CredibleModelData.ofMeshData (pf : Platform) (junk : CredibleModelData)
    (meshData : GeometryGenerator.MeshData) (diffuseTexture : Nat) : CredibleModelData :=
  CredibleModelData.initializeFromMeshData pf (CredibleModelData.raw junk) meshData
    diffuseTexture 0

/-! ## `UpdateTransforms` and `SetTextureMapping` (lines 482-498, 624-635) -/

/-- The child loop of `UpdateTransforms` (lines 494-497); `update` is the
recursive call. -/
def CredibleModelData.UpdateTransforms.children
    (update : List CredibleNode → Nat → Option (List CredibleNode)) :
    List Nat → List CredibleNode → Option (List CredibleNode)
  | [], Nodes => some Nodes
  | child :: rest, Nodes =>
    match update Nodes child with
    | none => none
    | some Nodes => CredibleModelData.UpdateTransforms.children update rest Nodes

/-- `CredibleModelData::UpdateTransforms(node, transforms)` on the node list;
the first argument bounds the depth of the recursion. -/
def CredibleModelData.UpdateTransforms.go (pf : Platform) (transforms : List XMFLOAT4X4) :
    Nat → List CredibleNode → Nat → Option (List CredibleNode)
  | 0, _, _ => none
  | fuel + 1, Nodes, node =>
    match Nodes[node]? with
    | none => none
    | some n =>
      match (if n.ChannelIndex ≠ pf.SIZE_MAX then
          (transforms[n.ChannelIndex]?).map fun t => { n with LocalTransform := t }
        else some n) with
      | none => none
      | some n =>
        match CredibleModelData.CalculateGlobalTransform (Nodes.set node n) n with
        | none => none
        | some n =>
          CredibleModelData.UpdateTransforms.children
            (CredibleModelData.UpdateTransforms.go pf transforms fuel) n.Children
            (Nodes.set node n)

/-- `CredibleModelData::UpdateTransforms(node, transforms)`.  A tree of owned
nodes is no deeper than `Nodes` is long, which bounds the recursion. -/
def CredibleModelData.UpdateTransforms (pf : Platform) (self : CredibleModelData) (node : Nat)
    (transforms : List XMFLOAT4X4) : Option CredibleModelData :=
  (CredibleModelData.UpdateTransforms.go pf transforms (self.Nodes.length + 1) self.Nodes
      node).map
    fun Nodes => { self with Nodes := Nodes }

/-- One iteration of the loop of `SetTextureMapping` on `_textureMapping`. -/
def CredibleModelData.SetTextureMapping.step (self : CredibleModelData) (itemSlot : Nat)
    (textureName : wstring) (mapping : Nat → Option Nat) (ptr : Nat × Nat) :
    Option (Nat → Option Nat) :=
  match self.meshAt ptr with
  | none => none
  | some mesh =>
    if mesh.DefaultDiffuseTextureName = textureName then
      some (Function.update mapping mesh.DiffuseTexture (some itemSlot))
    else some mapping

/-- `CredibleModelData::SetTextureMapping(itemSlot, textureName)`. -/
def CredibleModelData.SetTextureMapping (self : CredibleModelData) (itemSlot : Nat)
    (textureName : wstring) : Option CredibleModelData :=
  (self._allMeshes.foldlM (CredibleModelData.SetTextureMapping.step self itemSlot textureName)
      self._textureMapping).map
    fun mapping => { self with _textureMapping := mapping }

/-! ## `LoadKsmModel` (`AssetManager.h`, lines 76-83; `AssetManager.cpp`, lines 357-442) -/

/-- `AssetManager::GetModelInstanceType`. -/
def AssetManager.GetModelInstanceType (self : AssetManager) (instanceType : Nat) : Nat :=
  match self._instanceToModelInstance instanceType with
  | some mapped => mapped
  | none => instanceType

/-- The expression `_defaultTextures[modelInstanceType][slot]`: both
subscripts insert a default entry when the key is absent. -/
def AssetManager.defaultTexture (self : AssetManager) (modelInstanceType slot : Nat) :
    wstring × AssetManager :=
  let inner : Nat → Option wstring :=
    match self._defaultTextures modelInstanceType with
    | some t => t
    | none => fun _ => none
  let name : wstring :=
    match inner slot with
    | some n => n
    | none => []
  (name,
    { self with
      _defaultTextures :=
        Function.update self._defaultTextures modelInstanceType
          (some (Function.update inner slot (some name))) })

/-- The default texture loop of `LoadKsmModel` (lines 422-426) over the slots
still to visit. -/
def AssetManager.LoadKsmModel.slots (modelInstanceType : Nat) :
    List Nat → CredibleModelData → AssetManager → Option (CredibleModelData × AssetManager)
  | [], model, self => some (model, self)
  | slot :: rest, model, self =>
    match model.SetTextureMapping slot (self.defaultTexture modelInstanceType slot).1 with
    | none => none
    | some model =>
      AssetManager.LoadKsmModel.slots modelInstanceType rest model
        (self.defaultTexture modelInstanceType slot).2

/-- The values `ITEM_SLOT_BEGIN + 1, ..., ITEM_SLOT_END - 1` of the loop
variable of lines 422-426. -/
def InstanceSaveTypes.itemSlots (ist : InstanceSaveTypes) : List Nat :=
  List.range' (ist.ITEM_SLOT_BEGIN + 1) (ist.ITEM_SLOT_END - (ist.ITEM_SLOT_BEGIN + 1))

/-- The material assignment of lines 431-438 on every mesh of every node. -/
def CredibleModelData.brighten (model : CredibleModelData) : CredibleModelData :=
  { model with
    Nodes := model.Nodes.map fun node =>
      { node with
        Meshes := node.Meshes.map fun mesh =>
          { mesh with
            MeshMaterial :=
              { mesh.MeshMaterial with
                Ambient := ⟨3 / 2, 3 / 2, 3 / 2, 1⟩, Diffuse := ⟨3 / 2, 3 / 2, 3 / 2, 1⟩ } } } }

/-- Lines 418-441 of `LoadKsmModel`: the model is fetched from the table, the
default textures are applied, the two doodad types get their brighter
material, and the pointer is returned. -/
def AssetManager.LoadKsmModel.finish (ist : InstanceSaveTypes) (self : AssetManager)
    (instanceType modelInstanceType : Nat) : Option (Nat × AssetManager) :=
  match self._loadedModels modelInstanceType with
  | none => none
  | some (model, object) =>
    match AssetManager.LoadKsmModel.slots modelInstanceType ist.itemSlots object self with
    | none => none
    | some (object, self) =>
      let object :=
        if instanceType = ist.Doodad_Hitodama ∨ instanceType = ist.Doodad_Fire then
          object.brighten
        else object
      some (model,
        { self with
          _loadedModels :=
            Function.update self._loadedModels modelInstanceType (some (model, object)) })

/-- `AssetManager::LoadKsmModel(instanceType)`: the pointer returned (`0` for
`nullptr`) and the cache afterwards. -/
def AssetManager.LoadKsmModel (pf : Platform) (w : World) (ist : InstanceSaveTypes)
    (junk : CredibleModelData) (self : AssetManager) (instanceType : Nat) :
    Option (Nat × AssetManager) :=
  let modelInstanceType := self.GetModelInstanceType instanceType
  let modelInstanceType :=
    match self._instanceToModelInstance instanceType with
    | some mapped => mapped
    | none => modelInstanceType
  let model : Nat :=
    match self._loadedModels modelInstanceType with
    | some entry => entry.1
    | none => 0
  if model = 0 then
    let filePath := self._assetRootDirectory ++ ist.InstanceTypeToModelPath modelInstanceType
    match w.files filePath with
    | none => some (0, { self with criticalErrors := self.criticalErrors + 1 })
    | some memBlock =>
      match CredibleModelData.ofKsm pf w junk memBlock self with
      | none => none
      | some (object, self) =>
        AssetManager.LoadKsmModel.finish ist
          { self with
            _loadedModels :=
              Function.update self._loadedModels modelInstanceType
                (some (self.modelsConstructed + 1, object))
            modelsConstructed := self.modelsConstructed + 1 }
          instanceType modelInstanceType
  else AssetManager.LoadKsmModel.finish ist self instanceType modelInstanceType

/-! ## Drawing (`CredibleModelData.cpp`, lines 359-451) -/

/-- The struct `ObjectConstBuffer`, with the members `DrawNode` assigns. -/
structure ObjectConstBuffer where
  World : XMFLOAT4X4
  WorldInvTranspose : XMFLOAT4X4
  Mat : Material
  deriving DecidableEq

/-- The struct `AnimatedConstBuffer`: its fixed-size array of bone
transforms. -/
structure AnimatedConstBuffer where
  gBoneTransforms : List XMFLOAT4X4
  deriving DecidableEq

/-- A call `DrawNode` makes on the device context, or an upload of one of the
two constant buffers with the data uploaded.  The GPU buffers `VB` and `IB` of
a mesh are named by the pointer to the mesh. -/
inductive DeviceCall where
  | aCbApplyChanges (Data : AnimatedConstBuffer)
  | cbApplyChanges (Data : ObjectConstBuffer)
  | PSSetShaderResources (view : Nat)
  | IASetVertexBuffers (VB : Nat × Nat) (stride : Nat)
  | IASetIndexBuffer (IB : Nat × Nat) (format : DXGI_FORMAT)
  | DrawIndexed (IndexCount : Nat)
  deriving DecidableEq

/-- What `DrawNode` reads and writes besides the arguments it takes by value:
the model, the data of the constant buffers `cb` and `aCb`, the map
`textureOverrides` of the caller, and the calls the device context `dc` has
received so far. -/
structure DrawState where
  model : CredibleModelData
  cb : ObjectConstBuffer
  aCb : AnimatedConstBuffer
  textureOverrides : Nat → Option Nat
  dc : List DeviceCall
  /-- Modelled from the spec: the calls of `MUKASHIDEBUG_CRITICALERROR` made
  so far, counted as in `AssetManager`. -/
  criticalErrors : Nat

/-- The upload loop of lines 396-408 from the value `a` of its counter;
`_globalBoneTransforms` and `gBoneTransforms` are threaded through.  The
counter is an `unsigned int`; it is incremented in the subscript of line 406
and again by the loop header.  The first argument bounds the number of
iterations. -/
def CredibleModelData.DrawNode.upload (NumBones : Nat) :
    Nat → Nat → List XMFLOAT4X4 → List XMFLOAT4X4 →
      Option (List XMFLOAT4X4 × List XMFLOAT4X4)
  | 0, _, _, _ => none
  | fuel + 1, a, _globalBoneTransforms, gBoneTransforms =>
    if a < NumBones then
      match _globalBoneTransforms[a]? with
      | none => none
      | some mat =>
        let mat := mat.transpose
        let _globalBoneTransforms := _globalBoneTransforms.set a mat
        let boneMatrix := mat
        let boneTransformMatrix := boneMatrix
        if a < gBoneTransforms.length then
          let gBoneTransforms := gBoneTransforms.set a boneTransformMatrix.transpose
          let a := (a + 1) % 2 ^ 32
          CredibleModelData.DrawNode.upload NumBones fuel ((a + 1) % 2 ^ 32)
            _globalBoneTransforms gBoneTransforms
        else none
    else some (_globalBoneTransforms, gBoneTransforms)

/-- Lines 390-411 of `DrawNode`: the bone matrices of a mesh with bones are
computed and uploaded. -/
def CredibleModelData.DrawNode.bones (dx : DirectXMath) (node : Nat) (mesh : CredibleMesh)
    (st : DrawState) : Option DrawState :=
  if mesh.HasBones then
    match st.model.calculateGlobalBoneMatrices dx node mesh with
    | none => none
    | some _globalBoneTransforms =>
      let criticalErrors :=
        if _globalBoneTransforms.length = mesh.NumBones then st.criticalErrors
        else st.criticalErrors + 1
      match CredibleModelData.DrawNode.upload mesh.NumBones (mesh.NumBones + 1) 0
          _globalBoneTransforms st.aCb.gBoneTransforms with
      | none => none
      | some (_globalBoneTransforms, gBoneTransforms) =>
        some
          { st with
            model := { st.model with _globalBoneTransforms := _globalBoneTransforms }
            aCb := { gBoneTransforms := gBoneTransforms }
            dc := st.dc ++ [DeviceCall.aCbApplyChanges { gBoneTransforms := gBoneTransforms }]
            criticalErrors := criticalErrors }
  else some st

/-- Lines 423-433 of `DrawNode`: the texture of a mesh is bound.  Both
subscripts insert a value-initialised entry when the key is absent: the
`ItemSlot` of value 0 in `_textureMapping`, a null view in
`textureOverrides`. -/
def CredibleModelData.DrawNode.texture (mesh : CredibleMesh) (st : DrawState) : DrawState :=
  if mesh.DiffuseTexture ≠ 0 then
    let slot : Nat := (st.model._textureMapping mesh.DiffuseTexture).getD 0
    let _textureMapping :=
      Function.update st.model._textureMapping mesh.DiffuseTexture (some slot)
    let override : Nat := (st.textureOverrides slot).getD 0
    let textureOverrides := Function.update st.textureOverrides slot (some override)
    let view := if override ≠ 0 then override else mesh.DiffuseTexture
    { st with
      model := { st.model with _textureMapping := _textureMapping }
      textureOverrides := textureOverrides
      dc := st.dc ++ [DeviceCall.PSSetShaderResources view] }
  else st

/-- The body of the mesh loop of `DrawNode` (lines 388-441) for the mesh
`node->Meshes[i]`. -/
def CredibleModelData.DrawNode.mesh (dx : DirectXMath) (node i : Nat) (mesh : CredibleMesh)
    (st : DrawState) : Option DrawState :=
  match CredibleModelData.DrawNode.bones dx node mesh st with
  | none => none
  | some st =>
    let cb := { st.cb with Mat := mesh.MeshMaterial }
    let st := { st with cb := cb, dc := st.dc ++ [DeviceCall.cbApplyChanges cb] }
    let st := CredibleModelData.DrawNode.texture mesh st
    some
      { st with
        dc := st.dc ++
          [DeviceCall.IASetVertexBuffers (node, i) st.model._vertexStride,
           DeviceCall.IASetIndexBuffer (node, i) mesh.IndexBufferFormat,
           DeviceCall.DrawIndexed mesh.IndexCount] }

/-- The mesh loop of `DrawNode` (lines 386-441) from the index `i` on, over
the meshes still to draw. -/
def CredibleModelData.DrawNode.meshes (dx : DirectXMath) (node : Nat) :
    Nat → List CredibleMesh → DrawState → Option DrawState
  | _, [], st => some st
  | i, mesh :: rest, st =>
    match CredibleModelData.DrawNode.mesh dx node i mesh st with
    | none => none
    | some st => CredibleModelData.DrawNode.meshes dx node (i + 1) rest st

/-- The child loop of `DrawNode` (lines 446-449); `draw` is the recursive
call. -/
def CredibleModelData.DrawNode.children (draw : DrawState → Nat → Option DrawState) :
    List Nat → DrawState → Option DrawState
  | [], st => some st
  | child :: rest, st =>
    match draw st child with
    | none => none
    | some st => CredibleModelData.DrawNode.children draw rest st

/-- `CredibleModelData::DrawNode`; the first argument bounds the depth of the
recursion.  `InverseTranspose` is `MathHelper::InverseTranspose`, which is not
in the sources and is left open; `MathHelper::Transpose` and
`XMMatrixTranspose` are the transpose. -/
def CredibleModelData.DrawNode.go (dx : DirectXMath)
    (InverseTranspose : XMFLOAT4X4 → XMFLOAT4X4) (worldTransform : XMFLOAT4X4)
    (disabledNodes : List wstring) : Nat → DrawState → Nat → Option DrawState
  | 0, _, _ => none
  | fuel + 1, st, node =>
    match st.model.Nodes[node]? with
    | none => none
    | some n =>
      let nodeGlobalTransform := n.GlobalTransform.transpose
      let nodeGlobalTransformWorld := nodeGlobalTransform
      let w := worldTransform
      let nodeGlobalTransformWorld := nodeGlobalTransformWorld * w
      let worldInvTranspose := InverseTranspose nodeGlobalTransformWorld
      let st :=
        { st with
          cb :=
            { st.cb with
              World := nodeGlobalTransformWorld.transpose
              WorldInvTranspose := worldInvTranspose.transpose } }
      match (if n.Name ∉ disabledNodes then
          CredibleModelData.DrawNode.meshes dx node 0 n.Meshes st
        else some st) with
      | none => none
      | some st =>
        CredibleModelData.DrawNode.children
          (CredibleModelData.DrawNode.go dx InverseTranspose worldTransform disabledNodes fuel)
          n.Children st

/-- `CredibleModelData::DrawNode(dc, cb, aCb, node, worldTransform,
disabledNodes, textureOverrides)`.  A tree of owned nodes is no deeper than
`Nodes` is long, which bounds the recursion. -/
def CredibleModelData.DrawNode (dx : DirectXMath) (InverseTranspose : XMFLOAT4X4 → XMFLOAT4X4)
    (st : DrawState) (node : Nat) (worldTransform : XMFLOAT4X4)
    (disabledNodes : List wstring) : Option DrawState :=
  CredibleModelData.DrawNode.go dx InverseTranspose worldTransform disabledNodes
    (st.model.Nodes.length + 1) st node

/-! ## `CredibleTimer` (`CredibleTimer.h`, `CredibleTimer.cpp`) -/

/-- The class `CredibleTimer`.  The function object `_callback` is named by a
number; it is taken to be callable, to return and not to touch the timer.  The
last field is not a member: it lists the callbacks invoked so far, in
order. -/
structure CredibleTimer where
  _timer : ℚ
  _callbackExpireTime : ℚ
  _expireCount : Nat
  _callbackCount : Nat
  _active : Bool
  _infinite : Bool
  _callback : Nat
  invoked : List Nat
  deriving DecidableEq

/-- The constructor `CredibleTimer()`; `0` names the empty function. -/
def CredibleTimer.new : CredibleTimer :=
  { _active := false, _timer := 0, _callbackExpireTime := 0, _expireCount := 0,
    _callbackCount := 0, _infinite := false, _callback := 0, invoked := [] }

/-- `CredibleTimer::Start(expireTime, expiresAfter, f)`; `expiresAfter` is a
`ULONG64`. -/
def CredibleTimer.Start (self : CredibleTimer) (expireTime : ℚ) (expiresAfter : Nat)
    (f : Nat) : CredibleTimer :=
  let _expireCount := expiresAfter % 2 ^ 64
  { self with
    _timer := 0
    _callbackCount := 0
    _callbackExpireTime := expireTime
    _callback := f
    _active := true
    _expireCount := _expireCount
    _infinite := decide (_expireCount = 0) }

/-- `CredibleTimer::Stop()`. -/
def CredibleTimer.Stop (self : CredibleTimer) : CredibleTimer :=
  { self with _active := false }

/-- `CredibleTimer::IsActive()`. -/
def CredibleTimer.IsActive (self : CredibleTimer) : Bool := self._active

/-- `CredibleTimer::GetCallBackCount()`. -/
def CredibleTimer.GetCallBackCount (self : CredibleTimer) : Nat := self._callbackCount

/-- `CredibleTimer::Update(timeDelta)`; `_callbackCount` is a `ULONG64`. -/
def CredibleTimer.Update (self : CredibleTimer) (timeDelta : ℚ) : CredibleTimer :=
  if !self._active then self
  else
    let _timer := self._timer + timeDelta
    if _timer ≥ self._callbackExpireTime then
      let _timer := 0
      let _callbackCount := (self._callbackCount + 1) % 2 ^ 64
      let _active :=
        if !self._infinite then
          if _callbackCount = self._expireCount then false else self._active
        else self._active
      { self with
        _timer := _timer
        _callbackCount := _callbackCount
        _active := _active
        invoked := self.invoked ++ [self._callback] }
    else { self with _timer := _timer }

/-! ## The KSM byte layout

The writer of KSM files (`KsmCreatorLib`) is not among the sources.  The
encoder below follows section 6 of the specification field by field. -/

/-- Modelled from the spec: the little-endian bytes of an unsigned integer of `n` bytes. -/
def Ksm.encodeUnsigned : Nat → Nat → List Nat
  | 0, _ => []
  | n + 1, v => v % 256 :: Ksm.encodeUnsigned n (v / 256)

/-- Modelled from the spec: a `u32` field. -/
def Ksm.encodeUINT (v : Nat) : List Nat := Ksm.encodeUnsigned 4 v

/-- Modelled from the spec: an `f32` field; `bitsOfFloat` gives the object representation of a
float. -/
def Ksm.encodeFloat (bitsOfFloat : ℚ → Nat) (x : ℚ) : List Nat :=
  Ksm.encodeUINT (bitsOfFloat x)

/-- Modelled from the spec: a `bool` field. -/
def Ksm.encodeBool (b : Bool) : List Nat := [if b then 1 else 0]

/-- Modelled from the spec: a length-prefixed UTF-16 string. -/
def Ksm.encodeString (s : wstring) : List Nat :=
  Ksm.encodeUINT s.length ++ s.flatMap (Ksm.encodeUnsigned 2)

/-- Modelled from the spec: a `3×f32` field. -/
def Ksm.encodeFloat3 (bitsOfFloat : ℚ → Nat) (v : XMFLOAT3) : List Nat :=
  [v.x, v.y, v.z].flatMap (Ksm.encodeFloat bitsOfFloat)

/-- Modelled from the spec: a `4×f32` field. -/
def Ksm.encodeFloat4 (bitsOfFloat : ℚ → Nat) (v : XMFLOAT4) : List Nat :=
  [v.x, v.y, v.z, v.w].flatMap (Ksm.encodeFloat bitsOfFloat)

/-- The sixteen members of a matrix, row by row. -/
def XMFLOAT4X4.toList (m : XMFLOAT4X4) : List ℚ :=
  [m 0 0, m 0 1, m 0 2, m 0 3, m 1 0, m 1 1, m 1 2, m 1 3,
   m 2 0, m 2 1, m 2 2, m 2 3, m 3 0, m 3 1, m 3 2, m 3 3]

/-- Modelled from the spec: a `16×f32` field. -/
def Ksm.encodeMatrix (bitsOfFloat : ℚ → Nat) (m : XMFLOAT4X4) : List Nat :=
  m.toList.flatMap (Ksm.encodeFloat bitsOfFloat)

/-- A mesh as the layout describes it.  A vertex comes with the bytes of its
bone weights and indices, which are written only when `hasAnimVertices` is
set. -/
structure Ksm.Mesh where
  faceCount : Nat
  diffuse : XMFLOAT4
  ambient : XMFLOAT4
  reflect : XMFLOAT4
  specular : XMFLOAT4
  opacity : ℚ
  shininess : ℚ
  specStrength : ℚ
  indicesAre16Bit : Bool
  indices : List Nat
  hasAnimVertices : Bool
  vertices : List (VertexPositionNormalTexture × List Nat)
  diffusePath : wstring
  normalPath : wstring
  bones : List CredibleBone
  boundingBox : BoundingBox

/-- A node as the layout describes it. -/
inductive Ksm.Node where
  | mk (name : wstring) (localTransform : XMFLOAT4X4) (channelIndex : Nat)
      (meshes : List Ksm.Mesh) (children : List Ksm.Node)

/-- A model as the layout describes it; the mesh count and the animation
count of the header are those of the tree and of the clip list. -/
structure Ksm.Model where
  materialCount : Nat
  textureCount : Nat
  root : Ksm.Node
  clips : List AnimationClip
  boundingBox : BoundingBox

/-- Modelled from the spec: one vertex: position, normal, texture coordinate, then the bone bytes of
an animated vertex. -/
def Ksm.encodeVertex (bitsOfFloat : ℚ → Nat) (hasAnimVertices : Bool)
    (v : VertexPositionNormalTexture × List Nat) : List Nat :=
  [v.1.position.x, v.1.position.y, v.1.position.z, v.1.normal.x, v.1.normal.y, v.1.normal.z,
    v.1.textureCoordinate.x, v.1.textureCoordinate.y].flatMap (Ksm.encodeFloat bitsOfFloat)
    ++ if hasAnimVertices then v.2 else []

/-- Modelled from the spec: one bone: `[nameLen:u32][name][offset:16×f32]`. -/
def Ksm.encodeBone (bitsOfFloat : ℚ → Nat) (bone : CredibleBone) : List Nat :=
  Ksm.encodeString bone.Name ++ Ksm.encodeMatrix bitsOfFloat bone.Offset

/-- Modelled from the spec: the index array `[index×indexCount]`.  With
`narrow` set the elements are persisted as sections 3 and 4.2 of the
specification word it ("persisted as 16-bit", "decoded as 16- or 32-bit per
the flag"): 16-bit when the flag of the mesh is set and 32-bit otherwise.
Without it they are always 32-bit values, which is what the mesh constructor
reads (`ReadArray<UINT>`, line 690). -/
def Ksm.encodeIndices (narrow : Bool) (indicesAre16Bit : Bool) (indices : List Nat) :
    List Nat :=
  if narrow && indicesAre16Bit then indices.flatMap (Ksm.encodeUnsigned 2)
  else indices.flatMap Ksm.encodeUINT

/-- Modelled from the spec: one mesh, in the field order of section 6. -/
def Ksm.encodeMesh (bitsOfFloat : ℚ → Nat) (narrow : Bool) (mesh : Ksm.Mesh) : List Nat :=
  Ksm.encodeUINT mesh.bones.length ++ Ksm.encodeUINT mesh.faceCount
    ++ Ksm.encodeUINT mesh.vertices.length ++ Ksm.encodeUINT mesh.indices.length
    ++ Ksm.encodeFloat4 bitsOfFloat mesh.diffuse ++ Ksm.encodeFloat4 bitsOfFloat mesh.ambient
    ++ Ksm.encodeFloat4 bitsOfFloat mesh.reflect ++ Ksm.encodeFloat4 bitsOfFloat mesh.specular
    ++ Ksm.encodeFloat bitsOfFloat mesh.opacity ++ Ksm.encodeFloat bitsOfFloat mesh.shininess
    ++ Ksm.encodeFloat bitsOfFloat mesh.specStrength
    ++ Ksm.encodeBool mesh.indicesAre16Bit
    ++ Ksm.encodeIndices narrow mesh.indicesAre16Bit mesh.indices
    ++ Ksm.encodeBool mesh.hasAnimVertices
    ++ mesh.vertices.flatMap (Ksm.encodeVertex bitsOfFloat mesh.hasAnimVertices)
    ++ Ksm.encodeString mesh.diffusePath ++ Ksm.encodeString mesh.normalPath
    ++ mesh.bones.flatMap (Ksm.encodeBone bitsOfFloat)
    ++ Ksm.encodeFloat3 bitsOfFloat mesh.boundingBox.Center
    ++ Ksm.encodeFloat3 bitsOfFloat mesh.boundingBox.Extents

mutual
/-- Modelled from the spec: one node with its subtree, in the field order of section 6. -/
def Ksm.encodeNode (bitsOfFloat : ℚ → Nat) (sizeofSizeT : Nat) (narrow : Bool) :
    Ksm.Node → List Nat
  | .mk name localTransform channelIndex meshes children =>
    Ksm.encodeString name ++ Ksm.encodeMatrix bitsOfFloat localTransform
      ++ Ksm.encodeUnsigned sizeofSizeT channelIndex
      ++ Ksm.encodeUINT meshes.length ++ meshes.flatMap (Ksm.encodeMesh bitsOfFloat narrow)
      ++ Ksm.encodeUINT children.length
      ++ Ksm.encodeNodes bitsOfFloat sizeofSizeT narrow children
/-- Modelled from the spec: the subtrees of a list of nodes, one after the other. -/
def Ksm.encodeNodes (bitsOfFloat : ℚ → Nat) (sizeofSizeT : Nat) (narrow : Bool) :
    List Ksm.Node → List Nat
  | [] => []
  | node :: rest =>
    Ksm.encodeNode bitsOfFloat sizeofSizeT narrow node
      ++ Ksm.encodeNodes bitsOfFloat sizeofSizeT narrow rest
end

mutual
/-- The nodes of a tree in depth-first pre-order. -/
def Ksm.Node.preorder : Ksm.Node → List Ksm.Node
  | .mk name localTransform channelIndex meshes children =>
    .mk name localTransform channelIndex meshes children :: Ksm.Node.preorderList children
/-- The nodes of a list of trees in depth-first pre-order. -/
def Ksm.Node.preorderList : List Ksm.Node → List Ksm.Node
  | [] => []
  | node :: rest => Ksm.Node.preorder node ++ Ksm.Node.preorderList rest
end

/-- The meshes of a node. -/
def Ksm.Node.meshes : Ksm.Node → List Ksm.Mesh
  | .mk _ _ _ meshes _ => meshes

/-- The name of a node. -/
def Ksm.Node.name : Ksm.Node → wstring
  | .mk name _ _ _ _ => name

/-- The local transform of a node. -/
def Ksm.Node.localTransform : Ksm.Node → XMFLOAT4X4
  | .mk _ localTransform _ _ _ => localTransform

/-- The channel index of a node. -/
def Ksm.Node.channelIndex : Ksm.Node → Nat
  | .mk _ _ channelIndex _ _ => channelIndex

/-- Modelled from the spec: one keyframe: `[translation:3×f32][scale:3×f32][rotationQuat:4×f32][timePos:f32]`. -/
def Ksm.encodeKeyframe (bitsOfFloat : ℚ → Nat) (k : Keyframe) : List Nat :=
  Ksm.encodeFloat3 bitsOfFloat k.Translation ++ Ksm.encodeFloat3 bitsOfFloat k.Scale
    ++ Ksm.encodeFloat4 bitsOfFloat k.RotationQuat ++ Ksm.encodeFloat bitsOfFloat k.TimePos

/-- Modelled from the spec: one track: `[keyframeCount:u32][keyframe×keyframeCount]`. -/
def Ksm.encodeTrack (bitsOfFloat : ℚ → Nat) (track : BoneAnimation) : List Nat :=
  Ksm.encodeUINT track.Keyframes.length
    ++ track.Keyframes.flatMap (Ksm.encodeKeyframe bitsOfFloat)

/-- Modelled from the spec: one clip, in the field order of section 6. -/
def Ksm.encodeClip (bitsOfFloat : ℚ → Nat) (clip : AnimationClip) : List Nat :=
  Ksm.encodeString clip.Name ++ Ksm.encodeFloat bitsOfFloat clip.Duration
    ++ Ksm.encodeFloat bitsOfFloat clip.TicksPerSecond
    ++ Ksm.encodeUINT clip.BoneAnimations.length
    ++ clip.BoneAnimations.flatMap (Ksm.encodeTrack bitsOfFloat)
    ++ Ksm.encodeUINT clip.TotalFrames

/-- The number of meshes of a model, which its header declares. -/
def Ksm.Model.meshCount (model : Ksm.Model) : Nat :=
  (model.root.preorder.map fun node => node.meshes.length).sum

/-- Modelled from the spec: the writer of KSM files is not in the sources; this
is the byte layout of section 6, the header, the node tree, the clips and
the bounding box of the model. -/
def Ksm.encode (bitsOfFloat : ℚ → Nat) (sizeofSizeT : Nat) (narrow : Bool)
    (model : Ksm.Model) : List Nat :=
  Ksm.encodeUINT model.meshCount ++ Ksm.encodeUINT model.materialCount
    ++ Ksm.encodeUINT model.textureCount ++ Ksm.encodeUINT model.clips.length
    ++ Ksm.encodeNode bitsOfFloat sizeofSizeT narrow model.root
    ++ model.clips.flatMap (Ksm.encodeClip bitsOfFloat)
    ++ Ksm.encodeFloat3 bitsOfFloat model.boundingBox.Center
    ++ Ksm.encodeFloat3 bitsOfFloat model.boundingBox.Extents

/-- The vector after the optional transform of `GetAllIntersectionsBy`. -/
def applyOptional (translation : Option XMFLOAT4X4) (v : XMVECTOR) : XMVECTOR :=
  match translation with
  | some t => XMVector3TransformCoord v t
  | none => v

/-- The point `GetAllIntersectionsBy` collects for triangle `n`, if the
triangle is reported hit. -/
def CredibleMesh.hitPoint (dx : DirectXMath) (mesh : CredibleMesh)
    (rayOrigin rayDirection : XMVECTOR) (translation : Option XMFLOAT4X4) (n : Nat) :
    Option XMFLOAT3 :=
  match mesh.triangle n with
  | none => none
  | some (v0, v1, v2) =>
    if dx.TriangleTestsIntersects rayOrigin rayDirection (applyOptional translation v0)
        (applyOptional translation v1) (applyOptional translation v2) then
      some (XMStoreFloat3 (applyOptional translation v0))
    else none

/-- Whether triangle `n`, its vertices transformed as points by `m`, is
reported hit by the ray. -/
def CredibleMesh.triangleHit (dx : DirectXMath) (mesh : CredibleMesh) (m : XMFLOAT4X4)
    (o d : XMVECTOR) (n : Nat) : Bool :=
  match mesh.triangle n with
  | none => false
  | some (v0, v1, v2) =>
    dx.TriangleTestsIntersects o d (XMVector3TransformCoord v0 m)
      (XMVector3TransformCoord v1 m) (XMVector3TransformCoord v2 m)

/-- Every pointer of the flat mesh list points to a mesh of a node. -/
def CredibleModelData.meshPointersValid (self : CredibleModelData) : Prop :=
  ∀ ptr ∈ self._allMeshes, ∃ mesh, self.meshAt ptr = some mesh

/-- One assignment `_textureMapping[handle] = itemSlot`. -/
def assignSlot (mapping : Nat → Option Nat) (write : Nat × Nat) : Nat → Option Nat :=
  Function.update mapping write.1 (some write.2)

/-- The last slot assigned to a handle by a list of assignments, if any. -/
def lastWrite : List (Nat × Nat) → Nat → Option Nat
  | [], _ => none
  | write :: rest, k =>
    match lastWrite rest k with
    | some v => some v
    | none => if k = write.1 then some write.2 else none

/-- The assignment `SetTextureMapping(itemSlot, textureName)` makes for one
mesh pointer, if it makes one. -/
def CredibleModelData.meshWrite (self : CredibleModelData) (itemSlot : Nat)
    (textureName : wstring) (ptr : Nat × Nat) : Option (Nat × Nat) :=
  match self.meshAt ptr with
  | none => none
  | some mesh =>
    if mesh.DefaultDiffuseTextureName = textureName then some (mesh.DiffuseTexture, itemSlot)
    else none

/-- The assignments one call `SetTextureMapping(itemSlot, textureName)` makes,
in order. -/
def CredibleModelData.slotWrites (self : CredibleModelData) (itemSlot : Nat)
    (textureName : wstring) : List (Nat × Nat) :=
  self._allMeshes.filterMap (self.meshWrite itemSlot textureName)

/-- The assignments the whole default texture loop makes, in order. -/
def AssetManager.slotsWrites (self : AssetManager) (model : CredibleModelData)
    (modelInstanceType : Nat) (slots : List Nat) : List (Nat × Nat) :=
  slots.flatMap fun slot =>
    model.slotWrites slot (self.defaultTexture modelInstanceType slot).1

/-- The relation between a node's global transform, its local transform and
its parent's global transform that the code establishes. -/
def nodeRel (Nodes : List CredibleNode) (n : CredibleNode) : Prop :=
  match n.Parent with
  | none => n.GlobalTransform = n.LocalTransform
  | some p => ∃ pn, Nodes[p]? = some pn ∧ n.GlobalTransform = pn.GlobalTransform * n.LocalTransform

/-- The node at index `i` is well placed in the node list: its parent comes
before it, its transforms are related, its children come after it and point
back to it. -/
def NodeOK (Nodes : List CredibleNode) (i : Nat) (n : CredibleNode) : Prop :=
  (∀ p, n.Parent = some p → p < i) ∧ nodeRel Nodes n
    ∧ ∀ c ∈ n.Children, i < c ∧ ∃ cn, Nodes[c]? = some cn ∧ cn.Parent = some i

/-- Every node of the list is well placed. -/
def AllOK (Nodes : List CredibleNode) : Prop :=
  ∀ i n, Nodes[i]? = some n → NodeOK Nodes i n

/-- The node at index `i` has a parent at or after `base`, and is listed among
the children of that parent. -/
def Linked (Nodes : List CredibleNode) (base i : Nat) (n : CredibleNode) : Prop :=
  ∃ p pn, n.Parent = some p ∧ base ≤ p ∧ Nodes[p]? = some pn ∧ i ∈ pn.Children

/-- The index `j` is `r` or is reached from `r` by following parent pointers
backwards. -/
inductive Desc (Nodes : List CredibleNode) (r : Nat) : Nat → Prop
  | self : Desc Nodes r r
  | step {j p : Nat} {n : CredibleNode} :
      Nodes[j]? = some n → n.Parent = some p → Desc Nodes r p → Desc Nodes r j

/-- Every node of the first list is still there in the second, with the same
parent, transforms and meshes, and with at least the same children. -/
def Grows (Nodes Nodes' : List CredibleNode) : Prop :=
  ∀ (j : Nat) (m : CredibleNode), Nodes[j]? = some m →
    ∃ m' : CredibleNode, Nodes'[j]? = some m' ∧ m'.Parent = m.Parent
    ∧ m'.LocalTransform = m.LocalTransform ∧ m'.GlobalTransform = m.GlobalTransform
    ∧ m'.Meshes = m.Meshes ∧ ∀ c ∈ m.Children, c ∈ m'.Children

/-- What one call of `readNodeTree` does to the node list and the flat mesh
list. -/
structure ReadPost (model : CredibleModelData) (parent : Option Nat) (idx : Nat)
    (model' : CredibleModelData) : Prop where
  idx_eq : idx = model.Nodes.length
  frame : ∀ i, i < model.Nodes.length → model'.Nodes[i]? = model.Nodes[i]?
  root : ∃ n0 : CredibleNode, model'.Nodes[idx]? = some n0 ∧ n0.Parent = parent
  ok : AllOK model.Nodes → (∀ p, parent = some p → p < model.Nodes.length) → AllOK model'.Nodes
  linked : ∀ i n, model'.Nodes[i]? = some n → idx < i → Linked model'.Nodes idx i n
  meshes : model.meshPointersValid → model'.meshPointersValid

/-- What the child loop of `readNodeTree` does to the node list and the flat
mesh list. -/
structure ChildrenPost (model : CredibleModelData) (ksmNode : Nat)
    (model' : CredibleModelData) : Prop where
  frame : ∀ i, i < model.Nodes.length → i ≠ ksmNode → model'.Nodes[i]? = model.Nodes[i]?
  node : ∀ n : CredibleNode, model.Nodes[ksmNode]? = some n →
    ∃ cs, model'.Nodes[ksmNode]? = some { n with Children := n.Children ++ cs }
  ok : AllOK model.Nodes → AllOK model'.Nodes
  linked : ∀ i n, model'.Nodes[i]? = some n → model.Nodes.length ≤ i →
    Linked model'.Nodes ksmNode i n
  meshes : model.meshPointersValid → model'.meshPointersValid

/-- Parents come before their children in the node list, and the parent and
children pointers agree with each other. -/
def ShapeOK (Nodes : List CredibleNode) : Prop :=
  ∀ (i : Nat) (n : CredibleNode), Nodes[i]? = some n →
    (∀ p, n.Parent = some p →
      p < i ∧ ∃ pn : CredibleNode, Nodes[p]? = some pn ∧ i ∈ pn.Children)
    ∧ (∀ c ∈ n.Children,
      i < c ∧ ∃ cn : CredibleNode, Nodes[c]? = some cn ∧ cn.Parent = some i)

/-- The second node list has the nodes of the first, with possibly other
local and global transforms. -/
def SameShape (Nodes Nodes' : List CredibleNode) : Prop :=
  Nodes'.length = Nodes.length
    ∧ ∀ (j : Nat) (m m' : CredibleNode), Nodes[j]? = some m → Nodes'[j]? = some m' →
      m' = { m with LocalTransform := m'.LocalTransform, GlobalTransform := m'.GlobalTransform }

/-- Every node is related to its parent as `nodeRel` says. -/
def RelAll (Nodes : List CredibleNode) : Prop :=
  ∀ (i : Nat) (n : CredibleNode), Nodes[i]? = some n → nodeRel Nodes n

/-- The node list of the model is a tree whose root is the first node and is
`RootNode`. -/
structure TreeOK (model : CredibleModelData) : Prop where
  root : model.RootNode = some 0
  nonempty : 0 < model.Nodes.length
  shape : ShapeOK model.Nodes
  parents : ∀ (i : Nat) (n : CredibleNode), model.Nodes[i]? = some n → 0 < i →
    ∃ p, n.Parent = some p

/-- The transforms array has an entry for every channel index in use. -/
def transformsCover (pf : Platform) (Nodes : List CredibleNode)
    (transforms : List XMFLOAT4X4) : Prop :=
  ∀ n ∈ Nodes, n.ChannelIndex ≠ pf.SIZE_MAX → n.ChannelIndex < transforms.length

/-- The local transform `UpdateTransforms` leaves in a node: the entry of the
transforms array at the channel index of the node, the old local transform
when the channel index is the sentinel. -/
def newLocal (pf : Platform) (transforms : List XMFLOAT4X4) (n : CredibleNode) : XMFLOAT4X4 :=
  if n.ChannelIndex ≠ pf.SIZE_MAX then (transforms[n.ChannelIndex]?).getD n.LocalTransform
  else n.LocalTransform

/-- What `UpdateTransforms(r, transforms)` does to the node list. -/
def GoPost (pf : Platform) (transforms : List XMFLOAT4X4) (Nodes : List CredibleNode) (r : Nat)
    (Nodes' : List CredibleNode) : Prop :=
  SameShape Nodes Nodes'
    ∧ (∀ j, ¬ Desc Nodes r j → Nodes'[j]? = Nodes[j]?)
    ∧ (∀ (j : Nat) (n' : CredibleNode), Desc Nodes r j → Nodes'[j]? = some n' →
        nodeRel Nodes' n')
    ∧ ∀ (j : Nat) (n n' : CredibleNode), Desc Nodes r j → Nodes[j]? = some n →
        Nodes'[j]? = some n' → n'.LocalTransform = newLocal pf transforms n

/-- The second cache state differs from the first at most in the texture
table, the error count and the loader log. -/
def AssetFrame (a a' : AssetManager) : Prop :=
  a'._assetRootDirectory = a._assetRootDirectory ∧ a'._d3dDevice = a._d3dDevice
    ∧ a'._loadedModels = a._loadedModels ∧ a'._defaultTextures = a._defaultTextures
    ∧ a'._instanceToModelInstance = a._instanceToModelInstance
    ∧ a'.modelsConstructed = a.modelsConstructed

/-! ## Vocabulary of the bone pass, the draw traversal and the transform update -/

/-- What a run of the reader leaves of the mesh bookkeeping: the header's mesh
count and animation count and the bone table are untouched, the flat mesh
list keeps its pointers, and every node added has meshes with as many bones
as they declare, all of them in the flat mesh list. -/
structure MeshPost (model model' : CredibleModelData) : Prop where
  count : model'._numMeshes = model._numMeshes
  table : model'._boneNodesByName = model._boneNodesByName
  animations : model'._numAnimations = model._numAnimations
  kept : ∀ ptr ∈ model._allMeshes, ptr ∈ model'._allMeshes
  bones : ∀ (i : Nat) (n : CredibleNode), model.Nodes.length ≤ i → model'.Nodes[i]? = some n →
    ∀ mesh ∈ n.Meshes, mesh.Bones.length = mesh.NumBones
  listed : ∀ (i : Nat) (n : CredibleNode), model.Nodes.length ≤ i → model'.Nodes[i]? = some n →
    ∀ m, m < n.Meshes.length → (i, m) ∈ model'._allMeshes

/-- The nodes of the subtree of `node` in depth-first pre-order: the node
itself, then the subtrees of its children in the order of `Children`.  The
first argument bounds the depth. -/
def preorder (Nodes : List CredibleNode) : Nat → Nat → List Nat
  | 0, _ => []
  | fuel + 1, node =>
    match Nodes[node]? with
    | none => []
    | some n => node :: n.Children.flatMap (preorder Nodes fuel)

/-- The pointers to the meshes of the listed nodes whose name is not in the
disabled-node list: node by node in the order of the list, the meshes of a
node in the order of `Meshes`. -/
def visibleMeshes (Nodes : List CredibleNode) (disabledNodes : List wstring)
    (order : List Nat) : List (Nat × Nat) :=
  order.flatMap fun node =>
    match Nodes[node]? with
    | none => []
    | some n =>
      if n.Name ∈ disabledNodes then []
      else (List.range n.Meshes.length).map fun i => (node, i)

/-- The meshes a sequence of device calls draws: for every `DrawIndexed`, the
mesh whose vertex buffer is bound when the call is made.  The first argument
is the mesh whose vertex buffer is bound at the start. -/
def drawnMeshes : Option (Nat × Nat) → List DeviceCall → List (Nat × Nat)
  | _, [] => []
  | _, DeviceCall.IASetVertexBuffers VB _ :: rest => drawnMeshes (some VB) rest
  | some VB, DeviceCall.DrawIndexed _ :: rest => VB :: drawnMeshes (some VB) rest
  | none, DeviceCall.DrawIndexed _ :: rest => drawnMeshes none rest
  | bound, DeviceCall.aCbApplyChanges _ :: rest => drawnMeshes bound rest
  | bound, DeviceCall.cbApplyChanges _ :: rest => drawnMeshes bound rest
  | bound, DeviceCall.PSSetShaderResources _ :: rest => drawnMeshes bound rest
  | bound, DeviceCall.IASetIndexBuffer _ _ :: rest => drawnMeshes bound rest

/-- Every mesh of the model can have its bone matrices computed and uploaded
to an array of `slots` matrices: it has as many bones as it declares, no more
than `slots` and fewer than `2^32 - 1`, and every bone name is filed in the
bone table to a node of the model. -/
def Drawable (model : CredibleModelData) (slots : Nat) : Prop :=
  ∀ node ∈ model.Nodes, ∀ mesh ∈ node.Meshes,
    mesh.NumBones = mesh.Bones.length ∧ mesh.NumBones ≤ slots ∧ mesh.NumBones + 1 < 2 ^ 32
      ∧ ∀ bone ∈ mesh.Bones, ∃ p < model.Nodes.length,
          model._boneNodesByName bone.Name = some p

instance Drawable.decidable (model : CredibleModelData) (slots : Nat) :
    Decidable (Drawable model slots) := by
  unfold Drawable
  infer_instance

/-- The second map has every entry of the first, and every other entry of
it holds the value-initialised value 0. -/
def Extends (m m' : Nat → Option Nat) : Prop :=
  ∀ k, m' k = m k ∨ (m k = none ∧ m' k = some 0)

/-- The second draw state has the nodes, the bone table, the vertex stride
and the number of bone slots of the first, the bone slots of odd index hold
what they held in the first, and the handle→slot map and the override table
have the entries of the first and possibly new entries of value 0. -/
structure DrawFrame (st st' : DrawState) : Prop where
  nodes : st'.model.Nodes = st.model.Nodes
  table : st'.model._boneNodesByName = st.model._boneNodesByName
  stride : st'.model._vertexStride = st.model._vertexStride
  slots : st'.aCb.gBoneTransforms.length = st.aCb.gBoneTransforms.length
  odd : ∀ i, i % 2 = 1 → st'.aCb.gBoneTransforms[i]? = st.aCb.gBoneTransforms[i]?
  mapping : Extends st.model._textureMapping st'.model._textureMapping
  overrides : Extends st.textureOverrides st'.textureOverrides

/-- The view `DrawNode` binds for a mesh with the non-null handle `h`: the
entry of the override map for the slot of `h`, the slot of an unmapped handle
being the value-initialised `ItemSlot` 0, when that entry is not null; `h`
otherwise. -/
def boundView (_textureMapping textureOverrides : Nat → Option Nat) (h : Nat) : Nat :=
  let slot : Nat := (_textureMapping h).getD 0
  let override : Nat := (textureOverrides slot).getD 0
  if override ≠ 0 then override else h

/-- The views a sequence of device calls binds, in order. -/
def boundViews (calls : List DeviceCall) : List Nat :=
  calls.filterMap fun call =>
    match call with
    | DeviceCall.PSSetShaderResources view => some view
    | _ => none

/-- The vertex buffers a sequence of device calls binds, each with the stride
passed for it, in order. -/
def vertexStrides (calls : List DeviceCall) : List ((Nat × Nat) × Nat) :=
  calls.filterMap fun call =>
    match call with
    | DeviceCall.IASetVertexBuffers VB stride => some (VB, stride)
    | _ => none

/-- The uploads of the animated constant buffer in a sequence of device
calls, in order. -/
def boneUploads (calls : List DeviceCall) : List AnimatedConstBuffer :=
  calls.filterMap fun call =>
    match call with
    | DeviceCall.aCbApplyChanges Data => some Data
    | _ => none

/-- The global transform of the node is the one `CalculateGlobalTransform`
computes for it from its local transform and the local transforms of its
ancestors in the list. -/
def Fresh (Nodes : List CredibleNode) (n : CredibleNode) : Prop :=
  CredibleModelData.CalculateGlobalTransform Nodes n = some n

/-- The transforms array has an entry for every channel index in use in the
subtree of `r`. -/
def subtreeCover (pf : Platform) (Nodes : List CredibleNode) (transforms : List XMFLOAT4X4)
    (r : Nat) : Prop :=
  ∀ (j : Nat) (n : CredibleNode), Desc Nodes r j → Nodes[j]? = some n →
    n.ChannelIndex ≠ pf.SIZE_MAX → n.ChannelIndex < transforms.length

/-- What `UpdateTransforms(r, transforms)` does to the node list, node by
node: the list keeps its shape, the nodes outside the subtree of `r` are as
they were, and every node of the subtree has the local transform `newLocal`
and a global transform computed from the local transforms of the new list. -/
def FreshPost (pf : Platform) (transforms : List XMFLOAT4X4) (Nodes : List CredibleNode)
    (r : Nat) (Nodes' : List CredibleNode) : Prop :=
  SameShape Nodes Nodes'
    ∧ (∀ j, ¬ Desc Nodes r j → Nodes'[j]? = Nodes[j]?)
    ∧ ∀ (j : Nat) (n n' : CredibleNode), Desc Nodes r j → Nodes[j]? = some n →
        Nodes'[j]? = some n' →
        n'.LocalTransform = newLocal pf transforms n ∧ Fresh Nodes' n'

/-! ## Vocabulary of the timer, the ancestor chain and the flat lists -/

/-- A call made on a running timer. -/
inductive TimerCall where
  | Update (timeDelta : ℚ)
  | Stop
  deriving DecidableEq

/-- The timer after one call. -/
def CredibleTimer.call (self : CredibleTimer) : TimerCall → CredibleTimer
  | TimerCall.Update timeDelta => self.Update timeDelta
  | TimerCall.Stop => self.Stop

/-- The timer after a sequence of calls, made in order. -/
def CredibleTimer.calls (self : CredibleTimer) (cs : List TimerCall) : CredibleTimer :=
  cs.foldl CredibleTimer.call self

/-- The timer after a sequence of `Update` calls, made in order. -/
def CredibleTimer.updates (self : CredibleTimer) (deltas : List ℚ) : CredibleTimer :=
  deltas.foldl CredibleTimer.Update self

/-- The ancestors of a node from the root down to the given parent pointer,
found by following `Parent`; the first argument bounds the length of the
chain. -/
def ancestorPath (Nodes : List CredibleNode) : Nat → Option Nat → Option (List CredibleNode)
  | _, none => some []
  | 0, some _ => none
  | fuel + 1, some p =>
    match Nodes[p]? with
    | none => none
    | some parentNode => (ancestorPath Nodes fuel parentNode.Parent).map fun path => path ++ [parentNode]

/-- The pointers to the meshes of the listed nodes: node by node in the order
of the list, the meshes of a node in the order of `Meshes`. -/
def meshPointers (Nodes : List CredibleNode) (order : List Nat) : List (Nat × Nat) :=
  order.flatMap fun node =>
    match Nodes[node]? with
    | none => []
    | some n => (List.range n.Meshes.length).map fun i => (node, i)

/-- A timer started with expire count `n` and callback `f` when `base` was the
list of callbacks invoked, after `k` invocations of `f`. -/
structure Running (base : List Nat) (n f k : Nat) (s : CredibleTimer) : Prop where
  bound : n < 2 ^ 64
  expire : s._expireCount = n
  infinite : s._infinite = decide (n = 0)
  callback : s._callback = f
  invoked : s.invoked = base ++ List.replicate k f
  count : s._callbackCount = k % 2 ^ 64
  finite : 0 < n → k ≤ n ∧ (s._active = true → k < n)

/-- Every mesh of every node has the ambient and diffuse colours
`XMFLOAT4(1.5f, 1.5f, 1.5f, 1.0f)`. -/
def Bright (Nodes : List CredibleNode) : Prop :=
  ∀ node ∈ Nodes, ∀ mesh ∈ node.Meshes,
    mesh.MeshMaterial.Ambient = ⟨3 / 2, 3 / 2, 3 / 2, 1⟩
      ∧ mesh.MeshMaterial.Diffuse = ⟨3 / 2, 3 / 2, 3 / 2, 1⟩

/-- The cache after `LoadKsmModel` has been called for each of the listed
instance types, in order. -/
def AssetManager.resolves (pf : Platform) (w : World) (ist : InstanceSaveTypes)
    (junk : CredibleModelData) : AssetManager → List Nat → Option AssetManager
  | self, [] => some self
  | self, instanceType :: rest =>
    match self.LoadKsmModel pf w ist junk instanceType with
    | none => none
    | some (_, self) => AssetManager.resolves pf w ist junk self rest

/-- What one call of `readNodeTree` adds to the node list and to the flat mesh
list: the nodes added are the subtree of the node read, in depth-first
pre-order, and the flat mesh list has gained one pointer to each mesh of each
node added. -/
structure OrderPost (model : CredibleModelData) (idx : Nat) (model' : CredibleModelData) :
    Prop where
  order : ∀ fuel, model'.Nodes.length ≤ idx + fuel →
    preorder model'.Nodes fuel idx = List.range' idx (model'.Nodes.length - idx)
  flat : List.Perm model'._allMeshes
    (model._allMeshes ++ meshPointers model'.Nodes (List.range' idx (model'.Nodes.length - idx)))

/-- The nodes at the listed indices, in the order of the list. -/
def nodesAt (Nodes : List CredibleNode) (order : List Nat) : List CredibleNode :=
  order.filterMap fun i => Nodes[i]?

/-! ## Vocabulary of the round trip through the KSM byte layout -/

/-- The bytes `bytes` stand in `data` at position `pos`, and their end is a
position the `int` cursor can take. -/
def Holds (data : List Nat) (pos : Nat) (bytes : List Nat) : Prop :=
  ∃ pre post, data = pre ++ bytes ++ post ∧ pre.length = pos ∧ pos + bytes.length ≤ INT_MAX

/-- The float `x` survives being written as its 32-bit pattern and read
back. -/
def Representable (pf : Platform) (bitsOfFloat : ℚ → Nat) (x : ℚ) : Prop :=
  pf.floatOfBits (bitsOfFloat x) = x ∧ bitsOfFloat x < 2 ^ 32

/-- The string can be written with a 32-bit length and 16-bit code units. -/
def StringOK (s : wstring) : Prop :=
  s.length < 2 ^ 32 ∧ ∀ c ∈ s, c < 2 ^ 16

/-- Every float of the list survives the round trip. -/
def AllRepresentable (pf : Platform) (bitsOfFloat : ℚ → Nat) (l : List ℚ) : Prop :=
  ∀ x ∈ l, Representable pf bitsOfFloat x

/-- The floats of a vertex, in the order of its members. -/
def VertexPositionNormalTexture.toList (v : VertexPositionNormalTexture) : List ℚ :=
  [v.position.x, v.position.y, v.position.z, v.normal.x, v.normal.y, v.normal.z,
    v.textureCoordinate.x, v.textureCoordinate.y]

/-- A bone whose name and offset matrix can be written. -/
def Ksm.BoneOK (pf : Platform) (bitsOfFloat : ℚ → Nat) (bone : CredibleBone) : Prop :=
  StringOK bone.Name ∧ AllRepresentable pf bitsOfFloat bone.Offset.toList

/-- A vertex whose floats can be written and whose bone bytes, when the mesh
is animated, fill the rest of a `VertexPositionNormalTextureBoneWeight`. -/
def Ksm.VertexOK (pf : Platform) (bitsOfFloat : ℚ → Nat) (hasAnimVertices : Bool)
    (v : VertexPositionNormalTexture × List Nat) : Prop :=
  AllRepresentable pf bitsOfFloat v.1.toList
    ∧ (hasAnimVertices = true → v.2.length = pf.sizeofBoneWeights)

/-- A mesh whose fields can all be written in the layout. -/
@[mk_iff]
structure Ksm.MeshOK (pf : Platform) (bitsOfFloat : ℚ → Nat) (mesh : Ksm.Mesh) : Prop where
  boneCount : mesh.bones.length < 2 ^ 32
  faceCount : mesh.faceCount < 2 ^ 32
  vertexCount : mesh.vertices.length < 2 ^ 32
  indexCount : mesh.indices.length < 2 ^ 32
  someVertex : 0 < mesh.vertices.length
  someIndex : 0 < mesh.indices.length
  diffuse : AllRepresentable pf bitsOfFloat
    [mesh.diffuse.x, mesh.diffuse.y, mesh.diffuse.z, mesh.diffuse.w]
  ambient : AllRepresentable pf bitsOfFloat
    [mesh.ambient.x, mesh.ambient.y, mesh.ambient.z, mesh.ambient.w]
  reflect : AllRepresentable pf bitsOfFloat
    [mesh.reflect.x, mesh.reflect.y, mesh.reflect.z, mesh.reflect.w]
  specular : AllRepresentable pf bitsOfFloat
    [mesh.specular.x, mesh.specular.y, mesh.specular.z, mesh.specular.w]
  opacity : Representable pf bitsOfFloat mesh.opacity
  shininess : Representable pf bitsOfFloat mesh.shininess
  specStrength : Representable pf bitsOfFloat mesh.specStrength
  indices : ∀ i ∈ mesh.indices, i < 2 ^ 32
  vertices : ∀ v ∈ mesh.vertices, Ksm.VertexOK pf bitsOfFloat mesh.hasAnimVertices v
  diffusePath : StringOK mesh.diffusePath
  normalPath : StringOK mesh.normalPath
  bones : ∀ bone ∈ mesh.bones, Ksm.BoneOK pf bitsOfFloat bone
  center : AllRepresentable pf bitsOfFloat
    [mesh.boundingBox.Center.x, mesh.boundingBox.Center.y, mesh.boundingBox.Center.z]
  extents : AllRepresentable pf bitsOfFloat
    [mesh.boundingBox.Extents.x, mesh.boundingBox.Extents.y, mesh.boundingBox.Extents.z]

/-- What the round trip compares in a mesh of the model: the bone count, the
vertex positions, the index array and the bones. -/
def CredibleMesh.content (mesh : CredibleMesh) :
    Nat × List XMFLOAT3 × List Nat × List CredibleBone :=
  (mesh.NumBones, mesh.PositionalVertices, mesh.Indices, mesh.Bones)

/-- What the round trip compares in a mesh of the layout. -/
def Ksm.Mesh.content (mesh : Ksm.Mesh) : Nat × List XMFLOAT3 × List Nat × List CredibleBone :=
  (mesh.bones.length, mesh.vertices.map fun v => v.1.position, mesh.indices, mesh.bones)

/-- The children of a node. -/
def Ksm.Node.children : Ksm.Node → List Ksm.Node
  | .mk _ _ _ _ children => children

/-- The fields of a node itself, those of its subtrees apart, can all be
written in the layout. -/
@[mk_iff]
structure Ksm.NodeOK (pf : Platform) (bitsOfFloat : ℚ → Nat) (node : Ksm.Node) : Prop where
  name : StringOK node.name
  localTransform : AllRepresentable pf bitsOfFloat node.localTransform.toList
  channelIndex : node.channelIndex < 256 ^ pf.sizeofSizeT
  meshCount : node.meshes.length < 2 ^ 32
  childCount : node.children.length < 2 ^ 32
  meshes : ∀ mesh ∈ node.meshes, Ksm.MeshOK pf bitsOfFloat mesh

/-- What the round trip compares in a node of the model: the name, the local
transform, the channel index and the content of the meshes. -/
def CredibleNode.content (node : CredibleNode) :
    wstring × XMFLOAT4X4 × Nat × List (Nat × List XMFLOAT3 × List Nat × List CredibleBone) :=
  (node.Name, node.LocalTransform, node.ChannelIndex, node.Meshes.map CredibleMesh.content)

/-- What the round trip compares in a node of the layout. -/
def Ksm.Node.content (node : Ksm.Node) :
    wstring × XMFLOAT4X4 × Nat × List (Nat × List XMFLOAT3 × List Nat × List CredibleBone) :=
  (node.name, node.localTransform, node.channelIndex, node.meshes.map Ksm.Mesh.content)

/-- A keyframe whose floats can be written. -/
@[mk_iff]
structure Ksm.KeyframeOK (pf : Platform) (bitsOfFloat : ℚ → Nat) (k : Keyframe) : Prop where
  translation : AllRepresentable pf bitsOfFloat [k.Translation.x, k.Translation.y, k.Translation.z]
  scale : AllRepresentable pf bitsOfFloat [k.Scale.x, k.Scale.y, k.Scale.z]
  rotation : AllRepresentable pf bitsOfFloat
    [k.RotationQuat.x, k.RotationQuat.y, k.RotationQuat.z, k.RotationQuat.w]
  timePos : Representable pf bitsOfFloat k.TimePos

/-- A track whose keyframes can be written. -/
@[mk_iff]
structure Ksm.TrackOK (pf : Platform) (bitsOfFloat : ℚ → Nat) (track : BoneAnimation) :
    Prop where
  count : track.Keyframes.length < 2 ^ 32
  keyframes : ∀ k ∈ track.Keyframes, Ksm.KeyframeOK pf bitsOfFloat k

/-- A clip whose fields can all be written in the layout. -/
@[mk_iff]
structure Ksm.ClipOK (pf : Platform) (bitsOfFloat : ℚ → Nat) (clip : AnimationClip) :
    Prop where
  name : StringOK clip.Name
  duration : Representable pf bitsOfFloat clip.Duration
  ticksPerSecond : Representable pf bitsOfFloat clip.TicksPerSecond
  count : clip.BoneAnimations.length < 2 ^ 32
  tracks : ∀ track ∈ clip.BoneAnimations, Ksm.TrackOK pf bitsOfFloat track
  totalFrames : clip.TotalFrames < 2 ^ 32

/-- A model value that can be written in the layout and read with an `int`
cursor: the counts fit their fields, every mesh has a vertex and an index, the
floats survive the round trip, the strings are UTF-16 code units, animated
vertices carry their bone bytes, and the bytes written are no more than
`INT_MAX`. -/
@[mk_iff]
structure Ksm.WellFormed (pf : Platform) (bitsOfFloat : ℚ → Nat) (model : Ksm.Model) :
    Prop where
  meshCount : model.meshCount < 2 ^ 32
  materialCount : model.materialCount < 2 ^ 32
  textureCount : model.textureCount < 2 ^ 32
  clipCount : model.clips.length < 2 ^ 32
  nodes : ∀ node ∈ model.root.preorder, Ksm.NodeOK pf bitsOfFloat node
  clips : ∀ clip ∈ model.clips, Ksm.ClipOK pf bitsOfFloat clip
  center : AllRepresentable pf bitsOfFloat
    [model.boundingBox.Center.x, model.boundingBox.Center.y, model.boundingBox.Center.z]
  extents : AllRepresentable pf bitsOfFloat
    [model.boundingBox.Extents.x, model.boundingBox.Extents.y, model.boundingBox.Extents.z]
  size : (Ksm.encode bitsOfFloat pf.sizeofSizeT false model).length ≤ INT_MAX

instance Representable.decidable (pf : Platform) (bitsOfFloat : ℚ → Nat) (x : ℚ) :
    Decidable (Representable pf bitsOfFloat x) := by
  unfold Representable; infer_instance

instance AllRepresentable.decidable (pf : Platform) (bitsOfFloat : ℚ → Nat) (l : List ℚ) :
    Decidable (AllRepresentable pf bitsOfFloat l) := by
  unfold AllRepresentable; infer_instance

instance StringOK.decidable (s : wstring) : Decidable (StringOK s) := by
  unfold StringOK; infer_instance

instance Ksm.BoneOK.decidable (pf : Platform) (bitsOfFloat : ℚ → Nat) (bone : CredibleBone) :
    Decidable (Ksm.BoneOK pf bitsOfFloat bone) := by
  unfold Ksm.BoneOK; infer_instance

instance Ksm.VertexOK.decidable (pf : Platform) (bitsOfFloat : ℚ → Nat) (flag : Bool)
    (v : VertexPositionNormalTexture × List Nat) :
    Decidable (Ksm.VertexOK pf bitsOfFloat flag v) := by
  unfold Ksm.VertexOK; infer_instance

instance Ksm.MeshOK.decidable (pf : Platform) (bitsOfFloat : ℚ → Nat) (mesh : Ksm.Mesh) :
    Decidable (Ksm.MeshOK pf bitsOfFloat mesh) :=
  decidable_of_iff _ (Ksm.meshOK_iff pf bitsOfFloat mesh).symm

instance Ksm.NodeOK.decidable (pf : Platform) (bitsOfFloat : ℚ → Nat) (node : Ksm.Node) :
    Decidable (Ksm.NodeOK pf bitsOfFloat node) :=
  decidable_of_iff _ (Ksm.nodeOK_iff pf bitsOfFloat node).symm

instance Ksm.KeyframeOK.decidable (pf : Platform) (bitsOfFloat : ℚ → Nat) (k : Keyframe) :
    Decidable (Ksm.KeyframeOK pf bitsOfFloat k) :=
  decidable_of_iff _ (Ksm.keyframeOK_iff pf bitsOfFloat k).symm

instance Ksm.TrackOK.decidable (pf : Platform) (bitsOfFloat : ℚ → Nat) (track : BoneAnimation) :
    Decidable (Ksm.TrackOK pf bitsOfFloat track) :=
  decidable_of_iff _ (Ksm.trackOK_iff pf bitsOfFloat track).symm

instance Ksm.ClipOK.decidable (pf : Platform) (bitsOfFloat : ℚ → Nat) (clip : AnimationClip) :
    Decidable (Ksm.ClipOK pf bitsOfFloat clip) :=
  decidable_of_iff _ (Ksm.clipOK_iff pf bitsOfFloat clip).symm

instance Ksm.WellFormed.decidable (pf : Platform) (bitsOfFloat : ℚ → Nat) (model : Ksm.Model) :
    Decidable (Ksm.WellFormed pf bitsOfFloat model) :=
  decidable_of_iff _ (Ksm.wellFormed_iff pf bitsOfFloat model).symm

/-- The inverse of a matrix, by the adjugate. -/
def exactInverse (M : XMFLOAT4X4) : XMFLOAT4X4 := (M.det)⁻¹ • M.adjugate

/-- A library whose inverses are exact, whose normalisation is the identity,
whose box test asks whether the ray origin lies in the box, and whose triangle
test asks whether the ray origin is the first vertex. -/
def sampleMath : DirectXMath :=
  { XMMatrixInverse := exactInverse
    MathHelperInverse := exactInverse
    XMVector3Normalize := fun v => v
    BoundingBoxIntersects := fun box o _ =>
      decide (box.Center.x - box.Extents.x ≤ o.x ∧ o.x ≤ box.Center.x + box.Extents.x
        ∧ box.Center.y - box.Extents.y ≤ o.y ∧ o.y ≤ box.Center.y + box.Extents.y
        ∧ box.Center.z - box.Extents.z ≤ o.z ∧ o.z ≤ box.Center.z + box.Extents.z)
    TriangleTestsIntersects := fun o _ v0 _ _ => decide (XMStoreFloat3 o = XMStoreFloat3 v0) }

/-- A material of zeros. -/
def sampleMaterial : Material :=
  { Ambient := ⟨0, 0, 0, 0⟩, Diffuse := ⟨0, 0, 0, 0⟩, Specular := ⟨0, 0, 0, 0⟩,
    Reflect := ⟨0, 0, 0, 0⟩ }

/-- A quad of two triangles in the plane `z = 0`. -/
def quadMesh : CredibleMesh :=
  { VertexCount := 4, FaceCount := 2, IndexCount := 6, DiffuseTexture := 0,
    DefaultDiffuseTextureName := [], NormalTexture := 0, MeshMaterial := sampleMaterial,
    MaterialOpacity := 1, MaterialShininess := 1, SpecularStrength := 1, NumBones := 0,
    Bones := [], IndexBufferFormat := DXGI_FORMAT.DXGI_FORMAT_R16_UINT,
    PositionalVertices := [⟨0, 0, 0⟩, ⟨1, 0, 0⟩, ⟨1, 1, 0⟩, ⟨0, 1, 0⟩],
    Indices := [0, 1, 2, 2, 3, 0],
    MeshBoundingBox := { Center := ⟨1 / 2, 1 / 2, 0⟩, Extents := ⟨1 / 2, 1 / 2, 0⟩ } }

/-- A shear; it does not commute with `shearY`. -/
def shearX : XMFLOAT4X4 := !![1, 1, 0, 0; 0, 1, 0, 0; 0, 0, 1, 0; 0, 0, 0, 1]

/-- A shear; it does not commute with `shearX`. -/
def shearY : XMFLOAT4X4 := !![1, 0, 0, 0; 1, 1, 0, 0; 0, 0, 1, 0; 0, 0, 0, 1]

/-- The quad with one bone, named after the second node of `skinnedModel`. -/
def skinnedMesh : CredibleMesh :=
  { quadMesh with NumBones := 1, Bones := [{ Name := [98], Offset := shearX }] }

/-- A model of two nodes: the root owns `skinnedMesh`, its child is the node
of the bone. -/
def skinnedModel : CredibleModelData :=
  { ModelAnimationData := []
    Nodes :=
      [{ Name := [97], Enabled := true, Children := [1], Parent := none, LocalTransform := 1,
         GlobalTransform := 1, Meshes := [skinnedMesh], ChannelIndex := 0 },
       { Name := [98], Enabled := true, Children := [], Parent := some 0,
         LocalTransform := shearY, GlobalTransform := shearY, Meshes := [], ChannelIndex := 1 }]
    RootNode := some 0
    _vertexStride := 0
    _globalBoneTransforms := []
    _numMeshes := 1
    _numMaterials := 0
    _numTextures := 0
    _numAnimations := 1
    _hasAnimations := true
    _boundingBox := quadMesh.MeshBoundingBox
    _allMeshes := [(0, 0)]
    _boneNodesByName := fun name => if name = [98] then some 1 else none
    _textureMapping := fun _ => none }

/-- A file system without files, a DDS loader that fails and a WIC loader that
succeeds. -/
def sampleWorld : World :=
  { files := fun _ => none
    CreateDDSTextureFromMemory := fun _ => 0
    CreateWICTextureFromFile := fun path => path.length + 1 }

/-- An initialized, empty cache with the root directory `r\`. -/
def sampleAssets : AssetManager :=
  { _assetRootDirectory := [114, 92]
    _d3dDevice := 1
    _loadedTextures := fun _ => none
    _loadedModels := fun _ => none
    _defaultTextures := fun _ => none
    _instanceToModelInstance := fun _ => none
    criticalErrors := 0
    textureLoads := []
    modelsConstructed := 0 }

/-- A platform with 8-byte `size_t`, 32 bytes of bone weights per animated
vertex, and floats of which only 0 and 1 are told apart. -/
def samplePlatform : Platform :=
  { floatOfBits := fun bits => if bits = 1065353216 then 1 else 0
    sizeofSizeT := 8
    sizeofBoneWeights := 32
    indeterminate := 0 }

/-- Item slots 1 and 2, and model files named `m` followed by a digit. -/
def sampleTypes : InstanceSaveTypes :=
  { ITEM_SLOT_BEGIN := 0
    ITEM_SLOT_END := 3
    Doodad_Hitodama := 10
    Doodad_Fire := 11
    InstanceTypeToModelPath := fun t => [109, 48 + t] }

/-- The procedural geometry of the quad. -/
def quadData : GeometryGenerator.MeshData :=
  { Vertices :=
      [⟨⟨0, 0, 0⟩, ⟨0, 0, 1⟩, ⟨0, 0⟩⟩, ⟨⟨1, 0, 0⟩, ⟨0, 0, 1⟩, ⟨1, 0⟩⟩,
       ⟨⟨1, 1, 0⟩, ⟨0, 0, 1⟩, ⟨1, 1⟩⟩, ⟨⟨0, 1, 0⟩, ⟨0, 0, 1⟩, ⟨0, 1⟩⟩]
    Indices := [0, 1, 2, 2, 3, 0] }

/-- The model constructed from `quadData` with the texture handle 5. -/
def proceduralModel : CredibleModelData :=
  CredibleModelData.ofMeshData samplePlatform skinnedModel quadData 5

/-- The 32-bit pattern of the floats 1 and 0 (every other float is written as 0). -/
def sampleBits (x : ℚ) : Nat := if x = 1 then 1065353216 else 0

/-- A triangle with one bone, the 16-bit flag set and a diffuse texture path. -/
def sampleKsmMesh : Ksm.Mesh :=
  { faceCount := 1
    diffuse := ⟨1, 1, 1, 1⟩
    ambient := ⟨1, 1, 1, 1⟩
    reflect := ⟨0, 0, 0, 0⟩
    specular := ⟨0, 0, 0, 1⟩
    opacity := 1
    shininess := 1
    specStrength := 1
    indicesAre16Bit := true
    indices := [0, 1, 2]
    hasAnimVertices := false
    vertices :=
      [(⟨⟨0, 0, 0⟩, ⟨0, 0, 1⟩, ⟨0, 0⟩⟩, []), (⟨⟨1, 0, 0⟩, ⟨0, 0, 1⟩, ⟨1, 0⟩⟩, []),
       (⟨⟨0, 1, 0⟩, ⟨0, 0, 1⟩, ⟨0, 1⟩⟩, [])]
    diffusePath := [97, 47, 116]
    normalPath := []
    bones := [{ Name := [114], Offset := 1 }]
    boundingBox := { Center := ⟨0, 0, 0⟩, Extents := ⟨1, 1, 0⟩ } }

/-- A model of the layout with a root and one child that owns `sampleKsmMesh`. -/
def sampleKsm : Ksm.Model :=
  { materialCount := 1
    textureCount := 1
    root := .mk [114] 1 0 [] [.mk [99] 1 1 [sampleKsmMesh] []]
    clips := []
    boundingBox := { Center := ⟨0, 0, 0⟩, Extents := ⟨1, 1, 0⟩ } }

/-- The bytes of `sampleKsm`, index elements persisted as 32-bit values. -/
def sampleBytes : List Nat := Ksm.encode sampleBits 8 false sampleKsm

/-- A file system whose only file is the model file of type 5 under the
asset root of `sampleAssets`, holding `sampleBytes`. -/
def diskWorld : World :=
  { sampleWorld with
    files := fun path => if path = [114, 92, 109, 53] then some sampleBytes else none }

/-- The empty cache `sampleAssets` with the remap table entry `7 ↦ 5`. -/
def remapAssets : AssetManager :=
  { sampleAssets with _instanceToModelInstance := fun t => if t = 7 then some 5 else none }

/-- The pointers returned by `LoadKsmModel(5)`, `LoadKsmModel(7)`,
`LoadKsmModel(5)` run in this order from `remapAssets`, with the number of
models constructed after the first and after the third call. -/
def loadThrice : Option (Nat × Nat × Nat × Nat × Nat) :=
  match remapAssets.LoadKsmModel samplePlatform diskWorld sampleTypes skinnedModel 5 with
  | none => none
  | some (p0, s0) =>
    match s0.LoadKsmModel samplePlatform diskWorld sampleTypes skinnedModel 7 with
    | none => none
    | some (p1, s1) =>
      match s1.LoadKsmModel samplePlatform diskWorld sampleTypes skinnedModel 5 with
      | none => none
      | some (p2, s2) => some (p0, p1, p2, s0.modelsConstructed, s2.modelsConstructed)

/-- A mesh of the layout with animated vertices and 32-bit indices. -/
def animatedKsmMesh : Ksm.Mesh :=
  { sampleKsmMesh with
    indicesAre16Bit := false
    hasAnimVertices := true
    vertices :=
      [(⟨⟨0, 0, 0⟩, ⟨0, 0, 1⟩, ⟨0, 0⟩⟩, List.replicate 32 0),
       (⟨⟨1, 0, 0⟩, ⟨0, 0, 1⟩, ⟨1, 0⟩⟩, List.replicate 32 0),
       (⟨⟨0, 1, 0⟩, ⟨0, 0, 1⟩, ⟨0, 1⟩⟩, List.replicate 32 0)]
    diffusePath := []
    bones := [{ Name := [99], Offset := 1 }, { Name := [114], Offset := 1 }] }

/-- A model of the layout with three nodes, a mesh with the 16-bit flag set,
an animated mesh with the flag clear, and one animation clip. -/
def richKsm : Ksm.Model :=
  { materialCount := 1
    textureCount := 1
    root := .mk [114] 1 0 [sampleKsmMesh] [.mk [99] 1 1 [animatedKsmMesh] [], .mk [100] 1 2 [] []]
    clips :=
      [{ Name := [119], Duration := 1, TicksPerSecond := 1,
         BoneAnimations := [{ Keyframes := [⟨⟨0, 0, 0⟩, ⟨1, 1, 1⟩, ⟨0, 0, 0, 1⟩, 0⟩] }],
         TotalFrames := 1 }]
    boundingBox := { Center := ⟨0, 0, 0⟩, Extents := ⟨1, 1, 0⟩ } }

/-- The cache `sampleAssets` before `Initialize`: no device. -/
def coldAssets : AssetManager := { sampleAssets with _d3dDevice := 0 }

/-- Procedural geometry of four indices: one whole triangle and one more
index. -/
def oddData : GeometryGenerator.MeshData :=
  { Vertices := quadData.Vertices, Indices := [0, 1, 2, 3] }

/-- A mesh of the layout whose record declares one face and carries four
indices. -/
def oddKsmMesh : Ksm.Mesh :=
  { sampleKsmMesh with indices := [0, 1, 2, 0], diffusePath := [] }

/-- The bytes of the record of `oddKsmMesh`. -/
def oddMeshBytes : List Nat := Ksm.encodeMesh sampleBits false oddKsmMesh

/-- The bytes of `richKsm`, index elements persisted as 32-bit values. -/
def richBytes : List Nat := Ksm.encode sampleBits 8 false richKsm

/-- A draw state for a model: constant buffers of zeros, four bone slots, no
texture override, no call made yet. -/
def sampleDraw (model : CredibleModelData) : DrawState :=
  { model := model
    cb := { World := 0, WorldInvTranspose := 0, Mat := sampleMaterial }
    aCb := { gBoneTransforms := [0, 0, 0, 0] }
    textureOverrides := fun _ => none
    dc := []
    criticalErrors := 0 }

/-- The inverse transpose of a matrix, by the adjugate. -/
def exactInverseTranspose (M : XMFLOAT4X4) : XMFLOAT4X4 := (exactInverse M).transpose

/-- The draw state `sampleDraw` of `proceduralModel`, whose mesh has the
texture handle 5 and whose handle-to-slot map is empty, with the override 9
supplied for the item slot of value 0. -/
def overrideDraw : DrawState :=
  { sampleDraw proceduralModel with textureOverrides := fun s => if s = 0 then some 9 else none }

/-- The quad with two bones, named after the two nodes of `twoBoneModel`,
both with the identity as offset. -/
def twoBoneMesh : CredibleMesh :=
  { quadMesh with
    NumBones := 2, Bones := [{ Name := [97], Offset := 1 }, { Name := [98], Offset := 1 }] }

/-- A model of two nodes with identity transforms: the root `a` owns
`twoBoneMesh`, its child is `b`. -/
def twoBoneModel : CredibleModelData :=
  { skinnedModel with
    Nodes :=
      [{ Name := [97], Enabled := true, Children := [1], Parent := none, LocalTransform := 1,
         GlobalTransform := 1, Meshes := [twoBoneMesh], ChannelIndex := 0 },
       { Name := [98], Enabled := true, Children := [], Parent := some 0,
         LocalTransform := 1, GlobalTransform := 1, Meshes := [], ChannelIndex := 1 }]
    _boneNodesByName := fun name =>
      if name = [97] then some 0 else if name = [98] then some 1 else none }

/-- A model of the layout with one animation clip whose only node owns a
mesh without bones and without animated vertices. -/
def mixedKsm : Ksm.Model :=
  { richKsm with
    root := .mk [114] 1 0 [{ sampleKsmMesh with bones := [], diffusePath := [] }] [] }

/-- The bytes of `mixedKsm`, index elements persisted as 32-bit values. -/
def mixedBytes : List Nat := Ksm.encode sampleBits 8 false mixedKsm

/-- Three nodes in a chain: the root, its child and its grandchild, each with
its own local transform and a global transform that is not up to date. -/
def chainNodes : List CredibleNode :=
  [ { CredibleNode.default samplePlatform with
      LocalTransform := Matrix.diagonal ![2, 1, 1, 1], GlobalTransform := 0, Children := [1] },
    { CredibleNode.default samplePlatform with
      LocalTransform := Matrix.diagonal ![1, 3, 1, 1], GlobalTransform := 0,
      Parent := some 0, Children := [2] },
    { CredibleNode.default samplePlatform with
      LocalTransform := Matrix.diagonal ![1, 1, 5, 1], GlobalTransform := 0,
      Parent := some 1 } ]

/-- The empty cache `sampleAssets` with the remap table entries `7 ↦ 5` and
`10 ↦ 5`; 10 is `Doodad_Hitodama` in `sampleTypes`. -/
def doodadAssets : AssetManager :=
  { sampleAssets with
    _instanceToModelInstance := fun t => if t = 7 ∨ t = 10 then some 5 else none }

/-! # Theorems -/

set_option maxRecDepth 100000

theorem triangle_isSome (mesh : CredibleMesh)
    (hcount : mesh.VertexCount = mesh.PositionalVertices.length)
    (hidx : ∀ i ∈ mesh.Indices, i < mesh.VertexCount)
    (n : Nat) (hn : n < mesh.Indices.length / 3) :
    ∃ t, mesh.triangle n = some t := by
  have h3 : n * 3 + 2 < mesh.Indices.length := by omega
  have e0 : mesh.Indices[n * 3 + 0]? = some (mesh.Indices[n * 3 + 0]) :=
    List.getElem?_eq_getElem (by omega)
  have e1 : mesh.Indices[n * 3 + 1]? = some (mesh.Indices[n * 3 + 1]) :=
    List.getElem?_eq_getElem (by omega)
  have e2 : mesh.Indices[n * 3 + 2]? = some (mesh.Indices[n * 3 + 2]) :=
    List.getElem?_eq_getElem (by omega)
  have b0 : mesh.Indices[n * 3 + 0] < mesh.PositionalVertices.length :=
    hcount ▸ hidx _ (List.getElem_mem _)
  have b1 : mesh.Indices[n * 3 + 1] < mesh.PositionalVertices.length :=
    hcount ▸ hidx _ (List.getElem_mem _)
  have b2 : mesh.Indices[n * 3 + 2] < mesh.PositionalVertices.length :=
    hcount ▸ hidx _ (List.getElem_mem _)
  simp only [CredibleMesh.triangle, e0, e1, e2, List.getElem?_eq_getElem b0,
    List.getElem?_eq_getElem b1, List.getElem?_eq_getElem b2, Option.pure_def,
    Option.bind_eq_bind, Option.some_bind]
  exact ⟨_, rfl⟩

theorem step_eq (dx : DirectXMath) (mesh : CredibleMesh) (o d : XMVECTOR)
    (T : Option XMFLOAT4X4) (acc : List XMFLOAT3) (n : Nat)
    (h : ∃ t, mesh.triangle n = some t) :
    CredibleMesh.GetAllIntersectionsBy.step dx mesh o d T acc n
      = some (acc ++ (mesh.hitPoint dx o d T n).toList) := by
  obtain ⟨⟨v0, v1, v2⟩, ht⟩ := h
  cases T with
  | none =>
    simp only [CredibleMesh.GetAllIntersectionsBy.step, CredibleMesh.hitPoint, ht, applyOptional]
    split <;> simp
  | some t =>
    simp only [CredibleMesh.GetAllIntersectionsBy.step, CredibleMesh.hitPoint, ht, applyOptional]
    split <;> simp

theorem foldlM_step (dx : DirectXMath) (mesh : CredibleMesh) (o d : XMVECTOR)
    (T : Option XMFLOAT4X4) :
    ∀ (l : List Nat) (acc : List XMFLOAT3),
      (∀ n ∈ l, ∃ t, mesh.triangle n = some t) →
      l.foldlM (CredibleMesh.GetAllIntersectionsBy.step dx mesh o d T) acc
        = some (acc ++ l.filterMap (mesh.hitPoint dx o d T)) := by
  intro l
  induction l with
  | nil => intro acc _; simp
  | cons n rest ih =>
    intro acc h
    have hn := h n (List.mem_cons_self _ _)
    rw [List.foldlM_cons, step_eq dx mesh o d T acc n hn]
    simp only [Option.bind_eq_bind, Option.some_bind]
    rw [ih _ (fun m hm => h m (List.mem_cons_of_mem _ hm))]
    cases hp : mesh.hitPoint dx o d T n <;> simp [List.filterMap_cons, hp]

theorem length_filterMap_eq {α β : Type} (f : α → Option β) (l : List α) :
    (l.filterMap f).length = (l.filter fun a => (f a).isSome).length := by
  induction l with
  | nil => rfl
  | cons a rest ih =>
    cases h : f a <;> simp [List.filterMap_cons, List.filter_cons, h, ih]

/-- C7: for every mesh whose indices are all smaller than its vertex count,
every ray and every optional transform `T`, `GetAllIntersectionsBy` returns
the list, in triangle order `n = 0 .. ⌊|Indices|/3⌋ − 1`, of one point per
triangle that `TriangleTests::Intersects` reports hit, the point being the
first vertex of the triangle after `T` (untransformed when `T` is absent);
nothing is deduplicated, so the length is the number of hit triangles. -/
theorem CredibleMesh.GetAllIntersectionsBy_all_hits (dx : DirectXMath) (mesh : CredibleMesh)
    (rayOrigin rayDirection : XMVECTOR) (translation : Option XMFLOAT4X4)
    (hcount : mesh.VertexCount = mesh.PositionalVertices.length)
    (hidx : ∀ i ∈ mesh.Indices, i < mesh.VertexCount) :
    mesh.GetAllIntersectionsBy dx rayOrigin rayDirection translation
        = some ((List.range (mesh.Indices.length / 3)).filterMap
            (mesh.hitPoint dx rayOrigin rayDirection translation))
      ∧ (∀ n, n < mesh.Indices.length / 3 →
          ∃ v0 v1 v2, mesh.triangle n = some (v0, v1, v2) ∧
            mesh.hitPoint dx rayOrigin rayDirection translation n =
              if dx.TriangleTestsIntersects rayOrigin rayDirection
                  (applyOptional translation v0) (applyOptional translation v1)
                  (applyOptional translation v2) then
                some (XMStoreFloat3 (applyOptional translation v0))
              else none)
      ∧ ((List.range (mesh.Indices.length / 3)).filterMap
            (mesh.hitPoint dx rayOrigin rayDirection translation)).length
          = ((List.range (mesh.Indices.length / 3)).filter fun n =>
              (mesh.hitPoint dx rayOrigin rayDirection translation n).isSome).length := by
  refine ⟨?_, ?_, length_filterMap_eq _ _⟩
  · have h := foldlM_step dx mesh rayOrigin rayDirection translation
      (List.range (mesh.Indices.length / 3)) []
      (fun n hn => triangle_isSome mesh hcount hidx n (List.mem_range.mp hn))
    simpa [CredibleMesh.GetAllIntersectionsBy] using h
  · intro n hn
    obtain ⟨⟨v0, v1, v2⟩, ht⟩ := triangle_isSome mesh hcount hidx n hn
    exact ⟨v0, v1, v2, ht, by simp only [CredibleMesh.hitPoint, ht]⟩

theorem scan_eq_any (dx : DirectXMath) (mesh : CredibleMesh) (m : XMFLOAT4X4)
    (o d : XMVECTOR) :
    ∀ l : List Nat, (∀ n ∈ l, ∃ t, mesh.triangle n = some t) →
      CredibleMesh.IntersectedBy.scan dx mesh m o d l
        = some (l.any (mesh.triangleHit dx m o d)) := by
  intro l
  induction l with
  | nil => intro _; rfl
  | cons n rest ih =>
    intro h
    obtain ⟨⟨v0, v1, v2⟩, ht⟩ := h n (List.mem_cons_self _ _)
    have ih' := ih (fun k hk => h k (List.mem_cons_of_mem _ hk))
    simp only [CredibleMesh.IntersectedBy.scan, ht, List.any_cons, CredibleMesh.triangleHit]
    split
    · rename_i hh; simp [hh]
    · rename_i hh
      rw [ih']
      simp [hh, CredibleMesh.triangleHit]

theorem scan_first_hit (dx : DirectXMath) (mesh : CredibleMesh) (m : XMFLOAT4X4)
    (o d : XMVECTOR) (n : Nat) (l2 : List Nat) (hn : mesh.triangleHit dx m o d n = true) :
    ∀ l1 : List Nat,
      (∀ k ∈ l1, (∃ t, mesh.triangle k = some t) ∧ mesh.triangleHit dx m o d k = false) →
      CredibleMesh.IntersectedBy.scan dx mesh m o d (l1 ++ n :: l2) = some true := by
  intro l1
  induction l1 with
  | nil =>
    intro _
    simp only [List.nil_append, CredibleMesh.IntersectedBy.scan]
    unfold CredibleMesh.triangleHit at hn
    split
    · rename_i h; simp [h] at hn
    · rename_i v0 v1 v2 h
      simp only [h] at hn
      simp [hn]
  | cons k rest ih =>
    intro h
    obtain ⟨⟨⟨v0, v1, v2⟩, ht⟩, hk⟩ := h k (List.mem_cons_self _ _)
    have ih' := ih (fun j hj => h j (List.mem_cons_of_mem _ hj))
    simp only [CredibleMesh.triangleHit, ht] at hk
    simp only [List.cons_append, CredibleMesh.IntersectedBy.scan, ht, hk]
    simpa using ih'

theorem range_split (cnt n : Nat) (h : n < cnt) :
    ∃ l2, List.range cnt = List.range n ++ n :: l2 := by
  obtain ⟨b, rfl⟩ : ∃ b, cnt = n + (b + 1) := ⟨cnt - n - 1, by omega⟩
  refine ⟨(List.range b).map fun x => n + (x + 1), ?_⟩
  rw [List.range_add, List.range_succ_eq_map]
  simp [Function.comp_def]

/-- C8: `IntersectedBy` returns false when the local-space ray misses the
bounding box of the mesh; otherwise, on a mesh whose indices are all smaller
than its vertex count, it returns true if and only if some triangle
`n < ⌊|Indices|/3⌋`, its vertices transformed by the transposed node
transform, is reported hit; and it returns true at the first hit triangle in
declaration order, whatever the triangles after it are. -/
theorem CredibleMesh.IntersectedBy_first_hit (dx : DirectXMath) (mesh : CredibleMesh)
    (rayOrigin rayDirection : XMVECTOR)
    (worldTransform nodeTransform inverseView : XMFLOAT4X4) :
    (dx.BoundingBoxIntersects mesh.MeshBoundingBox
          (CredibleMesh.IntersectedBy.localRay dx rayOrigin rayDirection worldTransform inverseView).1
          (CredibleMesh.IntersectedBy.localRay dx rayOrigin rayDirection worldTransform inverseView).2
        = false →
      mesh.IntersectedBy dx rayOrigin rayDirection worldTransform nodeTransform inverseView
        = some false)
    ∧ (dx.BoundingBoxIntersects mesh.MeshBoundingBox
          (CredibleMesh.IntersectedBy.localRay dx rayOrigin rayDirection worldTransform inverseView).1
          (CredibleMesh.IntersectedBy.localRay dx rayOrigin rayDirection worldTransform inverseView).2
        = true →
      mesh.VertexCount = mesh.PositionalVertices.length →
      (∀ i ∈ mesh.Indices, i < mesh.VertexCount) →
      ∃ b, mesh.IntersectedBy dx rayOrigin rayDirection worldTransform nodeTransform inverseView
            = some b
          ∧ (b = true ↔ ∃ n, n < mesh.Indices.length / 3 ∧
              mesh.triangleHit dx nodeTransform.transpose
                (CredibleMesh.IntersectedBy.localRay dx rayOrigin rayDirection worldTransform inverseView).1
                (CredibleMesh.IntersectedBy.localRay dx rayOrigin rayDirection worldTransform inverseView).2
                n = true))
    ∧ (∀ n, dx.BoundingBoxIntersects mesh.MeshBoundingBox
          (CredibleMesh.IntersectedBy.localRay dx rayOrigin rayDirection worldTransform inverseView).1
          (CredibleMesh.IntersectedBy.localRay dx rayOrigin rayDirection worldTransform inverseView).2
        = true →
      n < mesh.Indices.length / 3 →
      (∀ k, k < n → (∃ t, mesh.triangle k = some t) ∧
          mesh.triangleHit dx nodeTransform.transpose
            (CredibleMesh.IntersectedBy.localRay dx rayOrigin rayDirection worldTransform inverseView).1
            (CredibleMesh.IntersectedBy.localRay dx rayOrigin rayDirection worldTransform inverseView).2
            k = false) →
      mesh.triangleHit dx nodeTransform.transpose
          (CredibleMesh.IntersectedBy.localRay dx rayOrigin rayDirection worldTransform inverseView).1
          (CredibleMesh.IntersectedBy.localRay dx rayOrigin rayDirection worldTransform inverseView).2
          n = true →
      mesh.IntersectedBy dx rayOrigin rayDirection worldTransform nodeTransform inverseView
        = some true) := by
  refine ⟨?_, ?_, ?_⟩
  · intro hbox
    simp [CredibleMesh.IntersectedBy, hbox]
  · intro hbox hcount hidx
    refine ⟨(List.range (mesh.Indices.length / 3)).any (mesh.triangleHit dx nodeTransform.transpose
      (CredibleMesh.IntersectedBy.localRay dx rayOrigin rayDirection worldTransform inverseView).1
      (CredibleMesh.IntersectedBy.localRay dx rayOrigin rayDirection worldTransform inverseView).2),
      ?_, ?_⟩
    · simp only [CredibleMesh.IntersectedBy, hbox, if_true]
      exact scan_eq_any dx mesh _ _ _ _
        (fun n hn => triangle_isSome mesh hcount hidx n (List.mem_range.mp hn))
    · simp [List.any_eq_true, List.mem_range]
  · intro n hbox hn hbefore hhit
    obtain ⟨l2, hl⟩ := range_split _ n hn
    simp only [CredibleMesh.IntersectedBy, hbox, if_true, hl]
    exact scan_first_hit dx mesh _ _ _ n l2 hhit _
      (fun k hk => hbefore k (List.mem_range.mp hk))

theorem boneLoop_spec (self : CredibleModelData) (mesh : CredibleMesh) (git : XMFLOAT4X4)
    (hbones : ∀ bone ∈ mesh.Bones, ∃ p boneNode,
      self._boneNodesByName bone.Name = some p ∧ self.Nodes[p]? = some boneNode) :
    ∀ (l : List Nat) (acc : List XMFLOAT4X4), (∀ a ∈ l, a < mesh.Bones.length) →
      ∃ out, CredibleModelData.calculateGlobalBoneMatrices.loop self mesh git l acc = some out
        ∧ out.length = acc.length
        ∧ (∀ i, i ∉ l → out[i]? = acc[i]?)
        ∧ (∀ i, i ∈ l → i < acc.length → ∃ bone p boneNode,
            mesh.Bones[i]? = some bone ∧ self._boneNodesByName bone.Name = some p
              ∧ self.Nodes[p]? = some boneNode
              ∧ out[i]? = some (git * boneNode.GlobalTransform * bone.Offset)) := by
  intro l
  induction l with
  | nil =>
    intro acc _
    exact ⟨acc, rfl, rfl, fun _ _ => rfl, fun i hi => absurd hi (List.not_mem_nil i)⟩
  | cons a rest ih =>
    intro acc hl
    have ha : a < mesh.Bones.length := hl a (List.mem_cons_self _ _)
    have hb : mesh.Bones[a]? = some mesh.Bones[a] := List.getElem?_eq_getElem ha
    obtain ⟨p, bn, hp, hbn⟩ := hbones mesh.Bones[a] (List.getElem_mem _)
    obtain ⟨out, hout, hlen, hkeep, hset⟩ :=
      ih (acc.set a (git * bn.GlobalTransform * mesh.Bones[a].Offset))
        (fun b hb => hl b (List.mem_cons_of_mem _ hb))
    refine ⟨out, ?_, ?_, ?_, ?_⟩
    · simp only [CredibleModelData.calculateGlobalBoneMatrices.loop, hb, hp, hbn]
      exact hout
    · simpa using hlen
    · intro i hi
      have hia : a ≠ i := fun h => hi (h ▸ List.mem_cons_self _ _)
      have hir : i ∉ rest := fun h => hi (List.mem_cons_of_mem _ h)
      rw [hkeep i hir, List.getElem?_set_ne hia]
    · intro i hi hlt
      by_cases hir : i ∈ rest
      · exact hset i hir (by simpa using hlt)
      · have hia : i = a := by
          rcases List.mem_cons.mp hi with h | h
          · exact h
          · exact absurd h hir
        subst hia
        refine ⟨mesh.Bones[i], p, bn, hb, hp, hbn, ?_⟩
        rw [hkeep i hir, List.getElem?_set_self hlt]

theorem length_vectorResize {α : Type} (v : List α) (n : Nat) (val : α) :
    (vectorResize v n val).length = n := by
  simp only [vectorResize, List.length_append, List.length_take, List.length_replicate]
  omega

/-- C1 (amended): for every node `owner` at index `node` and every mesh with
`NumBones = N` bones whose names are all in the bone-name→node table,
`calculateGlobalBoneMatrices` returns a list of exactly `N` matrices whose
entry `i < N` is the product
`Inverse(GlobalTransform(owner)) × GlobalTransform(BoneNode_i) × Offset_i`, in
this order, which is `git * cgt * om` of line 477. -/
theorem CredibleModelData.calculateGlobalBoneMatrices_product (dx : DirectXMath)
    (self : CredibleModelData) (node : Nat) (owner : CredibleNode) (mesh : CredibleMesh)
    (hnode : self.Nodes[node]? = some owner)
    (hnum : mesh.NumBones = mesh.Bones.length)
    (hbones : ∀ bone ∈ mesh.Bones, ∃ p boneNode,
      self._boneNodesByName bone.Name = some p ∧ self.Nodes[p]? = some boneNode) :
    ∃ result, self.calculateGlobalBoneMatrices dx node mesh = some result
      ∧ result.length = mesh.NumBones
      ∧ ∀ i, i < mesh.NumBones → ∃ bone p boneNode,
          mesh.Bones[i]? = some bone ∧ self._boneNodesByName bone.Name = some p
            ∧ self.Nodes[p]? = some boneNode
            ∧ result[i]? = some (dx.MathHelperInverse owner.GlobalTransform
                * boneNode.GlobalTransform * bone.Offset) := by
  obtain ⟨out, hout, hlen, -, hset⟩ :=
    boneLoop_spec self mesh (dx.MathHelperInverse owner.GlobalTransform) hbones
      (List.range mesh.NumBones) (vectorResize self._globalBoneTransforms mesh.NumBones 1)
      (fun a ha => hnum ▸ List.mem_range.mp ha)
  refine ⟨out, ?_, ?_, ?_⟩
  · simp only [CredibleModelData.calculateGlobalBoneMatrices, hnode]
    exact hout
  · rw [hlen, length_vectorResize]
  · intro i hi
    exact hset i (List.mem_range.mpr hi) (by rw [length_vectorResize]; exact hi)

theorem exactInverse_one : exactInverse 1 = 1 := by simp [exactInverse]

theorem XMVector3TransformCoord_one (v : XMVECTOR) :
    XMVector3TransformCoord v 1 = ⟨v.x, v.y, v.z, 1⟩ := by
  simp [XMVector3TransformCoord, Matrix.one_apply]

theorem XMVector3TransformNormal_one (v : XMVECTOR) :
    XMVector3TransformNormal v 1 = ⟨v.x, v.y, v.z, 0⟩ := by
  simp [XMVector3TransformNormal, Matrix.one_apply]

/-- C7 on the two-triangle quad `quadMesh`, without a transform. -/
theorem GetAllIntersectionsBy_all_hits_witness :
    quadMesh.GetAllIntersectionsBy sampleMath ⟨1, 1, 0, 1⟩ ⟨0, 0, 1, 0⟩ none
        = some ((List.range (quadMesh.Indices.length / 3)).filterMap
            (quadMesh.hitPoint sampleMath ⟨1, 1, 0, 1⟩ ⟨0, 0, 1, 0⟩ none)) :=
  (CredibleMesh.GetAllIntersectionsBy_all_hits sampleMath quadMesh ⟨1, 1, 0, 1⟩ ⟨0, 0, 1, 0⟩ none
    (by decide) (by decide)).1

theorem localRay_sample (rayOrigin rayDirection : XMVECTOR) :
    CredibleMesh.IntersectedBy.localRay sampleMath rayOrigin rayDirection 1 1
      = (⟨rayDirection.x, rayDirection.y, rayDirection.z, 1⟩,
         ⟨rayDirection.x, rayDirection.y, rayDirection.z, 0⟩) := by
  simp [CredibleMesh.IntersectedBy.localRay, sampleMath, exactInverse_one,
    XMVector3TransformCoord_one, XMVector3TransformNormal_one]

/-- C9 fails: with the identity as world and inverse view matrices, the ray
origin (1, 0, 0) and the ray direction (0, 0, 1), the origin `IntersectedBy`
tests with is (0, 0, 1), the direction transformed as a point (line 98 passes
`newRayDirection`), and not (1, 0, 0), the origin transformed as a point by
`inverseView × inverseWorld`. -/
theorem CredibleMesh.IntersectedBy_origin_from_direction :
    (CredibleMesh.IntersectedBy.localRay sampleMath ⟨1, 0, 0, 1⟩ ⟨0, 0, 1, 0⟩ 1 1).1
        = ⟨0, 0, 1, 1⟩
      ∧ XMVector3TransformCoord ⟨1, 0, 0, 1⟩ ((1 : XMFLOAT4X4) * sampleMath.XMMatrixInverse 1)
        = ⟨1, 0, 0, 1⟩
      ∧ (CredibleMesh.IntersectedBy.localRay sampleMath ⟨1, 0, 0, 1⟩ ⟨0, 0, 1, 0⟩ 1 1).1
        ≠ XMVector3TransformCoord ⟨1, 0, 0, 1⟩ ((1 : XMFLOAT4X4) * sampleMath.XMMatrixInverse 1) := by
  have h1 : sampleMath.XMMatrixInverse 1 = 1 := exactInverse_one
  rw [localRay_sample, h1, one_mul, XMVector3TransformCoord_one]
  refine ⟨rfl, rfl, by decide⟩

/-- C8 on `quadMesh`: a ray that misses the box gives false, a ray that hits
the second triangle and not the first gives true. -/
theorem IntersectedBy_first_hit_witness :
    quadMesh.IntersectedBy sampleMath ⟨0, 0, 0, 1⟩ ⟨2, 2, 0, 0⟩ 1 1 1 = some false
      ∧ quadMesh.IntersectedBy sampleMath ⟨0, 0, 0, 1⟩ ⟨1, 1, 0, 0⟩ 1 1 1 = some true :=
  ⟨(CredibleMesh.IntersectedBy_first_hit sampleMath quadMesh ⟨0, 0, 0, 1⟩ ⟨2, 2, 0, 0⟩ 1 1 1).1
      (by rw [localRay_sample]; simp [sampleMath, quadMesh]; norm_num),
   (CredibleMesh.IntersectedBy_first_hit sampleMath quadMesh ⟨0, 0, 0, 1⟩ ⟨1, 1, 0, 0⟩ 1 1 1).2.2 1
      (by rw [localRay_sample]; simp [sampleMath, quadMesh]; norm_num)
      (by decide)
      (by
        intro k hk
        have hk0 : k = 0 := by omega
        subst hk0
        rw [localRay_sample]
        refine ⟨⟨_, rfl⟩, ?_⟩
        simp [CredibleMesh.triangleHit, CredibleMesh.triangle, quadMesh, sampleMath,
          XMVector3TransformCoord_one, XMVectorSet, XMStoreFloat3])
      (by
        rw [localRay_sample]
        simp [CredibleMesh.triangleHit, CredibleMesh.triangle, quadMesh, sampleMath,
          XMVector3TransformCoord_one, XMVectorSet, XMStoreFloat3])⟩

theorem shear_ne : shearY * shearX ≠ shearX * shearY := by
  intro h
  have := congrFun (congrFun h 0) 0
  simp [shearX, shearY, Matrix.mul_apply, Fin.sum_univ_four] at this

/-- C1, as stated, fails on `skinnedModel`: the owning node has the identity
as global transform, the bone node has `shearY` and the bone has the offset
`shearX`; the matrix stored is `shearY * shearX`, whereas
`Offset × GlobalTransform(BoneNode) × Inverse(GlobalTransform(owner))` is
`shearX * shearY * 1`, another matrix. -/
theorem calculateGlobalBoneMatrices_order_counterexample :
    skinnedModel.calculateGlobalBoneMatrices sampleMath 0 skinnedMesh = some [shearY * shearX]
      ∧ shearY * shearX ≠ shearX * shearY * sampleMath.MathHelperInverse 1 := by
  have h1 : sampleMath.MathHelperInverse 1 = 1 := exactInverse_one
  refine ⟨?_, ?_⟩
  · simp [CredibleModelData.calculateGlobalBoneMatrices,
      CredibleModelData.calculateGlobalBoneMatrices.loop, skinnedModel, skinnedMesh, h1,
      vectorResize, List.range, List.range.loop]
  · rw [h1, mul_one]; exact shear_ne

/-- C1 on `skinnedModel` and its mesh with one bone: one matrix is
produced. -/
theorem calculateGlobalBoneMatrices_product_witness :
    ∃ result, skinnedModel.calculateGlobalBoneMatrices sampleMath 0 skinnedMesh = some result
      ∧ result.length = skinnedMesh.NumBones :=
  have h := CredibleModelData.calculateGlobalBoneMatrices_product sampleMath skinnedModel 0
    { Name := [97], Enabled := true, Children := [1], Parent := none, LocalTransform := 1,
      GlobalTransform := 1, Meshes := [skinnedMesh], ChannelIndex := 0 } skinnedMesh rfl rfl
    (by
      intro bone hb
      have : bone = { Name := [98], Offset := shearX } := by
        simpa [skinnedMesh] using hb
      subst this
      exact ⟨1, _, rfl, rfl⟩)
  let ⟨r, h1, h2, _⟩ := h
  ⟨r, h1, h2⟩


theorem GetTexture_cached (w : World) (self : AssetManager) (path : wstring) (ret : Nat)
    (hinit : self._d3dDevice ≠ 0)
    (h : self._loadedTextures (PathString.GetFileNameOnly path) = some ret) :
    self.GetTexture w path = (ret, self) := by
  simp [AssetManager.GetTexture, hinit, h]

/-- C4: on an initialized cache (`_d3dDevice` is not null), for two paths `p`
and `q` with the same filename component, `GetTexture(p)` followed by
`GetTexture(q)` returns the same handle both times; the second call leaves the
texture table unchanged and invokes no loader; the first call invokes the
loader at most once, on the root directory followed by `p`. -/
theorem AssetManager.GetTexture_same_filename (w : World) (self : AssetManager)
    (p q : wstring) (hinit : self._d3dDevice ≠ 0)
    (hname : PathString.GetFileNameOnly p = PathString.GetFileNameOnly q) :
    ((self.GetTexture w p).2.GetTexture w q).1 = (self.GetTexture w p).1
      ∧ ((self.GetTexture w p).2.GetTexture w q).2._loadedTextures
          = (self.GetTexture w p).2._loadedTextures
      ∧ ((self.GetTexture w p).2.GetTexture w q).2.textureLoads
          = (self.GetTexture w p).2.textureLoads
      ∧ ((self.GetTexture w p).2.textureLoads = self.textureLoads
          ∨ (self.GetTexture w p).2.textureLoads
              = self.textureLoads ++ [self._assetRootDirectory ++ p]) := by
  have hfirst : (self.GetTexture w p).2._d3dDevice ≠ 0
      ∧ (self.GetTexture w p).2._loadedTextures (PathString.GetFileNameOnly q)
          = some (self.GetTexture w p).1
      ∧ ((self.GetTexture w p).2.textureLoads = self.textureLoads
          ∨ (self.GetTexture w p).2.textureLoads
              = self.textureLoads ++ [self._assetRootDirectory ++ p]) := by
    cases hc : self._loadedTextures (PathString.GetFileNameOnly p) with
    | some ret =>
      rw [GetTexture_cached w self p ret hinit hc]
      exact ⟨hinit, hname ▸ hc, Or.inl rfl⟩
    | none =>
      simp only [AssetManager.GetTexture, hinit, if_false, hc]
      refine ⟨hinit, ?_, Or.inr trivial⟩
      rw [← hname]
      simp
  obtain ⟨h1, h2, h3⟩ := hfirst
  rw [GetTexture_cached w (self.GetTexture w p).2 q (self.GetTexture w p).1 h1 h2]
  exact ⟨rfl, rfl, rfl, h3⟩

/-- C4 on the paths `a/t` and `b/t` and the empty cache `sampleAssets`. -/
theorem GetTexture_same_filename_witness :
    ((sampleAssets.GetTexture sampleWorld [97, 47, 116]).2.GetTexture sampleWorld
        [98, 47, 116]).1
      = (sampleAssets.GetTexture sampleWorld [97, 47, 116]).1 :=
  (AssetManager.GetTexture_same_filename sampleWorld sampleAssets [97, 47, 116] [98, 47, 116]
    (by decide) (by decide)).1


theorem foldl_assignSlot_apply (writes : List (Nat × Nat)) :
    ∀ (mapping : Nat → Option Nat) (k : Nat),
      (writes.foldl assignSlot mapping) k
        = match lastWrite writes k with
          | some v => some v
          | none => mapping k := by
  induction writes with
  | nil => intro mapping k; rfl
  | cons write rest ih =>
    intro mapping k
    rw [List.foldl_cons, ih]
    simp only [lastWrite]
    cases h : lastWrite rest k with
    | some v => rfl
    | none =>
      by_cases hk : k = write.1
      · subst hk
        simp [assignSlot]
      · simp [assignSlot, hk, Function.update_noteq hk]

theorem foldl_assignSlot_idem (writes : List (Nat × Nat)) (mapping : Nat → Option Nat) :
    writes.foldl assignSlot (writes.foldl assignSlot mapping) = writes.foldl assignSlot mapping := by
  funext k
  rw [foldl_assignSlot_apply writes (writes.foldl assignSlot mapping) k,
    foldl_assignSlot_apply writes mapping k]
  cases lastWrite writes k <;> rfl

theorem foldlM_step_writes (self : CredibleModelData) (itemSlot : Nat) (textureName : wstring) :
    ∀ (ptrs : List (Nat × Nat)) (mapping : Nat → Option Nat),
      (∀ ptr ∈ ptrs, ∃ mesh, self.meshAt ptr = some mesh) →
      ptrs.foldlM (CredibleModelData.SetTextureMapping.step self itemSlot textureName) mapping
        = some ((ptrs.filterMap (self.meshWrite itemSlot textureName)).foldl assignSlot
            mapping) := by
  intro ptrs
  induction ptrs with
  | nil => intro mapping _; rfl
  | cons ptr rest ih =>
    intro mapping h
    obtain ⟨mesh, hm⟩ := h ptr (List.mem_cons_self _ _)
    have ih' := fun mp => ih mp (fun q hq => h q (List.mem_cons_of_mem _ hq))
    rw [List.foldlM_cons]
    by_cases hn : mesh.DefaultDiffuseTextureName = textureName
    · simp [CredibleModelData.SetTextureMapping.step, CredibleModelData.meshWrite, hm, hn, ih',
        List.filterMap_cons, assignSlot]
    · simp [CredibleModelData.SetTextureMapping.step, CredibleModelData.meshWrite, hm, hn, ih',
        List.filterMap_cons]

theorem SetTextureMapping_eq (self : CredibleModelData) (itemSlot : Nat) (textureName : wstring)
    (hvalid : self.meshPointersValid) :
    self.SetTextureMapping itemSlot textureName
      = some { self with
          _textureMapping :=
            (self.slotWrites itemSlot textureName).foldl assignSlot self._textureMapping } := by
  simp only [CredibleModelData.SetTextureMapping,
    foldlM_step_writes self itemSlot textureName self._allMeshes self._textureMapping hvalid,
    Option.map_some', CredibleModelData.slotWrites]

theorem slotWrites_congr (a b : CredibleModelData) (hn : a.Nodes = b.Nodes)
    (hm : a._allMeshes = b._allMeshes) (itemSlot : Nat) (textureName : wstring) :
    a.slotWrites itemSlot textureName = b.slotWrites itemSlot textureName := by
  have h : a.meshWrite itemSlot textureName = b.meshWrite itemSlot textureName := by
    funext ptr
    simp only [CredibleModelData.meshWrite, CredibleModelData.meshAt, hn]
  simp only [CredibleModelData.slotWrites, h, hm]

theorem meshPointersValid_congr (a b : CredibleModelData) (hn : a.Nodes = b.Nodes)
    (hm : a._allMeshes = b._allMeshes) (h : a.meshPointersValid) : b.meshPointersValid := by
  intro ptr hp
  have := h ptr (hm ▸ hp)
  simpa only [CredibleModelData.meshAt, hn] using this

theorem defaultTexture_name_stable (self : AssetManager) (k s s' : Nat) :
    ((self.defaultTexture k s').2.defaultTexture k s).1 = (self.defaultTexture k s).1 := by
  simp only [AssetManager.defaultTexture, Function.update_same]
  by_cases h : s = s'
  · subst h
    simp only [Function.update_same]
  · simp only [Function.update_noteq h]

theorem slotsWrites_congr (self : AssetManager) (a b : CredibleModelData)
    (hn : a.Nodes = b.Nodes) (hm : a._allMeshes = b._allMeshes) (k : Nat) (slots : List Nat) :
    self.slotsWrites a k slots = self.slotsWrites b k slots := by
  simp only [AssetManager.slotsWrites, slotWrites_congr a b hn hm]

theorem slotsWrites_stable (self : AssetManager) (model : CredibleModelData) (k s' : Nat)
    (slots : List Nat) :
    (self.defaultTexture k s').2.slotsWrites model k slots = self.slotsWrites model k slots := by
  simp only [AssetManager.slotsWrites, defaultTexture_name_stable]

theorem slots_eq (k : Nat) :
    ∀ (slots : List Nat) (model : CredibleModelData) (self : AssetManager),
      model.meshPointersValid →
      ∃ model' self', AssetManager.LoadKsmModel.slots k slots model self = some (model', self')
        ∧ model'.Nodes = model.Nodes ∧ model'._allMeshes = model._allMeshes
        ∧ model'._textureMapping
            = (self.slotsWrites model k slots).foldl assignSlot model._textureMapping
        ∧ (∀ l, self'.slotsWrites model k l = self.slotsWrites model k l) := by
  intro slots
  induction slots with
  | nil =>
    intro model self _
    exact ⟨model, self, rfl, rfl, rfl, rfl, fun _ => rfl⟩
  | cons slot rest ih =>
    intro model self hvalid
    have hset := SetTextureMapping_eq model slot (self.defaultTexture k slot).1 hvalid
    obtain ⟨model', self', hrun, hn, hm, htm, hst⟩ :=
      ih { model with
            _textureMapping :=
              (model.slotWrites slot (self.defaultTexture k slot).1).foldl assignSlot
                model._textureMapping }
        (self.defaultTexture k slot).2
        (meshPointersValid_congr model _ rfl rfl hvalid)
    refine ⟨model', self', ?_, hn, hm, ?_, ?_⟩
    · simp only [AssetManager.LoadKsmModel.slots, hset]
      exact hrun
    · rw [htm, slotsWrites_stable]
      simp only [AssetManager.slotsWrites, List.flatMap_cons, List.foldl_append]
      rfl
    · intro l
      exact (hst l).trans (slotsWrites_stable self _ k slot l)

/-- C6: for every cached model whose flat mesh list points to meshes of its
nodes and every default texture table, the per-slot sequence of
`SetTextureMapping` calls of `LoadKsmModel` (lines 422-426) runs to its end,
and running it a second time leaves the handle→slot map equal to the map after
the first run. -/
theorem AssetManager.LoadKsmModel_slots_idempotent (ist : InstanceSaveTypes)
    (modelInstanceType : Nat) (model : CredibleModelData) (self : AssetManager)
    (hvalid : model.meshPointersValid) :
    ∃ first assets1 second assets2,
      AssetManager.LoadKsmModel.slots modelInstanceType ist.itemSlots model self
          = some (first, assets1)
        ∧ AssetManager.LoadKsmModel.slots modelInstanceType ist.itemSlots first assets1
          = some (second, assets2)
        ∧ second._textureMapping = first._textureMapping := by
  obtain ⟨m1, a1, h1, hn1, hm1, ht1, hs1⟩ :=
    slots_eq modelInstanceType ist.itemSlots model self hvalid
  obtain ⟨m2, a2, h2, -, -, ht2, -⟩ :=
    slots_eq modelInstanceType ist.itemSlots m1 a1
      (meshPointersValid_congr model m1 hn1.symm hm1.symm hvalid)
  refine ⟨m1, a1, m2, a2, h1, h2, ?_⟩
  rw [ht2, slotsWrites_congr a1 m1 model hn1 hm1, hs1, ht1, foldl_assignSlot_idem]

/-- C6 on `skinnedModel`, the canonical type 7 and the empty cache
`sampleAssets`. -/
theorem LoadKsmModel_slots_idempotent_witness :
    ∃ first assets1 second assets2,
      AssetManager.LoadKsmModel.slots 7 sampleTypes.itemSlots skinnedModel sampleAssets
          = some (first, assets1)
        ∧ AssetManager.LoadKsmModel.slots 7 sampleTypes.itemSlots first assets1
          = some (second, assets2)
        ∧ second._textureMapping = first._textureMapping :=
  AssetManager.LoadKsmModel_slots_idempotent sampleTypes 7 skinnedModel sampleAssets
    (by
      intro ptr hp
      have : ptr = (0, 0) := by simpa [skinnedModel] using hp
      subst this
      exact ⟨skinnedMesh, rfl⟩)

/-- C5, as stated, fails for the empty texture name on a model built from
procedural geometry: `proceduralModel` has a single mesh, in node 1, with the
texture handle 5 and the empty default name, which equals the name passed; its
flat mesh list `_allMeshes`, the only list `SetTextureMapping` scans, is empty
because `initializeFromMeshData` never fills it, and
`SetTextureMapping(1, L"")` leaves the handle 5 unmapped. -/
theorem SetTextureMapping_procedural_counterexample :
    (proceduralModel.meshAt (1, 0)).map
        (fun mesh => (mesh.DiffuseTexture, mesh.DefaultDiffuseTextureName)) = some (5, [])
      ∧ proceduralModel._allMeshes = []
      ∧ (proceduralModel.SetTextureMapping 1 []).map (fun model => model._textureMapping 5)
        = some none := by
  decide


theorem loop_none (Nodes : List CredibleNode) (fuel : Nat) (gt : XMFLOAT4X4) :
    CredibleModelData.CalculateGlobalTransform.loop Nodes fuel none gt = some gt := by
  cases fuel <;> rfl

theorem loop_some (Nodes : List CredibleNode) (fuel p : Nat) (pn : CredibleNode)
    (gt : XMFLOAT4X4) (h : Nodes[p]? = some pn) :
    CredibleModelData.CalculateGlobalTransform.loop Nodes (fuel + 1) (some p) gt
      = CredibleModelData.CalculateGlobalTransform.loop Nodes fuel pn.Parent
          (pn.LocalTransform * gt) := by
  simp only [CredibleModelData.CalculateGlobalTransform.loop, h]

theorem loop_chain (Nodes : List CredibleNode)
    (hbelow : ∀ (i : Nat) (n : CredibleNode), Nodes[i]? = some n → ∀ p, n.Parent = some p → p < i) :
    ∀ (p : Nat) (pn : CredibleNode), Nodes[p]? = some pn →
      (∀ a an, Desc Nodes a p → Nodes[a]? = some an → nodeRel Nodes an) →
      ∀ fuel, p < fuel → ∀ X : XMFLOAT4X4,
        CredibleModelData.CalculateGlobalTransform.loop Nodes fuel (some p) X
          = some (pn.GlobalTransform * X) := by
  intro p
  induction p using Nat.strong_induction_on with
  | _ p ih =>
    intro pn hp hchain fuel hfuel X
    obtain ⟨f, rfl⟩ : ∃ f, fuel = f + 1 := ⟨fuel - 1, by omega⟩
    rw [loop_some Nodes f p pn X hp]
    have hrel := hchain p pn Desc.self hp
    unfold nodeRel at hrel
    cases hpar : pn.Parent with
    | none =>
      rw [hpar] at hrel
      rw [loop_none, hrel]
    | some q =>
      rw [hpar] at hrel
      obtain ⟨qn, hq, hg⟩ := hrel
      have hqp : q < p := hbelow p pn hp q hpar
      rw [ih q hqp qn hq (fun a an ha han => hchain a an (Desc.step hp hpar ha) han) f
        (by omega), hg, Matrix.mul_assoc]

theorem CalculateGlobalTransform_eq (Nodes : List CredibleNode) (hok : AllOK Nodes)
    (node : CredibleNode) (hpar : ∀ p, node.Parent = some p → p < Nodes.length) :
    ∃ g, CredibleModelData.CalculateGlobalTransform Nodes node
        = some { node with GlobalTransform := g }
      ∧ nodeRel Nodes { node with GlobalTransform := g } := by
  unfold CredibleModelData.CalculateGlobalTransform
  cases hp : node.Parent with
  | none =>
    refine ⟨node.LocalTransform, ?_, ?_⟩
    · rw [loop_none]; rfl
    · simp only [nodeRel, hp]
  | some p =>
    have hlt := hpar p hp
    have hget : Nodes[p]? = some Nodes[p] := List.getElem?_eq_getElem hlt
    refine ⟨Nodes[p].GlobalTransform * node.LocalTransform, ?_, ?_⟩
    · rw [loop_chain Nodes (fun i n h => (hok i n h).1) p Nodes[p] hget
        (fun a an _ han => (hok a an han).2.1) Nodes.length hlt]
      rfl
    · simp only [nodeRel, hp]
      exact ⟨Nodes[p], hget, rfl⟩

theorem pushChild_length (Nodes : List CredibleNode) (k c : Nat) :
    (pushChild Nodes k c).length = Nodes.length := by
  unfold pushChild
  split <;> simp

theorem pushChild_get_ne (Nodes : List CredibleNode) (k c i : Nat) (h : i ≠ k) :
    (pushChild Nodes k c)[i]? = Nodes[i]? := by
  unfold pushChild
  split
  · rfl
  · exact List.getElem?_set_ne (Ne.symm h)

theorem pushChild_get_self (Nodes : List CredibleNode) (k c : Nat) (n : CredibleNode)
    (h : Nodes[k]? = some n) :
    (pushChild Nodes k c)[k]? = some { n with Children := n.Children ++ [c] } := by
  have hlt : k < Nodes.length := (List.getElem?_eq_some_iff.mp h).1
  simp only [pushChild, h]
  exact List.getElem?_set_self hlt

theorem ofKsm_node_shape (pf : Platform) (w : World) (data : List Nat) (parent : Option Nat)
    (pos : Nat) (Nodes : List CredibleNode) (assets : AssetManager) (node : CredibleNode)
    (p : Nat) (assets' : AssetManager)
    (h : CredibleNode.ofKsm pf w data parent pos Nodes assets = some (node, p, assets')) :
    ∃ (Name : wstring) (LocalTransform : XMFLOAT4X4) (this : CredibleNode) (ChannelIndex : Nat)
        (Meshes : List CredibleMesh),
      CredibleModelData.CalculateGlobalTransform Nodes
          { CredibleNode.default pf with
            Name := Name, LocalTransform := LocalTransform, Parent := parent } = some this
        ∧ node = { this with ChannelIndex := ChannelIndex, Meshes := Meshes } := by
  unfold CredibleNode.ofKsm at h
  split at h
  · exact absurd h (by simp)
  split at h
  · exact absurd h (by simp)
  split at h
  · exact absurd h (by simp)
  split at h
  · exact absurd h (by simp)
  split at h
  · exact absurd h (by simp)
  split at h
  · exact absurd h (by simp)
  simp only [Option.some.injEq, Prod.mk.injEq] at h
  obtain ⟨hnode, -, -⟩ := h
  exact ⟨_, _, _, _, _, ‹_›, hnode.symm⟩

theorem Grows_refl (Nodes : List CredibleNode) : Grows Nodes Nodes :=
  fun _ m h => ⟨m, h, rfl, rfl, rfl, rfl, fun _ hc => hc⟩

theorem Grows_trans {a b c : List CredibleNode} (h1 : Grows a b) (h2 : Grows b c) :
    Grows a c := by
  intro j m hm
  obtain ⟨m1, hm1, p1, l1, g1, s1, c1⟩ := h1 j m hm
  obtain ⟨m2, hm2, p2, l2, g2, s2, c2⟩ := h2 j m1 hm1
  exact ⟨m2, hm2, p2.trans p1, l2.trans l1, g2.trans g1, s2.trans s1,
    fun c hc => c2 c (c1 c hc)⟩

theorem Grows_append (Nodes extra : List CredibleNode) : Grows Nodes (Nodes ++ extra) := by
  intro j m hm
  have hlt : j < Nodes.length := (List.getElem?_eq_some_iff.mp hm).1
  exact ⟨m, by rw [List.getElem?_append_left hlt]; exact hm, rfl, rfl, rfl, rfl,
    fun _ hc => hc⟩

theorem Grows_pushChild (Nodes : List CredibleNode) (k c : Nat) :
    Grows Nodes (pushChild Nodes k c) := by
  intro j m hm
  by_cases hj : j = k
  · subst hj
    exact ⟨_, pushChild_get_self Nodes j c m hm, rfl, rfl, rfl, rfl,
      fun _ hc => List.mem_append_left _ hc⟩
  · exact ⟨m, by rw [pushChild_get_ne Nodes k c j hj]; exact hm, rfl, rfl, rfl, rfl,
      fun _ hc => hc⟩

theorem nodeRel_grows {Nodes Nodes' : List CredibleNode} (hg : Grows Nodes Nodes')
    (n n' : CredibleNode) (hp : n'.Parent = n.Parent) (hl : n'.LocalTransform = n.LocalTransform)
    (hG : n'.GlobalTransform = n.GlobalTransform) (h : nodeRel Nodes n) : nodeRel Nodes' n' := by
  unfold nodeRel at h ⊢
  rw [hp]
  cases hpar : n.Parent with
  | none =>
    rw [hpar] at h
    simp only
    rw [hG, hl]; exact h
  | some p =>
    rw [hpar] at h
    obtain ⟨pn, hpn, hrel⟩ := h
    obtain ⟨pn', hpn', -, -, hg', -, -⟩ := hg p pn hpn
    exact ⟨pn', hpn', by rw [hG, hl, hg']; exact hrel⟩

theorem NodeOK_grows {Nodes Nodes' : List CredibleNode} (hg : Grows Nodes Nodes') (i : Nat)
    (n : CredibleNode) (h : NodeOK Nodes i n) : NodeOK Nodes' i n := by
  obtain ⟨h1, h2, h3⟩ := h
  refine ⟨h1, nodeRel_grows hg n n rfl rfl rfl h2, ?_⟩
  intro c hc
  obtain ⟨hic, cn, hcn, hcp⟩ := h3 c hc
  obtain ⟨cn', hcn', hp', -, -, -, -⟩ := hg c cn hcn
  exact ⟨hic, cn', hcn', hp'.trans hcp⟩

theorem Linked_grows {Nodes Nodes' : List CredibleNode} (hg : Grows Nodes Nodes')
    (base i : Nat) (n : CredibleNode) (h : Linked Nodes base i n) : Linked Nodes' base i n := by
  obtain ⟨p, pn, hp, hb, hpn, hi⟩ := h
  obtain ⟨pn', hpn', -, -, -, -, hc⟩ := hg p pn hpn
  exact ⟨p, pn', hp, hb, hpn', hc i hi⟩

theorem Linked_base {Nodes : List CredibleNode} {base base' i : Nat} {n : CredibleNode}
    (hb : base' ≤ base) (h : Linked Nodes base i n) : Linked Nodes base' i n := by
  obtain ⟨p, pn, hp, hbp, hpn, hi⟩ := h
  exact ⟨p, pn, hp, Nat.le_trans hb hbp, hpn, hi⟩

theorem AllOK_append (Nodes : List CredibleNode) (node : CredibleNode) (hok : AllOK Nodes)
    (hrel : nodeRel Nodes node) (hpar : ∀ p, node.Parent = some p → p < Nodes.length)
    (hch : node.Children = []) : AllOK (Nodes ++ [node]) := by
  intro i n hn
  by_cases hi : i < Nodes.length
  · rw [List.getElem?_append_left hi] at hn
    exact NodeOK_grows (Grows_append Nodes [node]) i n (hok i n hn)
  · have hlen : i < (Nodes ++ [node]).length := (List.getElem?_eq_some_iff.mp hn).1
    have hi' : i = Nodes.length := by
      simp only [List.length_append, List.length_singleton] at hlen
      omega
    subst hi'
    have : n = node := by
      simpa using hn.symm
    subst this
    refine ⟨hpar, nodeRel_grows (Grows_append Nodes [n]) n n rfl rfl rfl hrel, ?_⟩
    intro c hc
    rw [hch] at hc
    exact absurd hc (List.not_mem_nil c)

theorem AllOK_pushChild (Nodes : List CredibleNode) (k c : Nat) (n cn : CredibleNode)
    (hok : AllOK Nodes) (hk : Nodes[k]? = some n) (hc : Nodes[c]? = some cn)
    (hcp : cn.Parent = some k) (hkc : k < c) : AllOK (pushChild Nodes k c) := by
  intro i m hm
  by_cases hi : i = k
  · subst hi
    rw [pushChild_get_self Nodes i c n hk] at hm
    have hm' : m = { n with Children := n.Children ++ [c] } := (Option.some.inj hm).symm
    subst hm'
    obtain ⟨h1, h2, h3⟩ := hok i n hk
    refine ⟨h1, nodeRel_grows (Grows_pushChild Nodes i c) n _ rfl rfl rfl h2, ?_⟩
    intro c' hc'
    rcases List.mem_append.mp hc' with hold | hnew
    · obtain ⟨hic, cn', hcn', hcp'⟩ := h3 c' hold
      obtain ⟨cn'', hcn'', hp'', -, -, -, -⟩ := Grows_pushChild Nodes i c c' cn' hcn'
      exact ⟨hic, cn'', hcn'', hp''.trans hcp'⟩
    · have hcc : c' = c := by simpa using hnew
      subst hcc
      refine ⟨hkc, cn, ?_, hcp⟩
      rw [pushChild_get_ne Nodes i c' c' (by omega)]
      exact hc
  · rw [pushChild_get_ne Nodes k c i hi] at hm
    exact NodeOK_grows (Grows_pushChild Nodes k c) i m (hok i m hm)

theorem meshAt_grows (a b : CredibleModelData) (hg : Grows a.Nodes b.Nodes) (ptr : Nat × Nat)
    (mesh : CredibleMesh) (h : a.meshAt ptr = some mesh) : b.meshAt ptr = some mesh := by
  unfold CredibleModelData.meshAt at h ⊢
  cases hn : a.Nodes[ptr.1]? with
  | none => rw [hn] at h; exact absurd h (by simp)
  | some n =>
    rw [hn] at h
    obtain ⟨n', hn', -, -, -, hm, -⟩ := hg ptr.1 n hn
    rw [hn']
    simp only [hm]
    exact h

theorem ReadPost_grows {self self' : CredibleModelData} {parent : Option Nat} {idx : Nat}
    (h : ReadPost self parent idx self') : Grows self.Nodes self'.Nodes := by
  intro j m hm
  have hlt : j < self.Nodes.length := (List.getElem?_eq_some_iff.mp hm).1
  exact ⟨m, by rw [h.frame j hlt]; exact hm, rfl, rfl, rfl, rfl, fun _ hc => hc⟩

theorem ChildrenPost_grows {self self' : CredibleModelData} {ksmNode : Nat}
    (h : ChildrenPost self ksmNode self') : Grows self.Nodes self'.Nodes := by
  intro j m hm
  have hlt : j < self.Nodes.length := (List.getElem?_eq_some_iff.mp hm).1
  by_cases hj : j = ksmNode
  · subst hj
    obtain ⟨cs, hcs⟩ := h.node m hm
    exact ⟨_, hcs, rfl, rfl, rfl, rfl, fun _ hc => List.mem_append_left _ hc⟩
  · exact ⟨m, by rw [h.frame j hlt hj]; exact hm, rfl, rfl, rfl, rfl, fun _ hc => hc⟩

theorem meshPointersValid_grows (a b : CredibleModelData) (hg : Grows a.Nodes b.Nodes)
    (hm : b._allMeshes = a._allMeshes) (h : a.meshPointersValid) : b.meshPointersValid := by
  intro ptr hp
  obtain ⟨mesh, hmesh⟩ := h ptr (hm ▸ hp)
  exact ⟨mesh, meshAt_grows a b hg ptr mesh hmesh⟩

theorem CalculateGlobalTransform_shape (Nodes : List CredibleNode) (node this : CredibleNode)
    (h : CredibleModelData.CalculateGlobalTransform Nodes node = some this) :
    ∃ g, this = { node with GlobalTransform := g } := by
  unfold CredibleModelData.CalculateGlobalTransform at h
  cases hl : CredibleModelData.CalculateGlobalTransform.loop Nodes Nodes.length node.Parent
      node.LocalTransform with
  | none => rw [hl] at h; exact absurd h (by simp)
  | some g =>
    rw [hl] at h
    exact ⟨g, (Option.some.inj h).symm⟩

theorem children_post
    (readChild : CredibleModelData → Option Nat → Nat → AssetManager →
      Option (Nat × CredibleModelData × Nat × AssetManager))
    (hrc : ∀ self parent p a idx self' p' a',
      readChild self parent p a = some (idx, self', p', a') → ReadPost self parent idx self')
    (ksmNode : Nat) :
    ∀ (count : Nat) (self : CredibleModelData) (p : Nat) (a : AssetManager)
      (self' : CredibleModelData) (p' : Nat) (a' : AssetManager),
      CredibleModelData.readNodeTree.children readChild ksmNode count self p a
          = some (self', p', a') →
      ksmNode < self.Nodes.length → ChildrenPost self ksmNode self' := by
  intro count
  induction count with
  | zero =>
    intro self p a self' p' a' h _
    simp only [CredibleModelData.readNodeTree.children, Option.some.injEq, Prod.mk.injEq] at h
    obtain ⟨rfl, -, -⟩ := h
    refine ⟨fun _ _ _ => rfl, fun n hn => ⟨[], by simpa using hn⟩, fun h => h, ?_, fun h => h⟩
    intro i n hn hi
    have := (List.getElem?_eq_some_iff.mp hn).1
    omega
  | succ c ih =>
    intro self p a self' p' a' h hk
    simp only [CredibleModelData.readNodeTree.children] at h
    split at h
    · exact absurd h (by simp)
    rename_i child s1 p1 a1 hread
    have R := hrc self (some ksmNode) p a child s1 p1 a1 hread
    have hchild : child = self.Nodes.length := R.idx_eq
    obtain ⟨n0, hn0, hn0p⟩ := R.root
    have hchildlt : child < s1.Nodes.length := (List.getElem?_eq_some_iff.mp hn0).1
    have hk2 : ksmNode < (pushChild s1.Nodes ksmNode child).length := by
      rw [pushChild_length]; omega
    have C := ih { s1 with Nodes := pushChild s1.Nodes ksmNode child } p1 a1 self' p' a' h hk2
    have hkn : self.Nodes[ksmNode]? = some self.Nodes[ksmNode] := List.getElem?_eq_getElem hk
    have hkn1 : s1.Nodes[ksmNode]? = some self.Nodes[ksmNode] := by
      rw [R.frame ksmNode hk]; exact hkn
    have hg12 : Grows s1.Nodes (pushChild s1.Nodes ksmNode child) :=
      Grows_pushChild s1.Nodes ksmNode child
    have hg2' : Grows (pushChild s1.Nodes ksmNode child) self'.Nodes := ChildrenPost_grows C
    refine ⟨?_, ?_, ?_, ?_, ?_⟩
    · intro i hi hne
      have hi1 : i < s1.Nodes.length := by omega
      have h1 := C.frame i (by simpa [pushChild_length] using hi1) hne
      simp only at h1
      rw [h1, pushChild_get_ne _ _ _ _ hne, R.frame i hi]
    · intro n hn
      have hn1 : s1.Nodes[ksmNode]? = some n := by rw [R.frame ksmNode hk]; exact hn
      obtain ⟨cs, hcs⟩ := C.node _ (pushChild_get_self s1.Nodes ksmNode child n hn1)
      refine ⟨child :: cs, ?_⟩
      rw [hcs]
      simp
    · intro hok
      have hok1 : AllOK s1.Nodes := R.ok hok (fun q hq => by cases hq; exact hk)
      have hok2 : AllOK (pushChild s1.Nodes ksmNode child) :=
        AllOK_pushChild s1.Nodes ksmNode child _ n0 hok1 hkn1 hn0 hn0p (by omega)
      exact C.ok hok2
    · intro i n hn hi
      by_cases hi2 : s1.Nodes.length ≤ i
      · exact C.linked i n hn (by simpa [pushChild_length] using hi2)
      · have hi1 : i < s1.Nodes.length := by omega
        have hne : i ≠ ksmNode := by omega
        have h1 := C.frame i (by simpa [pushChild_length] using hi1) hne
        simp only at h1
        rw [h1, pushChild_get_ne _ _ _ _ hne] at hn
        by_cases hic : i = child
        · subst hic
          have hnn : n = n0 := Option.some.inj (hn.symm.trans hn0)
          subst hnn
          obtain ⟨cs, hcs⟩ := C.node _ (pushChild_get_self s1.Nodes ksmNode i _ hkn1)
          exact ⟨ksmNode, _, hn0p, Nat.le_refl _, hcs, by simp⟩
        · have hl1 : Linked s1.Nodes child i n := R.linked i n hn (by omega)
          exact Linked_base (by omega) (Linked_grows hg2' _ _ _ (Linked_grows hg12 _ _ _ hl1))
    · intro hv
      have hv1 := R.meshes hv
      have hv2 : CredibleModelData.meshPointersValid
          { s1 with Nodes := pushChild s1.Nodes ksmNode child } :=
        meshPointersValid_grows s1 _ hg12 rfl hv1
      exact C.meshes hv2

theorem readNodeTree_post (pf : Platform) (w : World) (data : List Nat) :
    ∀ (fuel : Nat) (self : CredibleModelData) (parent : Option Nat) (pos : Nat)
      (assets : AssetManager) (idx : Nat) (self' : CredibleModelData) (pos' : Nat)
      (assets' : AssetManager),
      CredibleModelData.readNodeTree pf w data fuel self parent pos assets
          = some (idx, self', pos', assets') →
      ReadPost self parent idx self' := by
  intro fuel
  induction fuel with
  | zero =>
    intro self parent pos assets idx self' pos' assets' h
    simp [CredibleModelData.readNodeTree] at h
  | succ fuel ih =>
    intro self parent pos assets idx self' pos' assets' h
    simp only [CredibleModelData.readNodeTree] at h
    split at h
    · exact absurd h (by simp)
    rename_i node p1 a1 hnode
    split at h
    · exact absurd h (by simp)
    rename_i childCount p2 hcount
    split at h
    · exact absurd h (by simp)
    rename_i s3 p3 a3 hloop
    simp only [Option.some.injEq, Prod.mk.injEq] at h
    obtain ⟨hidx, hself, -, -⟩ := h
    subst hidx
    subst hself
    have C := children_post (CredibleModelData.readNodeTree pf w data fuel) ih self.Nodes.length
      childCount { self with Nodes := self.Nodes ++ [node] } p2 a1 s3 p3 a3 hloop
      (by simp)
    obtain ⟨Name, LocalTransform, this, ChannelIndex, Meshes, hthis, hnodeeq⟩ :=
      ofKsm_node_shape pf w data parent pos self.Nodes assets node p1 a1 hnode
    obtain ⟨g, hg⟩ := CalculateGlobalTransform_shape _ _ _ hthis
    have hpar : node.Parent = parent := by rw [hnodeeq, hg]
    have hch : node.Children = [] := by rw [hnodeeq, hg]; rfl
    have hat : (self.Nodes ++ [node])[self.Nodes.length]? = some node := by simp
    obtain ⟨cs, hcs⟩ := C.node node hat
    refine ⟨rfl, ?_, ⟨_, hcs, hpar⟩, ?_, ?_, ?_⟩
    · intro i hi
      have h1 := C.frame i (by simp; omega) (by omega)
      simp only at h1
      rw [h1, List.getElem?_append_left hi]
    · intro hok hp
      apply C.ok
      refine AllOK_append self.Nodes node hok ?_ (fun q hq => hp q (hpar ▸ hq)) hch
      obtain ⟨g', hg', hrel⟩ := CalculateGlobalTransform_eq self.Nodes hok
        { CredibleNode.default pf with
          Name := Name, LocalTransform := LocalTransform, Parent := parent } hp
      rw [hthis] at hg'
      have hthis' := Option.some.inj hg'
      refine nodeRel_grows (Grows_refl _) _ node ?_ ?_ ?_ hrel
      · rw [hnodeeq, hthis']
      · rw [hnodeeq, hthis']
      · rw [hnodeeq, hthis']
    · intro i n hn hi
      exact C.linked i n hn (by simp; omega)
    · intro hv
      have hv0 : CredibleModelData.meshPointersValid
          { self with Nodes := self.Nodes ++ [node] } :=
        meshPointersValid_grows self _ (Grows_append _ _) rfl hv
      have hv3 := C.meshes hv0
      intro ptr hptr
      rcases List.mem_append.mp hptr with hold | hnew
      · obtain ⟨mesh, hmesh⟩ := hv3 ptr hold
        exact ⟨mesh, hmesh⟩
      · obtain ⟨m, hm, rfl⟩ := List.mem_map.mp hnew
        have hm' : m < node.Meshes.length := List.mem_range.mp hm
        refine ⟨node.Meshes[m], ?_⟩
        simp only [CredibleModelData.meshAt, hcs]
        exact List.getElem?_eq_getElem hm'

theorem SameShape_refl (Nodes : List CredibleNode) : SameShape Nodes Nodes :=
  ⟨rfl, fun _ m m' h h' => by
    have : m' = m := Option.some.inj (h'.symm.trans h)
    subst this; rfl⟩

theorem SameShape.get {Nodes Nodes' : List CredibleNode} (h : SameShape Nodes Nodes') (j : Nat)
    (m : CredibleNode) (hm : Nodes[j]? = some m) :
    ∃ m' : CredibleNode, Nodes'[j]? = some m'
      ∧ m' = { m with LocalTransform := m'.LocalTransform,
                      GlobalTransform := m'.GlobalTransform } := by
  have hlt : j < Nodes'.length := by
    rw [h.1]; exact (List.getElem?_eq_some_iff.mp hm).1
  exact ⟨Nodes'[j], List.getElem?_eq_getElem hlt, h.2 j m _ hm (List.getElem?_eq_getElem hlt)⟩

theorem SameShape.get' {Nodes Nodes' : List CredibleNode} (h : SameShape Nodes Nodes') (j : Nat)
    (m' : CredibleNode) (hm : Nodes'[j]? = some m') :
    ∃ m : CredibleNode, Nodes[j]? = some m
      ∧ m' = { m with LocalTransform := m'.LocalTransform,
                      GlobalTransform := m'.GlobalTransform } := by
  have hlt : j < Nodes.length := by
    rw [← h.1]; exact (List.getElem?_eq_some_iff.mp hm).1
  exact ⟨Nodes[j], List.getElem?_eq_getElem hlt, h.2 j _ m' (List.getElem?_eq_getElem hlt) hm⟩

theorem SameShape_trans {a b c : List CredibleNode} (h1 : SameShape a b) (h2 : SameShape b c) :
    SameShape a c := by
  refine ⟨h2.1.trans h1.1, ?_⟩
  intro j m m'' hm hm''
  obtain ⟨m', hm', e1⟩ := h1.get j m hm
  have e2 := h2.2 j m' m'' hm' hm''
  rw [e2, e1]

theorem SameShape.symm {a b : List CredibleNode} (h : SameShape a b) : SameShape b a := by
  refine ⟨h.1.symm, ?_⟩
  intro j m' m hm' hm
  have e := h.2 j m m' hm hm'
  rw [e]

theorem SameShape.set (Nodes : List CredibleNode) (r : Nat) (n : CredibleNode)
    (hn : Nodes[r]? = some n) (l g : XMFLOAT4X4) :
    SameShape Nodes (Nodes.set r { n with LocalTransform := l, GlobalTransform := g }) := by
  refine ⟨by simp, ?_⟩
  intro j m m' hm hm'
  by_cases hj : r = j
  · subst hj
    have hlt : r < Nodes.length := (List.getElem?_eq_some_iff.mp hn).1
    rw [List.getElem?_set_self hlt] at hm'
    have e : m = n := Option.some.inj (hm.symm.trans hn)
    subst e
    rw [← Option.some.inj hm']
  · rw [List.getElem?_set_ne hj] at hm'
    have e : m' = m := Option.some.inj (hm'.symm.trans hm)
    subst e; rfl

theorem SameShape.parent {Nodes Nodes' : List CredibleNode} (h : SameShape Nodes Nodes')
    (j : Nat) (m m' : CredibleNode) (hm : Nodes[j]? = some m) (hm' : Nodes'[j]? = some m') :
    m'.Parent = m.Parent ∧ m'.Children = m.Children ∧ m'.ChannelIndex = m.ChannelIndex := by
  have e := h.2 j m m' hm hm'
  rw [e]
  exact ⟨rfl, rfl, rfl⟩

theorem ShapeOK_same {Nodes Nodes' : List CredibleNode} (h : SameShape Nodes Nodes')
    (hs : ShapeOK Nodes) : ShapeOK Nodes' := by
  intro i n' hn'
  obtain ⟨n, hn, -⟩ := h.get' i n' hn'
  obtain ⟨hp, hc, -⟩ := h.parent i n n' hn hn'
  obtain ⟨h1, h2⟩ := hs i n hn
  refine ⟨?_, ?_⟩
  · intro p hpar
    obtain ⟨hlt, pn, hpn, hi⟩ := h1 p (hp ▸ hpar)
    obtain ⟨pn', hpn', -⟩ := h.get p pn hpn
    exact ⟨hlt, pn', hpn', (h.parent p pn pn' hpn hpn').2.1 ▸ hi⟩
  · intro c hcc
    obtain ⟨hlt, cn, hcn, hcp⟩ := h2 c (hc ▸ hcc)
    obtain ⟨cn', hcn', -⟩ := h.get c cn hcn
    exact ⟨hlt, cn', hcn', (h.parent c cn cn' hcn hcn').1.trans hcp⟩

theorem Desc_le {Nodes : List CredibleNode} (hs : ShapeOK Nodes) {r j : Nat}
    (h : Desc Nodes r j) : r ≤ j := by
  induction h with
  | self => exact Nat.le_refl _
  | step hn hp _ ih => exact Nat.le_trans ih (Nat.le_of_lt ((hs _ _ hn).1 _ hp).1)

theorem Desc_same {Nodes Nodes' : List CredibleNode} (h : SameShape Nodes Nodes') {r j : Nat}
    (hd : Desc Nodes r j) : Desc Nodes' r j := by
  induction hd with
  | self => exact Desc.self
  | step hn hp _ ih =>
    obtain ⟨n', hn', -⟩ := h.get _ _ hn
    exact Desc.step hn' ((h.parent _ _ _ hn hn').1.trans hp) ih

theorem Desc_of_child {Nodes : List CredibleNode} {r c j : Nat} {cn : CredibleNode}
    (hc : Nodes[c]? = some cn) (hp : cn.Parent = some r) (h : Desc Nodes c j) :
    Desc Nodes r j := by
  induction h with
  | self => exact Desc.step hc hp Desc.self
  | step hn hpar _ ih => exact Desc.step hn hpar ih

theorem Desc_proper {Nodes : List CredibleNode} {a c r : Nat} {cn : CredibleNode}
    (hc : Nodes[c]? = some cn) (hp : cn.Parent = some r) (h : Desc Nodes a c) (hne : a ≠ c) :
    Desc Nodes a r := by
  cases h with
  | self => exact absurd rfl hne
  | step hn hpar hd =>
    have e := Option.some.inj (hn.symm.trans hc)
    subst e
    have e2 : _ = r := Option.some.inj (hpar.symm.trans hp)
    subst e2
    exact hd

theorem Desc_cases {Nodes : List CredibleNode} (hs : ShapeOK Nodes) {r j : Nat} {rn : CredibleNode}
    (hr : Nodes[r]? = some rn) (h : Desc Nodes r j) :
    j = r ∨ ∃ c ∈ rn.Children, Desc Nodes c j := by
  induction h with
  | self => exact Or.inl rfl
  | @step j p n hn hp _ ih =>
    rcases ih with e | ⟨c, hc, hd⟩
    · subst e
      obtain ⟨-, pn, hpn, hj⟩ := (hs j n hn).1 p hp
      have e := Option.some.inj (hpn.symm.trans hr)
      subst e
      exact Or.inr ⟨j, hj, Desc.self⟩
    · exact Or.inr ⟨c, hc, Desc.step hn hp hd⟩

theorem nodeRel_of_parent_eq {Nodes Nodes' : List CredibleNode} (n : CredibleNode)
    (h : ∀ p, n.Parent = some p → Nodes'[p]? = Nodes[p]?) (hr : nodeRel Nodes n) :
    nodeRel Nodes' n := by
  unfold nodeRel at hr ⊢
  cases hp : n.Parent with
  | none => rw [hp] at hr; exact hr
  | some p =>
    rw [hp] at hr
    obtain ⟨pn, hpn, hg⟩ := hr
    exact ⟨pn, by rw [h p hp]; exact hpn, hg⟩

theorem transformsCover_same {pf : Platform} {Nodes Nodes' : List CredibleNode}
    {transforms : List XMFLOAT4X4} (h : SameShape Nodes Nodes')
    (hc : transformsCover pf Nodes transforms) : transformsCover pf Nodes' transforms := by
  intro n' hn' hne
  obtain ⟨j, hj⟩ := List.mem_iff_getElem?.mp hn'
  obtain ⟨n, hn, -⟩ := h.get' j n' hj
  have hci := (h.parent j n n' hn hj).2.2
  rw [hci] at hne ⊢
  exact hc n (List.mem_iff_getElem?.mpr ⟨j, hn⟩) hne

theorem CalculateGlobalTransform_chain (Nodes : List CredibleNode)
    (hbelow : ∀ (i : Nat) (n : CredibleNode), Nodes[i]? = some n →
      ∀ p, n.Parent = some p → p < i)
    (node : CredibleNode) (hpar : ∀ p, node.Parent = some p → p < Nodes.length)
    (hchain : ∀ p, node.Parent = some p → ∀ (a : Nat) (an : CredibleNode),
      Desc Nodes a p → Nodes[a]? = some an → nodeRel Nodes an) :
    ∃ g, CredibleModelData.CalculateGlobalTransform Nodes node
        = some { node with GlobalTransform := g }
      ∧ nodeRel Nodes { node with GlobalTransform := g } := by
  unfold CredibleModelData.CalculateGlobalTransform
  cases hp : node.Parent with
  | none =>
    refine ⟨node.LocalTransform, ?_, ?_⟩
    · rw [loop_none]; rfl
    · simp only [nodeRel, hp]
  | some p =>
    have hlt := hpar p hp
    have hget : Nodes[p]? = some Nodes[p] := List.getElem?_eq_getElem hlt
    refine ⟨Nodes[p].GlobalTransform * node.LocalTransform, ?_, ?_⟩
    · rw [loop_chain Nodes hbelow p Nodes[p] hget (hchain p hp) Nodes.length hlt]
      rfl
    · simp only [nodeRel, hp]
      exact ⟨Nodes[p], hget, rfl⟩

theorem children_spec (update : List CredibleNode → Nat → Option (List CredibleNode))
    (pf : Platform) (transforms : List XMFLOAT4X4) (r L : Nat)
    (hupd : ∀ (Nodes : List CredibleNode) (c : Nat), ShapeOK Nodes →
      transformsCover pf Nodes transforms → Nodes.length = L → c < Nodes.length → r < c →
      (∀ (a : Nat) (an : CredibleNode), Desc Nodes a c → a ≠ c → Nodes[a]? = some an →
        nodeRel Nodes an) →
      ∃ Nodes', update Nodes c = some Nodes' ∧ GoPost pf transforms Nodes c Nodes') :
    ∀ (cs : List Nat) (Nodes : List CredibleNode), ShapeOK Nodes →
      transformsCover pf Nodes transforms → Nodes.length = L →
      (∀ c ∈ cs, r < c ∧ ∃ cn : CredibleNode, Nodes[c]? = some cn ∧ cn.Parent = some r) →
      (∀ (a : Nat) (an : CredibleNode), Desc Nodes a r → Nodes[a]? = some an →
        nodeRel Nodes an) →
      ∃ Nodes', CredibleModelData.UpdateTransforms.children update cs Nodes = some Nodes'
        ∧ SameShape Nodes Nodes'
        ∧ (∀ j, (∀ c ∈ cs, ¬ Desc Nodes c j) → Nodes'[j]? = Nodes[j]?)
        ∧ (∀ (j : Nat) (n' : CredibleNode), (∃ c ∈ cs, Desc Nodes c j) →
            Nodes'[j]? = some n' → nodeRel Nodes' n')
        ∧ ∀ (j : Nat) (n n' : CredibleNode), (∃ c ∈ cs, Desc Nodes c j) →
            Nodes[j]? = some n → Nodes'[j]? = some n' →
            n'.LocalTransform = newLocal pf transforms n := by
  intro cs
  induction cs with
  | nil =>
    intro Nodes _ _ _ _ _
    refine ⟨Nodes, rfl, SameShape_refl _, fun _ _ => rfl, ?_, ?_⟩
    · intro j n' ⟨c, hc, _⟩
      exact absurd hc (List.not_mem_nil c)
    · intro j n n' ⟨c, hc, _⟩
      exact absurd hc (List.not_mem_nil c)
  | cons c rest ih =>
    intro Nodes hs hcov hlen hcs hchain
    obtain ⟨hrc, cn, hcn, hcp⟩ := hcs c (List.mem_cons_self _ _)
    have hclt : c < Nodes.length := (List.getElem?_eq_some_iff.mp hcn).1
    obtain ⟨Nodes1, hrun1, hss1, hunch1, hrel1, hloc1⟩ := hupd Nodes c hs hcov hlen hclt hrc
      (fun a an ha hne han => hchain a an (Desc_proper hcn hcp ha hne) han)
    have hs1 : ShapeOK Nodes1 := ShapeOK_same hss1 hs
    have hnotc : ∀ a, a ≤ r → ¬ Desc Nodes c a := fun a har hd => by
      have := Desc_le hs hd
      omega
    obtain ⟨Nodes', hrun, hss', hunch', hrel', hloc'⟩ :=
      ih Nodes1 hs1 (transformsCover_same hss1 hcov)
      (hss1.1.trans hlen)
      (fun c' hc' => by
        obtain ⟨hrc', cn', hcn', hcp'⟩ := hcs c' (List.mem_cons_of_mem _ hc')
        obtain ⟨cn1, hcn1, -⟩ := hss1.get c' cn' hcn'
        exact ⟨hrc', cn1, hcn1, (hss1.parent c' cn' cn1 hcn' hcn1).1.trans hcp'⟩)
      (fun a an1 ha han1 => by
        have ha0 : Desc Nodes a r := Desc_same hss1.symm ha
        have har : a ≤ r := Desc_le hs ha0
        have hsame : Nodes1[a]? = Nodes[a]? := hunch1 a (hnotc a har)
        rw [hsame] at han1
        refine nodeRel_of_parent_eq an1 ?_ (hchain a an1 ha0 han1)
        intro p hp
        have hpa : p < a := ((hs a an1 han1).1 p hp).1
        exact hunch1 p (hnotc p (by omega)))
    refine ⟨Nodes', ?_, SameShape_trans hss1 hss', ?_, ?_, ?_⟩
    · simp only [CredibleModelData.UpdateTransforms.children, hrun1]
      exact hrun
    · intro j hj
      rw [hunch' j (fun c' hc' hd => hj c' (List.mem_cons_of_mem _ hc') (Desc_same hss1.symm hd)),
        hunch1 j (hj c (List.mem_cons_self _ _))]
    · intro j n' hex hn'
      by_cases hin : ∃ c'' ∈ rest, Desc Nodes1 c'' j
      · exact hrel' j n' hin hn'
      · have hnone : ∀ c'' ∈ rest, ¬ Desc Nodes1 c'' j := fun c'' hc'' hd => hin ⟨c'', hc'', hd⟩
        obtain ⟨c', hc', hd⟩ := hex
        have hdc : Desc Nodes c j := by
          rcases List.mem_cons.mp hc' with e | hmem
          · exact e ▸ hd
          · exact absurd (Desc_same hss1 hd) (hnone c' hmem)
        have hj1 : Nodes'[j]? = Nodes1[j]? := hunch' j hnone
        rw [hj1] at hn'
        refine nodeRel_of_parent_eq n' ?_ (hrel1 j n' hdc hn')
        intro q hq
        exact hunch' q (fun c'' hc'' hdq => hnone c'' hc'' (Desc.step hn' hq hdq))
    · intro j n n' hex hn hn'
      obtain ⟨n1, hn1, -⟩ := hss1.get j n hn
      have hch1 : n1.ChannelIndex = n.ChannelIndex := (hss1.parent j n n1 hn hn1).2.2
      by_cases hin : ∃ c'' ∈ rest, Desc Nodes1 c'' j
      · rw [hloc' j n1 n' hin hn1 hn']
        by_cases hdc : Desc Nodes c j
        · have hl1 := hloc1 j n n1 hdc hn hn1
          simp only [newLocal, hch1, hl1]
          split
          · cases transforms[n.ChannelIndex]? <;> simp [newLocal, *]
          · simp [newLocal, *]
        · have e : n1 = n := by
            have := hunch1 j hdc
            rw [hn1, hn] at this
            exact Option.some.inj this
          rw [e]
      · have hnone : ∀ c'' ∈ rest, ¬ Desc Nodes1 c'' j := fun c'' hc'' hd => hin ⟨c'', hc'', hd⟩
        obtain ⟨c', hc', hd⟩ := hex
        have hdc : Desc Nodes c j := by
          rcases List.mem_cons.mp hc' with e | hmem
          · exact e ▸ hd
          · exact absurd (Desc_same hss1 hd) (hnone c' hmem)
        have hj1 : Nodes'[j]? = Nodes1[j]? := hunch' j hnone
        rw [hj1] at hn'
        exact hloc1 j n n' hdc hn hn'

theorem go_spec (pf : Platform) (transforms : List XMFLOAT4X4) :
    ∀ (fuel : Nat) (Nodes : List CredibleNode) (r : Nat), ShapeOK Nodes →
      transformsCover pf Nodes transforms → r < Nodes.length → Nodes.length - r < fuel →
      (∀ (a : Nat) (an : CredibleNode), Desc Nodes a r → a ≠ r → Nodes[a]? = some an →
        nodeRel Nodes an) →
      ∃ Nodes', CredibleModelData.UpdateTransforms.go pf transforms fuel Nodes r = some Nodes'
        ∧ GoPost pf transforms Nodes r Nodes' := by
  intro fuel
  induction fuel with
  | zero => intro Nodes r _ _ _ h; omega
  | succ fuel ih =>
    intro Nodes r hs hcov hr hfuel hanc
    have hn : Nodes[r]? = some Nodes[r] := List.getElem?_eq_getElem hr
    generalize Nodes[r] = n at hn
    -- the local transform after the channel update
    obtain ⟨l, hl, hlnew⟩ : ∃ l, (if n.ChannelIndex ≠ pf.SIZE_MAX then
          (transforms[n.ChannelIndex]?).map fun t => { n with LocalTransform := t }
        else some n) = some { n with LocalTransform := l } ∧ l = newLocal pf transforms n := by
      by_cases hch : n.ChannelIndex ≠ pf.SIZE_MAX
      · have hlt := hcov n (List.mem_iff_getElem?.mpr ⟨r, hn⟩) hch
        exact ⟨transforms[n.ChannelIndex], by
          simp only [hch, ne_eq, not_false_eq_true, if_true, List.getElem?_eq_getElem hlt,
            Option.map_some'], by
          simp only [newLocal, hch, ne_eq, not_false_eq_true, if_true,
            List.getElem?_eq_getElem hlt, Option.getD_some]⟩
      · exact ⟨n.LocalTransform, by simp only [hch, if_false], by
          simp only [newLocal, hch, if_false]⟩
    have hss1 : SameShape Nodes (Nodes.set r { n with LocalTransform := l }) :=
      SameShape.set Nodes r n hn l n.GlobalTransform
    have hs1 := ShapeOK_same hss1 hs
    have hne1 : ∀ q, q ≠ r → (Nodes.set r { n with LocalTransform := l })[q]? = Nodes[q]? :=
      fun q hq => List.getElem?_set_ne (Ne.symm hq)
    obtain ⟨g, hg, hrelg⟩ := CalculateGlobalTransform_chain
      (Nodes.set r { n with LocalTransform := l }) (fun i m hm => fun p hp => ((hs1 i m hm).1 p hp).1)
      { n with LocalTransform := l }
      (fun p hp => by
        have := ((hs r n hn).1 p hp).1
        simp only [List.length_set]; omega)
      (fun p hp a an ha han => by
        have hpr : p < r := ((hs r n hn).1 p hp).1
        have ha0 : Desc Nodes a p := Desc_same hss1.symm ha
        have hap : a ≤ p := Desc_le hs ha0
        have har : a ≠ r := by omega
        rw [hne1 a har] at han
        refine nodeRel_of_parent_eq an ?_ (hanc a an (Desc.step hn hp ha0) har han)
        intro q hq
        have hqa : q < a := ((hs a an han).1 q hq).1
        exact hne1 q (by omega))
    -- the node list after the node itself is updated
    have hss2 : SameShape Nodes (Nodes.set r { n with LocalTransform := l, GlobalTransform := g }) :=
      SameShape.set Nodes r n hn l g
    have hs2 := ShapeOK_same hss2 hs
    have hne2 : ∀ q, q ≠ r →
        (Nodes.set r { n with LocalTransform := l, GlobalTransform := g })[q]? = Nodes[q]? :=
      fun q hq => List.getElem?_set_ne (Ne.symm hq)
    have hself2 : (Nodes.set r { n with LocalTransform := l, GlobalTransform := g })[r]?
        = some { n with LocalTransform := l, GlobalTransform := g } :=
      List.getElem?_set_self hr
    have hrel2 : nodeRel (Nodes.set r { n with LocalTransform := l, GlobalTransform := g })
        { n with LocalTransform := l, GlobalTransform := g } := by
      refine nodeRel_of_parent_eq _ ?_ hrelg
      intro p hp
      have hpr : p < r := ((hs r n hn).1 p hp).1
      rw [hne2 p (by omega), hne1 p (by omega)]
    obtain ⟨Nodes', hrun, hss', hunch', hrel', hloc'⟩ :=
      children_spec (CredibleModelData.UpdateTransforms.go pf transforms fuel) pf transforms r
        Nodes.length
        (fun Nodes0 c hs0 hcov0 hlen0 hc0 hrc0 hanc0 =>
          ih Nodes0 c hs0 hcov0 hc0 (by omega) hanc0)
        n.Children (Nodes.set r { n with LocalTransform := l, GlobalTransform := g }) hs2
        (transformsCover_same hss2 hcov) (by simp)
        (fun c hc => by
          obtain ⟨hrc, cn, hcn, hcp⟩ := (hs r n hn).2 c hc
          exact ⟨hrc, cn, by rw [hne2 c (by omega)]; exact hcn, hcp⟩)
        (fun a an ha han => by
          by_cases har : a = r
          · subst har
            rw [hself2] at han
            rw [← Option.some.inj han]
            exact hrel2
          · have ha0 : Desc Nodes a r := Desc_same hss2.symm ha
            have hle : a ≤ r := Desc_le hs ha0
            rw [hne2 a har] at han
            refine nodeRel_of_parent_eq an ?_ (hanc a an ha0 har han)
            intro q hq
            have hqa : q < a := ((hs a an han).1 q hq).1
            exact hne2 q (by omega))
    have hnot : ∀ q, q ≤ r → ∀ c ∈ n.Children,
        ¬ Desc (Nodes.set r { n with LocalTransform := l, GlobalTransform := g }) c q :=
      fun q hq c hc hdq => by
        have h1 := ((hs r n hn).2 c hc).1
        have h2 := Desc_le hs2 hdq
        omega
    refine ⟨Nodes', ?_, SameShape_trans hss2 hss', ?_, ?_, ?_⟩
    · simp only [CredibleModelData.UpdateTransforms.go, hn, hl, hg]
      exact hrun
    · intro j hj
      have hjr : j ≠ r := fun e => hj (e ▸ Desc.self)
      rw [hunch' j (fun c hc hd => by
        obtain ⟨-, cn, hcn, hcp⟩ := (hs r n hn).2 c hc
        exact hj (Desc_of_child hcn hcp (Desc_same hss2.symm hd))), hne2 j hjr]
    · intro j n' hd hn'
      rcases Desc_cases hs hn hd with e | ⟨c, hc, hdc⟩
      · subst e
        have hnot : ∀ q, q ≤ j → ∀ c ∈ n.Children,
            ¬ Desc (Nodes.set j { n with LocalTransform := l, GlobalTransform := g }) c q :=
          fun q hq c hc hdq => by
            have h1 := ((hs j n hn).2 c hc).1
            have h2 := Desc_le hs2 hdq
            omega
        rw [hunch' j (hnot j (Nat.le_refl _)), hself2] at hn'
        rw [← Option.some.inj hn']
        refine nodeRel_of_parent_eq _ ?_ hrel2
        intro p hp
        have hpr : p < j := ((hs j n hn).1 p hp).1
        exact hunch' p (hnot p (by omega))
      · exact hrel' j n' ⟨c, hc, Desc_same hss2 hdc⟩ hn'
    · intro j m m' hd hm hm'
      rcases Desc_cases hs hn hd with e | ⟨c, hc, hdc⟩
      · subst e
        rw [hunch' j (hnot j (Nat.le_refl _)), hself2] at hm'
        have e1 : m = n := Option.some.inj (hm.symm.trans hn)
        rw [← Option.some.inj hm', e1]
        exact hlnew
      · have hjr : j ≠ r := by
          have h1 := ((hs r n hn).2 c hc).1
          have h2 := Desc_le hs hdc
          omega
        exact hloc' j m m' ⟨c, hc, Desc_same hss2 hdc⟩ (by rw [hne2 j hjr]; exact hm) hm'

theorem Desc_root {Nodes : List CredibleNode} (hs : ShapeOK Nodes)
    (hpar : ∀ (i : Nat) (n : CredibleNode), Nodes[i]? = some n → 0 < i → ∃ p, n.Parent = some p) :
    ∀ (j : Nat) (n : CredibleNode), Nodes[j]? = some n → Desc Nodes 0 j := by
  intro j
  induction j using Nat.strong_induction_on with
  | _ j ih =>
    intro n hn
    by_cases hj : j = 0
    · subst hj; exact Desc.self
    · obtain ⟨p, hp⟩ := hpar j n hn (by omega)
      obtain ⟨hlt, pn, hpn, -⟩ := (hs j n hn).1 p hp
      exact Desc.step hn hp (ih p hlt pn hpn)

theorem UpdateTransforms_tree (pf : Platform) (model : CredibleModelData)
    (transforms : List XMFLOAT4X4) (ht : TreeOK model)
    (hcov : transformsCover pf model.Nodes transforms) :
    ∃ model', model.UpdateTransforms pf 0 transforms = some model' ∧ TreeOK model'
      ∧ RelAll model'.Nodes ∧ SameShape model.Nodes model'.Nodes
      ∧ ∀ (j : Nat) (n n' : CredibleNode), model.Nodes[j]? = some n →
          model'.Nodes[j]? = some n' → n'.LocalTransform = newLocal pf transforms n := by
  obtain ⟨Nodes', hrun, hss, -, hrel, hloc⟩ := go_spec pf transforms (model.Nodes.length + 1)
    model.Nodes 0 ht.shape hcov ht.nonempty (by omega)
    (fun a an ha hne _ => by
      have := Desc_le ht.shape ha
      omega)
  refine ⟨{ model with Nodes := Nodes' }, ?_, ?_, ?_, hss, ?_⟩
  · simp only [CredibleModelData.UpdateTransforms, hrun, Option.map_some']
  · refine ⟨ht.root, ?_, ShapeOK_same hss ht.shape, ?_⟩
    · show 0 < Nodes'.length
      rw [hss.1]; exact ht.nonempty
    · intro i n' hn' hi
      obtain ⟨n, hn, -⟩ := hss.get' i n' hn'
      obtain ⟨p, hp⟩ := ht.parents i n hn hi
      exact ⟨p, (hss.parent i n n' hn hn').1.trans hp⟩
  · intro i n' hn'
    obtain ⟨n, hn, -⟩ := hss.get' i n' hn'
    exact hrel i n' (Desc_root ht.shape ht.parents i n hn) hn'
  · intro j n n' hn hn'
    exact hloc j n n' (Desc_root ht.shape ht.parents j n hn) hn hn'


theorem initializeFromKsm_tree (pf : Platform) (w : World) (data : List Nat)
    (self : CredibleModelData) (assets : AssetManager) (model : CredibleModelData)
    (assets' : AssetManager)
    (h : CredibleModelData.initializeFromKsm pf w data self assets = some (model, assets')) :
    ∃ (s0 : CredibleModelData) (root : Nat) (s1 : CredibleModelData) (pos pos' : Nat)
        (a1 : AssetManager) (fuel : Nat),
      s0.Nodes = self.Nodes ∧ s0._allMeshes = self._allMeshes
        ∧ CredibleModelData.readNodeTree pf w data fuel s0 none pos assets
            = some (root, s1, pos', a1)
        ∧ model.Nodes = s1.Nodes ∧ model._allMeshes = s1._allMeshes
        ∧ model.RootNode = some root := by
  unfold CredibleModelData.initializeFromKsm at h
  simp only at h
  split at h
  · exact absurd h (by simp)
  split at h
  · exact absurd h (by simp)
  split at h
  · exact absurd h (by simp)
  split at h
  · exact absurd h (by simp)
  split at h
  · exact absurd h (by simp)
  rename_i root s1 pos' a1 htree
  split at h
  · exact absurd h (by simp)
  split at h
  · exact absurd h (by simp)
  split at h
  · exact absurd h (by simp)
  split at h
  · exact absurd h (by simp)
  simp only [Option.some.injEq, Prod.mk.injEq] at h
  obtain ⟨hm, -⟩ := h
  refine ⟨_, root, s1, _, pos', a1, _, ?_, ?_, htree, ?_, ?_, ?_⟩
  · rfl
  · rfl
  · rw [← hm]
  · rw [← hm]
  · rw [← hm]

theorem ofKsm_tree (pf : Platform) (w : World) (junk : CredibleModelData) (data : List Nat)
    (assets : AssetManager) (model : CredibleModelData) (assets' : AssetManager)
    (h : CredibleModelData.ofKsm pf w junk data assets = some (model, assets')) :
    TreeOK model ∧ RelAll model.Nodes ∧ model.meshPointersValid := by
  obtain ⟨s0, root, s1, pos, pos', a1, fuel, hn0, hm0, htree, hn, hm, hroot⟩ :=
    initializeFromKsm_tree pf w data (CredibleModelData.raw junk) assets model assets' h
  have hn0' : s0.Nodes = [] := hn0
  have hm0' : s0._allMeshes = [] := hm0
  have R := readNodeTree_post pf w data fuel s0 none pos assets root s1 pos' a1 htree
  have hr0 : root = 0 := by rw [R.idx_eq, hn0']; rfl
  subst hr0
  have hok : AllOK s1.Nodes := R.ok (by
    intro i n hi
    rw [hn0'] at hi
    simp at hi) (fun p hp => by cases hp)
  obtain ⟨n0, hn0get, -⟩ := R.root
  refine ⟨⟨hroot, ?_, ?_, ?_⟩, ?_, ?_⟩
  · rw [hn]; exact (List.getElem?_eq_some_iff.mp hn0get).1
  · rw [hn]
    intro i n hi
    obtain ⟨h1, -, h3⟩ := hok i n hi
    refine ⟨?_, h3⟩
    intro p hp
    have hpi := h1 p hp
    obtain ⟨p', pn, hp', -, hpn, hmem⟩ := R.linked i n hi (by omega)
    have e : p' = p := Option.some.inj (hp'.symm.trans hp)
    subst e
    exact ⟨hpi, pn, hpn, hmem⟩
  · rw [hn]
    intro i n hi hpos
    obtain ⟨p', pn, hp', -, -, -⟩ := R.linked i n hi hpos
    exact ⟨p', hp'⟩
  · rw [hn]
    intro i n hi
    exact (hok i n hi).2.1
  · have hv1 : s1.meshPointersValid := R.meshes (by
      intro ptr hp
      rw [hm0'] at hp
      exact absurd hp (List.not_mem_nil ptr))
    exact meshPointersValid_congr s1 model hn.symm hm.symm hv1

/-- C2 (amended): once the constructor `CredibleModelData(data, ...)` has
returned a model, and again after any call
`UpdateTransforms(RootNode, transforms)` whose array covers every channel index
other than the sentinel (the call then returns), the node list is a tree
rooted at `RootNode` in which every node satisfies
`GlobalTransform(node) = GlobalTransform(Parent(node)) × LocalTransform(node)`,
the matrix of the parent on the left, and
`GlobalTransform(root) = LocalTransform(root)`. -/
theorem CredibleModelData.global_is_parent_global_times_local (pf : Platform) :
    (∀ (w : World) (junk : CredibleModelData) (data : List Nat) (assets : AssetManager)
        (model : CredibleModelData) (assets' : AssetManager),
        CredibleModelData.ofKsm pf w junk data assets = some (model, assets') →
        TreeOK model ∧ RelAll model.Nodes)
      ∧ ∀ (model : CredibleModelData) (transforms : List XMFLOAT4X4) (root : Nat),
          TreeOK model → transformsCover pf model.Nodes transforms →
          model.RootNode = some root →
          ∃ model', model.UpdateTransforms pf root transforms = some model'
            ∧ TreeOK model' ∧ RelAll model'.Nodes := by
  refine ⟨?_, ?_⟩
  · intro w junk data assets model assets' h
    obtain ⟨h1, h2, -⟩ := ofKsm_tree pf w junk data assets model assets' h
    exact ⟨h1, h2⟩
  · intro model transforms root ht hcov hroot
    have e : root = 0 := Option.some.inj (hroot.symm.trans ht.root)
    subst e
    obtain ⟨model', h1, h2, h3, -, -⟩ := UpdateTransforms_tree pf model transforms ht hcov
    exact ⟨model', h1, h2, h3⟩

theorem sampleBytes_parse :
    (CredibleModelData.ofKsm samplePlatform sampleWorld skinnedModel sampleBytes
      sampleAssets).isSome = true := by
  decide

theorem sampleBytes_cover :
    transformsCover samplePlatform
      (Option.get (CredibleModelData.ofKsm samplePlatform sampleWorld skinnedModel sampleBytes
        sampleAssets) sampleBytes_parse).1.Nodes [shearX, shearY] := by
  unfold transformsCover
  decide

/-- C2 on the model read from `sampleBytes`: the constructor returns,
`UpdateTransforms` with `[shearX, shearY]` returns, and the nodes of both
models satisfy the relation. -/
theorem global_is_parent_global_times_local_witness :
    ∃ model assets' model',
      CredibleModelData.ofKsm samplePlatform sampleWorld skinnedModel sampleBytes sampleAssets
          = some (model, assets')
        ∧ RelAll model.Nodes
        ∧ model.UpdateTransforms samplePlatform 0 [shearX, shearY] = some model'
        ∧ RelAll model'.Nodes :=
  have e : CredibleModelData.ofKsm samplePlatform sampleWorld skinnedModel sampleBytes
      sampleAssets
      = some ((Option.get _ sampleBytes_parse).1, (Option.get _ sampleBytes_parse).2) :=
    (Option.some_get sampleBytes_parse).symm
  have h1 := (CredibleModelData.global_is_parent_global_times_local samplePlatform).1
    sampleWorld skinnedModel sampleBytes sampleAssets _ _ e
  have h2 := (CredibleModelData.global_is_parent_global_times_local samplePlatform).2
    _ [shearX, shearY] 0 h1.1 sampleBytes_cover h1.1.root
  let ⟨model', hm', _, hrel'⟩ := h2
  ⟨_, _, model', e, h1.2, hm', hrel'⟩

theorem sampleBytes_nodes :
    ((Option.get (CredibleModelData.ofKsm samplePlatform sampleWorld skinnedModel sampleBytes
        sampleAssets) sampleBytes_parse).1.Nodes.map fun n => (n.Parent, n.ChannelIndex))
      = [(none, 0), (some 0, 1)] := by
  decide

/-- C2, as stated, fails on the model read from `sampleBytes` after
`UpdateTransforms(RootNode, [shearX, shearY])`: the child has the local
transform `shearY`, its parent the global transform `shearX`, and the global
transform of the child is `shearX * shearY`, not
`LocalTransform(child) × GlobalTransform(parent) = shearY * shearX`. -/
theorem globalTransform_order_counterexample :
    ∃ model assets' model' parent child,
      CredibleModelData.ofKsm samplePlatform sampleWorld skinnedModel sampleBytes sampleAssets
          = some (model, assets')
        ∧ model.UpdateTransforms samplePlatform 0 [shearX, shearY] = some model'
        ∧ model'.Nodes[0]? = some parent ∧ model'.Nodes[1]? = some child
        ∧ child.Parent = some 0
        ∧ child.GlobalTransform = shearX * shearY
        ∧ child.LocalTransform * parent.GlobalTransform = shearY * shearX
        ∧ child.GlobalTransform ≠ child.LocalTransform * parent.GlobalTransform := by
  have hnodes := sampleBytes_nodes
  have hcov := sampleBytes_cover
  have e : CredibleModelData.ofKsm samplePlatform sampleWorld skinnedModel sampleBytes
      sampleAssets
      = some ((Option.get _ sampleBytes_parse).1, (Option.get _ sampleBytes_parse).2) :=
    (Option.some_get sampleBytes_parse).symm
  generalize (Option.get _ sampleBytes_parse) = r at e hnodes hcov
  obtain ⟨ht, -, -⟩ := ofKsm_tree _ _ _ _ _ _ _ e
  obtain ⟨model', hrun, -, hrel', hss, hloc⟩ :=
    UpdateTransforms_tree samplePlatform r.1 [shearX, shearY] ht hcov
  rcases hN : r.1.Nodes with _ | ⟨n0, _ | ⟨n1, _ | ⟨n2, rest⟩⟩⟩ <;>
    simp only [hN, List.map_cons, List.map_nil, List.cons.injEq, Prod.mk.injEq, and_true,
      reduceCtorEq, and_false, false_and] at hnodes
  obtain ⟨⟨hp0, hc0⟩, hp1, hc1⟩ := hnodes
  have hg0 : r.1.Nodes[0]? = some n0 := by rw [hN]; rfl
  have hg1 : r.1.Nodes[1]? = some n1 := by rw [hN]; rfl
  obtain ⟨p', hp', -⟩ := hss.get 0 n0 hg0
  obtain ⟨c', hc', -⟩ := hss.get 1 n1 hg1
  have hpp : p'.Parent = none := (hss.parent 0 n0 p' hg0 hp').1.trans hp0
  have hcp : c'.Parent = some 0 := (hss.parent 1 n1 c' hg1 hc').1.trans hp1
  have hmax : (0 : Nat) ≠ samplePlatform.SIZE_MAX ∧ (1 : Nat) ≠ samplePlatform.SIZE_MAX := by
    decide
  have hpl : p'.LocalTransform = shearX := by
    rw [hloc 0 n0 p' hg0 hp']
    simp [newLocal, hc0, hmax.1]
  have hcl : c'.LocalTransform = shearY := by
    rw [hloc 1 n1 c' hg1 hc']
    simp [newLocal, hc1, hmax.2]
  have hpg : p'.GlobalTransform = shearX := by
    have := hrel' 0 p' hp'
    simp only [nodeRel, hpp] at this
    rw [this, hpl]
  have hcg : c'.GlobalTransform = shearX * shearY := by
    have := hrel' 1 c' hc'
    simp only [nodeRel, hcp] at this
    obtain ⟨pn, hpn, hg⟩ := this
    have e2 : pn = p' := Option.some.inj (hpn.symm.trans hp')
    rw [hg, e2, hpg, hcl]
  refine ⟨r.1, r.2, model', p', c', e, hrun, hp', hc', hcp, hcg, by rw [hcl, hpg], ?_⟩
  rw [hcg, hcl, hpg]
  exact fun h => shear_ne h.symm


theorem AssetFrame_refl (a : AssetManager) : AssetFrame a a := ⟨rfl, rfl, rfl, rfl, rfl, rfl⟩

theorem AssetFrame_trans {a b c : AssetManager} (h1 : AssetFrame a b) (h2 : AssetFrame b c) :
    AssetFrame a c :=
  ⟨h2.1.trans h1.1, h2.2.1.trans h1.2.1, h2.2.2.1.trans h1.2.2.1,
    h2.2.2.2.1.trans h1.2.2.2.1, h2.2.2.2.2.1.trans h1.2.2.2.2.1,
    h2.2.2.2.2.2.trans h1.2.2.2.2.2⟩

theorem GetTexture_frame (w : World) (self : AssetManager) (path : wstring) :
    AssetFrame self (self.GetTexture w path).2 := by
  by_cases h0 : self._d3dDevice = 0
  · rw [AssetManager.GetTexture, if_pos h0]
    exact ⟨rfl, rfl, rfl, rfl, rfl, rfl⟩
  · cases hc : self._loadedTextures (PathString.GetFileNameOnly path) with
    | some ret =>
      simp only [AssetManager.GetTexture, h0, if_false, hc]
      exact AssetFrame_refl _
    | none =>
      simp only [AssetManager.GetTexture, h0, if_false, hc]
      exact ⟨rfl, rfl, rfl, rfl, rfl, rfl⟩

theorem mesh_ofKsm_frame (pf : Platform) (w : World) (data : List Nat) (pos : Nat)
    (assets : AssetManager) (mesh : CredibleMesh) (p : Nat) (assets' : AssetManager)
    (h : CredibleMesh.ofKsm pf w data pos assets = some (mesh, p, assets')) :
    AssetFrame assets assets' := by
  unfold CredibleMesh.ofKsm at h
  repeat' split at h
  all_goals first
    | exact Option.noConfusion h
    | (dsimp only at h
       simp only [Option.some.injEq, Prod.mk.injEq] at h
       obtain ⟨-, -, rfl⟩ := h
       first
         | exact AssetFrame_refl _
         | exact GetTexture_frame _ _ _
         | exact AssetFrame_trans (GetTexture_frame _ _ _) (GetTexture_frame _ _ _))

theorem ofKsm_meshes_frame (pf : Platform) (w : World) (data : List Nat) :
    ∀ (count pos : Nat) (assets : AssetManager) (meshes : List CredibleMesh) (p : Nat)
      (assets' : AssetManager),
      CredibleNode.ofKsm.meshes pf w data count pos assets = some (meshes, p, assets') →
      AssetFrame assets assets' := by
  intro count
  induction count with
  | zero =>
    intro pos assets meshes p assets' h
    simp only [CredibleNode.ofKsm.meshes, Option.some.injEq, Prod.mk.injEq] at h
    obtain ⟨-, -, rfl⟩ := h
    exact AssetFrame_refl _
  | succ c ih =>
    intro pos assets meshes p assets' h
    simp only [CredibleNode.ofKsm.meshes] at h
    split at h
    · exact Option.noConfusion h
    rename_i mesh p1 a1 hmesh
    split at h
    · exact Option.noConfusion h
    rename_i rest p2 a2 hrest
    simp only [Option.some.injEq, Prod.mk.injEq] at h
    obtain ⟨-, -, rfl⟩ := h
    exact AssetFrame_trans (mesh_ofKsm_frame pf w data pos assets mesh p1 a1 hmesh)
      (ih p1 a1 rest p2 a2 hrest)

theorem node_ofKsm_frame (pf : Platform) (w : World) (data : List Nat)
    (parent : Option Nat) (pos : Nat) (Nodes : List CredibleNode) (assets : AssetManager)
    (node : CredibleNode) (p : Nat) (assets' : AssetManager)
    (h : CredibleNode.ofKsm pf w data parent pos Nodes assets = some (node, p, assets')) :
    AssetFrame assets assets' := by
  unfold CredibleNode.ofKsm at h
  repeat' split at h
  all_goals first
    | exact Option.noConfusion h
    | (simp only [Option.some.injEq, Prod.mk.injEq] at h
       obtain ⟨-, -, rfl⟩ := h
       exact ofKsm_meshes_frame pf w data _ _ _ _ _ _ ‹_›)

theorem children_frame
    (readChild : CredibleModelData → Option Nat → Nat → AssetManager →
      Option (Nat × CredibleModelData × Nat × AssetManager))
    (hrc : ∀ self parent p a idx self' p' a',
      readChild self parent p a = some (idx, self', p', a') → AssetFrame a a')
    (ksmNode : Nat) :
    ∀ (count : Nat) (self : CredibleModelData) (p : Nat) (a : AssetManager)
      (self' : CredibleModelData) (p' : Nat) (a' : AssetManager),
      CredibleModelData.readNodeTree.children readChild ksmNode count self p a
          = some (self', p', a') →
      AssetFrame a a' := by
  intro count
  induction count with
  | zero =>
    intro self p a self' p' a' h
    simp only [CredibleModelData.readNodeTree.children, Option.some.injEq, Prod.mk.injEq] at h
    obtain ⟨-, -, rfl⟩ := h
    exact AssetFrame_refl _
  | succ c ih =>
    intro self p a self' p' a' h
    simp only [CredibleModelData.readNodeTree.children] at h
    split at h
    · exact Option.noConfusion h
    rename_i child s1 p1 a1 hread
    exact AssetFrame_trans (hrc _ _ _ _ _ _ _ _ hread) (ih _ _ _ _ _ _ h)

theorem readNodeTree_frame (pf : Platform) (w : World) (data : List Nat) :
    ∀ (fuel : Nat) (self : CredibleModelData) (parent : Option Nat) (pos : Nat)
      (assets : AssetManager) (idx : Nat) (self' : CredibleModelData) (pos' : Nat)
      (assets' : AssetManager),
      CredibleModelData.readNodeTree pf w data fuel self parent pos assets
          = some (idx, self', pos', assets') →
      AssetFrame assets assets' := by
  intro fuel
  induction fuel with
  | zero =>
    intro self parent pos assets idx self' pos' assets' h
    simp [CredibleModelData.readNodeTree] at h
  | succ fuel ih =>
    intro self parent pos assets idx self' pos' assets' h
    simp only [CredibleModelData.readNodeTree] at h
    split at h
    · exact Option.noConfusion h
    rename_i node p1 a1 hnode
    split at h
    · exact Option.noConfusion h
    split at h
    · exact Option.noConfusion h
    rename_i s3 p3 a3 hloop
    simp only [Option.some.injEq, Prod.mk.injEq] at h
    obtain ⟨-, -, -, rfl⟩ := h
    exact AssetFrame_trans (node_ofKsm_frame pf w data parent pos self.Nodes assets node p1 a1 hnode)
      (children_frame _ ih _ _ _ _ _ _ _ _ hloop)

theorem ofKsm_frame (pf : Platform) (w : World) (junk : CredibleModelData) (data : List Nat)
    (assets : AssetManager) (model : CredibleModelData) (assets' : AssetManager)
    (h : CredibleModelData.ofKsm pf w junk data assets = some (model, assets')) :
    AssetFrame assets assets' := by
  unfold CredibleModelData.ofKsm CredibleModelData.initializeFromKsm at h
  simp only at h
  split at h
  · exact absurd h (by simp)
  split at h
  · exact absurd h (by simp)
  split at h
  · exact absurd h (by simp)
  split at h
  · exact absurd h (by simp)
  split at h
  · exact absurd h (by simp)
  rename_i root s1 pos' a1 htree
  split at h
  · exact absurd h (by simp)
  split at h
  · exact absurd h (by simp)
  split at h
  · exact absurd h (by simp)
  split at h
  · exact absurd h (by simp)
  simp only [Option.some.injEq, Prod.mk.injEq] at h
  obtain ⟨-, rfl⟩ := h
  exact AssetFrame_trans (readNodeTree_frame pf w data _ _ _ _ _ _ _ _ _ htree)
    ⟨rfl, rfl, rfl, rfl, rfl, rfl⟩

theorem defaultTexture_frame (self : AssetManager) (k slot : Nat) :
    (self.defaultTexture k slot).2._loadedModels = self._loadedModels
      ∧ (self.defaultTexture k slot).2._instanceToModelInstance = self._instanceToModelInstance
      ∧ (self.defaultTexture k slot).2._assetRootDirectory = self._assetRootDirectory
      ∧ (self.defaultTexture k slot).2.modelsConstructed = self.modelsConstructed :=
  ⟨rfl, rfl, rfl, rfl⟩

theorem slots_frame (k : Nat) :
    ∀ (slots : List Nat) (model : CredibleModelData) (self : AssetManager)
      (model' : CredibleModelData) (self' : AssetManager),
      AssetManager.LoadKsmModel.slots k slots model self = some (model', self') →
      self'._loadedModels = self._loadedModels
        ∧ self'._instanceToModelInstance = self._instanceToModelInstance
        ∧ self'._assetRootDirectory = self._assetRootDirectory
        ∧ self'.modelsConstructed = self.modelsConstructed := by
  intro slots
  induction slots with
  | nil =>
    intro model self model' self' h
    simp only [AssetManager.LoadKsmModel.slots, Option.some.injEq, Prod.mk.injEq] at h
    obtain ⟨-, rfl⟩ := h
    exact ⟨rfl, rfl, rfl, rfl⟩
  | cons slot rest ih =>
    intro model self model' self' h
    simp only [AssetManager.LoadKsmModel.slots] at h
    split at h
    · exact Option.noConfusion h
    exact ih _ (self.defaultTexture k slot).2 _ _ h

theorem brighten_valid (model : CredibleModelData) (h : model.meshPointersValid) :
    model.brighten.meshPointersValid := by
  intro ptr hp
  obtain ⟨mesh, hm⟩ := h ptr hp
  unfold CredibleModelData.meshAt at hm
  cases hn : model.Nodes[ptr.1]? with
  | none => rw [hn] at hm; exact Option.noConfusion hm
  | some node =>
    rw [hn] at hm
    simp only at hm
    simp only [CredibleModelData.meshAt, CredibleModelData.brighten, List.getElem?_map, hn,
      Option.map_some', hm]
    exact ⟨_, rfl⟩

theorem finish_spec (ist : InstanceSaveTypes) (self : AssetManager) (t k ptr : Nat)
    (object : CredibleModelData) (hk : self._loadedModels k = some (ptr, object))
    (hv : object.meshPointersValid) :
    ∃ s' object', AssetManager.LoadKsmModel.finish ist self t k = some (ptr, s')
      ∧ s'._loadedModels k = some (ptr, object') ∧ object'.meshPointersValid
      ∧ s'._instanceToModelInstance = self._instanceToModelInstance
      ∧ s'._assetRootDirectory = self._assetRootDirectory
      ∧ s'.modelsConstructed = self.modelsConstructed := by
  obtain ⟨m1, a1, hrun, hn1, hm1, -, -⟩ := slots_eq k ist.itemSlots object self hv
  obtain ⟨-, f2, f3, f4⟩ := slots_frame k _ _ _ _ _ hrun
  have hv1 : m1.meshPointersValid := meshPointersValid_congr object m1 hn1.symm hm1.symm hv
  simp only [AssetManager.LoadKsmModel.finish, hk, hrun]
  refine ⟨_, if t = ist.Doodad_Hitodama ∨ t = ist.Doodad_Fire then m1.brighten else m1,
    rfl, by simp, ?_, f2, f3, f4⟩
  split
  · exact brighten_valid m1 hv1
  · exact hv1

theorem LoadKsmModel_hit (pf : Platform) (w : World) (ist : InstanceSaveTypes)
    (junk : CredibleModelData) (self : AssetManager) (t ptr : Nat) (object : CredibleModelData)
    (hk : self._loadedModels (self.GetModelInstanceType t) = some (ptr, object))
    (hptr : ptr ≠ 0) :
    self.LoadKsmModel pf w ist junk t
      = AssetManager.LoadKsmModel.finish ist self t (self.GetModelInstanceType t) := by
  unfold AssetManager.LoadKsmModel
  unfold AssetManager.GetModelInstanceType at hk ⊢
  cases hi : self._instanceToModelInstance t <;> rw [hi] at hk <;> simp only at hk ⊢ <;>
    simp only [hk, hptr, if_false]

theorem LoadKsmModel_miss (pf : Platform) (w : World) (ist : InstanceSaveTypes)
    (junk : CredibleModelData) (self a1 : AssetManager) (t : Nat) (memBlock : List Nat)
    (object : CredibleModelData)
    (hk : self._loadedModels (self.GetModelInstanceType t) = none)
    (hfile : w.files (self._assetRootDirectory
      ++ ist.InstanceTypeToModelPath (self.GetModelInstanceType t)) = some memBlock)
    (hparse : CredibleModelData.ofKsm pf w junk memBlock self = some (object, a1)) :
    self.LoadKsmModel pf w ist junk t
      = AssetManager.LoadKsmModel.finish ist
          { a1 with
            _loadedModels :=
              Function.update a1._loadedModels (self.GetModelInstanceType t)
                (some (a1.modelsConstructed + 1, object))
            modelsConstructed := a1.modelsConstructed + 1 }
          t (self.GetModelInstanceType t) := by
  unfold AssetManager.LoadKsmModel
  unfold AssetManager.GetModelInstanceType at hk hfile ⊢
  cases hi : self._instanceToModelInstance t <;> rw [hi] at hk hfile <;>
    simp only at hk hfile ⊢ <;> simp only [hk, if_true, hfile, hparse]

theorem LoadKsmModel_cached (pf : Platform) (w : World) (ist : InstanceSaveTypes)
    (junk : CredibleModelData) (self : AssetManager) (t ptr : Nat) (object : CredibleModelData)
    (hk : self._loadedModels (self.GetModelInstanceType t) = some (ptr, object))
    (hptr : ptr ≠ 0) (hv : object.meshPointersValid) :
    ∃ s' object', self.LoadKsmModel pf w ist junk t = some (ptr, s')
      ∧ s'._loadedModels (self.GetModelInstanceType t) = some (ptr, object')
      ∧ object'.meshPointersValid
      ∧ s'._instanceToModelInstance = self._instanceToModelInstance
      ∧ s'._assetRootDirectory = self._assetRootDirectory
      ∧ s'.modelsConstructed = self.modelsConstructed := by
  rw [LoadKsmModel_hit pf w ist junk self t ptr object hk hptr]
  exact finish_spec ist self t _ ptr object hk hv

theorem LoadKsmModel_fresh (pf : Platform) (w : World) (ist : InstanceSaveTypes)
    (junk : CredibleModelData) (self : AssetManager) (t : Nat) (memBlock : List Nat)
    (hk : self._loadedModels (self.GetModelInstanceType t) = none)
    (hfile : w.files (self._assetRootDirectory
      ++ ist.InstanceTypeToModelPath (self.GetModelInstanceType t)) = some memBlock)
    (hparse : (CredibleModelData.ofKsm pf w junk memBlock self).isSome = true) :
    ∃ s' object', self.LoadKsmModel pf w ist junk t = some (self.modelsConstructed + 1, s')
      ∧ s'._loadedModels (self.GetModelInstanceType t)
          = some (self.modelsConstructed + 1, object')
      ∧ object'.meshPointersValid
      ∧ s'._instanceToModelInstance = self._instanceToModelInstance
      ∧ s'._assetRootDirectory = self._assetRootDirectory
      ∧ s'.modelsConstructed = self.modelsConstructed + 1 := by
  obtain ⟨⟨object, a1⟩, hp⟩ := Option.isSome_iff_exists.mp hparse
  obtain ⟨-, -, hv⟩ := ofKsm_tree pf w junk memBlock self object a1 hp
  obtain ⟨f1, -, f3, -, f5, f6⟩ := ofKsm_frame pf w junk memBlock self object a1 hp
  obtain ⟨s', object', h1, h2, h3, h4, h5, h6⟩ := finish_spec ist
    { a1 with
      _loadedModels :=
        Function.update a1._loadedModels (self.GetModelInstanceType t)
          (some (a1.modelsConstructed + 1, object))
      modelsConstructed := a1.modelsConstructed + 1 }
    t (self.GetModelInstanceType t) (a1.modelsConstructed + 1) object (by simp) hv
  rw [LoadKsmModel_miss pf w ist junk self a1 t memBlock object hk hfile hp, ← f6]
  exact ⟨s', object', h1, h2, h3, h4.trans f5, h5.trans f1, h6⟩

/-- C3, as stated, fails on a cache that already holds the model: after a
first `LoadKsmModel(5)`, the calls `LoadKsmModel(7)` and `LoadKsmModel(5)`
(types 7 and 5 resolve to the canonical type 5, whose file is readable) return
the same object and construct no model at all, not exactly one. -/
theorem LoadKsmModel_already_cached_counterexample :
    loadThrice = some (1, 1, 1, 1, 1) := by
  decide

/-- C3 (amended): when `a` and `b` resolve to the same canonical model type,
whose cache entry is either absent with a readable, parsable backing file, or
present and well formed, `LoadKsmModel(a)` followed by `LoadKsmModel(b)` returns
the same non-null model both times; a model is constructed exactly once across
the two calls when the canonical type was not cached before the first call,
and not at all when it was; the second call never constructs one. -/
theorem AssetManager.LoadKsmModel_shared (pf : Platform) (w : World) (ist : InstanceSaveTypes)
    (junk : CredibleModelData) (self : AssetManager) (a b : Nat)
    (hsame : self.GetModelInstanceType a = self.GetModelInstanceType b)
    (hcached : ∀ (ptr : Nat) (object : CredibleModelData),
      self._loadedModels (self.GetModelInstanceType a) = some (ptr, object) →
        ptr ≠ 0 ∧ object.meshPointersValid)
    (hfile : self._loadedModels (self.GetModelInstanceType a) = none →
      ∃ memBlock, w.files (self._assetRootDirectory
          ++ ist.InstanceTypeToModelPath (self.GetModelInstanceType a)) = some memBlock
        ∧ (CredibleModelData.ofKsm pf w junk memBlock self).isSome = true) :
    ∃ ptr s1 s2, self.LoadKsmModel pf w ist junk a = some (ptr, s1) ∧ ptr ≠ 0
      ∧ s1.LoadKsmModel pf w ist junk b = some (ptr, s2)
      ∧ s1.modelsConstructed = self.modelsConstructed
          + (if (self._loadedModels (self.GetModelInstanceType a)).isNone then 1 else 0)
      ∧ s2.modelsConstructed = s1.modelsConstructed := by
  have hsecond : ∀ (ptr : Nat) (s1 : AssetManager) (object1 : CredibleModelData),
      s1._loadedModels (self.GetModelInstanceType a) = some (ptr, object1) → ptr ≠ 0 →
      object1.meshPointersValid →
      s1._instanceToModelInstance = self._instanceToModelInstance →
      ∃ s2, s1.LoadKsmModel pf w ist junk b = some (ptr, s2)
        ∧ s2.modelsConstructed = s1.modelsConstructed := by
    intro ptr s1 object1 hk1 hptr hv1 hi1
    have hcanon : s1.GetModelInstanceType b = self.GetModelInstanceType a := by
      rw [hsame]
      simp only [AssetManager.GetModelInstanceType, hi1]
    obtain ⟨s2, object2, h2, -, -, -, -, hc2⟩ :=
      LoadKsmModel_cached pf w ist junk s1 b ptr object1 (by rw [hcanon]; exact hk1) hptr hv1
    exact ⟨s2, h2, hc2⟩
  cases hk : self._loadedModels (self.GetModelInstanceType a) with
  | none =>
    obtain ⟨memBlock, hf, hparse⟩ := hfile hk
    obtain ⟨s1, object1, h1, hk1, hv1, hi1, -, hc1⟩ :=
      LoadKsmModel_fresh pf w ist junk self a memBlock hk hf hparse
    obtain ⟨s2, h2, hc2⟩ := hsecond _ s1 object1 hk1 (by omega) hv1 hi1
    exact ⟨_, s1, s2, h1, by omega, h2, by simpa using hc1, hc2⟩
  | some entry =>
    obtain ⟨ptr, object⟩ := entry
    obtain ⟨hptr, hv⟩ := hcached ptr object hk
    obtain ⟨s1, object1, h1, hk1, hv1, hi1, -, hc1⟩ :=
      LoadKsmModel_cached pf w ist junk self a ptr object hk hptr hv
    obtain ⟨s2, h2, hc2⟩ := hsecond ptr s1 object1 hk1 hptr hv1 hi1
    exact ⟨ptr, s1, s2, h1, hptr, h2, by simpa using hc1, hc2⟩

/-- C3 on the empty cache `remapAssets`: type 7 is remapped to type 5, the file
of type 5 holds `sampleBytes`, and `LoadKsmModel(7)` followed by
`LoadKsmModel(5)` returns one model, constructed once. -/
theorem LoadKsmModel_shared_witness :
    ∃ ptr s1 s2,
      remapAssets.LoadKsmModel samplePlatform diskWorld sampleTypes skinnedModel 7
          = some (ptr, s1) ∧ ptr ≠ 0
        ∧ s1.LoadKsmModel samplePlatform diskWorld sampleTypes skinnedModel 5 = some (ptr, s2)
        ∧ s1.modelsConstructed = remapAssets.modelsConstructed
            + (if (remapAssets._loadedModels (remapAssets.GetModelInstanceType 7)).isNone
                then 1 else 0)
        ∧ s2.modelsConstructed = s1.modelsConstructed :=
  AssetManager.LoadKsmModel_shared samplePlatform diskWorld sampleTypes skinnedModel
    remapAssets 7 5 (by decide) (fun _ _ h => Option.noConfusion h)
    (fun _ => ⟨sampleBytes, by decide, by decide⟩)


theorem Holds_append {data : List Nat} {pos : Nat} {a b : List Nat}
    (h : Holds data pos (a ++ b)) : Holds data pos a ∧ Holds data (pos + a.length) b := by
  obtain ⟨pre, post, hd, hp, hb⟩ := h
  rw [List.length_append] at hb
  refine ⟨⟨pre, b ++ post, by simp [hd], hp, by omega⟩,
    ⟨pre ++ a, post, by simp [hd], by simp [hp], by omega⟩⟩

theorem Holds_drop {data : List Nat} {pos : Nat} {bytes : List Nat}
    (h : Holds data pos bytes) :
    (data.drop pos).take bytes.length = bytes ∧ pos + bytes.length ≤ data.length
      ∧ pos + bytes.length ≤ INT_MAX := by
  obtain ⟨pre, post, hd, hp, hb⟩ := h
  subst hp
  subst hd
  refine ⟨?_, ?_, hb⟩
  · simp
  · simp only [List.length_append]; omega

theorem length_encodeUnsigned (n v : Nat) : (Ksm.encodeUnsigned n v).length = n := by
  induction n generalizing v with
  | zero => rfl
  | succ n ih => simp [Ksm.encodeUnsigned, ih]

theorem leValue_encodeUnsigned (n v : Nat) (h : v < 256 ^ n) :
    DataReader.leValue (Ksm.encodeUnsigned n v) = v := by
  induction n generalizing v with
  | zero =>
    simp only [pow_zero, Nat.lt_one_iff] at h
    simp [Ksm.encodeUnsigned, DataReader.leValue, h]
  | succ n ih =>
    have hdiv : v / 256 < 256 ^ n := by
      rw [Nat.div_lt_iff_lt_mul (by norm_num)]
      rw [pow_succ] at h
      exact h
    simp only [Ksm.encodeUnsigned, DataReader.leValue, ih _ hdiv, Nat.mod_mod]
    omega

theorem ReadUnsigned_enc (n : Nat) (data : List Nat) (pos v : Nat) (hv : v < 256 ^ n)
    (h : Holds data pos (Ksm.encodeUnsigned n v)) :
    DataReader.ReadUnsigned n data pos
      = some (v, pos + (Ksm.encodeUnsigned n v).length) := by
  obtain ⟨h1, h2, h3⟩ := Holds_drop h
  rw [length_encodeUnsigned] at h1 h2 h3 ⊢
  simp only [DataReader.ReadUnsigned, h2, h3, and_self, if_true, h1,
    leValue_encodeUnsigned n v hv]

theorem ReadUINT_enc (data : List Nat) (pos v : Nat) (hv : v < 2 ^ 32)
    (h : Holds data pos (Ksm.encodeUINT v)) :
    DataReader.ReadUINT data pos = some (v, pos + (Ksm.encodeUINT v).length) :=
  ReadUnsigned_enc 4 data pos v (by norm_num at hv ⊢; exact hv) h

theorem ReadBool_enc (data : List Nat) (pos : Nat) (b : Bool)
    (h : Holds data pos (Ksm.encodeBool b)) :
    DataReader.ReadBool data pos = some (b, pos + (Ksm.encodeBool b).length) := by
  have h' : Holds data pos (Ksm.encodeUnsigned 1 (if b then 1 else 0)) := by
    cases b <;> exact h
  have := ReadUnsigned_enc 1 data pos (if b then 1 else 0) (by cases b <;> decide) h'
  simp only [DataReader.ReadBool, this, Option.map_some']
  cases b <;> rfl

theorem ReadFloat_enc (pf : Platform) (bitsOfFloat : ℚ → Nat) (data : List Nat) (pos : Nat)
    (x : ℚ) (hx : Representable pf bitsOfFloat x)
    (h : Holds data pos (Ksm.encodeFloat bitsOfFloat x)) :
    DataReader.ReadFloat pf data pos
      = some (x, pos + (Ksm.encodeFloat bitsOfFloat x).length) := by
  have := ReadUINT_enc data pos (bitsOfFloat x) hx.2 h
  simp only [DataReader.ReadFloat, this, Option.map_some', hx.1]
  rfl

theorem ReadArray_enc {α β : Type} (read : List Nat → Nat → Option (α × Nat))
    (enc : β → List Nat) (f : β → α) (data : List Nat) :
    ∀ (xs : List β) (pos : Nat),
      (∀ x ∈ xs, ∀ p, Holds data p (enc x) → read data p = some (f x, p + (enc x).length)) →
      Holds data pos (xs.flatMap enc) →
      DataReader.ReadArray read data xs.length pos
        = some (xs.map f, pos + (xs.flatMap enc).length) := by
  intro xs
  induction xs with
  | nil => intro pos _ _; rfl
  | cons x rest ih =>
    intro pos hread h
    rw [List.flatMap_cons] at h
    obtain ⟨h1, h2⟩ := Holds_append h
    have hr := ih (pos + (enc x).length) (fun y hy => hread y (List.mem_cons_of_mem _ hy)) h2
    simp only [List.length_cons, DataReader.ReadArray, hread x (List.mem_cons_self _ _) pos h1,
      hr, List.map_cons, List.flatMap_cons, List.length_append, Nat.add_assoc]

theorem ReadString_enc (data : List Nat) (pos : Nat) (s : wstring) (hs : StringOK s)
    (h : Holds data pos (Ksm.encodeString s)) :
    DataReader.ReadString data pos = some (s, pos + (Ksm.encodeString s).length) := by
  unfold Ksm.encodeString at h ⊢
  obtain ⟨h1, h2⟩ := Holds_append h
  have ha := ReadArray_enc DataReader.ReadWchar (Ksm.encodeUnsigned 2) id data s
    (pos + (Ksm.encodeUINT s.length).length)
    (fun c hc p hp => ReadUnsigned_enc 2 data p c (by have := hs.2 c hc; norm_num at this ⊢; exact this) hp)
    h2
  simp only [DataReader.ReadString, ReadUINT_enc data pos s.length hs.1 h1, ha, List.map_id,
    List.length_append, Nat.add_assoc]

theorem ReadFloats_enc (pf : Platform) (bitsOfFloat : ℚ → Nat) (data : List Nat) (pos : Nat)
    (l : List ℚ) (hl : AllRepresentable pf bitsOfFloat l)
    (h : Holds data pos (l.flatMap (Ksm.encodeFloat bitsOfFloat))) :
    DataReader.ReadArray (DataReader.ReadFloat pf) data l.length pos
      = some (l, pos + (l.flatMap (Ksm.encodeFloat bitsOfFloat)).length) := by
  have := ReadArray_enc (DataReader.ReadFloat pf) (Ksm.encodeFloat bitsOfFloat) id data l pos
    (fun x hx p hp => ReadFloat_enc pf bitsOfFloat data p x (hl x hx) hp) h
  rw [List.map_id] at this
  exact this

theorem ReadXMFLOAT3_enc (pf : Platform) (bitsOfFloat : ℚ → Nat) (data : List Nat) (pos : Nat)
    (v : XMFLOAT3) (hv : AllRepresentable pf bitsOfFloat [v.x, v.y, v.z])
    (h : Holds data pos (Ksm.encodeFloat3 bitsOfFloat v)) :
    DataReader.ReadXMFLOAT3 pf data pos
      = some (v, pos + (Ksm.encodeFloat3 bitsOfFloat v).length) := by
  have := ReadFloats_enc pf bitsOfFloat data pos [v.x, v.y, v.z] hv h
  simp only [List.length_cons, List.length_nil] at this
  simp only [DataReader.ReadXMFLOAT3, this, Ksm.encodeFloat3]

theorem ReadXMFLOAT4_enc (pf : Platform) (bitsOfFloat : ℚ → Nat) (data : List Nat) (pos : Nat)
    (v : XMFLOAT4) (hv : AllRepresentable pf bitsOfFloat [v.x, v.y, v.z, v.w])
    (h : Holds data pos (Ksm.encodeFloat4 bitsOfFloat v)) :
    DataReader.ReadXMFLOAT4 pf data pos
      = some (v, pos + (Ksm.encodeFloat4 bitsOfFloat v).length) := by
  have := ReadFloats_enc pf bitsOfFloat data pos [v.x, v.y, v.z, v.w] hv h
  simp only [List.length_cons, List.length_nil] at this
  simp only [DataReader.ReadXMFLOAT4, this, Ksm.encodeFloat4]

theorem ofList_toList (m : XMFLOAT4X4) : XMFLOAT4X4.ofList m.toList = m := by
  ext i j
  fin_cases i <;> fin_cases j <;> rfl

theorem ReadXMFLOAT4X4_enc (pf : Platform) (bitsOfFloat : ℚ → Nat) (data : List Nat)
    (pos : Nat) (m : XMFLOAT4X4) (hm : AllRepresentable pf bitsOfFloat m.toList)
    (h : Holds data pos (Ksm.encodeMatrix bitsOfFloat m)) :
    DataReader.ReadXMFLOAT4X4 pf data pos
      = some (m, pos + (Ksm.encodeMatrix bitsOfFloat m).length) := by
  have := ReadFloats_enc pf bitsOfFloat data pos m.toList hm h
  have hlen : m.toList.length = 16 := rfl
  rw [hlen] at this
  simp only [DataReader.ReadXMFLOAT4X4, this, Option.map_some', ofList_toList,
    Ksm.encodeMatrix]

theorem ReadVertex_enc (pf : Platform) (bitsOfFloat : ℚ → Nat) (data : List Nat) (pos : Nat)
    (v : VertexPositionNormalTexture) (hv : AllRepresentable pf bitsOfFloat v.toList)
    (h : Holds data pos (v.toList.flatMap (Ksm.encodeFloat bitsOfFloat))) :
    DataReader.ReadVertex pf data pos
      = some (v, pos + (v.toList.flatMap (Ksm.encodeFloat bitsOfFloat)).length) := by
  have := ReadFloats_enc pf bitsOfFloat data pos v.toList hv h
  have hlen : v.toList.length = 8 := rfl
  rw [hlen] at this
  simp only [VertexPositionNormalTexture.toList] at this ⊢
  simp only [DataReader.ReadVertex, this]

theorem ReadVertices_enc (pf : Platform) (bitsOfFloat : ℚ → Nat) (data : List Nat) (pos : Nat)
    (hasAnimVertices : Bool) (vs : List (VertexPositionNormalTexture × List Nat))
    (hvs : ∀ v ∈ vs, Ksm.VertexOK pf bitsOfFloat hasAnimVertices v)
    (h : Holds data pos (vs.flatMap (Ksm.encodeVertex bitsOfFloat hasAnimVertices))) :
    (if hasAnimVertices then
        DataReader.ReadArray (DataReader.ReadVertexBoneWeight pf) data vs.length pos
      else DataReader.ReadArray (DataReader.ReadVertex pf) data vs.length pos)
      = some (vs.map fun v => v.1,
          pos + (vs.flatMap (Ksm.encodeVertex bitsOfFloat hasAnimVertices)).length) := by
  cases hasAnimVertices with
  | false =>
    simp only [Bool.false_eq_true, if_false]
    refine ReadArray_enc (DataReader.ReadVertex pf) (Ksm.encodeVertex bitsOfFloat false)
      (fun v => v.1) data vs pos ?_ h
    intro v hv p hp
    have hp' : Holds data p (v.1.toList.flatMap (Ksm.encodeFloat bitsOfFloat)) :=
      (Holds_append hp).1
    rw [ReadVertex_enc pf bitsOfFloat data p v.1 (hvs v hv).1 hp']
    simp [Ksm.encodeVertex, VertexPositionNormalTexture.toList]
  | true =>
    simp only [if_true]
    refine ReadArray_enc (DataReader.ReadVertexBoneWeight pf)
      (Ksm.encodeVertex bitsOfFloat true) (fun v => v.1) data vs pos ?_ h
    intro v hv p hp
    obtain ⟨hp1, hp2⟩ := Holds_append hp
    have hp' : Holds data p (v.1.toList.flatMap (Ksm.encodeFloat bitsOfFloat)) := hp1
    have hle := (Holds_drop hp2).2
    simp only [if_true] at hle
    rw [(hvs v hv).2 rfl] at hle
    have hle' : p + (v.1.toList.flatMap (Ksm.encodeFloat bitsOfFloat)).length
        + pf.sizeofBoneWeights ≤ data.length := hle.1
    have hle2 : p + (v.1.toList.flatMap (Ksm.encodeFloat bitsOfFloat)).length
        + pf.sizeofBoneWeights ≤ INT_MAX := hle.2
    simp only [DataReader.ReadVertexBoneWeight,
      ReadVertex_enc pf bitsOfFloat data p v.1 (hvs v hv).1 hp', hle', hle2, and_self, if_true]
    simp [Ksm.encodeVertex, VertexPositionNormalTexture.toList, (hvs v hv).2 rfl,
      Nat.add_assoc]

theorem ReadBone_enc (pf : Platform) (bitsOfFloat : ℚ → Nat) (data : List Nat) (pos : Nat)
    (bone : CredibleBone) (hb : Ksm.BoneOK pf bitsOfFloat bone)
    (h : Holds data pos (Ksm.encodeBone bitsOfFloat bone)) :
    DataReader.ReadBone pf data pos
      = some (bone, pos + (Ksm.encodeBone bitsOfFloat bone).length) := by
  unfold Ksm.encodeBone at h ⊢
  obtain ⟨h1, h2⟩ := Holds_append h
  simp only [DataReader.ReadBone, ReadString_enc data pos bone.Name hb.1 h1,
    ReadXMFLOAT4X4_enc pf bitsOfFloat data _ bone.Offset hb.2 h2, List.length_append,
    Nat.add_assoc]

theorem mesh_ofKsm_enc (pf : Platform) (w : World) (bitsOfFloat : ℚ → Nat)
    (data : List Nat) (pos : Nat) (mesh : Ksm.Mesh) (assets : AssetManager)
    (hok : Ksm.MeshOK pf bitsOfFloat mesh)
    (h : Holds data pos (Ksm.encodeMesh bitsOfFloat false mesh)) :
    ∃ cm assets', CredibleMesh.ofKsm pf w data pos assets
        = some (cm, pos + (Ksm.encodeMesh bitsOfFloat false mesh).length, assets')
      ∧ cm.content = mesh.content := by
  unfold Ksm.encodeMesh at h ⊢
  simp only [List.append_assoc] at h
  obtain ⟨h1, h⟩ := Holds_append h
  obtain ⟨h2, h⟩ := Holds_append h
  obtain ⟨h3, h⟩ := Holds_append h
  obtain ⟨h4, h⟩ := Holds_append h
  obtain ⟨h5, h⟩ := Holds_append h
  obtain ⟨h6, h⟩ := Holds_append h
  obtain ⟨h7, h⟩ := Holds_append h
  obtain ⟨h8, h⟩ := Holds_append h
  obtain ⟨h9, h⟩ := Holds_append h
  obtain ⟨h10, h⟩ := Holds_append h
  obtain ⟨h11, h⟩ := Holds_append h
  obtain ⟨h12, h⟩ := Holds_append h
  obtain ⟨h13, h⟩ := Holds_append h
  obtain ⟨h14, h⟩ := Holds_append h
  obtain ⟨h15, h⟩ := Holds_append h
  obtain ⟨h16, h⟩ := Holds_append h
  obtain ⟨h17, h⟩ := Holds_append h
  obtain ⟨h18, h⟩ := Holds_append h
  obtain ⟨h19, h20⟩ := Holds_append h
  have hidx : Ksm.encodeIndices false mesh.indicesAre16Bit mesh.indices
      = mesh.indices.flatMap Ksm.encodeUINT := by
    simp [Ksm.encodeIndices]
  have r13 := ReadArray_enc DataReader.ReadUINT Ksm.encodeUINT id data mesh.indices _
    (fun i hi p hp => ReadUINT_enc data p i (hok.indices i hi) hp) (hidx ▸ h13)
  rw [List.map_id, ← hidx] at r13
  have r15 := ReadVertices_enc pf bitsOfFloat data _ mesh.hasAnimVertices mesh.vertices
    hok.vertices h15
  have r18 := ReadArray_enc (DataReader.ReadBone pf) (Ksm.encodeBone bitsOfFloat) id data
    mesh.bones _ (fun b hb p hp => ReadBone_enc pf bitsOfFloat data p b (hok.bones b hb) hp) h18
  rw [List.map_id] at r18
  simp only [CredibleMesh.ofKsm,
    ReadUINT_enc data _ _ hok.boneCount h1, ReadUINT_enc data _ _ hok.faceCount h2,
    ReadUINT_enc data _ _ hok.vertexCount h3, ReadUINT_enc data _ _ hok.indexCount h4,
    ReadXMFLOAT4_enc pf bitsOfFloat data _ _ hok.diffuse h5,
    ReadXMFLOAT4_enc pf bitsOfFloat data _ _ hok.ambient h6,
    ReadXMFLOAT4_enc pf bitsOfFloat data _ _ hok.reflect h7,
    ReadXMFLOAT4_enc pf bitsOfFloat data _ _ hok.specular h8,
    ReadFloat_enc pf bitsOfFloat data _ _ hok.opacity h9,
    ReadFloat_enc pf bitsOfFloat data _ _ hok.shininess h10,
    ReadFloat_enc pf bitsOfFloat data _ _ hok.specStrength h11,
    ReadBool_enc data _ _ h12, r13, ReadBool_enc data _ _ h14, r15,
    ReadString_enc data _ _ hok.diffusePath h16, ReadString_enc data _ _ hok.normalPath h17,
    r18, ReadXMFLOAT3_enc pf bitsOfFloat data _ _ hok.center h19,
    ReadXMFLOAT3_enc pf bitsOfFloat data _ _ hok.extents h20,
    if_neg (Nat.pos_iff_ne_zero.mp hok.someIndex),
    if_neg (Nat.pos_iff_ne_zero.mp hok.someVertex)]
  simp only [List.length_append, Nat.add_assoc, List.map_map]
  exact ⟨_, _, rfl, rfl⟩

theorem ofKsm_meshes_enc (pf : Platform) (w : World) (bitsOfFloat : ℚ → Nat)
    (data : List Nat) :
    ∀ (meshes : List Ksm.Mesh) (pos : Nat) (assets : AssetManager),
      (∀ mesh ∈ meshes, Ksm.MeshOK pf bitsOfFloat mesh) →
      Holds data pos (meshes.flatMap (Ksm.encodeMesh bitsOfFloat false)) →
      ∃ cms assets', CredibleNode.ofKsm.meshes pf w data meshes.length pos assets
          = some (cms, pos + (meshes.flatMap (Ksm.encodeMesh bitsOfFloat false)).length, assets')
        ∧ cms.map CredibleMesh.content = meshes.map Ksm.Mesh.content := by
  intro meshes
  induction meshes with
  | nil => intro pos assets _ _; exact ⟨[], assets, rfl, rfl⟩
  | cons mesh rest ih =>
    intro pos assets hok h
    rw [List.flatMap_cons] at h
    obtain ⟨h1, h2⟩ := Holds_append h
    obtain ⟨cm, a1, hcm, hcont⟩ := mesh_ofKsm_enc pf w bitsOfFloat data pos mesh assets
      (hok mesh (List.mem_cons_self _ _)) h1
    obtain ⟨cms, a2, hcms, hconts⟩ := ih _ a1 (fun m hm => hok m (List.mem_cons_of_mem _ hm)) h2
    refine ⟨cm :: cms, a2, ?_, ?_⟩
    · simp only [List.length_cons, CredibleNode.ofKsm.meshes, hcm, hcms, List.flatMap_cons,
        List.length_append, Nat.add_assoc]
    · simp only [List.map_cons, hcont, hconts]

theorem node_ofKsm_enc (pf : Platform) (w : World) (bitsOfFloat : ℚ → Nat)
    (data : List Nat) (parent : Option Nat) (pos : Nat) (Nodes : List CredibleNode)
    (assets : AssetManager) (name : wstring) (localTransform : XMFLOAT4X4) (channelIndex : Nat)
    (meshes : List Ksm.Mesh) (children : List Ksm.Node)
    (hok : Ksm.NodeOK pf bitsOfFloat (.mk name localTransform channelIndex meshes children))
    (hall : AllOK Nodes) (hpar : ∀ p, parent = some p → p < Nodes.length)
    (h : Holds data pos (Ksm.encodeString name ++ (Ksm.encodeMatrix bitsOfFloat localTransform
      ++ (Ksm.encodeUnsigned pf.sizeofSizeT channelIndex ++ (Ksm.encodeUINT meshes.length
      ++ meshes.flatMap (Ksm.encodeMesh bitsOfFloat false)))))) :
    ∃ cn assets', CredibleNode.ofKsm pf w data parent pos Nodes assets
        = some (cn, pos + (Ksm.encodeString name ++ (Ksm.encodeMatrix bitsOfFloat localTransform
            ++ (Ksm.encodeUnsigned pf.sizeofSizeT channelIndex ++ (Ksm.encodeUINT meshes.length
            ++ meshes.flatMap (Ksm.encodeMesh bitsOfFloat false))))).length, assets')
      ∧ cn.content = (name, localTransform, channelIndex, meshes.map Ksm.Mesh.content)
      ∧ cn.Parent = parent ∧ cn.Children = [] ∧ nodeRel Nodes cn := by
  obtain ⟨h1, h⟩ := Holds_append h
  obtain ⟨h2, h⟩ := Holds_append h
  obtain ⟨h3, h⟩ := Holds_append h
  obtain ⟨h4, h5⟩ := Holds_append h
  obtain ⟨g, hg, hrel⟩ := CalculateGlobalTransform_eq Nodes hall
    { CredibleNode.default pf with
      Name := name, LocalTransform := localTransform, Parent := parent } hpar
  have hname : StringOK name := hok.name
  have hlocal : AllRepresentable pf bitsOfFloat localTransform.toList := hok.localTransform
  have hchannel : channelIndex < 256 ^ pf.sizeofSizeT := hok.channelIndex
  have hcount : meshes.length < 2 ^ 32 := hok.meshCount
  have hmeshes : ∀ mesh ∈ meshes, Ksm.MeshOK pf bitsOfFloat mesh := hok.meshes
  obtain ⟨cms, a1, hcms, hcont⟩ := ofKsm_meshes_enc pf w bitsOfFloat data meshes _ assets
    hmeshes h5
  simp only [CredibleNode.ofKsm, ReadString_enc data _ _ hname h1,
    ReadXMFLOAT4X4_enc pf bitsOfFloat data _ _ hlocal h2, hg,
    DataReader.ReadSizeT, ReadUnsigned_enc _ data _ _ hchannel h3,
    ReadUINT_enc data _ _ hcount h4, hcms]
  simp only [List.length_append, Nat.add_assoc]
  refine ⟨_, _, rfl, ?_, rfl, rfl, hrel⟩
  simp only [CredibleNode.content, hcont]

theorem pushChild_content (Nodes : List CredibleNode) (k c : Nat) :
    (pushChild Nodes k c).map CredibleNode.content = Nodes.map CredibleNode.content := by
  apply List.ext_getElem?
  intro i
  simp only [List.getElem?_map]
  by_cases hi : i = k
  · subst hi
    cases hn : Nodes[i]? with
    | none => simp [pushChild, hn]
    | some n => rw [pushChild_get_self Nodes i c n hn]; rfl
  · rw [pushChild_get_ne Nodes k c i hi]

theorem encodeNode_length_pos (bitsOfFloat : ℚ → Nat) (sizeofSizeT : Nat) (narrow : Bool)
    (name : wstring) (localTransform : XMFLOAT4X4) (channelIndex : Nat)
    (meshes : List Ksm.Mesh) (children : List Ksm.Node) :
    (Ksm.encodeNodes bitsOfFloat sizeofSizeT narrow children).length
      < (Ksm.encodeNode bitsOfFloat sizeofSizeT narrow
          (.mk name localTransform channelIndex meshes children)).length := by
  simp only [Ksm.encodeNode, List.length_append, Ksm.encodeString, Ksm.encodeUINT,
    length_encodeUnsigned]
  omega

theorem encodeNodes_cons_length (bitsOfFloat : ℚ → Nat) (sizeofSizeT : Nat) (narrow : Bool)
    (node : Ksm.Node) (rest : List Ksm.Node) :
    (Ksm.encodeNodes bitsOfFloat sizeofSizeT narrow (node :: rest)).length
      = (Ksm.encodeNode bitsOfFloat sizeofSizeT narrow node).length
        + (Ksm.encodeNodes bitsOfFloat sizeofSizeT narrow rest).length := by
  simp only [Ksm.encodeNodes, List.length_append]

mutual

theorem readNodeTree_enc (pf : Platform) (w : World) (bitsOfFloat : ℚ → Nat)
    (data : List Nat) :
    ∀ (knode : Ksm.Node) (fuel : Nat) (self : CredibleModelData) (parent : Option Nat)
      (pos : Nat) (assets : AssetManager),
      (Ksm.encodeNode bitsOfFloat pf.sizeofSizeT false knode).length ≤ fuel →
      (∀ n ∈ knode.preorder, Ksm.NodeOK pf bitsOfFloat n) →
      AllOK self.Nodes → (∀ p, parent = some p → p < self.Nodes.length) →
      Holds data pos (Ksm.encodeNode bitsOfFloat pf.sizeofSizeT false knode) →
      ∃ self' assets',
        CredibleModelData.readNodeTree pf w data fuel self parent pos assets
          = some (self.Nodes.length, self',
              pos + (Ksm.encodeNode bitsOfFloat pf.sizeofSizeT false knode).length, assets')
        ∧ self'.Nodes.map CredibleNode.content
            = self.Nodes.map CredibleNode.content ++ knode.preorder.map Ksm.Node.content
        ∧ self'._allMeshes.length
            = self._allMeshes.length + (knode.preorder.map fun n => n.meshes.length).sum
        ∧ self'.ModelAnimationData = self.ModelAnimationData
  | .mk name localTransform channelIndex meshes children, fuel, self, parent, pos, assets,
      hfuel, hok, hall, hpar, h => by
    have hlt := encodeNode_length_pos bitsOfFloat pf.sizeofSizeT false name localTransform
      channelIndex meshes children
    obtain ⟨fuel, rfl⟩ : ∃ f, fuel = f + 1 := ⟨fuel - 1, by omega⟩
    have hsplit : Ksm.encodeNode bitsOfFloat pf.sizeofSizeT false
        (.mk name localTransform channelIndex meshes children)
        = (Ksm.encodeString name ++ (Ksm.encodeMatrix bitsOfFloat localTransform
            ++ (Ksm.encodeUnsigned pf.sizeofSizeT channelIndex ++ (Ksm.encodeUINT meshes.length
            ++ meshes.flatMap (Ksm.encodeMesh bitsOfFloat false)))))
          ++ (Ksm.encodeUINT children.length
            ++ Ksm.encodeNodes bitsOfFloat pf.sizeofSizeT false children) := by
      simp only [Ksm.encodeNode, List.append_assoc]
    rw [hsplit] at h ⊢
    obtain ⟨h1, h⟩ := Holds_append h
    obtain ⟨h2, h3⟩ := Holds_append h
    have hself : Ksm.NodeOK pf bitsOfFloat (.mk name localTransform channelIndex meshes children) :=
      hok _ (by simp [Ksm.Node.preorder])
    have hcc : children.length < 2 ^ 32 := hself.childCount
    obtain ⟨cn, a1, hcn, hcont, hcpar, hcch, hcrel⟩ := node_ofKsm_enc pf w bitsOfFloat
      data parent pos self.Nodes assets name localTransform channelIndex meshes children hself
      hall hpar h1
    have hall1 : AllOK (self.Nodes ++ [cn]) :=
      AllOK_append self.Nodes cn hall hcrel (fun q hq => hpar q (hcpar ▸ hq)) hcch
    obtain ⟨s3, a3, hloop, hnodes, hmeshes, hclips⟩ := children_enc pf w bitsOfFloat data children fuel
      { self with Nodes := self.Nodes ++ [cn] } self.Nodes.length _ a1
      (by omega)
      (fun n hn => hok n (by simp [Ksm.Node.preorder, hn]))
      hall1 (by simp) h3
    refine ⟨{ s3 with
        _allMeshes := s3._allMeshes
          ++ (List.range cn.Meshes.length).map fun m => (self.Nodes.length, m) },
      a3, ?_, ?_, ?_, hclips⟩
    · simp only [CredibleModelData.readNodeTree, hcn, ReadUINT_enc data _ _ hcc h2, hloop]
      simp only [List.length_append, Nat.add_assoc]
    · simp only [hnodes, List.map_append, List.map_cons, List.map_nil, Ksm.Node.preorder,
        List.append_assoc, List.singleton_append, hcont]
      rfl
    · have hml : cn.Meshes.length = meshes.length := by
        have := congrArg (fun c => c.2.2.2.length) hcont
        simpa [CredibleNode.content] using this
      simp only [List.length_append, List.length_map, List.length_range, hmeshes, hml,
        Ksm.Node.preorder, List.map_cons, List.sum_cons, Ksm.Node.meshes]
      omega

theorem children_enc (pf : Platform) (w : World) (bitsOfFloat : ℚ → Nat)
    (data : List Nat) :
    ∀ (knodes : List Ksm.Node) (fuel : Nat) (self : CredibleModelData) (ksmNode : Nat)
      (pos : Nat) (assets : AssetManager),
      (Ksm.encodeNodes bitsOfFloat pf.sizeofSizeT false knodes).length ≤ fuel →
      (∀ n ∈ Ksm.Node.preorderList knodes, Ksm.NodeOK pf bitsOfFloat n) →
      AllOK self.Nodes → ksmNode < self.Nodes.length →
      Holds data pos (Ksm.encodeNodes bitsOfFloat pf.sizeofSizeT false knodes) →
      ∃ self' assets',
        CredibleModelData.readNodeTree.children
            (CredibleModelData.readNodeTree pf w data fuel) ksmNode knodes.length self pos assets
          = some (self',
              pos + (Ksm.encodeNodes bitsOfFloat pf.sizeofSizeT false knodes).length, assets')
        ∧ self'.Nodes.map CredibleNode.content
            = self.Nodes.map CredibleNode.content
              ++ (Ksm.Node.preorderList knodes).map Ksm.Node.content
        ∧ self'._allMeshes.length
            = self._allMeshes.length
              + ((Ksm.Node.preorderList knodes).map fun n => n.meshes.length).sum
        ∧ self'.ModelAnimationData = self.ModelAnimationData
  | [], fuel, self, ksmNode, pos, assets, _, _, _, _, _ => by
    refine ⟨self, assets, ?_, ?_, ?_, rfl⟩
    · simp [CredibleModelData.readNodeTree.children, Ksm.encodeNodes]
    · simp [Ksm.Node.preorderList]
    · simp [Ksm.Node.preorderList]
  | knode :: rest, fuel, self, ksmNode, pos, assets, hfuel, hok, hall, hk, h => by
    rw [encodeNodes_cons_length] at hfuel
    have hsplit : Ksm.encodeNodes bitsOfFloat pf.sizeofSizeT false (knode :: rest)
        = Ksm.encodeNode bitsOfFloat pf.sizeofSizeT false knode
          ++ Ksm.encodeNodes bitsOfFloat pf.sizeofSizeT false rest := by
      simp only [Ksm.encodeNodes]
    rw [hsplit] at h ⊢
    obtain ⟨h1, h2⟩ := Holds_append h
    obtain ⟨s1, a1, hread, hnodes1, hmeshes1, hclips1⟩ := readNodeTree_enc pf w bitsOfFloat data knode
      fuel self (some ksmNode) pos assets (by omega)
      (fun n hn => hok n (by simp [Ksm.Node.preorderList, hn]))
      hall (fun q hq => by cases hq; exact hk) h1
    have hone : CredibleModelData.readNodeTree.children
        (CredibleModelData.readNodeTree pf w data fuel) ksmNode 1 self pos assets
        = some ({ s1 with Nodes := pushChild s1.Nodes ksmNode self.Nodes.length },
            pos + (Ksm.encodeNode bitsOfFloat pf.sizeofSizeT false knode).length, a1) := by
      simp only [CredibleModelData.readNodeTree.children, hread]
    have C := children_post (CredibleModelData.readNodeTree pf w data fuel)
      (readNodeTree_post pf w data fuel) ksmNode 1 self pos assets _ _ _ hone hk
    have hall2 : AllOK (pushChild s1.Nodes ksmNode self.Nodes.length) := C.ok hall
    have hlen1 : s1.Nodes.length = self.Nodes.length + knode.preorder.length := by
      have := congrArg List.length hnodes1
      simpa using this
    obtain ⟨s2, a2, hloop, hnodes2, hmeshes2, hclips2⟩ := children_enc pf w bitsOfFloat data rest fuel
      { s1 with Nodes := pushChild s1.Nodes ksmNode self.Nodes.length } ksmNode _ a1
      (by omega)
      (fun n hn => hok n (by simp [Ksm.Node.preorderList, hn]))
      hall2 (by simp only [pushChild_length]; omega) h2
    refine ⟨s2, a2, ?_, ?_, ?_, hclips2.trans hclips1⟩
    · simp only [List.length_cons, CredibleModelData.readNodeTree.children, hread, hloop,
        List.length_append, Nat.add_assoc]
    · simp only [hnodes2, pushChild_content, hnodes1, Ksm.Node.preorderList, List.map_append,
        List.append_assoc]
    · simp only [hmeshes2, hmeshes1, Ksm.Node.preorderList, List.map_append, List.sum_append]
      omega
end

theorem content_name (Nodes : List CredibleNode) (knodes : List Ksm.Node)
    (h : Nodes.map CredibleNode.content = knodes.map Ksm.Node.content)
    (target : Ksm.Node) (ht : target ∈ knodes) :
    ∃ node ∈ Nodes, node.Name = target.name := by
  have h1 : target.content ∈ Nodes.map CredibleNode.content := h ▸ List.mem_map_of_mem _ ht
  obtain ⟨node, hn, hnc⟩ := List.mem_map.mp h1
  exact ⟨node, hn, congrArg (fun c => c.1) hnc⟩

/-- C13: on a cache without a device, `GetTexture` returns the null handle for
every path and every loader; it hands no path to a texture loader and leaves
the texture table and every other member as they were; the only trace of the
call is one more reported error. -/
theorem AssetManager.GetTexture_uninitialized (w : World) (self : AssetManager)
    (assetRelativePath : wstring) (hdevice : self._d3dDevice = 0) :
    (self.GetTexture w assetRelativePath).1 = 0
      ∧ (self.GetTexture w assetRelativePath).2._loadedTextures = self._loadedTextures
      ∧ (self.GetTexture w assetRelativePath).2.textureLoads = self.textureLoads
      ∧ (self.GetTexture w assetRelativePath).2
          = { self with criticalErrors := self.criticalErrors + 1 } := by
  rw [AssetManager.GetTexture, if_pos hdevice]
  exact ⟨rfl, rfl, rfl, rfl⟩

/-- C13 on `coldAssets` and the path `a/t`. -/
theorem GetTexture_uninitialized_witness :
    coldAssets._d3dDevice = 0
      ∧ (coldAssets.GetTexture sampleWorld [97, 47, 116]).1 = 0
      ∧ (coldAssets.GetTexture sampleWorld [97, 47, 116]).2._loadedTextures
          = coldAssets._loadedTextures
      ∧ (coldAssets.GetTexture sampleWorld [97, 47, 116]).2.textureLoads
          = coldAssets.textureLoads :=
  have h := AssetManager.GetTexture_uninitialized sampleWorld coldAssets [97, 47, 116] rfl
  ⟨rfl, h.1, h.2.1, h.2.2.1⟩

/-- C14: when the canonical model type has no model in the cache and the file
of the model cannot be opened, `LoadKsmModel` returns null, and the model
table, the texture table, the default texture table and the remap table are
as they were: the cache afterwards differs from the cache before only in the
count of reported errors. -/
theorem AssetManager.LoadKsmModel_file_missing (pf : Platform) (w : World)
    (ist : InstanceSaveTypes) (junk : CredibleModelData) (self : AssetManager)
    (instanceType : Nat)
    (hcold : ∀ (ptr : Nat) (object : CredibleModelData),
      self._loadedModels (self.GetModelInstanceType instanceType) = some (ptr, object) → ptr = 0)
    (hfile : w.files (self._assetRootDirectory
      ++ ist.InstanceTypeToModelPath (self.GetModelInstanceType instanceType)) = none) :
    self.LoadKsmModel pf w ist junk instanceType
        = some (0, { self with criticalErrors := self.criticalErrors + 1 }) := by
  unfold AssetManager.LoadKsmModel
  unfold AssetManager.GetModelInstanceType at hcold hfile ⊢
  cases hi : self._instanceToModelInstance instanceType with
  | none =>
    rw [hi] at hcold hfile
    simp only at hcold hfile ⊢
    cases hm : self._loadedModels instanceType with
    | none => simp only [if_true, hfile]
    | some entry =>
      obtain ⟨ptr, object⟩ := entry
      have h0 := hcold ptr object hm
      subst h0
      simp only [if_true, hfile]
  | some mapped =>
    rw [hi] at hcold hfile
    simp only at hcold hfile ⊢
    cases hm : self._loadedModels mapped with
    | none => simp only [if_true, hfile]
    | some entry =>
      obtain ⟨ptr, object⟩ := entry
      have h0 := hcold ptr object hm
      subst h0
      simp only [if_true, hfile]

/-- C14 on the empty cache `sampleAssets` and a file system without files. -/
theorem LoadKsmModel_file_missing_witness :
    sampleAssets.LoadKsmModel samplePlatform sampleWorld sampleTypes skinnedModel 5
      = some (0, { sampleAssets with criticalErrors := sampleAssets.criticalErrors + 1 }) :=
  AssetManager.LoadKsmModel_file_missing samplePlatform sampleWorld sampleTypes skinnedModel
    sampleAssets 5 (fun _ _ h => Option.noConfusion h) rfl

theorem finish_frame (ist : InstanceSaveTypes) (s : AssetManager) (t k ptr : Nat)
    (s' : AssetManager)
    (h : AssetManager.LoadKsmModel.finish ist s t k = some (ptr, s')) :
    s'._instanceToModelInstance = s._instanceToModelInstance
      ∧ (∀ k', k' ≠ k → s'._loadedModels k' = s._loadedModels k')
      ∧ (∃ object, s._loadedModels k = some (ptr, object))
      ∧ ∃ object', s'._loadedModels k = some (ptr, object') := by
  unfold AssetManager.LoadKsmModel.finish at h
  cases hk : s._loadedModels k with
  | none => rw [hk] at h; exact Option.noConfusion h
  | some entry =>
    obtain ⟨model, object⟩ := entry
    rw [hk] at h
    simp only at h
    cases hs : AssetManager.LoadKsmModel.slots k ist.itemSlots object s with
    | none => rw [hs] at h; exact Option.noConfusion h
    | some r =>
      obtain ⟨o1, s1⟩ := r
      rw [hs] at h
      simp only [Option.some.injEq, Prod.mk.injEq] at h
      obtain ⟨rfl, rfl⟩ := h
      obtain ⟨f1, f2, -, -⟩ := slots_frame k _ _ _ _ _ hs
      refine ⟨f2, ?_, ⟨object, rfl⟩,
        ⟨if t = ist.Doodad_Hitodama ∨ t = ist.Doodad_Fire then o1.brighten else o1, by simp⟩⟩
      intro k' hk'
      simp only [Function.update_noteq hk', f1]

theorem LoadKsmModel_frame (pf : Platform) (w : World) (ist : InstanceSaveTypes)
    (junk : CredibleModelData) (self : AssetManager) (t ptr : Nat) (s' : AssetManager)
    (h : self.LoadKsmModel pf w ist junk t = some (ptr, s')) :
    s'._instanceToModelInstance = self._instanceToModelInstance
      ∧ (∀ k, k ≠ self.GetModelInstanceType t → s'._loadedModels k = self._loadedModels k)
      ∧ (ptr ≠ 0 → ∃ object, s'._loadedModels (self.GetModelInstanceType t)
          = some (ptr, object)) := by
  have key : ∀ k, self.GetModelInstanceType t = k →
      (if (match self._loadedModels k with | some entry => entry.1 | none => 0) = 0 then
        match w.files (self._assetRootDirectory ++ ist.InstanceTypeToModelPath k) with
        | none => some (0, { self with criticalErrors := self.criticalErrors + 1 })
        | some memBlock =>
          match CredibleModelData.ofKsm pf w junk memBlock self with
          | none => none
          | some (object, self1) =>
            AssetManager.LoadKsmModel.finish ist
              { self1 with
                _loadedModels := Function.update self1._loadedModels k
                  (some (self1.modelsConstructed + 1, object))
                modelsConstructed := self1.modelsConstructed + 1 } t k
      else AssetManager.LoadKsmModel.finish ist self t k) = some (ptr, s') →
      s'._instanceToModelInstance = self._instanceToModelInstance
      ∧ (∀ k', k' ≠ k → s'._loadedModels k' = self._loadedModels k')
      ∧ (ptr ≠ 0 → ∃ object, s'._loadedModels k = some (ptr, object)) := by
    intro k _ h
    split at h
    · split at h
      · simp only [Option.some.injEq, Prod.mk.injEq] at h
        obtain ⟨rfl, rfl⟩ := h
        exact ⟨rfl, fun _ _ => rfl, fun h0 => absurd rfl h0⟩
      · rename_i memBlock hfile
        split at h
        · exact Option.noConfusion h
        · rename_i object a1 hparse
          obtain ⟨-, -, f3, -, f5, -⟩ := ofKsm_frame pf w junk memBlock self object a1 hparse
          obtain ⟨g1, g2, -, g4⟩ := finish_frame ist _ t k ptr s' h
          refine ⟨g1.trans f5, ?_, fun _ => g4⟩
          intro k' hk'
          rw [g2 k' hk']
          simp only [Function.update_noteq hk', f3]
    · obtain ⟨g1, g2, -, g4⟩ := finish_frame ist self t k ptr s' h
      exact ⟨g1, g2, fun _ => g4⟩
  unfold AssetManager.LoadKsmModel at h
  cases hi : self._instanceToModelInstance t with
  | none =>
    have e : self.GetModelInstanceType t = t := by
      simp only [AssetManager.GetModelInstanceType, hi]
    rw [e]
    simp only [AssetManager.GetModelInstanceType, hi] at h
    exact key t e h
  | some mapped =>
    have e : self.GetModelInstanceType t = mapped := by
      simp only [AssetManager.GetModelInstanceType, hi]
    rw [e]
    simp only [AssetManager.GetModelInstanceType, hi] at h
    exact key mapped e h

/-- C15: `GetModelInstanceType(t)` is the entry of the remap table for `t` when
`t` is a key of the table and `t` itself otherwise (it subscripts the table
only with a key that `find` has found, so it inserts nothing), and
`LoadKsmModel(t)` uses exactly this value as the key of the model table: a
non-null model stored under this key is the one returned, a model returned is
stored under this key afterwards, no other key of the model table changes,
and the remap table is as it was. -/
theorem AssetManager.GetModelInstanceType_remap (self : AssetManager) (t : Nat) :
    (∀ m, self._instanceToModelInstance t = some m → self.GetModelInstanceType t = m)
      ∧ (self._instanceToModelInstance t = none → self.GetModelInstanceType t = t)
      ∧ ∀ (pf : Platform) (w : World) (ist : InstanceSaveTypes) (junk : CredibleModelData)
          (ptr : Nat) (s' : AssetManager),
          self.LoadKsmModel pf w ist junk t = some (ptr, s') →
          s'._instanceToModelInstance = self._instanceToModelInstance
            ∧ (∀ k, k ≠ self.GetModelInstanceType t →
                s'._loadedModels k = self._loadedModels k)
            ∧ (ptr ≠ 0 → ∃ object,
                s'._loadedModels (self.GetModelInstanceType t) = some (ptr, object))
            ∧ ∀ (cached : Nat) (object : CredibleModelData),
                self._loadedModels (self.GetModelInstanceType t) = some (cached, object) →
                cached ≠ 0 → ptr = cached := by
  refine ⟨?_, ?_, ?_⟩
  · intro m hm
    simp only [AssetManager.GetModelInstanceType, hm]
  · intro hm
    simp only [AssetManager.GetModelInstanceType, hm]
  · intro pf w ist junk ptr s' h
    obtain ⟨h1, h2, h3⟩ := LoadKsmModel_frame pf w ist junk self t ptr s' h
    refine ⟨h1, h2, h3, ?_⟩
    intro cached object hc hne
    rw [LoadKsmModel_hit pf w ist junk self t cached object hc hne] at h
    obtain ⟨-, -, ⟨o, ho⟩, -⟩ := finish_frame ist self t _ ptr s' h
    rw [hc] at ho
    simp only [Option.some.injEq, Prod.mk.injEq] at ho
    exact ho.1.symm

theorem remapAssets_load :
    (remapAssets.LoadKsmModel samplePlatform diskWorld sampleTypes skinnedModel 7).isSome
      = true := by
  decide

/-- C15 on `remapAssets`, whose remap table has the one entry `7 ↦ 5`: types 7
and 5 both give 5, and `LoadKsmModel(7)` stores the model it returns under the
key 5 and leaves the remap table as it was. -/
theorem GetModelInstanceType_remap_witness :
    remapAssets.GetModelInstanceType 7 = 5 ∧ remapAssets.GetModelInstanceType 5 = 5
      ∧ ∃ ptr s',
        remapAssets.LoadKsmModel samplePlatform diskWorld sampleTypes skinnedModel 7
          = some (ptr, s')
        ∧ s'._instanceToModelInstance = remapAssets._instanceToModelInstance
        ∧ ∀ k, k ≠ 5 → s'._loadedModels k = remapAssets._loadedModels k :=
  have e : remapAssets.LoadKsmModel samplePlatform diskWorld sampleTypes skinnedModel 7
      = some ((Option.get _ remapAssets_load).1, (Option.get _ remapAssets_load).2) :=
    (Option.some_get remapAssets_load).symm
  ⟨(AssetManager.GetModelInstanceType_remap remapAssets 7).1 5 rfl,
    (AssetManager.GetModelInstanceType_remap remapAssets 5).2.1 rfl,
    _, _, e,
    ((AssetManager.GetModelInstanceType_remap remapAssets 7).2.2 samplePlatform diskWorld
      sampleTypes skinnedModel _ _ e).1,
    ((AssetManager.GetModelInstanceType_remap remapAssets 7).2.2 samplePlatform diskWorld
      sampleTypes skinnedModel _ _ e).2.1⟩


theorem ReadUnsigned_pos (n : Nat) (data : List Nat) (pos v q : Nat)
    (h : DataReader.ReadUnsigned n data pos = some (v, q)) : q = pos + n := by
  unfold DataReader.ReadUnsigned at h
  split at h
  · simp only [Option.some.injEq, Prod.mk.injEq] at h
    exact h.2.symm
  · exact Option.noConfusion h

theorem ReadArray_length {α : Type} (read : List Nat → Nat → Option (α × Nat))
    (data : List Nat) :
    ∀ (count pos : Nat) (xs : List α) (q : Nat),
      DataReader.ReadArray read data count pos = some (xs, q) → xs.length = count := by
  intro count
  induction count with
  | zero =>
    intro pos xs q h
    simp only [DataReader.ReadArray, Option.some.injEq, Prod.mk.injEq] at h
    rw [← h.1]; rfl
  | succ c ih =>
    intro pos xs q h
    simp only [DataReader.ReadArray] at h
    split at h
    · exact Option.noConfusion h
    rename_i a p1 h1
    split at h
    · exact Option.noConfusion h
    rename_i rest p2 h2
    simp only [Option.some.injEq, Prod.mk.injEq] at h
    rw [← h.1, List.length_cons, ih p1 rest p2 h2]

theorem mesh_ofKsm_counts (pf : Platform) (w : World) (data : List Nat) (pos : Nat)
    (assets : AssetManager) (mesh : CredibleMesh) (p : Nat) (assets' : AssetManager)
    (h : CredibleMesh.ofKsm pf w data pos assets = some (mesh, p, assets')) :
    DataReader.ReadUINT data pos = some (mesh.NumBones, pos + 4)
      ∧ DataReader.ReadUINT data (pos + 4) = some (mesh.FaceCount, pos + 4 + 4)
      ∧ DataReader.ReadUINT data (pos + 4 + 4) = some (mesh.VertexCount, pos + 4 + 4 + 4)
      ∧ DataReader.ReadUINT data (pos + 4 + 4 + 4)
          = some (mesh.IndexCount, pos + 4 + 4 + 4 + 4)
      ∧ mesh.Indices.length = mesh.IndexCount
      ∧ mesh.PositionalVertices.length = mesh.VertexCount
      ∧ mesh.Bones.length = mesh.NumBones := by
  unfold CredibleMesh.ofKsm at h
  rcases h1 : DataReader.ReadUINT data pos with _ | ⟨NumBones, p1⟩
  · simp only [h1] at h
    exact Option.noConfusion h
  simp only [h1] at h
  rcases h2 : DataReader.ReadUINT data p1 with _ | ⟨FaceCount, p2⟩
  · simp only [h2] at h
    exact Option.noConfusion h
  simp only [h2] at h
  rcases h3 : DataReader.ReadUINT data p2 with _ | ⟨VertexCount, p3⟩
  · simp only [h3] at h
    exact Option.noConfusion h
  simp only [h3] at h
  rcases h4 : DataReader.ReadUINT data p3 with _ | ⟨IndexCount, p4⟩
  · simp only [h4] at h
    exact Option.noConfusion h
  simp only [h4] at h
  rcases h5 : DataReader.ReadXMFLOAT4 pf data p4 with _ | ⟨Diffuse, p5⟩
  · simp only [h5] at h
    exact Option.noConfusion h
  simp only [h5] at h
  rcases h6 : DataReader.ReadXMFLOAT4 pf data p5 with _ | ⟨Ambient, p6⟩
  · simp only [h6] at h
    exact Option.noConfusion h
  simp only [h6] at h
  rcases h7 : DataReader.ReadXMFLOAT4 pf data p6 with _ | ⟨Reflect, p7⟩
  · simp only [h7] at h
    exact Option.noConfusion h
  simp only [h7] at h
  rcases h8 : DataReader.ReadXMFLOAT4 pf data p7 with _ | ⟨Specular, p8⟩
  · simp only [h8] at h
    exact Option.noConfusion h
  simp only [h8] at h
  rcases h9 : DataReader.ReadFloat pf data p8 with _ | ⟨MaterialOpacity, p9⟩
  · simp only [h9] at h
    exact Option.noConfusion h
  simp only [h9] at h
  rcases h10 : DataReader.ReadFloat pf data p9 with _ | ⟨MaterialShininess, p10⟩
  · simp only [h10] at h
    exact Option.noConfusion h
  simp only [h10] at h
  rcases h11 : DataReader.ReadFloat pf data p10 with _ | ⟨SpecularStrength, p11⟩
  · simp only [h11] at h
    exact Option.noConfusion h
  simp only [h11] at h
  rcases h12 : DataReader.ReadBool data p11 with _ | ⟨indicesAre16Bit, p12⟩
  · simp only [h12] at h
    exact Option.noConfusion h
  simp only [h12] at h
  rcases h13 : DataReader.ReadArray DataReader.ReadUINT data IndexCount p12 with _ | ⟨iPtr, p13⟩
  · simp only [h13] at h
    exact Option.noConfusion h
  simp only [h13] at h
  by_cases hI : IndexCount = 0
  · rw [if_pos hI] at h
    exact Option.noConfusion h
  rw [if_neg hI] at h
  rcases h14 : DataReader.ReadBool data p13 with _ | ⟨containsAnimations, p14⟩
  · simp only [h14] at h
    exact Option.noConfusion h
  simp only [h14] at h
  rcases h15 : (if containsAnimations = true then
      DataReader.ReadArray (DataReader.ReadVertexBoneWeight pf) data VertexCount p14
    else DataReader.ReadArray (DataReader.ReadVertex pf) data VertexCount p14) with _ | ⟨vertices, p15⟩
  · simp only [h15] at h
    exact Option.noConfusion h
  simp only [h15] at h
  by_cases hV : VertexCount = 0
  · rw [if_pos hV] at h
    exact Option.noConfusion h
  rw [if_neg hV] at h
  rcases h16 : DataReader.ReadString data p15 with _ | ⟨diffusePath, p16⟩
  · simp only [h16] at h
    exact Option.noConfusion h
  simp only [h16] at h
  rcases h17 : DataReader.ReadString data p16 with _ | ⟨normalPath, p17⟩
  · simp only [h17] at h
    exact Option.noConfusion h
  simp only [h17] at h
  rcases h18 : DataReader.ReadArray (DataReader.ReadBone pf) data NumBones p17 with _ | ⟨Bones, p18⟩
  · simp only [h18] at h
    exact Option.noConfusion h
  simp only [h18] at h
  rcases h19 : DataReader.ReadXMFLOAT3 pf data p18 with _ | ⟨Center, p19⟩
  · simp only [h19] at h
    exact Option.noConfusion h
  simp only [h19] at h
  rcases h20 : DataReader.ReadXMFLOAT3 pf data p19 with _ | ⟨Extents, p20⟩
  · simp only [h20] at h
    exact Option.noConfusion h
  simp only [h20] at h
  simp only [Option.some.injEq, Prod.mk.injEq] at h
  obtain ⟨rfl, -, -⟩ := h
  have e1 := ReadUnsigned_pos 4 data _ _ _ h1
  subst e1
  have e2 := ReadUnsigned_pos 4 data _ _ _ h2
  subst e2
  have e3 := ReadUnsigned_pos 4 data _ _ _ h3
  subst e3
  have e4 := ReadUnsigned_pos 4 data _ _ _ h4
  subst e4
  refine ⟨rfl, h2, h3, h4, ReadArray_length _ _ _ _ _ _ h13, ?_, ReadArray_length _ _ _ _ _ _ h18⟩
  simp only [List.length_map]
  split at h15
  · exact ReadArray_length _ _ _ _ _ _ h15
  · exact ReadArray_length _ _ _ _ _ _ h15

theorem oddMeshBytes_parse :
    (CredibleMesh.ofKsm samplePlatform sampleWorld oddMeshBytes 0 sampleAssets).isSome
      = true := by
  decide

/-- C12, as stated, fails for both constructors.  The procedural constructor
on `oddData` (four indices) gives `FaceCount = 1` and `IndexCount = 4`; the
binary constructor on the record `oddMeshBytes`, which declares one face and
four indices, returns a mesh with `FaceCount = 1` and `IndexCount = 4`. -/
theorem IndexCount_not_thrice_FaceCount_counterexample :
    (CredibleMesh.ofMeshData oddData 0 0).FaceCount = 1
      ∧ (CredibleMesh.ofMeshData oddData 0 0).IndexCount = 4
      ∧ (CredibleMesh.ofMeshData oddData 0 0).IndexCount
          ≠ 3 * (CredibleMesh.ofMeshData oddData 0 0).FaceCount
      ∧ ∃ mesh p assets',
          CredibleMesh.ofKsm samplePlatform sampleWorld oddMeshBytes 0 sampleAssets
            = some (mesh, p, assets')
          ∧ mesh.FaceCount = 1 ∧ mesh.IndexCount = 4
          ∧ mesh.IndexCount ≠ 3 * mesh.FaceCount := by
  refine ⟨by decide, by decide, by decide, ?_⟩
  refine ⟨(Option.get _ oddMeshBytes_parse).1, (Option.get _ oddMeshBytes_parse).2.1,
    (Option.get _ oddMeshBytes_parse).2.2, (Option.some_get oddMeshBytes_parse).symm,
    by decide, by decide, by decide⟩

/-- C12, amended: neither constructor relates the two counts.  The binary
constructor, when it returns, has taken `FaceCount` from the second and
`IndexCount` from the fourth 32-bit field of the record as they are, and has
read `IndexCount` indices.  The procedural constructor, given fewer than
`2^32` indices, sets `IndexCount` to their number and `FaceCount` to that
number divided by three, rounded down, so `IndexCount = 3 × FaceCount` holds
exactly when the number of indices is a multiple of three. -/
theorem CredibleMesh.counts_as_given (pf : Platform) (w : World) (data : List Nat) (pos : Nat)
    (assets : AssetManager) (mesh : CredibleMesh) (p : Nat) (assets' : AssetManager)
    (meshData : GeometryGenerator.MeshData) (diffuseTexture normalTexture : Nat)
    (h : CredibleMesh.ofKsm pf w data pos assets = some (mesh, p, assets'))
    (hlen : meshData.Indices.length < 2 ^ 32) :
    (DataReader.ReadUINT data (pos + 4) = some (mesh.FaceCount, pos + 8)
        ∧ DataReader.ReadUINT data (pos + 12) = some (mesh.IndexCount, pos + 16)
        ∧ mesh.Indices.length = mesh.IndexCount)
      ∧ (CredibleMesh.ofMeshData meshData diffuseTexture normalTexture).IndexCount
          = meshData.Indices.length
      ∧ (CredibleMesh.ofMeshData meshData diffuseTexture normalTexture).FaceCount
          = meshData.Indices.length / 3
      ∧ ((CredibleMesh.ofMeshData meshData diffuseTexture normalTexture).IndexCount
            = 3 * (CredibleMesh.ofMeshData meshData diffuseTexture normalTexture).FaceCount
          ↔ meshData.Indices.length % 3 = 0) := by
  obtain ⟨-, h2, -, h4, h5, -, -⟩ := mesh_ofKsm_counts pf w data pos assets mesh p assets' h
  have hi : (CredibleMesh.ofMeshData meshData diffuseTexture normalTexture).IndexCount
      = meshData.Indices.length := by
    show meshData.Indices.length % 2 ^ 32 = meshData.Indices.length
    exact Nat.mod_eq_of_lt hlen
  have hf : (CredibleMesh.ofMeshData meshData diffuseTexture normalTexture).FaceCount
      = meshData.Indices.length / 3 := by
    show (meshData.Indices.length / 3) % 2 ^ 32 = meshData.Indices.length / 3
    exact Nat.mod_eq_of_lt (by omega)
  refine ⟨⟨h2, h4, h5⟩, hi, hf, ?_⟩
  rw [hi, hf]
  omega

/-- C12, amended, on the record `oddMeshBytes` and the geometry `quadData`:
the binary constructor returns a mesh with the counts of the record, the
procedural one a mesh with six indices and two faces. -/
theorem counts_as_given_witness :
    ∃ mesh p assets',
      CredibleMesh.ofKsm samplePlatform sampleWorld oddMeshBytes 0 sampleAssets
          = some (mesh, p, assets')
        ∧ DataReader.ReadUINT oddMeshBytes (0 + 12) = some (mesh.IndexCount, 0 + 16)
        ∧ (CredibleMesh.ofMeshData quadData 5 0).IndexCount
            = 3 * (CredibleMesh.ofMeshData quadData 5 0).FaceCount :=
  have e : CredibleMesh.ofKsm samplePlatform sampleWorld oddMeshBytes 0 sampleAssets
      = some ((Option.get _ oddMeshBytes_parse).1, (Option.get _ oddMeshBytes_parse).2.1,
          (Option.get _ oddMeshBytes_parse).2.2) :=
    (Option.some_get oddMeshBytes_parse).symm
  have h := CredibleMesh.counts_as_given samplePlatform sampleWorld oddMeshBytes 0 sampleAssets
    _ _ _ quadData 5 0 e (by decide)
  ⟨_, _, _, e, h.1.2.1, h.2.2.2.2 (by decide)⟩


theorem ofKsm_meshes_bones (pf : Platform) (w : World) (data : List Nat) :
    ∀ (count pos : Nat) (assets : AssetManager) (meshes : List CredibleMesh) (p : Nat)
      (assets' : AssetManager),
      CredibleNode.ofKsm.meshes pf w data count pos assets = some (meshes, p, assets') →
      ∀ mesh ∈ meshes, mesh.Bones.length = mesh.NumBones := by
  intro count
  induction count with
  | zero =>
    intro pos assets meshes p assets' h
    simp only [CredibleNode.ofKsm.meshes, Option.some.injEq, Prod.mk.injEq] at h
    obtain ⟨rfl, -, -⟩ := h
    intro mesh hm
    exact absurd hm (List.not_mem_nil mesh)
  | succ c ih =>
    intro pos assets meshes p assets' h
    simp only [CredibleNode.ofKsm.meshes] at h
    split at h
    · exact Option.noConfusion h
    rename_i mesh p1 a1 hmesh
    split at h
    · exact Option.noConfusion h
    rename_i rest p2 a2 hrest
    simp only [Option.some.injEq, Prod.mk.injEq] at h
    obtain ⟨rfl, -, -⟩ := h
    intro m hm
    rcases List.mem_cons.mp hm with rfl | hm
    · exact (mesh_ofKsm_counts pf w data pos assets _ p1 a1 hmesh).2.2.2.2.2.2
    · exact ih p1 a1 rest p2 a2 hrest m hm

theorem node_ofKsm_bones (pf : Platform) (w : World) (data : List Nat) (parent : Option Nat)
    (pos : Nat) (Nodes : List CredibleNode) (assets : AssetManager) (node : CredibleNode)
    (p : Nat) (assets' : AssetManager)
    (h : CredibleNode.ofKsm pf w data parent pos Nodes assets = some (node, p, assets')) :
    ∀ mesh ∈ node.Meshes, mesh.Bones.length = mesh.NumBones := by
  unfold CredibleNode.ofKsm at h
  split at h
  · exact absurd h (by simp)
  split at h
  · exact absurd h (by simp)
  split at h
  · exact absurd h (by simp)
  split at h
  · exact absurd h (by simp)
  split at h
  · exact absurd h (by simp)
  split at h
  · exact absurd h (by simp)
  rename_i Meshes p6 a6 hmeshes
  simp only [Option.some.injEq, Prod.mk.injEq] at h
  obtain ⟨hnode, -, -⟩ := h
  rw [← hnode]
  exact ofKsm_meshes_bones pf w data _ _ _ _ _ _ hmeshes

theorem MeshPost_refl (model : CredibleModelData) : MeshPost model model := by
  refine ⟨rfl, rfl, rfl, fun _ h => h, ?_, ?_⟩
  · intro i n hi hn
    have := (List.getElem?_eq_some_iff.mp hn).1
    omega
  · intro i n hi hn
    have := (List.getElem?_eq_some_iff.mp hn).1
    omega

theorem Grows_length {a b : List CredibleNode} (h : Grows a b) : a.length ≤ b.length := by
  by_contra hlt
  have hlt' : b.length < a.length := by omega
  obtain ⟨m', hm', -⟩ := h b.length a[b.length] (List.getElem?_eq_getElem hlt')
  have := (List.getElem?_eq_some_iff.mp hm').1
  omega

theorem children_meshPost
    (readChild : CredibleModelData → Option Nat → Nat → AssetManager →
      Option (Nat × CredibleModelData × Nat × AssetManager))
    (hrc : ∀ self parent p a idx self' p' a',
      readChild self parent p a = some (idx, self', p', a') → ReadPost self parent idx self')
    (hrm : ∀ self parent p a idx self' p' a',
      readChild self parent p a = some (idx, self', p', a') → MeshPost self self')
    (ksmNode : Nat) :
    ∀ (count : Nat) (self : CredibleModelData) (p : Nat) (a : AssetManager)
      (self' : CredibleModelData) (p' : Nat) (a' : AssetManager),
      CredibleModelData.readNodeTree.children readChild ksmNode count self p a
          = some (self', p', a') →
      ksmNode < self.Nodes.length → MeshPost self self' := by
  intro count
  induction count with
  | zero =>
    intro self p a self' p' a' h _
    simp only [CredibleModelData.readNodeTree.children, Option.some.injEq, Prod.mk.injEq] at h
    obtain ⟨rfl, -, -⟩ := h
    exact MeshPost_refl _
  | succ c ih =>
    intro self p a self' p' a' h hk
    simp only [CredibleModelData.readNodeTree.children] at h
    split at h
    · exact absurd h (by simp)
    rename_i child s1 p1 a1 hread
    have R := hrc self (some ksmNode) p a child s1 p1 a1 hread
    have M := hrm self (some ksmNode) p a child s1 p1 a1 hread
    have hlen1 : self.Nodes.length ≤ s1.Nodes.length := Grows_length (ReadPost_grows R)
    have hk2 : ksmNode < (pushChild s1.Nodes ksmNode child).length := by
      rw [pushChild_length]; omega
    have C := children_post readChild hrc ksmNode c
      { s1 with Nodes := pushChild s1.Nodes ksmNode child } p1 a1 self' p' a' h hk2
    have M2 := ih { s1 with Nodes := pushChild s1.Nodes ksmNode child } p1 a1 self' p' a' h hk2
    have hg : Grows s1.Nodes self'.Nodes :=
      Grows_trans (Grows_pushChild s1.Nodes ksmNode child) (ChildrenPost_grows C)
    have hold : ∀ (i : Nat) (n : CredibleNode), i < s1.Nodes.length →
        self'.Nodes[i]? = some n → ∃ n1, s1.Nodes[i]? = some n1 ∧ n.Meshes = n1.Meshes := by
      intro i n hi hn
      obtain ⟨m', hm', -, -, -, hmm, -⟩ := hg i s1.Nodes[i] (List.getElem?_eq_getElem hi)
      have e : m' = n := Option.some.inj (hm'.symm.trans hn)
      subst e
      exact ⟨_, List.getElem?_eq_getElem hi, hmm⟩
    refine ⟨?_, ?_, ?_, ?_, ?_, ?_⟩
    · rw [M2.count]; exact M.count
    · rw [M2.table]; exact M.table
    · rw [M2.animations]; exact M.animations
    · intro ptr hp
      exact M2.kept ptr (M.kept ptr hp)
    · intro i n hi hn
      by_cases hi2 : s1.Nodes.length ≤ i
      · exact M2.bones i n (by simpa [pushChild_length] using hi2) hn
      · obtain ⟨n1, hn1, hmm⟩ := hold i n (by omega) hn
        rw [hmm]
        exact M.bones i n1 hi hn1
    · intro i n hi hn m hm
      by_cases hi2 : s1.Nodes.length ≤ i
      · exact M2.listed i n (by simpa [pushChild_length] using hi2) hn m hm
      · obtain ⟨n1, hn1, hmm⟩ := hold i n (by omega) hn
        rw [hmm] at hm
        exact M2.kept _ (M.listed i n1 hi hn1 m hm)

theorem readNodeTree_meshPost (pf : Platform) (w : World) (data : List Nat) :
    ∀ (fuel : Nat) (self : CredibleModelData) (parent : Option Nat) (pos : Nat)
      (assets : AssetManager) (idx : Nat) (self' : CredibleModelData) (pos' : Nat)
      (assets' : AssetManager),
      CredibleModelData.readNodeTree pf w data fuel self parent pos assets
          = some (idx, self', pos', assets') →
      MeshPost self self' := by
  intro fuel
  induction fuel with
  | zero =>
    intro self parent pos assets idx self' pos' assets' h
    simp [CredibleModelData.readNodeTree] at h
  | succ fuel ih =>
    intro self parent pos assets idx self' pos' assets' h
    simp only [CredibleModelData.readNodeTree] at h
    split at h
    · exact absurd h (by simp)
    rename_i node p1 a1 hnode
    split at h
    · exact absurd h (by simp)
    rename_i childCount p2 hcount
    split at h
    · exact absurd h (by simp)
    rename_i s3 p3 a3 hloop
    simp only [Option.some.injEq, Prod.mk.injEq] at h
    obtain ⟨hidx, hself, -, -⟩ := h
    subst hidx
    subst hself
    have C := children_post (CredibleModelData.readNodeTree pf w data fuel)
      (readNodeTree_post pf w data fuel) self.Nodes.length
      childCount { self with Nodes := self.Nodes ++ [node] } p2 a1 s3 p3 a3 hloop
      (by simp)
    have M := children_meshPost (CredibleModelData.readNodeTree pf w data fuel)
      (readNodeTree_post pf w data fuel) ih self.Nodes.length
      childCount { self with Nodes := self.Nodes ++ [node] } p2 a1 s3 p3 a3 hloop
      (by simp)
    have hat : (self.Nodes ++ [node])[self.Nodes.length]? = some node := by simp
    obtain ⟨cs, hcs⟩ := C.node node hat
    have hbones := node_ofKsm_bones pf w data parent pos self.Nodes assets node p1 a1 hnode
    refine ⟨M.count, M.table, M.animations, ?_, ?_, ?_⟩
    · intro ptr hp
      exact List.mem_append_left _ (M.kept ptr hp)
    · intro i n hi hn
      simp only at hn
      by_cases hi2 : i = self.Nodes.length
      · subst hi2
        rw [hcs] at hn
        rw [← Option.some.inj hn]
        exact hbones
      · exact M.bones i n (by simp; omega) hn
    · intro i n hi hn m hm
      simp only at hn
      by_cases hi2 : i = self.Nodes.length
      · subst hi2
        rw [hcs] at hn
        rw [← Option.some.inj hn] at hm
        apply List.mem_append_right
        exact List.mem_map.mpr ⟨m, List.mem_range.mpr hm, rfl⟩
      · exact List.mem_append_left _ (M.listed i n (by simp; omega) hn m hm)

theorem upload_spec (NumBones : Nat) (hN : NumBones + 1 < 2 ^ 32) :
    ∀ (fuel a : Nat) (g b : List XMFLOAT4X4), NumBones ≤ g.length → NumBones ≤ b.length →
      NumBones + 2 ≤ a + 2 * fuel → a ≤ NumBones + 1 →
      ∃ g' b', CredibleModelData.DrawNode.upload NumBones fuel a g b = some (g', b')
        ∧ g'.length = g.length ∧ b'.length = b.length
        ∧ (∀ i, b'[i]? = if a ≤ i ∧ i < NumBones ∧ (i - a) % 2 = 0 then g[i]? else b[i]?)
        ∧ (∀ i, g'[i]? = if a ≤ i ∧ i < NumBones ∧ (i - a) % 2 = 0
              then (g[i]?).map Matrix.transpose else g[i]?) := by
  intro fuel
  induction fuel with
  | zero =>
    intro a g b _ _ h1 h2
    omega
  | succ fuel ih =>
    intro a g b hg hb h1 h2
    by_cases ha : a < NumBones
    · have hag : a < g.length := by omega
      have hab : a < b.length := by omega
      have hnext : ((a + 1) % 2 ^ 32 + 1) % 2 ^ 32 = a + 2 := by omega
      obtain ⟨g', b', hrun, hlg, hlb, hb', hg'⟩ :=
        ih (a + 2) (g.set a g[a].transpose) (b.set a g[a].transpose.transpose)
          (by simpa using hg) (by simpa using hb) (by omega) (by omega)
      refine ⟨g', b', ?_, by simpa using hlg, by simpa using hlb, ?_, ?_⟩
      · simp only [CredibleModelData.DrawNode.upload, if_pos ha, List.getElem?_eq_getElem hag,
          if_pos hab, hnext]
        exact hrun
      · intro i
        rw [hb' i]
        by_cases hia : i = a
        · subst hia
          rw [if_neg (by omega), if_pos ⟨Nat.le_refl _, ha, by simp⟩,
            List.getElem?_set_self hab, Matrix.transpose_transpose,
            List.getElem?_eq_getElem hag]
        · rw [List.getElem?_set_ne (Ne.symm hia), List.getElem?_set_ne (Ne.symm hia)]
          by_cases hc : a ≤ i ∧ i < NumBones ∧ (i - a) % 2 = 0
          · rw [if_pos hc, if_pos (by omega)]
          · rw [if_neg hc, if_neg (by omega)]
      · intro i
        rw [hg' i]
        by_cases hia : i = a
        · subst hia
          rw [if_neg (by omega), if_pos ⟨Nat.le_refl _, ha, by simp⟩,
            List.getElem?_set_self hag, List.getElem?_eq_getElem hag]
          rfl
        · rw [List.getElem?_set_ne (Ne.symm hia)]
          by_cases hc : a ≤ i ∧ i < NumBones ∧ (i - a) % 2 = 0
          · rw [if_pos hc, if_pos (by omega)]
          · rw [if_neg hc, if_neg (by omega)]
    · refine ⟨g, b, ?_, rfl, rfl, ?_, ?_⟩
      · simp only [CredibleModelData.DrawNode.upload, if_neg ha]
      · intro i
        rw [if_neg (by omega)]
      · intro i
        rw [if_neg (by omega)]

theorem drawnMeshes_aCb (bound : Option (Nat × Nat)) (d : AnimatedConstBuffer)
    (rest : List DeviceCall) :
    drawnMeshes bound (DeviceCall.aCbApplyChanges d :: rest) = drawnMeshes bound rest := by
  cases bound <;> rfl

theorem drawnMeshes_cb (bound : Option (Nat × Nat)) (d : ObjectConstBuffer)
    (rest : List DeviceCall) :
    drawnMeshes bound (DeviceCall.cbApplyChanges d :: rest) = drawnMeshes bound rest := by
  cases bound <;> rfl

theorem drawnMeshes_ps (bound : Option (Nat × Nat)) (view : Nat) (rest : List DeviceCall) :
    drawnMeshes bound (DeviceCall.PSSetShaderResources view :: rest)
      = drawnMeshes bound rest := by
  cases bound <;> rfl

theorem drawnMeshes_geometry (bound : Option (Nat × Nat)) (ptr : Nat × Nat) (stride : Nat)
    (format : DXGI_FORMAT) (IndexCount : Nat) (rest : List DeviceCall) :
    drawnMeshes bound
        (DeviceCall.IASetVertexBuffers ptr stride :: DeviceCall.IASetIndexBuffer ptr format
          :: DeviceCall.DrawIndexed IndexCount :: rest)
      = ptr :: drawnMeshes (some ptr) rest := by
  cases bound <;> rfl

theorem Extends_refl (m : Nat → Option Nat) : Extends m m := fun _ => Or.inl rfl

theorem Extends_trans {a b c : Nat → Option Nat} (h1 : Extends a b) (h2 : Extends b c) :
    Extends a c := by
  intro k
  rcases h1 k with e1 | ⟨n1, v1⟩
  · rcases h2 k with e2 | ⟨n2, v2⟩
    · exact Or.inl (e2.trans e1)
    · exact Or.inr ⟨e1 ▸ n2, v2⟩
  · rcases h2 k with e2 | ⟨n2, v2⟩
    · exact Or.inr ⟨n1, e2.trans v1⟩
    · rw [v1] at n2
      exact Option.noConfusion n2

theorem Extends_update (m : Nat → Option Nat) (k0 : Nat) :
    Extends m (Function.update m k0 (some ((m k0).getD 0))) := by
  intro k
  by_cases e : k = k0
  · subst e
    rw [Function.update_same]
    cases hk : m k with
    | none => exact Or.inr ⟨rfl, rfl⟩
    | some v => exact Or.inl rfl
  · exact Or.inl (Function.update_noteq e _ _)

theorem DrawFrame_refl (st : DrawState) : DrawFrame st st :=
  ⟨rfl, rfl, rfl, rfl, fun _ _ => rfl, Extends_refl _, Extends_refl _⟩

theorem DrawFrame_trans {a b c : DrawState} (h1 : DrawFrame a b) (h2 : DrawFrame b c) :
    DrawFrame a c :=
  ⟨h2.nodes.trans h1.nodes, h2.table.trans h1.table, h2.stride.trans h1.stride,
    h2.slots.trans h1.slots, fun i hi => (h2.odd i hi).trans (h1.odd i hi),
    Extends_trans h1.mapping h2.mapping, Extends_trans h1.overrides h2.overrides⟩

theorem calculateGlobalBoneMatrices_some (dx : DirectXMath) (self : CredibleModelData)
    (node : Nat) (owner : CredibleNode) (mesh : CredibleMesh)
    (hnode : self.Nodes[node]? = some owner)
    (hnum : mesh.NumBones = mesh.Bones.length)
    (hbones : ∀ bone ∈ mesh.Bones, ∃ p boneNode,
      self._boneNodesByName bone.Name = some p ∧ self.Nodes[p]? = some boneNode) :
    ∃ result, self.calculateGlobalBoneMatrices dx node mesh = some result
      ∧ result.length = mesh.NumBones := by
  obtain ⟨out, hout, hlen, -, -⟩ :=
    boneLoop_spec self mesh (dx.MathHelperInverse owner.GlobalTransform) hbones
      (List.range mesh.NumBones) (vectorResize self._globalBoneTransforms mesh.NumBones 1)
      (fun a ha => hnum ▸ List.mem_range.mp ha)
  refine ⟨out, ?_, ?_⟩
  · simp only [CredibleModelData.calculateGlobalBoneMatrices, hnode]
    exact hout
  · rw [hlen, length_vectorResize]

theorem DrawNode_bones_spec (dx : DirectXMath) (node : Nat) (owner : CredibleNode)
    (mesh : CredibleMesh) (st : DrawState)
    (hnode : st.model.Nodes[node]? = some owner)
    (hnum : mesh.NumBones = mesh.Bones.length)
    (hslots : mesh.NumBones ≤ st.aCb.gBoneTransforms.length)
    (hN : mesh.NumBones + 1 < 2 ^ 32)
    (hbones : ∀ bone ∈ mesh.Bones, ∃ p boneNode,
      st.model._boneNodesByName bone.Name = some p ∧ st.model.Nodes[p]? = some boneNode) :
    ∃ st' pre, CredibleModelData.DrawNode.bones dx node mesh st = some st'
      ∧ DrawFrame st st' ∧ st'.dc = st.dc ++ pre
      ∧ (∀ bound rest, drawnMeshes bound (pre ++ rest) = drawnMeshes bound rest)
      ∧ st'.model._textureMapping = st.model._textureMapping
      ∧ st'.textureOverrides = st.textureOverrides ∧ st'.cb = st.cb := by
  by_cases hb : mesh.HasBones = true
  · obtain ⟨g, hg, hlen⟩ :=
      calculateGlobalBoneMatrices_some dx st.model node owner mesh hnode hnum hbones
    obtain ⟨g', b', hrun, -, hlb, hodd, -⟩ :=
      upload_spec mesh.NumBones hN (mesh.NumBones + 1) 0 g st.aCb.gBoneTransforms
        (by omega) hslots (by omega) (by omega)
    refine ⟨{ st with
        model := { st.model with _globalBoneTransforms := g' }
        aCb := { gBoneTransforms := b' }
        dc := st.dc ++ [DeviceCall.aCbApplyChanges { gBoneTransforms := b' }]
        criticalErrors :=
          if g.length = mesh.NumBones then st.criticalErrors else st.criticalErrors + 1 },
      [DeviceCall.aCbApplyChanges { gBoneTransforms := b' }], ?_, ?_, ?_, ?_, ?_, ?_, ?_⟩
    · simp only [CredibleModelData.DrawNode.bones, hb, if_true, hg, hrun]
    · refine ⟨rfl, rfl, rfl, hlb, ?_, Extends_refl _, Extends_refl _⟩
      intro i hi
      show b'[i]? = _
      rw [hodd i, if_neg (by omega)]
    · rfl
    · intro bound rest
      exact drawnMeshes_aCb bound _ rest
    · rfl
    · rfl
    · rfl
  · refine ⟨st, [], ?_, DrawFrame_refl st, ?_, ?_, rfl, rfl, rfl⟩
    · simp only [CredibleModelData.DrawNode.bones, hb]
      rfl
    · simp
    · intro bound rest
      rfl

theorem boundView_update (mapping overrides : Nat → Option Nat) (h0 : Nat) (h : Nat) :
    boundView (Function.update mapping h0 (some ((mapping h0).getD 0)))
        (Function.update overrides ((mapping h0).getD 0)
          (some ((overrides ((mapping h0).getD 0)).getD 0))) h
      = boundView mapping overrides h := by
  have hslot : (Function.update mapping h0 (some ((mapping h0).getD 0)) h).getD 0
      = (mapping h).getD 0 := by
    by_cases e : h = h0
    · subst e
      rw [Function.update_same]
      rfl
    · rw [Function.update_noteq e]
  unfold boundView
  rw [hslot]
  by_cases e : (mapping h).getD 0 = (mapping h0).getD 0
  · rw [e]
    simp only [Function.update_same, Option.getD_some]
  · simp only [Function.update_noteq e]

theorem DrawNode_texture_spec (mesh : CredibleMesh) (st : DrawState) :
    DrawFrame st (CredibleModelData.DrawNode.texture mesh st)
      ∧ (CredibleModelData.DrawNode.texture mesh st).dc
          = st.dc ++ (if mesh.DiffuseTexture ≠ 0 then
              [DeviceCall.PSSetShaderResources
                (boundView st.model._textureMapping st.textureOverrides mesh.DiffuseTexture)]
            else [])
      ∧ (CredibleModelData.DrawNode.texture mesh st).cb = st.cb
      ∧ (CredibleModelData.DrawNode.texture mesh st).aCb = st.aCb
      ∧ (CredibleModelData.DrawNode.texture mesh st).model._globalBoneTransforms
          = st.model._globalBoneTransforms
      ∧ ∀ h, boundView (CredibleModelData.DrawNode.texture mesh st).model._textureMapping
            (CredibleModelData.DrawNode.texture mesh st).textureOverrides h
          = boundView st.model._textureMapping st.textureOverrides h := by
  by_cases hh : mesh.DiffuseTexture ≠ 0
  · have htex : CredibleModelData.DrawNode.texture mesh st
        = { st with
            model :=
              { st.model with
                _textureMapping :=
                  Function.update st.model._textureMapping mesh.DiffuseTexture
                    (some ((st.model._textureMapping mesh.DiffuseTexture).getD 0)) }
            textureOverrides :=
              Function.update st.textureOverrides
                ((st.model._textureMapping mesh.DiffuseTexture).getD 0)
                (some ((st.textureOverrides
                    ((st.model._textureMapping mesh.DiffuseTexture).getD 0)).getD 0))
            dc := st.dc ++
              [DeviceCall.PSSetShaderResources
                (boundView st.model._textureMapping st.textureOverrides
                  mesh.DiffuseTexture)] } := by
      simp only [CredibleModelData.DrawNode.texture, if_pos hh, boundView]
    rw [htex, if_pos hh]
    exact ⟨⟨rfl, rfl, rfl, rfl, fun _ _ => rfl, Extends_update _ _, Extends_update _ _⟩,
      rfl, rfl, rfl, rfl, fun h => boundView_update _ _ _ h⟩
  · have htex : CredibleModelData.DrawNode.texture mesh st = st := by
      simp only [CredibleModelData.DrawNode.texture, if_neg hh]
    rw [htex, if_neg hh]
    exact ⟨DrawFrame_refl st, by simp, rfl, rfl, rfl, fun _ => rfl⟩

theorem DrawNode_mesh_spec (dx : DirectXMath) (node i : Nat) (owner : CredibleNode)
    (mesh : CredibleMesh) (st : DrawState)
    (hnode : st.model.Nodes[node]? = some owner)
    (hnum : mesh.NumBones = mesh.Bones.length)
    (hslots : mesh.NumBones ≤ st.aCb.gBoneTransforms.length)
    (hN : mesh.NumBones + 1 < 2 ^ 32)
    (hbones : ∀ bone ∈ mesh.Bones, ∃ p boneNode,
      st.model._boneNodesByName bone.Name = some p ∧ st.model.Nodes[p]? = some boneNode) :
    ∃ st' calls, CredibleModelData.DrawNode.mesh dx node i mesh st = some st'
      ∧ DrawFrame st st' ∧ st'.dc = st.dc ++ calls
      ∧ ∀ bound rest, drawnMeshes bound (calls ++ rest)
          = (node, i) :: drawnMeshes (some (node, i)) rest := by
  obtain ⟨st1, pre, hrun, hf1, hdc1, hpre, -, -, -⟩ :=
    DrawNode_bones_spec dx node owner mesh st hnode hnum hslots hN hbones
  obtain ⟨st2, hst2⟩ : ∃ st2 : DrawState, st2 =
      { st1 with
        cb := { st1.cb with Mat := mesh.MeshMaterial }
        dc := st1.dc ++ [DeviceCall.cbApplyChanges { st1.cb with Mat := mesh.MeshMaterial }] } :=
    ⟨_, rfl⟩
  have hf12 : DrawFrame st1 st2 := by rw [hst2]; exact ⟨rfl, rfl, rfl, rfl, fun _ _ => rfl, Extends_refl _, Extends_refl _⟩
  have hdc12 : st2.dc
      = st1.dc ++ [DeviceCall.cbApplyChanges { st1.cb with Mat := mesh.MeshMaterial }] := by
    rw [hst2]
  obtain ⟨hf2, hdc2, -, -, -, -⟩ := DrawNode_texture_spec mesh st2
  obtain ⟨st3, hst3⟩ : ∃ st3 : DrawState, st3 = CredibleModelData.DrawNode.texture mesh st2 :=
    ⟨_, rfl⟩
  rw [← hst3] at hf2 hdc2
  have hmesh : CredibleModelData.DrawNode.mesh dx node i mesh st
      = some { st3 with
          dc := st3.dc ++
            [DeviceCall.IASetVertexBuffers (node, i) st3.model._vertexStride,
             DeviceCall.IASetIndexBuffer (node, i) mesh.IndexBufferFormat,
             DeviceCall.DrawIndexed mesh.IndexCount] } := by
    simp only [CredibleModelData.DrawNode.mesh, hrun]
    rw [hst3, hst2]
  refine ⟨_, pre ++ ([DeviceCall.cbApplyChanges { st1.cb with Mat := mesh.MeshMaterial }]
      ++ ((if mesh.DiffuseTexture ≠ 0 then
              [DeviceCall.PSSetShaderResources
                (boundView st2.model._textureMapping st2.textureOverrides mesh.DiffuseTexture)]
            else [])
        ++ [DeviceCall.IASetVertexBuffers (node, i) st3.model._vertexStride,
           DeviceCall.IASetIndexBuffer (node, i) mesh.IndexBufferFormat,
           DeviceCall.DrawIndexed mesh.IndexCount])), hmesh, ?_, ?_, ?_⟩
  · exact DrawFrame_trans hf1
      (DrawFrame_trans hf12 ⟨hf2.nodes, hf2.table, hf2.stride, hf2.slots, hf2.odd, hf2.mapping, hf2.overrides⟩)
  · show st3.dc ++ _ = _
    rw [hdc2, hdc12, hdc1]
    simp only [List.append_assoc]
  · intro bound rest
    rw [List.append_assoc, hpre]
    by_cases hh : mesh.DiffuseTexture ≠ 0
    · simp only [if_pos hh, List.cons_append, List.nil_append, drawnMeshes_cb, drawnMeshes_ps,
        drawnMeshes_geometry]
    · simp only [if_neg hh, List.cons_append, List.nil_append, drawnMeshes_cb,
        drawnMeshes_geometry]

theorem DrawNode_meshes_spec (dx : DirectXMath) (node : Nat) (owner : CredibleNode) :
    ∀ (meshes : List CredibleMesh) (i : Nat) (st : DrawState),
      st.model.Nodes[node]? = some owner →
      (∀ mesh ∈ meshes, mesh.NumBones = mesh.Bones.length
        ∧ mesh.NumBones ≤ st.aCb.gBoneTransforms.length ∧ mesh.NumBones + 1 < 2 ^ 32
        ∧ ∀ bone ∈ mesh.Bones, ∃ p boneNode,
            st.model._boneNodesByName bone.Name = some p
              ∧ st.model.Nodes[p]? = some boneNode) →
      ∃ st' calls, CredibleModelData.DrawNode.meshes dx node i meshes st = some st'
        ∧ DrawFrame st st' ∧ st'.dc = st.dc ++ calls
        ∧ ∀ bound rest, ∃ bound', drawnMeshes bound (calls ++ rest)
            = ((List.range' i meshes.length).map fun m => (node, m))
              ++ drawnMeshes bound' rest := by
  intro meshes
  induction meshes with
  | nil =>
    intro i st _ _
    exact ⟨st, [], rfl, DrawFrame_refl st, by simp, fun bound rest => ⟨bound, rfl⟩⟩
  | cons mesh rest ih =>
    intro i st hnode hall
    obtain ⟨h1, h2, h3, h4⟩ := hall mesh (List.mem_cons_self _ _)
    obtain ⟨st1, calls1, hrun1, hf1, hdc1, hdraw1⟩ :=
      DrawNode_mesh_spec dx node i owner mesh st hnode h1 h2 h3 h4
    obtain ⟨st2, calls2, hrun2, hf2, hdc2, hdraw2⟩ := ih (i + 1) st1
      (by rw [hf1.nodes]; exact hnode)
      (by
        intro m hm
        obtain ⟨a1, a2, a3, a4⟩ := hall m (List.mem_cons_of_mem _ hm)
        refine ⟨a1, by rw [hf1.slots]; exact a2, a3, ?_⟩
        rw [hf1.nodes, hf1.table]
        exact a4)
    refine ⟨st2, calls1 ++ calls2, ?_, DrawFrame_trans hf1 hf2, ?_, ?_⟩
    · simp only [CredibleModelData.DrawNode.meshes, hrun1]
      exact hrun2
    · rw [hdc2, hdc1, List.append_assoc]
    · intro bound tail
      obtain ⟨bound', hb'⟩ := hdraw2 (some (node, i)) tail
      refine ⟨bound', ?_⟩
      rw [List.append_assoc, hdraw1, hb']
      simp only [List.length_cons, List.range'_succ, List.map_cons, List.cons_append]

theorem visibleMeshes_append (Nodes : List CredibleNode) (disabledNodes : List wstring)
    (a b : List Nat) :
    visibleMeshes Nodes disabledNodes (a ++ b)
      = visibleMeshes Nodes disabledNodes a ++ visibleMeshes Nodes disabledNodes b := by
  simp only [visibleMeshes, List.flatMap_append]

theorem visibleMeshes_cons (Nodes : List CredibleNode) (disabledNodes : List wstring)
    (node : Nat) (n : CredibleNode) (rest : List Nat) (hn : Nodes[node]? = some n) :
    visibleMeshes Nodes disabledNodes (node :: rest)
      = (if n.Name ∈ disabledNodes then []
          else (List.range n.Meshes.length).map fun i => (node, i))
        ++ visibleMeshes Nodes disabledNodes rest := by
  simp only [visibleMeshes, List.flatMap_cons, hn]

theorem DrawNode_children_spec (draw : DrawState → Nat → Option DrawState)
    (Nodes : List CredibleNode) (table : wstring → Option Nat) (slots : Nat)
    (disabledNodes : List wstring) (expected : Nat → List Nat) (node : Nat)
    (hdraw : ∀ (st : DrawState) (c : Nat), st.model.Nodes = Nodes →
      st.model._boneNodesByName = table → st.aCb.gBoneTransforms.length = slots →
      node < c → c < Nodes.length →
      ∃ st' calls, draw st c = some st' ∧ DrawFrame st st' ∧ st'.dc = st.dc ++ calls
        ∧ ∀ bound rest, ∃ bound', drawnMeshes bound (calls ++ rest)
            = visibleMeshes Nodes disabledNodes (expected c) ++ drawnMeshes bound' rest) :
    ∀ (cs : List Nat) (st : DrawState), (∀ c ∈ cs, node < c ∧ c < Nodes.length) →
      st.model.Nodes = Nodes → st.model._boneNodesByName = table →
      st.aCb.gBoneTransforms.length = slots →
      ∃ st' calls, CredibleModelData.DrawNode.children draw cs st = some st'
        ∧ DrawFrame st st' ∧ st'.dc = st.dc ++ calls
        ∧ ∀ bound rest, ∃ bound', drawnMeshes bound (calls ++ rest)
            = visibleMeshes Nodes disabledNodes (cs.flatMap expected)
              ++ drawnMeshes bound' rest := by
  intro cs
  induction cs with
  | nil =>
    intro st _ _ _ _
    exact ⟨st, [], rfl, DrawFrame_refl st, by simp, fun bound rest => ⟨bound, rfl⟩⟩
  | cons c rest ih =>
    intro st hcs hN hT hS
    obtain ⟨hc1, hc2⟩ := hcs c (List.mem_cons_self _ _)
    obtain ⟨st1, calls1, hrun1, hf1, hdc1, hdraw1⟩ := hdraw st c hN hT hS hc1 hc2
    obtain ⟨st2, calls2, hrun2, hf2, hdc2, hdraw2⟩ := ih st1
      (fun d hd => hcs d (List.mem_cons_of_mem _ hd))
      (hf1.nodes.trans hN) (hf1.table.trans hT) (hf1.slots.trans hS)
    refine ⟨st2, calls1 ++ calls2, ?_, DrawFrame_trans hf1 hf2, ?_, ?_⟩
    · simp only [CredibleModelData.DrawNode.children, hrun1]
      exact hrun2
    · rw [hdc2, hdc1, List.append_assoc]
    · intro bound tail
      obtain ⟨b1, hb1⟩ := hdraw1 bound (calls2 ++ tail)
      obtain ⟨b2, hb2⟩ := hdraw2 b1 tail
      refine ⟨b2, ?_⟩
      rw [List.append_assoc, hb1, hb2, List.flatMap_cons, visibleMeshes_append,
        List.append_assoc]

theorem DrawNode_go_spec (dx : DirectXMath) (InverseTranspose : XMFLOAT4X4 → XMFLOAT4X4)
    (worldTransform : XMFLOAT4X4) (disabledNodes : List wstring)
    (Nodes : List CredibleNode) (table : wstring → Option Nat) (slots : Nat)
    (hs : ShapeOK Nodes)
    (hd : ∀ (i : Nat) (node : CredibleNode), Nodes[i]? = some node → ∀ mesh ∈ node.Meshes,
      mesh.NumBones = mesh.Bones.length ∧ mesh.NumBones ≤ slots ∧ mesh.NumBones + 1 < 2 ^ 32
        ∧ ∀ bone ∈ mesh.Bones, ∃ p boneNode,
            table bone.Name = some p ∧ Nodes[p]? = some boneNode) :
    ∀ (fuel : Nat) (st : DrawState) (node : Nat), st.model.Nodes = Nodes →
      st.model._boneNodesByName = table → st.aCb.gBoneTransforms.length = slots →
      node < Nodes.length → Nodes.length ≤ node + fuel →
      ∃ st' calls,
        CredibleModelData.DrawNode.go dx InverseTranspose worldTransform disabledNodes fuel st
            node = some st'
        ∧ DrawFrame st st' ∧ st'.dc = st.dc ++ calls
        ∧ ∀ bound rest, ∃ bound', drawnMeshes bound (calls ++ rest)
            = visibleMeshes Nodes disabledNodes (preorder Nodes fuel node)
              ++ drawnMeshes bound' rest := by
  intro fuel
  induction fuel with
  | zero =>
    intro st node _ _ _ h1 h2
    omega
  | succ fuel ih =>
    intro st node hN hT hS hlt hfuel
    have hn : Nodes[node]? = some Nodes[node] := List.getElem?_eq_getElem hlt
    obtain ⟨st1, hst1⟩ : ∃ st1 : DrawState, st1 =
        { st with
          cb :=
            { st.cb with
              World := (Nodes[node].GlobalTransform.transpose * worldTransform).transpose
              WorldInvTranspose :=
                (InverseTranspose
                  (Nodes[node].GlobalTransform.transpose * worldTransform)).transpose } } :=
      ⟨_, rfl⟩
    have hf01 : DrawFrame st st1 := by rw [hst1]; exact ⟨rfl, rfl, rfl, rfl, fun _ _ => rfl, Extends_refl _, Extends_refl _⟩
    have hdc01 : st1.dc = st.dc := by rw [hst1]
    have hkids : ∀ c ∈ Nodes[node].Children, node < c ∧ c < Nodes.length := by
      intro c hc
      obtain ⟨h1, cn, hcn, -⟩ := (hs node _ hn).2 c hc
      exact ⟨h1, (List.getElem?_eq_some_iff.mp hcn).1⟩
    have hrec : ∀ (s : DrawState) (c : Nat), s.model.Nodes = Nodes →
        s.model._boneNodesByName = table → s.aCb.gBoneTransforms.length = slots →
        node < c → c < Nodes.length →
        ∃ st' calls,
          CredibleModelData.DrawNode.go dx InverseTranspose worldTransform disabledNodes fuel s
              c = some st'
          ∧ DrawFrame s st' ∧ st'.dc = s.dc ++ calls
          ∧ ∀ bound rest, ∃ bound', drawnMeshes bound (calls ++ rest)
              = visibleMeshes Nodes disabledNodes (preorder Nodes fuel c)
                ++ drawnMeshes bound' rest :=
      fun s c a1 a2 a3 a4 a5 => ih s c a1 a2 a3 a5 (by omega)
    have hpre : preorder Nodes (fuel + 1) node
        = node :: Nodes[node].Children.flatMap (preorder Nodes fuel) := by
      simp only [preorder, hn]
    have hgo : ∀ st2 : DrawState,
        (if Nodes[node].Name ∉ disabledNodes then
            CredibleModelData.DrawNode.meshes dx node 0 Nodes[node].Meshes st1
          else some st1) = some st2 →
        CredibleModelData.DrawNode.go dx InverseTranspose worldTransform disabledNodes
            (fuel + 1) st node
          = CredibleModelData.DrawNode.children
              (CredibleModelData.DrawNode.go dx InverseTranspose worldTransform disabledNodes
                fuel) Nodes[node].Children st2 := by
      intro st2 h2
      rw [hst1] at h2
      simp only [CredibleModelData.DrawNode.go, hN, hn, h2]
    by_cases hdis : Nodes[node].Name ∈ disabledNodes
    · obtain ⟨st3, calls3, hrun3, hf3, hdc3, hdraw3⟩ :=
        DrawNode_children_spec _ Nodes table slots disabledNodes (preorder Nodes fuel) node hrec
          Nodes[node].Children st1 hkids (hf01.nodes.trans hN) (hf01.table.trans hT)
          (hf01.slots.trans hS)
      refine ⟨st3, calls3, ?_, DrawFrame_trans hf01 hf3, ?_, ?_⟩
      · rw [hgo st1 (by rw [if_neg (not_not.mpr hdis)])]
        exact hrun3
      · rw [hdc3, hdc01]
      · intro bound tail
        obtain ⟨b, hb⟩ := hdraw3 bound tail
        refine ⟨b, ?_⟩
        rw [hb, hpre, visibleMeshes_cons Nodes disabledNodes node _ _ hn, if_pos hdis,
          List.nil_append]
    · obtain ⟨st2, calls2, hrun2, hf2, hdc2, hdraw2⟩ :=
        DrawNode_meshes_spec dx node Nodes[node] Nodes[node].Meshes 0 st1
          (by rw [hf01.nodes, hN]; exact hn)
          (by
            intro mesh hm
            obtain ⟨a1, a2, a3, a4⟩ := hd node _ hn mesh hm
            refine ⟨a1, by rw [hf01.slots, hS]; exact a2, a3, ?_⟩
            rw [hf01.nodes, hf01.table, hN, hT]
            exact a4)
      obtain ⟨st3, calls3, hrun3, hf3, hdc3, hdraw3⟩ :=
        DrawNode_children_spec _ Nodes table slots disabledNodes (preorder Nodes fuel) node hrec
          Nodes[node].Children st2 hkids (hf2.nodes.trans (hf01.nodes.trans hN))
          (hf2.table.trans (hf01.table.trans hT)) (hf2.slots.trans (hf01.slots.trans hS))
      refine ⟨st3, calls2 ++ calls3, ?_, DrawFrame_trans hf01 (DrawFrame_trans hf2 hf3), ?_, ?_⟩
      · rw [hgo st2 (by rw [if_pos hdis]; exact hrun2)]
        exact hrun3
      · rw [hdc3, hdc2, hdc01, List.append_assoc]
      · intro bound tail
        obtain ⟨b1, hb1⟩ := hdraw2 bound (calls3 ++ tail)
        obtain ⟨b2, hb2⟩ := hdraw3 b1 tail
        refine ⟨b2, ?_⟩
        rw [List.append_assoc, hb1, hb2, hpre,
          visibleMeshes_cons Nodes disabledNodes node _ _ hn, if_neg hdis,
          List.range_eq_range', List.append_assoc]

theorem preorder_desc {Nodes : List CredibleNode} (hs : ShapeOK Nodes) :
    ∀ (fuel node j : Nat), j ∈ preorder Nodes fuel node → Desc Nodes node j := by
  intro fuel
  induction fuel with
  | zero =>
    intro node j hj
    exact absurd hj (List.not_mem_nil j)
  | succ fuel ih =>
    intro node j hj
    cases hn : Nodes[node]? with
    | none =>
      simp only [preorder, hn] at hj
      exact absurd hj (List.not_mem_nil j)
    | some n =>
      simp only [preorder, hn] at hj
      rcases List.mem_cons.mp hj with rfl | hj
      · exact Desc.self
      · obtain ⟨c, hc, hjc⟩ := List.mem_flatMap.mp hj
        obtain ⟨-, cn, hcn, hp⟩ := (hs node n hn).2 c hc
        exact Desc_of_child hcn hp (ih c j hjc)

theorem desc_preorder {Nodes : List CredibleNode} (hs : ShapeOK Nodes) :
    ∀ (fuel node j : Nat), node < Nodes.length → Nodes.length ≤ node + fuel →
      Desc Nodes node j → j ∈ preorder Nodes fuel node := by
  intro fuel
  induction fuel with
  | zero =>
    intro node j h1 h2 _
    omega
  | succ fuel ih =>
    intro node j hlt hfuel hd
    have hn : Nodes[node]? = some Nodes[node] := List.getElem?_eq_getElem hlt
    simp only [preorder, hn]
    rcases Desc_cases hs hn hd with rfl | ⟨c, hc, hdc⟩
    · exact List.mem_cons_self _ _
    · obtain ⟨h1, cn, hcn, -⟩ := (hs node _ hn).2 c hc
      have hclt : c < Nodes.length := (List.getElem?_eq_some_iff.mp hcn).1
      exact List.mem_cons_of_mem _
        (List.mem_flatMap.mpr ⟨c, hc, ih c j hclt (by omega) hdc⟩)

/-- C17: on a model whose node list is a tree and whose meshes can have their
bone matrices computed and uploaded, `DrawNode` on a node returns, and the
meshes drawn by the calls it adds to the device context (for every
`DrawIndexed`, the mesh whose vertex buffer is bound) are exactly the meshes
of the nodes of the subtree whose name is not in the disabled-node list, the
nodes in depth-first pre-order and the meshes of a node in the order of
`Meshes`; the pre-order list holds every node reached from the start node
through `Children`, whether its ancestors are disabled or not. -/
theorem CredibleModelData.DrawNode_preorder (dx : DirectXMath)
    (InverseTranspose : XMFLOAT4X4 → XMFLOAT4X4) (st : DrawState) (node : Nat)
    (worldTransform : XMFLOAT4X4) (disabledNodes : List wstring)
    (hshape : ShapeOK st.model.Nodes) (hnode : node < st.model.Nodes.length)
    (hdraw : Drawable st.model st.aCb.gBoneTransforms.length) :
    ∃ st' calls,
      CredibleModelData.DrawNode dx InverseTranspose st node worldTransform disabledNodes
          = some st'
        ∧ st'.dc = st.dc ++ calls
        ∧ (∀ bound, drawnMeshes bound calls
            = visibleMeshes st.model.Nodes disabledNodes
                (preorder st.model.Nodes (st.model.Nodes.length + 1) node))
        ∧ ∀ j, j ∈ preorder st.model.Nodes (st.model.Nodes.length + 1) node
            ↔ Desc st.model.Nodes node j := by
  obtain ⟨st', calls, hrun, -, hdc, hlog⟩ :=
    DrawNode_go_spec dx InverseTranspose worldTransform disabledNodes st.model.Nodes
      st.model._boneNodesByName st.aCb.gBoneTransforms.length hshape
      (by
        intro i n hn mesh hm
        obtain ⟨a1, a2, a3, a4⟩ := hdraw n (List.getElem?_mem hn) mesh hm
        refine ⟨a1, a2, a3, ?_⟩
        intro bone hb
        obtain ⟨p, hp, hpt⟩ := a4 bone hb
        exact ⟨p, _, hpt, List.getElem?_eq_getElem hp⟩)
      (st.model.Nodes.length + 1) st node rfl rfl rfl hnode (by omega)
  refine ⟨st', calls, hrun, hdc, ?_, ?_⟩
  · intro bound
    obtain ⟨b, hb⟩ := hlog bound []
    simpa [drawnMeshes] using hb
  · intro j
    exact ⟨preorder_desc hshape _ _ _, desc_preorder hshape _ _ _ hnode (by omega)⟩

theorem richBytes_parse :
    (CredibleModelData.ofKsm samplePlatform sampleWorld skinnedModel richBytes
      sampleAssets).isSome = true := by
  decide

theorem richBytes_drawable :
    Drawable (Option.get (CredibleModelData.ofKsm samplePlatform sampleWorld skinnedModel
        richBytes sampleAssets) richBytes_parse).1 4 := by
  decide

/-- C17 on the model read from `richBytes` (the root `r` with one mesh, its
children `c` with one mesh and `d` with none), drawn from the root with `r`
disabled: `DrawNode` returns and draws the mesh of `c` only. -/
theorem DrawNode_preorder_witness :
    ∃ model assets' st' calls,
      CredibleModelData.ofKsm samplePlatform sampleWorld skinnedModel richBytes sampleAssets
          = some (model, assets')
        ∧ CredibleModelData.DrawNode sampleMath exactInverseTranspose (sampleDraw model) 0 1
            [[114]] = some st'
        ∧ st'.dc = (sampleDraw model).dc ++ calls
        ∧ drawnMeshes none calls
            = visibleMeshes model.Nodes [[114]] (preorder model.Nodes (model.Nodes.length + 1) 0)
        ∧ visibleMeshes model.Nodes [[114]] (preorder model.Nodes (model.Nodes.length + 1) 0)
            = [(1, 0)] :=
  have e : CredibleModelData.ofKsm samplePlatform sampleWorld skinnedModel richBytes
      sampleAssets
      = some ((Option.get _ richBytes_parse).1, (Option.get _ richBytes_parse).2) :=
    (Option.some_get richBytes_parse).symm
  have ht := (ofKsm_tree samplePlatform sampleWorld skinnedModel richBytes sampleAssets _ _ e).1
  have h := CredibleModelData.DrawNode_preorder sampleMath exactInverseTranspose
    (sampleDraw (Option.get _ richBytes_parse).1) 0 1 [[114]] ht.shape ht.nonempty
    richBytes_drawable
  let ⟨st', calls, h1, h2, h3, _⟩ := h
  ⟨_, _, st', calls, e, h1, h2, h3 none, by decide⟩


theorem DrawNode_bones_post (dx : DirectXMath) (node : Nat) (mesh : CredibleMesh)
    (st st1 : DrawState) (h : CredibleModelData.DrawNode.bones dx node mesh st = some st1) :
    st1.model._textureMapping = st.model._textureMapping
      ∧ st1.textureOverrides = st.textureOverrides ∧ st1.cb = st.cb
      ∧ st1.model._vertexStride = st.model._vertexStride
      ∧ st1.dc = st.dc ++ (if mesh.HasBones then [DeviceCall.aCbApplyChanges st1.aCb] else [])
      ∧ (mesh.NumBones = 0 → st1 = st) := by
  unfold CredibleModelData.DrawNode.bones at h
  by_cases hb : mesh.HasBones = true
  · rw [if_pos hb] at h
    rcases hc : st.model.calculateGlobalBoneMatrices dx node mesh with _ | g
    · rw [hc] at h
      exact Option.noConfusion h
    rw [hc] at h
    simp only at h
    rcases hu : CredibleModelData.DrawNode.upload mesh.NumBones (mesh.NumBones + 1) 0 g
        st.aCb.gBoneTransforms with _ | ⟨g', b'⟩
    · rw [hu] at h
      exact Option.noConfusion h
    rw [hu] at h
    simp only [Option.some.injEq] at h
    subst h
    refine ⟨rfl, rfl, rfl, rfl, by rw [if_pos hb], ?_⟩
    intro h0
    simp [CredibleMesh.HasBones, h0] at hb
  · rw [if_neg hb] at h
    have e : st = st1 := Option.some.inj h
    subst e
    exact ⟨rfl, rfl, rfl, rfl, by rw [if_neg hb]; simp, fun _ => rfl⟩

theorem DrawNode_mesh_post (dx : DirectXMath) (node i : Nat) (mesh : CredibleMesh)
    (st st' : DrawState) (h : CredibleModelData.DrawNode.mesh dx node i mesh st = some st') :
    ∃ st1, CredibleModelData.DrawNode.bones dx node mesh st = some st1
      ∧ st'.dc = st.dc ++
          ((if mesh.HasBones then [DeviceCall.aCbApplyChanges st1.aCb] else [])
            ++ ([DeviceCall.cbApplyChanges { st.cb with Mat := mesh.MeshMaterial }]
            ++ ((if mesh.DiffuseTexture ≠ 0 then
                [DeviceCall.PSSetShaderResources
                  (boundView st.model._textureMapping st.textureOverrides
                    mesh.DiffuseTexture)]
              else [])
            ++ [DeviceCall.IASetVertexBuffers (node, i) st.model._vertexStride,
                DeviceCall.IASetIndexBuffer (node, i) mesh.IndexBufferFormat,
                DeviceCall.DrawIndexed mesh.IndexCount])))
      ∧ (∀ h, boundView st'.model._textureMapping st'.textureOverrides h
          = boundView st.model._textureMapping st.textureOverrides h)
      ∧ st'.aCb = st1.aCb
      ∧ st'.model._globalBoneTransforms = st1.model._globalBoneTransforms := by
  unfold CredibleModelData.DrawNode.mesh at h
  rcases hb : CredibleModelData.DrawNode.bones dx node mesh st with _ | st1
  · rw [hb] at h
    exact Option.noConfusion h
  rw [hb] at h
  simp only [Option.some.injEq] at h
  obtain ⟨b1, b2, b3, b4, b5, -⟩ := DrawNode_bones_post dx node mesh st st1 hb
  obtain ⟨st2, hst2⟩ : ∃ st2 : DrawState, st2 =
      { st1 with
        cb := { st1.cb with Mat := mesh.MeshMaterial }
        dc := st1.dc ++ [DeviceCall.cbApplyChanges { st1.cb with Mat := mesh.MeshMaterial }] } :=
    ⟨_, rfl⟩
  rw [← hst2] at h
  obtain ⟨hf2, hdc2, -, t4, t5, t6⟩ := DrawNode_texture_spec mesh st2
  have e2m : st2.model = st1.model := by rw [hst2]
  have e2o : st2.textureOverrides = st1.textureOverrides := by rw [hst2]
  have e2a : st2.aCb = st1.aCb := by rw [hst2]
  have e2d : st2.dc
      = st1.dc ++ [DeviceCall.cbApplyChanges { st1.cb with Mat := mesh.MeshMaterial }] := by
    rw [hst2]
  refine ⟨st1, rfl, ?_, ?_, ?_, ?_⟩
  · rw [← h]
    show (CredibleModelData.DrawNode.texture mesh st2).dc ++ _ = _
    rw [hdc2, e2d, b5, hf2.stride, e2m, e2o, b1, b2, b3, b4]
    simp only [List.append_assoc]
  · intro x
    rw [← h]
    show boundView (CredibleModelData.DrawNode.texture mesh st2).model._textureMapping
      (CredibleModelData.DrawNode.texture mesh st2).textureOverrides x = _
    rw [t6 x, e2m, e2o, b1, b2]
  · rw [← h]
    show (CredibleModelData.DrawNode.texture mesh st2).aCb = _
    rw [t4, e2a]
  · rw [← h]
    show (CredibleModelData.DrawNode.texture mesh st2).model._globalBoneTransforms = _
    rw [t5, e2m]

theorem boundViews_append (a b : List DeviceCall) :
    boundViews (a ++ b) = boundViews a ++ boundViews b := by
  simp only [boundViews, List.filterMap_append]

theorem vertexStrides_append (a b : List DeviceCall) :
    vertexStrides (a ++ b) = vertexStrides a ++ vertexStrides b := by
  simp only [vertexStrides, List.filterMap_append]

theorem boneUploads_append (a b : List DeviceCall) :
    boneUploads (a ++ b) = boneUploads a ++ boneUploads b := by
  simp only [boneUploads, List.filterMap_append]

theorem overrideDraw_returns :
    (CredibleModelData.DrawNode sampleMath exactInverseTranspose overrideDraw 0 1 []).isSome
      = true := by
  decide

/-- C18, as stated, fails on `overrideDraw`: the mesh of `proceduralModel` has
the handle 5, which has no entry in the handle-to-slot map, the caller has
supplied the override 9 for the item slot of value 0, and `DrawNode` binds 9,
not the handle of the mesh. -/
theorem DrawNode_unmapped_handle_counterexample :
    ∃ st',
      CredibleModelData.DrawNode sampleMath exactInverseTranspose overrideDraw 0 1 [] = some st'
        ∧ (overrideDraw.model.Nodes.map fun n => n.Meshes.map fun mesh => mesh.DiffuseTexture)
            = [[], [5]]
        ∧ overrideDraw.model._textureMapping 5 = none
        ∧ overrideDraw.textureOverrides 0 = some 9
        ∧ boundViews st'.dc = [9] :=
  ⟨Option.get _ overrideDraw_returns, (Option.some_get overrideDraw_returns).symm,
    by decide, by decide, by decide, by decide⟩

/-- C18, amended: when the body of the mesh loop of `DrawNode` returns for a
mesh with a non-null diffuse handle `h`, the calls it adds bind exactly one
view, `boundView`: with `s` the slot the handle-to-slot map files `h` under,
or the item slot of value 0 when `h` has no entry, it is the override of the
caller for `s` when there is one and it is not null, and `h` otherwise.  The
entries the two subscripts insert do not change what is bound for any handle
afterwards. -/
theorem CredibleModelData.DrawNode_binds_override_or_handle (dx : DirectXMath) (node i : Nat)
    (mesh : CredibleMesh) (st st' : DrawState)
    (hrun : CredibleModelData.DrawNode.mesh dx node i mesh st = some st')
    (hh : mesh.DiffuseTexture ≠ 0) :
    (∃ calls, st'.dc = st.dc ++ calls
        ∧ boundViews calls
            = [boundView st.model._textureMapping st.textureOverrides mesh.DiffuseTexture])
      ∧ (∀ h, boundView st'.model._textureMapping st'.textureOverrides h
          = boundView st.model._textureMapping st.textureOverrides h)
      ∧ (∀ s view,
          st.model._textureMapping mesh.DiffuseTexture = some s
            ∨ (st.model._textureMapping mesh.DiffuseTexture = none ∧ s = 0) →
          st.textureOverrides s = some view → view ≠ 0 →
          boundView st.model._textureMapping st.textureOverrides mesh.DiffuseTexture = view)
      ∧ ∀ s,
          st.model._textureMapping mesh.DiffuseTexture = some s
            ∨ (st.model._textureMapping mesh.DiffuseTexture = none ∧ s = 0) →
          st.textureOverrides s = none ∨ st.textureOverrides s = some 0 →
          boundView st.model._textureMapping st.textureOverrides mesh.DiffuseTexture
            = mesh.DiffuseTexture := by
  obtain ⟨st1, -, hdc, hinv, -, -⟩ := DrawNode_mesh_post dx node i mesh st st' hrun
  have hslot : ∀ s, st.model._textureMapping mesh.DiffuseTexture = some s
      ∨ (st.model._textureMapping mesh.DiffuseTexture = none ∧ s = 0) →
      (st.model._textureMapping mesh.DiffuseTexture).getD 0 = s := by
    intro s hs
    rcases hs with hs | ⟨hs, rfl⟩
    · rw [hs]; rfl
    · rw [hs]; rfl
  refine ⟨⟨_, hdc, ?_⟩, hinv, ?_, ?_⟩
  · rw [if_pos hh]
    by_cases hb : mesh.HasBones = true
    · rw [if_pos hb]
      rfl
    · rw [if_neg hb]
      rfl
  · intro s view hs hov hne
    unfold boundView
    simp only [hslot s hs, hov, Option.getD_some, if_pos hne]
  · intro s hs hov
    unfold boundView
    rcases hov with hov | hov
    · simp only [hslot s hs, hov, Option.getD_none, ne_eq, not_true_eq_false, if_false]
    · simp only [hslot s hs, hov, Option.getD_some, ne_eq, not_true_eq_false, if_false]

theorem overrideDraw_mesh_returns :
    (CredibleModelData.DrawNode.mesh sampleMath 1 0 (CredibleMesh.ofMeshData quadData 5 0)
      overrideDraw).isSome = true := by
  decide

/-- C18, amended, on the mesh of `proceduralModel` in the state
`overrideDraw`: the view bound is the override 9 of the slot of value 0. -/
theorem DrawNode_binds_override_or_handle_witness :
    ∃ st' calls,
      CredibleModelData.DrawNode.mesh sampleMath 1 0 (CredibleMesh.ofMeshData quadData 5 0)
          overrideDraw = some st'
        ∧ st'.dc = overrideDraw.dc ++ calls
        ∧ boundViews calls = [9] :=
  have e := (Option.some_get overrideDraw_mesh_returns).symm
  have h := CredibleModelData.DrawNode_binds_override_or_handle sampleMath 1 0
    (CredibleMesh.ofMeshData quadData 5 0) overrideDraw _ e (by decide)
  let ⟨calls, h1, h2⟩ := h.1
  ⟨_, calls, e, h1,
    h2.trans (congrArg (fun v => [v]) (h.2.2.1 0 9 (Or.inr ⟨rfl, rfl⟩) rfl (by decide)))⟩

theorem initializeFromKsm_stride (pf : Platform) (w : World) (data : List Nat)
    (self : CredibleModelData) (assets : AssetManager) (model : CredibleModelData)
    (assets' : AssetManager)
    (h : CredibleModelData.initializeFromKsm pf w data self assets = some (model, assets')) :
    model._vertexStride
      = if 0 < model._numAnimations then sizeofVertexPositionNormalTexture + pf.sizeofBoneWeights
        else sizeofVertexPositionNormalTexture := by
  unfold CredibleModelData.initializeFromKsm at h
  simp only at h
  split at h
  · exact absurd h (by simp)
  split at h
  · exact absurd h (by simp)
  split at h
  · exact absurd h (by simp)
  split at h
  · exact absurd h (by simp)
  rename_i _numAnimations p4 hanim
  split at h
  · exact absurd h (by simp)
  rename_i root s1 pos' a1 htree
  split at h
  · exact absurd h (by simp)
  split at h
  · exact absurd h (by simp)
  split at h
  · exact absurd h (by simp)
  split at h
  · exact absurd h (by simp)
  simp only [Option.some.injEq, Prod.mk.injEq] at h
  obtain ⟨hm, -⟩ := h
  have M := readNodeTree_meshPost pf w data _ _ none _ assets root s1 pos' a1 htree
  have hn : s1._numAnimations = _numAnimations := M.animations
  rw [← hm]
  simp only [hn, gt_iff_lt, decide_eq_true_eq]

theorem mixedBytes_parse :
    (CredibleModelData.ofKsm samplePlatform sampleWorld skinnedModel mixedBytes
      sampleAssets).isSome = true := by
  decide

theorem mixedBytes_draw :
    (CredibleModelData.DrawNode sampleMath exactInverseTranspose
      (sampleDraw (Option.get (CredibleModelData.ofKsm samplePlatform sampleWorld skinnedModel
        mixedBytes sampleAssets) mixedBytes_parse).1) 0 1 []).isSome = true := by
  decide

/-- C20, as stated, fails on the model read from `mixedBytes`, whose header
declares one animation and whose only mesh has no bone: `DrawNode` binds the
vertex buffer of that mesh with the stride 64, the size of the bone-weight
vertex on `samplePlatform`, not with 32, the size of the
position+normal+texcoord vertex. -/
theorem DrawNode_static_mesh_stride_counterexample :
    ∃ model assets' st',
      CredibleModelData.ofKsm samplePlatform sampleWorld skinnedModel mixedBytes sampleAssets
          = some (model, assets')
        ∧ model._numAnimations = 1
        ∧ (model.Nodes.map fun n => n.Meshes.map fun mesh => mesh.NumBones) = [[0]]
        ∧ CredibleModelData.DrawNode sampleMath exactInverseTranspose (sampleDraw model) 0 1 []
            = some st'
        ∧ vertexStrides st'.dc = [((0, 0), 64)]
        ∧ sizeofVertexPositionNormalTexture = 32 :=
  ⟨(Option.get _ mixedBytes_parse).1, (Option.get _ mixedBytes_parse).2,
    Option.get _ mixedBytes_draw, (Option.some_get mixedBytes_parse).symm, by decide,
    by decide, (Option.some_get mixedBytes_draw).symm, by decide, rfl⟩

/-- C20, amended: the stride `DrawNode` passes for a mesh is the
`_vertexStride` of the model, whatever `NumBones` is.  For a model that the
constructor `CredibleModelData(data, ...)` returned it is the size of the
position+normal+texcoord vertex when the animation count of the header is
zero and the size of the bone-weight vertex otherwise.  For a mesh with
`NumBones = 0` the body of the mesh loop returns, uploads no bone matrix and
leaves `_globalBoneTransforms` and the animated constant buffer as they
were. -/
theorem CredibleModelData.DrawNode_stride_of_model (pf : Platform) (w : World)
    (junk : CredibleModelData) (data : List Nat) (assets : AssetManager)
    (model : CredibleModelData) (assets' : AssetManager) (dx : DirectXMath) (node i : Nat)
    (mesh : CredibleMesh) (st : DrawState)
    (hctor : CredibleModelData.ofKsm pf w junk data assets = some (model, assets'))
    (hst : st.model._vertexStride = model._vertexStride) :
    (model._vertexStride
        = if 0 < model._numAnimations then
            sizeofVertexPositionNormalTexture + pf.sizeofBoneWeights
          else sizeofVertexPositionNormalTexture)
      ∧ (∀ st', CredibleModelData.DrawNode.mesh dx node i mesh st = some st' →
          ∃ calls, st'.dc = st.dc ++ calls
            ∧ vertexStrides calls = [((node, i), model._vertexStride)])
      ∧ (mesh.NumBones = 0 →
          ∃ st' calls, CredibleModelData.DrawNode.mesh dx node i mesh st = some st'
            ∧ st'.dc = st.dc ++ calls ∧ boneUploads calls = []
            ∧ st'.aCb = st.aCb
            ∧ st'.model._globalBoneTransforms = st.model._globalBoneTransforms) := by
  have hcalls : ∀ st', CredibleModelData.DrawNode.mesh dx node i mesh st = some st' →
      ∃ calls, st'.dc = st.dc ++ calls
        ∧ vertexStrides calls = [((node, i), model._vertexStride)]
        ∧ (mesh.NumBones = 0 → boneUploads calls = [] ∧ st'.aCb = st.aCb
            ∧ st'.model._globalBoneTransforms = st.model._globalBoneTransforms) := by
    intro st' hrun
    obtain ⟨st1, hb, hdc, -, ha, hg⟩ := DrawNode_mesh_post dx node i mesh st st' hrun
    refine ⟨_, hdc, ?_, ?_⟩
    · rw [hst]
      by_cases hbones : mesh.HasBones = true <;> by_cases hh : mesh.DiffuseTexture ≠ 0
      · rw [if_pos hbones, if_pos hh]; rfl
      · rw [if_pos hbones, if_neg hh]; rfl
      · rw [if_neg hbones, if_pos hh]; rfl
      · rw [if_neg hbones, if_neg hh]; rfl
    · intro h0
      have e := (DrawNode_bones_post dx node mesh st st1 hb).2.2.2.2.2 h0
      subst e
      have hbones : ¬ mesh.HasBones = true := by simp [CredibleMesh.HasBones, h0]
      refine ⟨?_, ha, hg⟩
      by_cases hh : mesh.DiffuseTexture ≠ 0
      · rw [if_neg hbones, if_pos hh]; rfl
      · rw [if_neg hbones, if_neg hh]; rfl
  refine ⟨initializeFromKsm_stride pf w data _ assets model assets' hctor, ?_, ?_⟩
  · intro st' hrun
    obtain ⟨calls, h1, h2, -⟩ := hcalls st' hrun
    exact ⟨calls, h1, h2⟩
  · intro h0
    have hbones : ¬ mesh.HasBones = true := by simp [CredibleMesh.HasBones, h0]
    have hs : (CredibleModelData.DrawNode.mesh dx node i mesh st).isSome = true := by
      simp only [CredibleModelData.DrawNode.mesh, CredibleModelData.DrawNode.bones, hbones]
      rfl
    have hrun := (Option.some_get hs).symm
    obtain ⟨calls, h1, -, h3⟩ := hcalls _ hrun
    obtain ⟨h4, h5, h6⟩ := h3 h0
    exact ⟨_, calls, hrun, h1, h4, h5, h6⟩

/-- C20, amended, on the model read from `mixedBytes` and its mesh without
bones: the stride passed is the `_vertexStride` of the model, which is 64. -/
theorem DrawNode_stride_of_model_witness :
    ∃ model assets' st' calls,
      CredibleModelData.ofKsm samplePlatform sampleWorld skinnedModel mixedBytes sampleAssets
          = some (model, assets')
        ∧ model._vertexStride = 64
        ∧ CredibleModelData.DrawNode.mesh sampleMath 0 0 quadMesh (sampleDraw model) = some st'
        ∧ st'.dc = (sampleDraw model).dc ++ calls ∧ boneUploads calls = [] :=
  have e : CredibleModelData.ofKsm samplePlatform sampleWorld skinnedModel mixedBytes
      sampleAssets
      = some ((Option.get _ mixedBytes_parse).1, (Option.get _ mixedBytes_parse).2) :=
    (Option.some_get mixedBytes_parse).symm
  have h := CredibleModelData.DrawNode_stride_of_model samplePlatform sampleWorld skinnedModel
    mixedBytes sampleAssets _ _ sampleMath 0 0 quadMesh
    (sampleDraw (Option.get _ mixedBytes_parse).1) e rfl
  let ⟨st', calls, h1, h2, h3, _⟩ := h.2.2 rfl
  ⟨_, _, st', calls, e, by decide, h1, h2, h3⟩

theorem DrawNode_returns (dx : DirectXMath) (InverseTranspose : XMFLOAT4X4 → XMFLOAT4X4)
    (st : DrawState) (node : Nat) (worldTransform : XMFLOAT4X4) (disabledNodes : List wstring)
    (hshape : ShapeOK st.model.Nodes) (hnode : node < st.model.Nodes.length)
    (hdraw : Drawable st.model st.aCb.gBoneTransforms.length) :
    ∃ st',
      CredibleModelData.DrawNode dx InverseTranspose st node worldTransform disabledNodes
          = some st'
        ∧ DrawFrame st st' := by
  obtain ⟨st', calls, hrun, hf, -, -⟩ :=
    DrawNode_go_spec dx InverseTranspose worldTransform disabledNodes st.model.Nodes
      st.model._boneNodesByName st.aCb.gBoneTransforms.length hshape
      (by
        intro i n hn mesh hm
        obtain ⟨a1, a2, a3, a4⟩ := hdraw n (List.getElem?_mem hn) mesh hm
        refine ⟨a1, a2, a3, ?_⟩
        intro bone hb
        obtain ⟨p, hp, hpt⟩ := a4 bone hb
        exact ⟨p, _, hpt, List.getElem?_eq_getElem hp⟩)
      (st.model.Nodes.length + 1) st node rfl rfl rfl hnode (by omega)
  exact ⟨st', hrun, hf⟩

theorem twoBoneModel_shape : ShapeOK twoBoneModel.Nodes := by
  intro i n hn
  match i with
  | 0 =>
    have e : n = _ := (Option.some.inj hn).symm
    subst e
    refine ⟨fun p hp => Option.noConfusion hp, ?_⟩
    intro c hc
    have e : c = 1 := List.mem_singleton.mp hc
    subst e
    exact ⟨by decide, _, rfl, rfl⟩
  | 1 =>
    have e : n = _ := (Option.some.inj hn).symm
    subst e
    refine ⟨?_, fun c hc => absurd hc (List.not_mem_nil c)⟩
    intro p hp
    have e : p = 0 := (Option.some.inj hp).symm
    subst e
    exact ⟨by decide, _, rfl, by decide⟩
  | k + 2 => exact Option.noConfusion hn

theorem twoBoneModel_skin :
    twoBoneModel.calculateGlobalBoneMatrices sampleMath 0 twoBoneMesh = some [1, 1] := by
  have h1 : sampleMath.MathHelperInverse 1 = 1 := exactInverse_one
  simp [CredibleModelData.calculateGlobalBoneMatrices,
    CredibleModelData.calculateGlobalBoneMatrices.loop, twoBoneModel, twoBoneMesh, skinnedModel,
    h1, vectorResize, List.range, List.range.loop]

/-- C19 fails on `twoBoneModel`, whose mesh has `N = 2` bones: the skin
matrices `calculateGlobalBoneMatrices` computes are the identity for both
bones, and after `DrawNode` from the root, slot 1 of the bone-transform array
of the animated constant buffer still holds the zero matrix it held before
the call. -/
theorem CredibleModelData.DrawNode_skips_odd_bone_slots :
    ∃ st',
      CredibleModelData.DrawNode sampleMath exactInverseTranspose (sampleDraw twoBoneModel) 0 1
          [] = some st'
        ∧ twoBoneModel.calculateGlobalBoneMatrices sampleMath 0 twoBoneMesh = some [1, 1]
        ∧ (sampleDraw twoBoneModel).aCb.gBoneTransforms[1]? = some 0
        ∧ st'.aCb.gBoneTransforms[1]? = some 0
        ∧ (1 : XMFLOAT4X4) ≠ 0 := by
  obtain ⟨st', hrun, hf⟩ := DrawNode_returns sampleMath exactInverseTranspose
    (sampleDraw twoBoneModel) 0 1 [] twoBoneModel_shape (by decide) (by decide)
  refine ⟨st', hrun, twoBoneModel_skin, rfl, ?_, one_ne_zero⟩
  rw [hf.odd 1 (by decide)]
  rfl


theorem Desc_trans {Nodes : List CredibleNode} {a b c : Nat} (h1 : Desc Nodes a b)
    (h2 : Desc Nodes b c) : Desc Nodes a c := by
  induction h2 with
  | self => exact h1
  | step hn hp _ ih => exact Desc.step hn hp ih

theorem loop_congr (Nodes Nodes' : List CredibleNode) :
    ∀ (fuel p : Nat) (X : XMFLOAT4X4), (∀ a, Desc Nodes a p → Nodes'[a]? = Nodes[a]?) →
      CredibleModelData.CalculateGlobalTransform.loop Nodes' fuel (some p) X
        = CredibleModelData.CalculateGlobalTransform.loop Nodes fuel (some p) X := by
  intro fuel
  induction fuel with
  | zero =>
    intro p X _
    rfl
  | succ fuel ih =>
    intro p X h
    simp only [CredibleModelData.CalculateGlobalTransform.loop, h p Desc.self]
    cases hp : Nodes[p]? with
    | none => rfl
    | some pn =>
      simp only
      cases hq : pn.Parent with
      | none => rw [loop_none, loop_none]
      | some q => exact ih q _ (fun a ha => h a (Desc.step hp hq ha))

theorem loop_total (Nodes : List CredibleNode)
    (hbelow : ∀ (i : Nat) (n : CredibleNode), Nodes[i]? = some n →
      ∀ p, n.Parent = some p → p < i) :
    ∀ (p : Nat), p < Nodes.length → ∀ fuel, p < fuel → ∀ X : XMFLOAT4X4,
      ∃ g, CredibleModelData.CalculateGlobalTransform.loop Nodes fuel (some p) X = some g := by
  intro p
  induction p using Nat.strong_induction_on with
  | _ p ih =>
    intro hp fuel hfuel X
    obtain ⟨f, rfl⟩ : ∃ f, fuel = f + 1 := ⟨fuel - 1, by omega⟩
    have hget : Nodes[p]? = some Nodes[p] := List.getElem?_eq_getElem hp
    rw [loop_some Nodes f p _ X hget]
    cases hq : Nodes[p].Parent with
    | none => exact ⟨_, loop_none _ _ _⟩
    | some q =>
      have hqp : q < p := hbelow p _ hget q hq
      exact ih q hqp (by omega) f (by omega) _

theorem Fresh_congr {Nodes Nodes' : List CredibleNode} (hlen : Nodes'.length = Nodes.length)
    (n : CredibleNode)
    (hagree : ∀ p, n.Parent = some p → ∀ a, Desc Nodes a p → Nodes'[a]? = Nodes[a]?)
    (h : Fresh Nodes n) : Fresh Nodes' n := by
  unfold Fresh CredibleModelData.CalculateGlobalTransform at h ⊢
  rw [hlen]
  cases hp : n.Parent with
  | none =>
    rw [hp] at h
    rw [loop_none] at h ⊢
    exact h
  | some p =>
    rw [hp] at h
    rw [loop_congr Nodes Nodes' Nodes.length p n.LocalTransform (hagree p hp)]
    exact h

theorem subtreeCover_same {pf : Platform} {Nodes Nodes' : List CredibleNode}
    {transforms : List XMFLOAT4X4} {c : Nat} (h : SameShape Nodes Nodes')
    (hc : subtreeCover pf Nodes transforms c) : subtreeCover pf Nodes' transforms c := by
  intro j n' hd hn' hne
  obtain ⟨n, hn, -⟩ := h.get' j n' hn'
  have hci := (h.parent j n n' hn hn').2.2
  rw [hci] at hne ⊢
  exact hc j n (Desc_same h.symm hd) hn hne

theorem newLocal_idem (pf : Platform) (transforms : List XMFLOAT4X4) (n n1 : CredibleNode)
    (hch : n1.ChannelIndex = n.ChannelIndex)
    (hl : n1.LocalTransform = newLocal pf transforms n) :
    newLocal pf transforms n1 = newLocal pf transforms n := by
  simp only [newLocal, hch, hl]
  split
  · cases transforms[n.ChannelIndex]? <;> simp [newLocal, *]
  · simp [newLocal, *]

theorem children_fresh (update : List CredibleNode → Nat → Option (List CredibleNode))
    (pf : Platform) (transforms : List XMFLOAT4X4) (r L : Nat)
    (hupd : ∀ (Nodes : List CredibleNode) (c : Nat), ShapeOK Nodes →
      subtreeCover pf Nodes transforms c → Nodes.length = L → c < Nodes.length → r < c →
      ∃ Nodes', update Nodes c = some Nodes' ∧ FreshPost pf transforms Nodes c Nodes') :
    ∀ (cs : List Nat) (Nodes : List CredibleNode), ShapeOK Nodes →
      (∀ c ∈ cs, subtreeCover pf Nodes transforms c) → Nodes.length = L →
      (∀ c ∈ cs, r < c ∧ ∃ cn : CredibleNode, Nodes[c]? = some cn ∧ cn.Parent = some r) →
      ∃ Nodes', CredibleModelData.UpdateTransforms.children update cs Nodes = some Nodes'
        ∧ SameShape Nodes Nodes'
        ∧ (∀ j, (∀ c ∈ cs, ¬ Desc Nodes c j) → Nodes'[j]? = Nodes[j]?)
        ∧ ∀ (j : Nat) (n n' : CredibleNode), (∃ c ∈ cs, Desc Nodes c j) →
            Nodes[j]? = some n → Nodes'[j]? = some n' →
            n'.LocalTransform = newLocal pf transforms n ∧ Fresh Nodes' n' := by
  intro cs
  induction cs with
  | nil =>
    intro Nodes _ _ _ _
    refine ⟨Nodes, rfl, SameShape_refl _, fun _ _ => rfl, ?_⟩
    intro j n n' ⟨c, hc, _⟩
    exact absurd hc (List.not_mem_nil c)
  | cons c rest ih =>
    intro Nodes hs hcov hlen hcs
    obtain ⟨hrc, cn, hcn, hcp⟩ := hcs c (List.mem_cons_self _ _)
    have hclt : c < Nodes.length := (List.getElem?_eq_some_iff.mp hcn).1
    obtain ⟨Nodes1, hrun1, hss1, hunch1, hloc1⟩ :=
      hupd Nodes c hs (hcov c (List.mem_cons_self _ _)) hlen hclt hrc
    have hs1 : ShapeOK Nodes1 := ShapeOK_same hss1 hs
    obtain ⟨Nodes', hrun, hss', hunch', hloc'⟩ :=
      ih Nodes1 hs1
      (fun c' hc' => subtreeCover_same hss1 (hcov c' (List.mem_cons_of_mem _ hc')))
      (hss1.1.trans hlen)
      (fun c' hc' => by
        obtain ⟨hrc', cn', hcn', hcp'⟩ := hcs c' (List.mem_cons_of_mem _ hc')
        obtain ⟨cn1, hcn1, -⟩ := hss1.get c' cn' hcn'
        exact ⟨hrc', cn1, hcn1, (hss1.parent c' cn' cn1 hcn' hcn1).1.trans hcp'⟩)
    refine ⟨Nodes', ?_, SameShape_trans hss1 hss', ?_, ?_⟩
    · simp only [CredibleModelData.UpdateTransforms.children, hrun1]
      exact hrun
    · intro j hj
      rw [hunch' j (fun c' hc' hd => hj c' (List.mem_cons_of_mem _ hc') (Desc_same hss1.symm hd)),
        hunch1 j (hj c (List.mem_cons_self _ _))]
    · intro j n n' hex hn hn'
      obtain ⟨n1, hn1, -⟩ := hss1.get j n hn
      have hch1 : n1.ChannelIndex = n.ChannelIndex := (hss1.parent j n n1 hn hn1).2.2
      by_cases hin : ∃ c'' ∈ rest, Desc Nodes1 c'' j
      · obtain ⟨h1, h2⟩ := hloc' j n1 n' hin hn1 hn'
        refine ⟨?_, h2⟩
        rw [h1]
        by_cases hdc : Desc Nodes c j
        · exact newLocal_idem pf transforms n n1 hch1 (hloc1 j n n1 hdc hn hn1).1
        · have e : n1 = n := by
            have := hunch1 j hdc
            rw [hn1, hn] at this
            exact Option.some.inj this
          rw [e]
      · have hnone : ∀ c'' ∈ rest, ¬ Desc Nodes1 c'' j := fun c'' hc'' hd => hin ⟨c'', hc'', hd⟩
        obtain ⟨c', hc', hd⟩ := hex
        have hdc : Desc Nodes c j := by
          rcases List.mem_cons.mp hc' with e | hmem
          · exact e ▸ hd
          · exact absurd (Desc_same hss1 hd) (hnone c' hmem)
        have hj1 : Nodes'[j]? = Nodes1[j]? := hunch' j hnone
        rw [hj1] at hn'
        obtain ⟨h1, h2⟩ := hloc1 j n n' hdc hn hn'
        refine ⟨h1, Fresh_congr hss'.1 n' ?_ h2⟩
        intro p hp a ha
        exact hunch' a (fun c'' hc'' hdq => hnone c'' hc'' (Desc.step hn' hp (Desc_trans hdq ha)))

theorem go_fresh (pf : Platform) (transforms : List XMFLOAT4X4) :
    ∀ (fuel : Nat) (Nodes : List CredibleNode) (r : Nat), ShapeOK Nodes →
      subtreeCover pf Nodes transforms r → r < Nodes.length → Nodes.length - r < fuel →
      ∃ Nodes', CredibleModelData.UpdateTransforms.go pf transforms fuel Nodes r = some Nodes'
        ∧ FreshPost pf transforms Nodes r Nodes' := by
  intro fuel
  induction fuel with
  | zero => intro Nodes r _ _ _ h; omega
  | succ fuel ih =>
    intro Nodes r hs hcov hr hfuel
    have hn : Nodes[r]? = some Nodes[r] := List.getElem?_eq_getElem hr
    generalize Nodes[r] = n at hn
    obtain ⟨l, hl, hlnew⟩ : ∃ l, (if n.ChannelIndex ≠ pf.SIZE_MAX then
          (transforms[n.ChannelIndex]?).map fun t => { n with LocalTransform := t }
        else some n) = some { n with LocalTransform := l } ∧ l = newLocal pf transforms n := by
      by_cases hch : n.ChannelIndex ≠ pf.SIZE_MAX
      · have hlt := hcov r n Desc.self hn hch
        exact ⟨transforms[n.ChannelIndex], by
          simp only [hch, ne_eq, not_false_eq_true, if_true, List.getElem?_eq_getElem hlt,
            Option.map_some'], by
          simp only [newLocal, hch, ne_eq, not_false_eq_true, if_true,
            List.getElem?_eq_getElem hlt, Option.getD_some]⟩
      · exact ⟨n.LocalTransform, by simp only [hch, if_false], by
          simp only [newLocal, hch, if_false]⟩
    have hss1 : SameShape Nodes (Nodes.set r { n with LocalTransform := l }) :=
      SameShape.set Nodes r n hn l n.GlobalTransform
    have hs1 := ShapeOK_same hss1 hs
    have hne1 : ∀ q, q ≠ r → (Nodes.set r { n with LocalTransform := l })[q]? = Nodes[q]? :=
      fun q hq => List.getElem?_set_ne (Ne.symm hq)
    -- the global transform computed for the node
    have htot : ∀ par : Option Nat, par = n.Parent →
        ∃ g, CredibleModelData.CalculateGlobalTransform.loop
          (Nodes.set r { n with LocalTransform := l })
          (Nodes.set r { n with LocalTransform := l }).length par l = some g := by
      intro par hpar
      cases par with
      | none => exact ⟨_, loop_none _ _ _⟩
      | some p =>
        have hpr : p < r := ((hs r n hn).1 p hpar.symm).1
        exact loop_total _ (fun i m hm q hq => ((hs1 i m hm).1 q hq).1) p
          (by rw [List.length_set]; omega)
          (Nodes.set r { n with LocalTransform := l }).length
          (by rw [List.length_set]; omega) _
    obtain ⟨g, hloop⟩ := htot n.Parent rfl
    have hg : CredibleModelData.CalculateGlobalTransform
        (Nodes.set r { n with LocalTransform := l }) { n with LocalTransform := l }
        = some { n with LocalTransform := l, GlobalTransform := g } := by
      simp only [CredibleModelData.CalculateGlobalTransform, hloop, Option.map_some']
    have hss2 : SameShape Nodes (Nodes.set r { n with LocalTransform := l, GlobalTransform := g }) :=
      SameShape.set Nodes r n hn l g
    have hs2 := ShapeOK_same hss2 hs
    have hne2 : ∀ q, q ≠ r →
        (Nodes.set r { n with LocalTransform := l, GlobalTransform := g })[q]? = Nodes[q]? :=
      fun q hq => List.getElem?_set_ne (Ne.symm hq)
    have hself2 : (Nodes.set r { n with LocalTransform := l, GlobalTransform := g })[r]?
        = some { n with LocalTransform := l, GlobalTransform := g } :=
      List.getElem?_set_self hr
    have hfresh2 : Fresh (Nodes.set r { n with LocalTransform := l, GlobalTransform := g })
        { n with LocalTransform := l, GlobalTransform := g } := by
      have h0 : Fresh (Nodes.set r { n with LocalTransform := l })
          { n with LocalTransform := l, GlobalTransform := g } := by
        simp only [Fresh, CredibleModelData.CalculateGlobalTransform, hloop, Option.map_some']
      refine Fresh_congr (by simp only [List.length_set]) _ ?_ h0
      intro p hp a ha
      have hpr : p < r := ((hs r n hn).1 p hp).1
      have hap : a ≤ p := Desc_le hs1 ha
      rw [hne2 a (by omega), hne1 a (by omega)]
    obtain ⟨Nodes', hrun, hss', hunch', hloc'⟩ :=
      children_fresh (CredibleModelData.UpdateTransforms.go pf transforms fuel) pf transforms r
        Nodes.length
        (fun Nodes0 c hs0 hcov0 hlen0 hc0 hrc0 => ih Nodes0 c hs0 hcov0 hc0 (by omega))
        n.Children (Nodes.set r { n with LocalTransform := l, GlobalTransform := g }) hs2
        (fun c hc => by
          obtain ⟨hrc, cn, hcn, hcp⟩ := (hs r n hn).2 c hc
          refine subtreeCover_same hss2 ?_
          intro j m hd hm hne
          exact hcov j m (Desc_of_child hcn hcp hd) hm hne)
        (by simp)
        (fun c hc => by
          obtain ⟨hrc, cn, hcn, hcp⟩ := (hs r n hn).2 c hc
          exact ⟨hrc, cn, by rw [hne2 c (by omega)]; exact hcn, hcp⟩)
    have hnot : ∀ q, q ≤ r → ∀ c ∈ n.Children,
        ¬ Desc (Nodes.set r { n with LocalTransform := l, GlobalTransform := g }) c q :=
      fun q hq c hc hdq => by
        have h1 := ((hs r n hn).2 c hc).1
        have h2 := Desc_le hs2 hdq
        omega
    refine ⟨Nodes', ?_, SameShape_trans hss2 hss', ?_, ?_⟩
    · simp only [CredibleModelData.UpdateTransforms.go, hn, hl, hg]
      exact hrun
    · intro j hj
      have hjr : j ≠ r := fun e => hj (e ▸ Desc.self)
      rw [hunch' j (fun c hc hd => by
        obtain ⟨-, cn, hcn, hcp⟩ := (hs r n hn).2 c hc
        exact hj (Desc_of_child hcn hcp (Desc_same hss2.symm hd))), hne2 j hjr]
    · intro j m m' hd hm hm'
      rcases Desc_cases hs hn hd with e | ⟨c, hc, hdc⟩
      · subst e
        rw [hunch' j (hnot j (Nat.le_refl _)), hself2] at hm'
        have e1 : m = n := Option.some.inj (hm.symm.trans hn)
        rw [← Option.some.inj hm', e1]
        refine ⟨hlnew, Fresh_congr hss'.1 _ ?_ hfresh2⟩
        intro p hp a ha
        have hpr : p < j := ((hs j n hn).1 p hp).1
        have hap : a ≤ p := Desc_le hs2 ha
        exact hunch' a (hnot a (by omega))
      · have hjr : j ≠ r := by
          have h1 := ((hs r n hn).2 c hc).1
          have h2 := Desc_le hs hdc
          omega
        exact hloc' j m m' ⟨c, hc, Desc_same hss2 hdc⟩ (by rw [hne2 j hjr]; exact hm) hm'

/-- C16: on a node list that is a tree, for every node and every transforms
array with an entry for each channel index other than the sentinel in the
subtree of the node, `UpdateTransforms(node, transforms)` returns; afterwards
every node of the subtree with a channel index `c` other than the sentinel has
the local transform `transforms[c]`, every node of the subtree with the
sentinel has the local transform it had, every node of the subtree has the
global transform that `CalculateGlobalTransform` computes for it in the new
list, and the nodes outside the subtree and the other members of the model
are as they were. -/
theorem CredibleModelData.UpdateTransforms_subtree (pf : Platform) (model : CredibleModelData)
    (node : Nat) (transforms : List XMFLOAT4X4)
    (hshape : ShapeOK model.Nodes) (hnode : node < model.Nodes.length)
    (hcover : subtreeCover pf model.Nodes transforms node) :
    ∃ model', model.UpdateTransforms pf node transforms = some model'
      ∧ (∀ (j : Nat) (n n' : CredibleNode), Desc model.Nodes node j →
          model.Nodes[j]? = some n → model'.Nodes[j]? = some n' →
          (n.ChannelIndex ≠ pf.SIZE_MAX → transforms[n.ChannelIndex]? = some n'.LocalTransform)
            ∧ (n.ChannelIndex = pf.SIZE_MAX → n'.LocalTransform = n.LocalTransform)
            ∧ CredibleModelData.CalculateGlobalTransform model'.Nodes n' = some n')
      ∧ (∀ j, ¬ Desc model.Nodes node j → model'.Nodes[j]? = model.Nodes[j]?)
      ∧ SameShape model.Nodes model'.Nodes
      ∧ model' = { model with Nodes := model'.Nodes } := by
  obtain ⟨Nodes', hrun, hss, hunch, hloc⟩ :=
    go_fresh pf transforms (model.Nodes.length + 1) model.Nodes node hshape hcover hnode
      (by omega)
  refine ⟨{ model with Nodes := Nodes' }, ?_, ?_, hunch, hss, rfl⟩
  · simp only [CredibleModelData.UpdateTransforms, hrun, Option.map_some']
  · intro j n n' hd hn hn'
    obtain ⟨h1, h2⟩ := hloc j n n' hd hn hn'
    refine ⟨?_, ?_, h2⟩
    · intro hch
      have hlt := hcover j n hd hn hch
      rw [h1]
      simp only [newLocal, hch, ne_eq, not_false_eq_true, if_true,
        List.getElem?_eq_getElem hlt, Option.getD_some]
    · intro hch
      rw [h1]
      simp only [newLocal, hch, ne_eq, not_true_eq_false, if_false]

theorem richBytes_node :
    ((Option.get (CredibleModelData.ofKsm samplePlatform sampleWorld skinnedModel richBytes
        sampleAssets) richBytes_parse).1.Nodes[1]?).map
        (fun n => (n.Children, n.ChannelIndex))
      = some ([], 1) := by
  decide

theorem richBytes_leaf (j : Nat)
    (hd : Desc (Option.get (CredibleModelData.ofKsm samplePlatform sampleWorld skinnedModel
      richBytes sampleAssets) richBytes_parse).1.Nodes 1 j) : j = 1 := by
  have e : CredibleModelData.ofKsm samplePlatform sampleWorld skinnedModel richBytes
      sampleAssets
      = some ((Option.get _ richBytes_parse).1, (Option.get _ richBytes_parse).2) :=
    (Option.some_get richBytes_parse).symm
  have hs := (ofKsm_tree samplePlatform sampleWorld skinnedModel richBytes sampleAssets _ _
    e).1.shape
  have h1 := richBytes_node
  cases hr : (Option.get (CredibleModelData.ofKsm samplePlatform sampleWorld skinnedModel
      richBytes sampleAssets) richBytes_parse).1.Nodes[1]? with
  | none =>
    rw [hr] at h1
    exact Option.noConfusion h1
  | some rn =>
    rw [hr] at h1
    simp only [Option.map_some', Option.some.injEq, Prod.mk.injEq] at h1
    rcases Desc_cases hs hr hd with h0 | ⟨c, hc, -⟩
    · exact h0
    · rw [h1.1] at hc
      exact absurd hc (List.not_mem_nil c)

theorem richBytes_subtreeCover :
    subtreeCover samplePlatform
      (Option.get (CredibleModelData.ofKsm samplePlatform sampleWorld skinnedModel richBytes
        sampleAssets) richBytes_parse).1.Nodes [shearX, shearY] 1 := by
  have h1 := richBytes_node
  intro j n hd hn hne
  have ej := richBytes_leaf j hd
  subst ej
  rw [hn] at h1
  simp only [Option.map_some', Option.some.injEq, Prod.mk.injEq] at h1
  rw [h1.2]
  decide

/-- C16 on the model read from `richBytes` (the root `r` with channel 0, its
children `c` with channel 1 and `d` with channel 2), node `c` and the array
`[shearX, shearY]`, which has no entry for the channel of `d`:
`UpdateTransforms` returns and `c` has the local transform `shearY`. -/
theorem UpdateTransforms_subtree_witness :
    ∃ model assets' model',
      CredibleModelData.ofKsm samplePlatform sampleWorld skinnedModel richBytes sampleAssets
          = some (model, assets')
        ∧ ¬ transformsCover samplePlatform model.Nodes [shearX, shearY]
        ∧ model.UpdateTransforms samplePlatform 1 [shearX, shearY] = some model'
        ∧ (∀ n', model'.Nodes[1]? = some n' → n'.LocalTransform = shearY)
        ∧ model'.Nodes[0]? = model.Nodes[0]? ∧ model'.Nodes[2]? = model.Nodes[2]? :=
  have e : CredibleModelData.ofKsm samplePlatform sampleWorld skinnedModel richBytes
      sampleAssets
      = some ((Option.get _ richBytes_parse).1, (Option.get _ richBytes_parse).2) :=
    (Option.some_get richBytes_parse).symm
  have ht := (ofKsm_tree samplePlatform sampleWorld skinnedModel richBytes sampleAssets _ _ e).1
  have h := CredibleModelData.UpdateTransforms_subtree samplePlatform
    (Option.get _ richBytes_parse).1 1 [shearX, shearY] ht.shape (by decide)
    richBytes_subtreeCover
  let ⟨model', h1, h2, h3, _, _⟩ := h
  ⟨_, _, model', e, by unfold transformsCover; decide, h1,
    fun n' hn' =>
      (Option.some.inj
        ((h2 1 _ n' Desc.self (List.getElem?_eq_getElem (by decide)) hn').1 (by decide))).symm,
    h3 0 (fun hd => absurd (Desc_le ht.shape hd) (by decide)),
    h3 2 (fun hd => absurd (richBytes_leaf 2 hd) (by decide))⟩

/-! ## Timer -/

theorem Running_Start (self : CredibleTimer) (expireTime : ℚ) (n f : Nat) :
    Running self.invoked (n % 2 ^ 64) f 0 (self.Start expireTime n f)
      ∧ (self.Start expireTime n f)._active = true :=
  ⟨{ bound := Nat.mod_lt _ (by norm_num), expire := rfl, infinite := rfl, callback := rfl,
     invoked := by simp [CredibleTimer.Start], count := rfl,
     finite := fun h => ⟨Nat.zero_le _, fun _ => h⟩ }, rfl⟩

theorem Running_Stop {base : List Nat} {n f k : Nat} {s : CredibleTimer}
    (h : Running base n f k s) : Running base n f k s.Stop :=
  { bound := h.bound, expire := h.expire, infinite := h.infinite, callback := h.callback,
    invoked := h.invoked, count := h.count,
    finite := fun hn => ⟨(h.finite hn).1, fun ha => by simp [CredibleTimer.Stop] at ha⟩ }

theorem Update_inactive (s : CredibleTimer) (d : ℚ) (h : s._active = false) : s.Update d = s := by
  simp [CredibleTimer.Update, h]

theorem Running_Update {base : List Nat} {n f k : Nat} {s : CredibleTimer}
    (h : Running base n f k s) (d : ℚ) :
    ∃ k', Running base n f k' (s.Update d) ∧ k ≤ k' ∧ k' ≤ k + 1
      ∧ ((0 < n → (k < n → s._active = true)) →
          0 < n → (k' < n → (s.Update d)._active = true))
      ∧ (n = 0 → (s.Update d)._active = s._active) := by
  have hb := h.bound
  rcases Bool.eq_false_or_eq_true s._active with ha | ha
  swap
  · rw [Update_inactive s d ha]
    exact ⟨k, h, le_refl _, Nat.le_succ _, fun hi hn hk => hi hn hk, fun _ => rfl⟩
  · by_cases hfire : s._timer + d ≥ s._callbackExpireTime
    · by_cases hn : n = 0
      · subst hn
        have hinf : s._infinite = true := by rw [h.infinite]; simp
        have hu : s.Update d = { s with _timer := 0, _callbackCount := (s._callbackCount + 1) % 2 ^ 64, invoked := s.invoked ++ [s._callback] } := by
          simp [CredibleTimer.Update, ha, hfire, hinf]
        rw [hu]
        refine ⟨k + 1, { bound := hb, expire := h.expire, infinite := h.infinite, callback := h.callback, invoked := ?_, count := ?_, finite := fun h0 => absurd h0 (lt_irrefl _) }, Nat.le_succ _, le_refl _, fun _ h0 => absurd h0 (lt_irrefl _), fun _ => ha.symm ▸ rfl⟩
        · show s.invoked ++ [s._callback] = _
          rw [h.invoked, h.callback, List.replicate_succ', List.append_assoc]
        · show (s._callbackCount + 1) % 2 ^ 64 = _
          rw [h.count]; exact (Nat.add_mod k 1 (2 ^ 64)).symm ▸ (by rw [Nat.add_mod (k % 2 ^ 64) 1, Nat.mod_mod])
      · have hpos : 0 < n := Nat.pos_of_ne_zero hn
        have hinf : s._infinite = false := by rw [h.infinite]; simp [hn]
        have hk := (h.finite hpos).2 ha
        have hc : (s._callbackCount + 1) % 2 ^ 64 = k + 1 := by
          rw [h.count, Nat.mod_eq_of_lt (by omega), Nat.mod_eq_of_lt (by omega)]
        have hu : s.Update d = { s with _timer := 0, _callbackCount := k + 1, _active := (if k + 1 = n then false else true), invoked := s.invoked ++ [s._callback] } := by
          simp only [CredibleTimer.Update, ha, hfire, hinf, hc, h.expire]
          simp
        rw [hu]
        refine ⟨k + 1, { bound := hb, expire := h.expire, infinite := h.infinite, callback := h.callback, invoked := ?_, count := ?_, finite := fun _ => ⟨hk, fun hact => ?_⟩ }, Nat.le_succ _, le_refl _, fun _ _ hlt => ?_, fun h0 => absurd h0 hn⟩
        · show s.invoked ++ [s._callback] = _
          rw [h.invoked, h.callback, List.replicate_succ', List.append_assoc]
        · show k + 1 = _
          rw [Nat.mod_eq_of_lt (by omega)]
        · have hact : (if k + 1 = n then false else true) = true := hact
          by_cases he : k + 1 = n
          · simp [he] at hact
          · omega
        · show (if k + 1 = n then false else true) = true
          rw [if_neg (by omega)]
    · have hu : s.Update d = { s with _timer := s._timer + d } := by
        simp [CredibleTimer.Update, ha, hfire]
      rw [hu]
      exact ⟨k, { bound := hb, expire := h.expire, infinite := h.infinite, callback := h.callback, invoked := h.invoked, count := h.count, finite := h.finite }, le_refl _, Nat.le_succ _, fun _ _ _ => ha, fun _ => rfl⟩

theorem Running_updates (base : List Nat) (n f : Nat) (deltas : List ℚ) :
    ∀ (k : Nat) (s : CredibleTimer), Running base n f k s →
      (0 < n → k < n → s._active = true) → (n = 0 → s._active = true) →
      ∃ k', Running base n f k' (s.updates deltas)
        ∧ (0 < n → k' < n → (s.updates deltas)._active = true)
        ∧ (n = 0 → (s.updates deltas)._active = true) := by
  induction deltas with
  | nil => exact fun k s h hi h0 => ⟨k, h, hi, h0⟩
  | cons d rest ih =>
    intro k s h hi h0
    obtain ⟨k1, h1, _, _, hi1, h01⟩ := Running_Update h d
    exact ih k1 (s.Update d) h1 (hi1 hi) (fun hn => (h01 hn).trans (h0 hn))

theorem Running_calls (base : List Nat) (n f : Nat) (cs : List TimerCall) :
    ∀ (k : Nat) (s : CredibleTimer), Running base n f k s →
      ∃ k', Running base n f k' (s.calls cs) ∧ k' ≤ k + cs.length := by
  induction cs with
  | nil => exact fun k s h => ⟨k, h, Nat.le_refl _⟩
  | cons c rest ih =>
    intro k s h
    cases c with
    | Update d =>
      obtain ⟨k1, h1, _, hle, _, _⟩ := Running_Update h d
      obtain ⟨k2, h2, hle2⟩ := ih k1 (s.Update d) h1
      exact ⟨k2, h2, by simp only [List.length_cons]; omega⟩
    | Stop =>
      obtain ⟨k2, h2, hle2⟩ := ih k s.Stop (Running_Stop h)
      exact ⟨k2, h2, by simp only [List.length_cons]; omega⟩

theorem updates_inactive (more : List ℚ) :
    ∀ s : CredibleTimer, s._active = false → s.updates more = s := by
  induction more with
  | nil => exact fun _ _ => rfl
  | cons d rest ih =>
    intro s h
    show (s.Update d).updates rest = s
    rw [Update_inactive s d h]
    exact ih s h

/-- C22: after `Start(expireTime, n, f)` and any sequence of `Update` calls the
callbacks invoked since the `Start` are `k` invocations of `f`; for `n > 0`
there are at most `n` of them, `IsActive()` is false exactly when the `n`-th has
been made, and from then on `Update` changes nothing; for `n = 0` the timer is
still active. -/
theorem CredibleTimer.Start_expires (self : CredibleTimer) (expireTime : ℚ) (n f : Nat)
    (deltas : List ℚ) (hn : n < 2 ^ 64) :
    ∃ k, ((self.Start expireTime n f).updates deltas).invoked
          = self.invoked ++ List.replicate k f
      ∧ (0 < n → k ≤ n
          ∧ (((self.Start expireTime n f).updates deltas).IsActive = false ↔ k = n)
          ∧ (k = n → ∀ more : List ℚ,
              ((self.Start expireTime n f).updates deltas).updates more
                = (self.Start expireTime n f).updates deltas))
      ∧ (n = 0 → ((self.Start expireTime n f).updates deltas).IsActive = true) := by
  obtain ⟨h0, ha⟩ := Running_Start self expireTime n f
  rw [Nat.mod_eq_of_lt hn] at h0
  obtain ⟨k, hk, hact, hinf⟩ := Running_updates self.invoked n f deltas 0 _ h0 (fun _ _ => ha)
    (fun _ => ha)
  have hiff : 0 < n →
      (((self.Start expireTime n f).updates deltas).IsActive = false ↔ k = n) := by
    intro hpos
    constructor
    · intro hf
      by_contra hne
      have hlt : k < n := lt_of_le_of_ne (hk.finite hpos).1 hne
      have := hact hpos hlt
      rw [CredibleTimer.IsActive] at hf
      rw [hf] at this
      exact Bool.noConfusion this
    · intro he
      rcases Bool.eq_false_or_eq_true ((self.Start expireTime n f).updates deltas)._active
        with h1 | h1
      · have := (hk.finite hpos).2 h1
        omega
      · exact h1
  exact ⟨k, hk.invoked, fun hpos => ⟨(hk.finite hpos).1, hiff hpos,
    fun he more => updates_inactive more _ ((hiff hpos).2 he)⟩, hinf⟩

/-- C22 at a concrete input: a timer started with expire count 2 and updated
three times. -/
theorem Start_expires_witness :
    (2 : Nat) < 2 ^ 64
      ∧ ∃ k, ((CredibleTimer.new.Start 1 2 7).updates [1, 1, 1]).invoked
            = CredibleTimer.new.invoked ++ List.replicate k 7
        ∧ (0 < 2 → k ≤ 2
            ∧ (((CredibleTimer.new.Start 1 2 7).updates [1, 1, 1]).IsActive = false ↔ k = 2)
            ∧ (k = 2 → ∀ more : List ℚ,
                ((CredibleTimer.new.Start 1 2 7).updates [1, 1, 1]).updates more
                  = (CredibleTimer.new.Start 1 2 7).updates [1, 1, 1]))
        ∧ (2 = 0 → ((CredibleTimer.new.Start 1 2 7).updates [1, 1, 1]).IsActive = true) :=
  ⟨by norm_num, CredibleTimer.Start_expires CredibleTimer.new 1 2 7 [1, 1, 1] (by norm_num)⟩

/-- C23: after `Start(expireTime, n, f)` and fewer than `2 ^ 64` calls of
`Update` and `Stop`, the callbacks invoked since the `Start` are `k` invocations
of `f` and `GetCallBackCount()` returns `k`; `Stop` changes neither the count,
nor the accumulated time, nor the invocations, and an `Update` on an inactive
timer changes nothing. -/
theorem CredibleTimer.GetCallBackCount_counts (self : CredibleTimer) (expireTime : ℚ)
    (n f : Nat) (cs : List TimerCall) (hlen : cs.length < 2 ^ 64) :
    ∃ k, ((self.Start expireTime n f).calls cs).invoked = self.invoked ++ List.replicate k f
      ∧ ((self.Start expireTime n f).calls cs).GetCallBackCount = k
      ∧ (self.Start expireTime n f).GetCallBackCount = 0
      ∧ ((self.Start expireTime n f).calls cs).Stop.GetCallBackCount = k
      ∧ ((self.Start expireTime n f).calls cs).Stop.invoked
          = ((self.Start expireTime n f).calls cs).invoked
      ∧ ((self.Start expireTime n f).calls cs).Stop._timer
          = ((self.Start expireTime n f).calls cs)._timer
      ∧ ∀ timeDelta : ℚ, ((self.Start expireTime n f).calls cs).IsActive = false →
          ((self.Start expireTime n f).calls cs).Update timeDelta
            = (self.Start expireTime n f).calls cs := by
  obtain ⟨h0, _⟩ := Running_Start self expireTime n f
  obtain ⟨k, hk, hle⟩ := Running_calls self.invoked _ f cs 0 _ h0
  have hc : ((self.Start expireTime n f).calls cs).GetCallBackCount = k := by
    rw [CredibleTimer.GetCallBackCount, hk.count]
    exact Nat.mod_eq_of_lt (by omega)
  exact ⟨k, hk.invoked, hc, rfl, hc, rfl, rfl, fun d h => Update_inactive _ d h⟩

/-- C23 at a concrete input: two firing updates, a `Stop` and one more
update. -/
theorem GetCallBackCount_counts_witness :
    [TimerCall.Update 1, TimerCall.Update 1, TimerCall.Stop, TimerCall.Update 1].length < 2 ^ 64
      ∧ ((CredibleTimer.new.Start 1 0 7).calls
          [TimerCall.Update 1, TimerCall.Update 1, TimerCall.Stop,
            TimerCall.Update 1]).GetCallBackCount = 2 := by
  refine ⟨by norm_num, ?_⟩
  obtain ⟨k, hinv, hc, _⟩ := CredibleTimer.GetCallBackCount_counts CredibleTimer.new 1 0 7
    [TimerCall.Update 1, TimerCall.Update 1, TimerCall.Stop, TimerCall.Update 1] (by norm_num)
  rw [hc]
  have h2 : ((CredibleTimer.new.Start 1 0 7).calls
      [TimerCall.Update 1, TimerCall.Update 1, TimerCall.Stop, TimerCall.Update 1]).invoked
        = [7, 7] := by
    simp [CredibleTimer.calls, CredibleTimer.call, CredibleTimer.Update, CredibleTimer.Start,
      CredibleTimer.Stop, CredibleTimer.new]
  rw [h2] at hinv
  have := congrArg List.length hinv
  simpa [CredibleTimer.new] using this.symm

/-! ## The ancestor chain of `CalculateGlobalTransform` -/

theorem loop_path (Nodes : List CredibleNode) :
    ∀ (fuel : Nat) (parent : Option Nat) (X : XMFLOAT4X4),
      CredibleModelData.CalculateGlobalTransform.loop Nodes fuel parent X
        = (ancestorPath Nodes fuel parent).map fun path =>
            (path.map fun a => a.LocalTransform).prod * X := by
  intro fuel
  induction fuel with
  | zero =>
    intro parent X
    cases parent with
    | none => simp [CredibleModelData.CalculateGlobalTransform.loop, ancestorPath]
    | some p => simp [CredibleModelData.CalculateGlobalTransform.loop, ancestorPath]
  | succ fuel ih =>
    intro parent X
    cases parent with
    | none => simp [CredibleModelData.CalculateGlobalTransform.loop, ancestorPath]
    | some p =>
      cases hp : Nodes[p]? with
      | none => simp [CredibleModelData.CalculateGlobalTransform.loop, ancestorPath, hp]
      | some pn =>
        rw [loop_some Nodes fuel p pn X hp, ih]
        simp only [ancestorPath, hp, Option.map_map]
        congr 1
        funext path
        simp [Function.comp, mul_assoc]

theorem ancestorPath_congr (Nodes Nodes' : List CredibleNode)
    (h : ∀ i : Nat, (Nodes'[i]?).map (fun n : CredibleNode => (n.Parent, n.LocalTransform))
      = (Nodes[i]?).map (fun n : CredibleNode => (n.Parent, n.LocalTransform))) :
    ∀ (fuel : Nat) (parent : Option Nat),
      (ancestorPath Nodes' fuel parent).map (fun path => path.map fun a => a.LocalTransform)
        = (ancestorPath Nodes fuel parent).map (fun path => path.map fun a => a.LocalTransform) := by
  intro fuel
  induction fuel with
  | zero =>
    intro parent
    cases parent <;> simp [ancestorPath]
  | succ fuel ih =>
    intro parent
    cases parent with
    | none => simp [ancestorPath]
    | some p =>
      have hp := h p
      cases h1 : Nodes[p]? with
      | none =>
        rw [h1] at hp
        cases h2 : Nodes'[p]? with
        | none => simp [ancestorPath, h1, h2]
        | some b => rw [h2] at hp; simp at hp
      | some a =>
        rw [h1] at hp
        cases h2 : Nodes'[p]? with
        | none => rw [h2] at hp; simp at hp
        | some b =>
          rw [h2] at hp
          simp only [Option.map_some', Option.some.injEq, Prod.mk.injEq] at hp
          have hi := ih a.Parent
          simp only [ancestorPath, h1, h2, Option.map_map, hp.1]
          cases h3 : ancestorPath Nodes fuel a.Parent with
          | none =>
            rw [h3] at hi
            cases h4 : ancestorPath Nodes' fuel a.Parent with
            | none => simp
            | some q => rw [h4] at hi; simp at hi
          | some q =>
            rw [h3] at hi
            cases h4 : ancestorPath Nodes' fuel a.Parent with
            | none => rw [h4] at hi; simp at hi
            | some q' =>
              rw [h4] at hi
              simp only [Option.map_some', Option.some.injEq] at hi
              simp [hi, hp.2]

/-- C24: `CalculateGlobalTransform(node)` returns exactly when the parent chain
of the node is found, and then the new global transform is the product of the
local transforms along the path from the root to the parent, times the local
transform of the node; it is the same for every node list and node with the
same parent pointers and local transforms, whatever the global transforms
stored; and it returns when parents come before their children. -/
theorem CredibleModelData.CalculateGlobalTransform_path (Nodes : List CredibleNode)
    (node : CredibleNode) :
    CredibleModelData.CalculateGlobalTransform Nodes node
        = (ancestorPath Nodes Nodes.length node.Parent).map (fun path =>
            { node with
              GlobalTransform :=
                (path.map fun a => a.LocalTransform).prod * node.LocalTransform })
      ∧ (∀ (Nodes' : List CredibleNode) (node' : CredibleNode),
          (∀ i : Nat, (Nodes'[i]?).map (fun n : CredibleNode => (n.Parent, n.LocalTransform))
            = (Nodes[i]?).map (fun n : CredibleNode => (n.Parent, n.LocalTransform))) →
          node'.Parent = node.Parent → node'.LocalTransform = node.LocalTransform →
          (CredibleModelData.CalculateGlobalTransform Nodes' node').map
              (fun n => n.GlobalTransform)
            = (CredibleModelData.CalculateGlobalTransform Nodes node).map
              (fun n => n.GlobalTransform))
      ∧ ((∀ (i : Nat) (n : CredibleNode), Nodes[i]? = some n →
            ∀ p, n.Parent = some p → p < i) →
          (∀ p, node.Parent = some p → p < Nodes.length) →
          ∃ path, ancestorPath Nodes Nodes.length node.Parent = some path) := by
  have h1 : ∀ (Ns : List CredibleNode) (nd : CredibleNode),
      CredibleModelData.CalculateGlobalTransform Ns nd
        = (ancestorPath Ns Ns.length nd.Parent).map (fun path =>
            { nd with
              GlobalTransform :=
                (path.map fun a => a.LocalTransform).prod * nd.LocalTransform }) := by
    intro Ns nd
    rw [CredibleModelData.CalculateGlobalTransform, loop_path, Option.map_map]
    rfl
  refine ⟨h1 Nodes node, ?_, ?_⟩
  · intro Nodes' node' hagree hpar hloc
    have hlen : Nodes'.length = Nodes.length := by
      rcases Nat.lt_trichotomy Nodes'.length Nodes.length with hlt | heq | hgt
      · have := hagree Nodes'.length
        rw [List.getElem?_eq_none (le_refl _), List.getElem?_eq_getElem hlt] at this
        simp at this
      · exact heq
      · have := hagree Nodes.length
        rw [List.getElem?_eq_none (le_refl _), List.getElem?_eq_getElem hgt] at this
        simp at this
    have hc := ancestorPath_congr Nodes Nodes' hagree Nodes.length node.Parent
    have key : ∀ (Ns : List CredibleNode) (nd : CredibleNode), Ns.length = Nodes.length →
        nd.Parent = node.Parent → nd.LocalTransform = node.LocalTransform →
        (CredibleModelData.CalculateGlobalTransform Ns nd).map (fun n => n.GlobalTransform)
          = ((ancestorPath Ns Nodes.length node.Parent).map
              (fun path => path.map fun a => a.LocalTransform)).map
              (fun ls => ls.prod * node.LocalTransform) := by
      intro Ns nd hl hP hL
      rw [h1 Ns nd, hl, hP]
      cases ancestorPath Ns Nodes.length node.Parent with
      | none => rfl
      | some path =>
        show some ((path.map fun a => a.LocalTransform).prod * nd.LocalTransform) = _
        rw [hL]
        rfl
    rw [key Nodes' node' hlen hpar hloc, key Nodes node rfl rfl rfl, hc]
  · intro hbelow hpar
    cases hp : node.Parent with
    | none => exact ⟨[], by cases Nodes.length <;> rfl⟩
    | some p =>
      obtain ⟨g, hg⟩ := loop_total Nodes hbelow p (hpar p hp) Nodes.length (hpar p hp)
        node.LocalTransform
      rw [loop_path] at hg
      cases ha : ancestorPath Nodes Nodes.length (some p) with
      | none => rw [ha] at hg; simp at hg
      | some path => exact ⟨path, rfl⟩

/-- C24 at a concrete input: the grandchild of a chain of three nodes. -/
theorem CalculateGlobalTransform_path_witness :
    (CredibleModelData.CalculateGlobalTransform chainNodes
        { CredibleNode.default samplePlatform with
          LocalTransform := Matrix.diagonal ![1, 1, 5, 1], GlobalTransform := 0,
          Parent := some 1 }).map (fun n => n.GlobalTransform)
      = some (([Matrix.diagonal ![2, 1, 1, 1], Matrix.diagonal ![1, 3, 1, 1]] :
          List XMFLOAT4X4).prod * Matrix.diagonal ![1, 1, 5, 1]) := by
  rw [(CredibleModelData.CalculateGlobalTransform_path chainNodes _).1]
  rfl

/-! ## The index array of a mesh record -/

theorem ReadArray_pos {α : Type} (read : List Nat → Nat → Option (α × Nat))
    (data : List Nat) (k : Nat)
    (hk : ∀ (p : Nat) (v : α) (q : Nat), read data p = some (v, q) → q = p + k) :
    ∀ (count pos : Nat) (xs : List α) (q : Nat),
      DataReader.ReadArray read data count pos = some (xs, q) → q = pos + k * count := by
  intro count
  induction count with
  | zero =>
    intro pos xs q h
    simp only [DataReader.ReadArray, Option.some.injEq, Prod.mk.injEq] at h
    rw [← h.2]; rfl
  | succ c ih =>
    intro pos xs q h
    simp only [DataReader.ReadArray] at h
    split at h
    · exact Option.noConfusion h
    rename_i a p1 h1
    split at h
    · exact Option.noConfusion h
    rename_i rest p2 h2
    simp only [Option.some.injEq, Prod.mk.injEq] at h
    rw [← h.2, ih p1 rest p2 h2, hk pos a p1 h1, Nat.mul_succ]
    omega

theorem ReadArray_unsigned (n : Nat) (data : List Nat) :
    ∀ (count pos : Nat) (xs : List Nat) (q : Nat),
      DataReader.ReadArray (DataReader.ReadUnsigned n) data count pos = some (xs, q) →
      ∀ i, i < count →
        xs[i]? = some (DataReader.leValue ((data.drop (pos + n * i)).take n)) := by
  intro count
  induction count with
  | zero => exact fun _ _ _ _ i hi => absurd hi (Nat.not_lt_zero i)
  | succ c ih =>
    intro pos xs q h i hi
    simp only [DataReader.ReadArray] at h
    split at h
    · exact Option.noConfusion h
    rename_i a p1 h1
    split at h
    · exact Option.noConfusion h
    rename_i rest p2 h2
    simp only [Option.some.injEq, Prod.mk.injEq] at h
    rw [← h.1]
    have hp1 := ReadUnsigned_pos n data pos a p1 h1
    cases i with
    | zero =>
      unfold DataReader.ReadUnsigned at h1
      split at h1
      · simp only [Option.some.injEq, Prod.mk.injEq] at h1
        simp [h1.1]
      · exact Option.noConfusion h1
    | succ j =>
      rw [List.getElem?_cons_succ, ih p1 rest p2 h2 j (by omega), hp1]
      congr 4
      rw [Nat.mul_succ]
      omega

theorem ReadFloat_pos (pf : Platform) (data : List Nat) (p : Nat) (v : ℚ) (q : Nat)
    (h : DataReader.ReadFloat pf data p = some (v, q)) : q = p + 4 := by
  unfold DataReader.ReadFloat at h
  cases hr : DataReader.ReadUINT data p with
  | none => rw [hr] at h; exact Option.noConfusion h
  | some r =>
    rw [hr] at h
    simp only [Option.map_some', Option.some.injEq, Prod.mk.injEq] at h
    rw [← h.2]
    exact ReadUnsigned_pos 4 data p r.1 r.2 hr

theorem ReadXMFLOAT4_pos (pf : Platform) (data : List Nat) (p : Nat) (v : XMFLOAT4) (q : Nat)
    (h : DataReader.ReadXMFLOAT4 pf data p = some (v, q)) : q = p + 16 := by
  unfold DataReader.ReadXMFLOAT4 at h
  split at h
  · rename_i x y z w p1 h1
    simp only [Option.some.injEq, Prod.mk.injEq] at h
    rw [← h.2]
    exact ReadArray_pos _ data 4 (ReadFloat_pos pf data) 4 p _ p1 h1
  · exact Option.noConfusion h

theorem mesh_ofKsm_indices (pf : Platform) (w : World) (data : List Nat) (pos : Nat)
    (assets : AssetManager) (mesh : CredibleMesh) (p : Nat) (assets' : AssetManager)
    (h : CredibleMesh.ofKsm pf w data pos assets = some (mesh, p, assets')) :
    ∃ indicesAre16Bit : Bool,
      DataReader.ReadBool data (pos + 92) = some (indicesAre16Bit, pos + 93)
      ∧ DataReader.ReadArray DataReader.ReadUINT data mesh.IndexCount (pos + 93)
          = some (mesh.Indices, pos + 93 + 4 * mesh.IndexCount)
      ∧ mesh.IndexBufferFormat
          = (if indicesAre16Bit then DXGI_FORMAT.DXGI_FORMAT_R16_UINT
            else DXGI_FORMAT.DXGI_FORMAT_R32_UINT)
      ∧ (DataReader.ReadBool data (pos + 93 + 4 * mesh.IndexCount)).isSome = true := by
  unfold CredibleMesh.ofKsm at h
  rcases h1 : DataReader.ReadUINT data pos with _ | ⟨NumBones, p1⟩
  · simp only [h1] at h
    exact Option.noConfusion h
  simp only [h1] at h
  rcases h2 : DataReader.ReadUINT data p1 with _ | ⟨FaceCount, p2⟩
  · simp only [h2] at h
    exact Option.noConfusion h
  simp only [h2] at h
  rcases h3 : DataReader.ReadUINT data p2 with _ | ⟨VertexCount, p3⟩
  · simp only [h3] at h
    exact Option.noConfusion h
  simp only [h3] at h
  rcases h4 : DataReader.ReadUINT data p3 with _ | ⟨IndexCount, p4⟩
  · simp only [h4] at h
    exact Option.noConfusion h
  simp only [h4] at h
  rcases h5 : DataReader.ReadXMFLOAT4 pf data p4 with _ | ⟨Diffuse, p5⟩
  · simp only [h5] at h
    exact Option.noConfusion h
  simp only [h5] at h
  rcases h6 : DataReader.ReadXMFLOAT4 pf data p5 with _ | ⟨Ambient, p6⟩
  · simp only [h6] at h
    exact Option.noConfusion h
  simp only [h6] at h
  rcases h7 : DataReader.ReadXMFLOAT4 pf data p6 with _ | ⟨Reflect, p7⟩
  · simp only [h7] at h
    exact Option.noConfusion h
  simp only [h7] at h
  rcases h8 : DataReader.ReadXMFLOAT4 pf data p7 with _ | ⟨Specular, p8⟩
  · simp only [h8] at h
    exact Option.noConfusion h
  simp only [h8] at h
  rcases h9 : DataReader.ReadFloat pf data p8 with _ | ⟨MaterialOpacity, p9⟩
  · simp only [h9] at h
    exact Option.noConfusion h
  simp only [h9] at h
  rcases h10 : DataReader.ReadFloat pf data p9 with _ | ⟨MaterialShininess, p10⟩
  · simp only [h10] at h
    exact Option.noConfusion h
  simp only [h10] at h
  rcases h11 : DataReader.ReadFloat pf data p10 with _ | ⟨SpecularStrength, p11⟩
  · simp only [h11] at h
    exact Option.noConfusion h
  simp only [h11] at h
  rcases h12 : DataReader.ReadBool data p11 with _ | ⟨indicesAre16Bit, p12⟩
  · simp only [h12] at h
    exact Option.noConfusion h
  simp only [h12] at h
  rcases h13 : DataReader.ReadArray DataReader.ReadUINT data IndexCount p12 with _ | ⟨iPtr, p13⟩
  · simp only [h13] at h
    exact Option.noConfusion h
  simp only [h13] at h
  by_cases hI : IndexCount = 0
  · rw [if_pos hI] at h
    exact Option.noConfusion h
  rw [if_neg hI] at h
  rcases h14 : DataReader.ReadBool data p13 with _ | ⟨containsAnimations, p14⟩
  · simp only [h14] at h
    exact Option.noConfusion h
  simp only [h14] at h
  rcases h15 : (if containsAnimations = true then
      DataReader.ReadArray (DataReader.ReadVertexBoneWeight pf) data VertexCount p14
    else DataReader.ReadArray (DataReader.ReadVertex pf) data VertexCount p14) with _ | ⟨vertices, p15⟩
  · simp only [h15] at h
    exact Option.noConfusion h
  simp only [h15] at h
  by_cases hV : VertexCount = 0
  · rw [if_pos hV] at h
    exact Option.noConfusion h
  rw [if_neg hV] at h
  rcases h16 : DataReader.ReadString data p15 with _ | ⟨diffusePath, p16⟩
  · simp only [h16] at h
    exact Option.noConfusion h
  simp only [h16] at h
  rcases h17 : DataReader.ReadString data p16 with _ | ⟨normalPath, p17⟩
  · simp only [h17] at h
    exact Option.noConfusion h
  simp only [h17] at h
  rcases h18 : DataReader.ReadArray (DataReader.ReadBone pf) data NumBones p17 with _ | ⟨Bones, p18⟩
  · simp only [h18] at h
    exact Option.noConfusion h
  simp only [h18] at h
  rcases h19 : DataReader.ReadXMFLOAT3 pf data p18 with _ | ⟨Center, p19⟩
  · simp only [h19] at h
    exact Option.noConfusion h
  simp only [h19] at h
  rcases h20 : DataReader.ReadXMFLOAT3 pf data p19 with _ | ⟨Extents, p20⟩
  · simp only [h20] at h
    exact Option.noConfusion h
  simp only [h20] at h
  simp only [Option.some.injEq, Prod.mk.injEq] at h
  obtain ⟨rfl, -, -⟩ := h
  have e1 := ReadUnsigned_pos 4 data _ _ _ h1
  subst e1
  have e2 := ReadUnsigned_pos 4 data _ _ _ h2
  subst e2
  have e3 := ReadUnsigned_pos 4 data _ _ _ h3
  subst e3
  have e4 := ReadUnsigned_pos 4 data _ _ _ h4
  subst e4
  have e5 := ReadXMFLOAT4_pos pf data _ _ _ h5
  subst e5
  have e6 := ReadXMFLOAT4_pos pf data _ _ _ h6
  subst e6
  have e7 := ReadXMFLOAT4_pos pf data _ _ _ h7
  subst e7
  have e8 := ReadXMFLOAT4_pos pf data _ _ _ h8
  subst e8
  have e9 := ReadFloat_pos pf data _ _ _ h9
  subst e9
  have e10 := ReadFloat_pos pf data _ _ _ h10
  subst e10
  have e11 := ReadFloat_pos pf data _ _ _ h11
  subst e11
  have e12 : p12 = pos + 4 + 4 + 4 + 4 + 16 + 16 + 16 + 16 + 4 + 4 + 4 + 1 := by
    unfold DataReader.ReadBool at h12
    cases hr : DataReader.ReadUnsigned 1 data (pos + 4 + 4 + 4 + 4 + 16 + 16 + 16 + 16 + 4 + 4 + 4) with
    | none => rw [hr] at h12; exact Option.noConfusion h12
    | some r =>
      rw [hr] at h12
      simp only [Option.map_some', Option.some.injEq, Prod.mk.injEq] at h12
      rw [← h12.2]
      exact ReadUnsigned_pos 1 data _ r.1 r.2 hr
  subst e12
  have e13 := ReadArray_pos DataReader.ReadUINT data 4
    (fun p v q hq => ReadUnsigned_pos 4 data p v q hq) _ _ _ _ h13
  subst e13
  have a1 : pos + 4 + 4 + 4 + 4 + 16 + 16 + 16 + 16 + 4 + 4 + 4 = pos + 92 := by omega
  have a2 : pos + 4 + 4 + 4 + 4 + 16 + 16 + 16 + 16 + 4 + 4 + 4 + 1 = pos + 93 := by omega
  rw [a1] at h12
  rw [a2] at h12 h13 h14
  exact ⟨indicesAre16Bit, h12, h13, rfl, by rw [h14]; rfl⟩

/-- C25, as stated, fails when the flag is set.  The mesh `oddKsmMesh` has the
16-bit flag set and four indices.  In its record the flag is read at byte 92;
whatever follows, the constructor reads four 32-bit elements from byte 93 to
byte 109, sixteen bytes and not eight.  When the indices 0, 1, 2, 0 are
persisted as 16-bit elements the values read are 65536, 2, 0, 0 and the
constructor runs off the end of the record; when they are persisted as 32-bit
elements the constructor returns with the index list 0, 1, 2, 0 and the
16-bit buffer format. -/
theorem ofKsm_flag_set_index_width_counterexample :
    oddKsmMesh.indicesAre16Bit = true ∧ oddKsmMesh.indices = [0, 1, 2, 0]
      ∧ DataReader.ReadBool (Ksm.encodeMesh sampleBits true oddKsmMesh) 92 = some (true, 93)
      ∧ DataReader.ReadArray DataReader.ReadUINT (Ksm.encodeMesh sampleBits true oddKsmMesh) 4 93
          = some ([65536, 2, 0, 0], 93 + 4 * 4)
      ∧ (CredibleMesh.ofKsm samplePlatform sampleWorld
          (Ksm.encodeMesh sampleBits true oddKsmMesh) 0 sampleAssets).isNone = true
      ∧ DataReader.ReadBool oddMeshBytes 92 = some (true, 93)
      ∧ DataReader.ReadArray DataReader.ReadUINT oddMeshBytes 4 93
          = some ([0, 1, 2, 0], 93 + 4 * 4)
      ∧ (CredibleMesh.ofKsm samplePlatform sampleWorld oddMeshBytes 0 sampleAssets).map
          (fun r => (r.1.Indices, r.1.IndexBufferFormat, r.2.1))
          = some ([0, 1, 2, 0], DXGI_FORMAT.DXGI_FORMAT_R16_UINT, oddMeshBytes.length) := by
  decide

/-- C25, amended: when the mesh constructor returns, it has read the 16-bit
flag at byte 92 of the record and then, whatever the flag, `IndexCount` 32-bit
elements from byte 93, that is `4 × IndexCount` bytes, the next field being
read right after them; the index list has `IndexCount` entries, entry `i`
being the little-endian value of the four bytes at `93 + 4 × i`; the flag
selects the index buffer format only. -/
theorem CredibleMesh.ofKsm_index_width (pf : Platform) (w : World) (data : List Nat)
    (pos : Nat) (assets : AssetManager) (mesh : CredibleMesh) (p : Nat)
    (assets' : AssetManager)
    (h : CredibleMesh.ofKsm pf w data pos assets = some (mesh, p, assets')) :
    ∃ indicesAre16Bit : Bool,
      DataReader.ReadBool data (pos + 92) = some (indicesAre16Bit, pos + 93)
      ∧ DataReader.ReadArray DataReader.ReadUINT data mesh.IndexCount (pos + 93)
          = some (mesh.Indices, pos + 93 + 4 * mesh.IndexCount)
      ∧ mesh.Indices.length = mesh.IndexCount
      ∧ (∀ i, i < mesh.IndexCount →
          mesh.Indices[i]?
            = some (DataReader.leValue ((data.drop (pos + 93 + 4 * i)).take 4)))
      ∧ mesh.IndexBufferFormat
          = (if indicesAre16Bit then DXGI_FORMAT.DXGI_FORMAT_R16_UINT
            else DXGI_FORMAT.DXGI_FORMAT_R32_UINT)
      ∧ (DataReader.ReadBool data (pos + 93 + 4 * mesh.IndexCount)).isSome = true := by
  obtain ⟨flag, h1, h2, h3, h4⟩ := mesh_ofKsm_indices pf w data pos assets mesh p assets' h
  exact ⟨flag, h1, h2, ReadArray_length _ _ _ _ _ _ h2,
    ReadArray_unsigned 4 data _ _ _ _ h2, h3, h4⟩

/-- C25 (amended) on the record of `oddKsmMesh` with 32-bit index elements. -/
theorem ofKsm_index_width_witness :
    ∃ indicesAre16Bit : Bool,
      DataReader.ReadBool oddMeshBytes (0 + 92) = some (indicesAre16Bit, 0 + 93)
      ∧ DataReader.ReadArray DataReader.ReadUINT oddMeshBytes
            (Option.get _ oddMeshBytes_parse).1.IndexCount (0 + 93)
          = some ((Option.get _ oddMeshBytes_parse).1.Indices,
              0 + 93 + 4 * (Option.get _ oddMeshBytes_parse).1.IndexCount)
      ∧ (Option.get _ oddMeshBytes_parse).1.Indices.length
          = (Option.get _ oddMeshBytes_parse).1.IndexCount
      ∧ (∀ i, i < (Option.get _ oddMeshBytes_parse).1.IndexCount →
          (Option.get _ oddMeshBytes_parse).1.Indices[i]?
            = some (DataReader.leValue ((oddMeshBytes.drop (0 + 93 + 4 * i)).take 4)))
      ∧ (Option.get _ oddMeshBytes_parse).1.IndexBufferFormat
          = (if indicesAre16Bit then DXGI_FORMAT.DXGI_FORMAT_R16_UINT
            else DXGI_FORMAT.DXGI_FORMAT_R32_UINT)
      ∧ (DataReader.ReadBool oddMeshBytes
          (0 + 93 + 4 * (Option.get _ oddMeshBytes_parse).1.IndexCount)).isSome = true :=
  CredibleMesh.ofKsm_index_width samplePlatform sampleWorld oddMeshBytes 0 sampleAssets
    (Option.get _ oddMeshBytes_parse).1 (Option.get _ oddMeshBytes_parse).2.1
    (Option.get _ oddMeshBytes_parse).2.2 (Option.some_get oddMeshBytes_parse).symm

/-! ## The empty default texture name -/

/-- C26 fails on the model read from `mixedBytes`, whose only mesh has no
diffuse texture path: the constructor leaves the default texture name of the
mesh empty and its `DiffuseTexture` unassigned, the handle→slot map is empty
after construction, and `SetTextureMapping(1, "")` returns with the map
holding the slot 1 for the unassigned handle. -/
theorem CredibleModelData.SetTextureMapping_empty_name_writes :
    ((Option.get (CredibleModelData.ofKsm samplePlatform sampleWorld skinnedModel mixedBytes
        sampleAssets) mixedBytes_parse).1.Nodes.map fun node =>
        node.Meshes.map fun mesh => (mesh.DefaultDiffuseTextureName, mesh.DiffuseTexture))
        = [[([], samplePlatform.indeterminate)]]
      ∧ (Option.get (CredibleModelData.ofKsm samplePlatform sampleWorld skinnedModel mixedBytes
          sampleAssets) mixedBytes_parse).1._allMeshes = [(0, 0)]
      ∧ (Option.get (CredibleModelData.ofKsm samplePlatform sampleWorld skinnedModel mixedBytes
          sampleAssets) mixedBytes_parse).1._textureMapping samplePlatform.indeterminate = none
      ∧ ((Option.get (CredibleModelData.ofKsm samplePlatform sampleWorld skinnedModel mixedBytes
          sampleAssets) mixedBytes_parse).1.SetTextureMapping 1 []).map
          (fun model => model._textureMapping samplePlatform.indeterminate)
        = some (some 1) := by
  decide

/-! ## The material of the two doodad types -/

theorem brighten_Bright (model : CredibleModelData) : Bright model.brighten.Nodes := by
  intro node hnode mesh hmesh
  simp only [CredibleModelData.brighten, List.mem_map] at hnode
  obtain ⟨n0, -, rfl⟩ := hnode
  simp only [List.mem_map] at hmesh
  obtain ⟨m0, -, rfl⟩ := hmesh
  exact ⟨rfl, rfl⟩

theorem SetTextureMapping_nodes (self : CredibleModelData) (itemSlot : Nat)
    (textureName : wstring) (model : CredibleModelData)
    (h : self.SetTextureMapping itemSlot textureName = some model) :
    model.Nodes = self.Nodes := by
  unfold CredibleModelData.SetTextureMapping at h
  cases hf : self._allMeshes.foldlM
      (CredibleModelData.SetTextureMapping.step self itemSlot textureName)
      self._textureMapping with
  | none => rw [hf] at h; exact Option.noConfusion h
  | some mapping =>
    rw [hf] at h
    simp only [Option.map_some', Option.some.injEq] at h
    rw [← h]

theorem slots_nodes (k : Nat) :
    ∀ (slots : List Nat) (model : CredibleModelData) (self : AssetManager)
      (model' : CredibleModelData) (self' : AssetManager),
      AssetManager.LoadKsmModel.slots k slots model self = some (model', self') →
      model'.Nodes = model.Nodes := by
  intro slots
  induction slots with
  | nil =>
    intro model self model' self' h
    simp only [AssetManager.LoadKsmModel.slots, Option.some.injEq, Prod.mk.injEq] at h
    rw [← h.1]
  | cons slot rest ih =>
    intro model self model' self' h
    simp only [AssetManager.LoadKsmModel.slots] at h
    split at h
    · exact Option.noConfusion h
    rename_i m1 hm1
    rw [ih _ (self.defaultTexture k slot).2 _ _ h]
    exact SetTextureMapping_nodes _ _ _ _ hm1

theorem finish_nodes (ist : InstanceSaveTypes) (s : AssetManager) (t k ptr : Nat)
    (s' : AssetManager)
    (h : AssetManager.LoadKsmModel.finish ist s t k = some (ptr, s')) :
    ∃ object object', s._loadedModels k = some (ptr, object)
      ∧ s'._loadedModels k = some (ptr, object')
      ∧ (t = ist.Doodad_Hitodama ∨ t = ist.Doodad_Fire →
          object'.Nodes = object.brighten.Nodes)
      ∧ (¬ (t = ist.Doodad_Hitodama ∨ t = ist.Doodad_Fire) → object'.Nodes = object.Nodes) := by
  unfold AssetManager.LoadKsmModel.finish at h
  cases hk : s._loadedModels k with
  | none => rw [hk] at h; exact Option.noConfusion h
  | some entry =>
    obtain ⟨model, object⟩ := entry
    rw [hk] at h
    simp only at h
    cases hs : AssetManager.LoadKsmModel.slots k ist.itemSlots object s with
    | none => rw [hs] at h; exact Option.noConfusion h
    | some r =>
      obtain ⟨o1, s1⟩ := r
      rw [hs] at h
      simp only [Option.some.injEq, Prod.mk.injEq] at h
      obtain ⟨rfl, rfl⟩ := h
      have hn := slots_nodes k _ _ _ _ _ hs
      refine ⟨object, if t = ist.Doodad_Hitodama ∨ t = ist.Doodad_Fire then o1.brighten else o1,
        rfl, by simp, ?_, ?_⟩
      · intro hb
        rw [if_pos hb]
        simp only [CredibleModelData.brighten, hn]
      · intro hb
        rw [if_neg hb]
        exact hn

theorem LoadKsmModel_nodes (pf : Platform) (w : World) (ist : InstanceSaveTypes)
    (junk : CredibleModelData) (self : AssetManager) (t ptr : Nat) (s' : AssetManager)
    (h : self.LoadKsmModel pf w ist junk t = some (ptr, s')) (hptr : ptr ≠ 0) :
    ∃ object object', s'._loadedModels (self.GetModelInstanceType t) = some (ptr, object')
      ∧ (self._loadedModels (self.GetModelInstanceType t) = some (ptr, object)
        ∨ ((∀ cached o, self._loadedModels (self.GetModelInstanceType t) = some (cached, o) →
              cached = 0)
          ∧ ∃ memBlock a1,
              w.files (self._assetRootDirectory
                ++ ist.InstanceTypeToModelPath (self.GetModelInstanceType t)) = some memBlock
              ∧ CredibleModelData.ofKsm pf w junk memBlock self = some (object, a1)))
      ∧ (t = ist.Doodad_Hitodama ∨ t = ist.Doodad_Fire →
          object'.Nodes = object.brighten.Nodes)
      ∧ (¬ (t = ist.Doodad_Hitodama ∨ t = ist.Doodad_Fire) → object'.Nodes = object.Nodes) := by
  have key : ∀ k, self.GetModelInstanceType t = k →
      (if (match self._loadedModels k with | some entry => entry.1 | none => 0) = 0 then
        match w.files (self._assetRootDirectory ++ ist.InstanceTypeToModelPath k) with
        | none => some (0, { self with criticalErrors := self.criticalErrors + 1 })
        | some memBlock =>
          match CredibleModelData.ofKsm pf w junk memBlock self with
          | none => none
          | some (object, self1) =>
            AssetManager.LoadKsmModel.finish ist
              { self1 with
                _loadedModels := Function.update self1._loadedModels k
                  (some (self1.modelsConstructed + 1, object))
                modelsConstructed := self1.modelsConstructed + 1 } t k
      else AssetManager.LoadKsmModel.finish ist self t k) = some (ptr, s') →
      ∃ object object', s'._loadedModels k = some (ptr, object')
        ∧ (self._loadedModels k = some (ptr, object)
          ∨ ((∀ cached o, self._loadedModels k = some (cached, o) → cached = 0)
            ∧ ∃ memBlock a1,
                w.files (self._assetRootDirectory ++ ist.InstanceTypeToModelPath k)
                  = some memBlock
                ∧ CredibleModelData.ofKsm pf w junk memBlock self = some (object, a1)))
        ∧ (t = ist.Doodad_Hitodama ∨ t = ist.Doodad_Fire →
            object'.Nodes = object.brighten.Nodes)
        ∧ (¬ (t = ist.Doodad_Hitodama ∨ t = ist.Doodad_Fire) →
            object'.Nodes = object.Nodes) := by
    intro k _ h
    split at h
    · rename_i hzero
      split at h
      · simp only [Option.some.injEq, Prod.mk.injEq] at h
        exact absurd h.1.symm hptr
      · rename_i memBlock hfile
        split at h
        · exact Option.noConfusion h
        · rename_i object a1 hparse
          obtain ⟨o0, o', g1, g2, g3, g4⟩ := finish_nodes ist _ t k ptr s' h
          simp only [Function.update_same, Option.some.injEq, Prod.mk.injEq] at g1
          obtain ⟨-, rfl⟩ := g1
          refine ⟨object, o', g2, Or.inr ⟨?_, memBlock, a1, hfile, hparse⟩, g3, g4⟩
          intro cached o hc
          rw [hc] at hzero
          exact hzero
    · obtain ⟨o0, o', g1, g2, g3, g4⟩ := finish_nodes ist self t k ptr s' h
      exact ⟨o0, o', g2, Or.inl g1, g3, g4⟩
  unfold AssetManager.LoadKsmModel at h
  cases hi : self._instanceToModelInstance t with
  | none =>
    have e : self.GetModelInstanceType t = t := by
      simp only [AssetManager.GetModelInstanceType, hi]
    rw [e]
    simp only [AssetManager.GetModelInstanceType, hi] at h
    exact key t e h
  | some mapped =>
    have e : self.GetModelInstanceType t = mapped := by
      simp only [AssetManager.GetModelInstanceType, hi]
    rw [e]
    simp only [AssetManager.GetModelInstanceType, hi] at h
    exact key mapped e h

theorem LoadKsmModel_keeps_bright (pf : Platform) (w : World) (ist : InstanceSaveTypes)
    (junk : CredibleModelData) (self : AssetManager) (t r : Nat) (s' : AssetManager)
    (k ptr : Nat) (object : CredibleModelData)
    (h : self.LoadKsmModel pf w ist junk t = some (r, s'))
    (hk : self._loadedModels k = some (ptr, object)) (hptr : ptr ≠ 0) :
    ∃ object', s'._loadedModels k = some (ptr, object')
      ∧ (Bright object.Nodes → Bright object'.Nodes)
      ∧ (self.GetModelInstanceType t = k → r = ptr) := by
  by_cases hkt : k = self.GetModelInstanceType t
  · subst hkt
    rw [LoadKsmModel_hit pf w ist junk self t ptr object hk hptr] at h
    obtain ⟨o0, o', g1, g2, g3, g4⟩ := finish_nodes ist self t _ r s' h
    rw [hk] at g1
    simp only [Option.some.injEq, Prod.mk.injEq] at g1
    obtain ⟨rfl, rfl⟩ := g1
    refine ⟨o', g2, ?_, fun _ => rfl⟩
    intro hb
    by_cases hbt : t = ist.Doodad_Hitodama ∨ t = ist.Doodad_Fire
    · rw [g3 hbt]
      exact brighten_Bright _
    · rw [g4 hbt]
      exact hb
  · obtain ⟨-, f2, -⟩ := LoadKsmModel_frame pf w ist junk self t r s' h
    exact ⟨object, by rw [f2 k hkt, hk], fun hb => hb, fun e => absurd e.symm hkt⟩

theorem resolves_keep_bright (pf : Platform) (w : World) (ist : InstanceSaveTypes)
    (junk : CredibleModelData) (k ptr : Nat) (hptr : ptr ≠ 0) (ts : List Nat) :
    ∀ (self s' : AssetManager) (object : CredibleModelData),
      AssetManager.resolves pf w ist junk self ts = some s' →
      self._loadedModels k = some (ptr, object) →
      ∃ object', s'._loadedModels k = some (ptr, object')
        ∧ (Bright object.Nodes → Bright object'.Nodes) := by
  induction ts with
  | nil =>
    intro self s' object h hk
    simp only [AssetManager.resolves, Option.some.injEq] at h
    subst h
    exact ⟨object, hk, fun hb => hb⟩
  | cons t rest ih =>
    intro self s' object h hk
    simp only [AssetManager.resolves] at h
    split at h
    · exact Option.noConfusion h
    rename_i r s1 h1
    obtain ⟨o1, hk1, hb1, -⟩ := LoadKsmModel_keeps_bright pf w ist junk self t r s1 k ptr object
      h1 hk hptr
    obtain ⟨o2, hk2, hb2⟩ := ih s1 s' o1 h hk1
    exact ⟨o2, hk2, fun hb => hb2 (hb1 hb)⟩

/-- C30: when `LoadKsmModel(t)` returns a model, the cache holds under the
canonical type of `t` the object the call found there or constructed from the
file, with the default textures applied.  If `t` is `Doodad_Hitodama` or
`Doodad_Fire`, its nodes are those of that object with the ambient and the
diffuse colour of every mesh set to (1.5, 1.5, 1.5, 1.0); otherwise its nodes,
and so all mesh materials, are those of that object.  After any later calls of
`LoadKsmModel` that return, the cache holds the same pointer under that
canonical type, a later call for a type with that canonical type returns it,
and if the colours of every mesh were (1.5, 1.5, 1.5, 1.0) they still are. -/
theorem AssetManager.LoadKsmModel_materials (pf : Platform) (w : World)
    (ist : InstanceSaveTypes) (junk : CredibleModelData) (self : AssetManager) (t ptr : Nat)
    (s' : AssetManager)
    (h : self.LoadKsmModel pf w ist junk t = some (ptr, s')) (hptr : ptr ≠ 0) :
    ∃ object object', s'._loadedModels (self.GetModelInstanceType t) = some (ptr, object')
      ∧ (self._loadedModels (self.GetModelInstanceType t) = some (ptr, object)
        ∨ ((∀ cached o, self._loadedModels (self.GetModelInstanceType t) = some (cached, o) →
              cached = 0)
          ∧ ∃ memBlock a1,
              w.files (self._assetRootDirectory
                ++ ist.InstanceTypeToModelPath (self.GetModelInstanceType t)) = some memBlock
              ∧ CredibleModelData.ofKsm pf w junk memBlock self = some (object, a1)))
      ∧ (t = ist.Doodad_Hitodama ∨ t = ist.Doodad_Fire →
          object'.Nodes = object.brighten.Nodes ∧ Bright object'.Nodes)
      ∧ (¬ (t = ist.Doodad_Hitodama ∨ t = ist.Doodad_Fire) → object'.Nodes = object.Nodes)
      ∧ ∀ (ts : List Nat) (s'' : AssetManager),
          AssetManager.resolves pf w ist junk s' ts = some s'' →
          ∃ object'', s''._loadedModels (self.GetModelInstanceType t) = some (ptr, object'')
            ∧ (Bright object'.Nodes → Bright object''.Nodes)
            ∧ ∀ (t' r : Nat) (s3 : AssetManager),
                s''.LoadKsmModel pf w ist junk t' = some (r, s3) →
                s''.GetModelInstanceType t' = self.GetModelInstanceType t → r = ptr := by
  obtain ⟨object, object', h1, h2, h3, h4⟩ := LoadKsmModel_nodes pf w ist junk self t ptr s' h hptr
  refine ⟨object, object', h1, h2, fun hb => ⟨h3 hb, ?_⟩, h4, ?_⟩
  · rw [h3 hb]
    exact brighten_Bright _
  · intro ts s'' hres
    obtain ⟨o2, hk2, hb2⟩ := resolves_keep_bright pf w ist junk _ ptr hptr ts s' s'' object'
      hres h1
    refine ⟨o2, hk2, hb2, ?_⟩
    intro t' r s3 h' hsame
    obtain ⟨-, -, -, hr⟩ := LoadKsmModel_keeps_bright pf w ist junk s'' t' r s3 _ ptr o2 h' hk2 hptr
    exact hr hsame

theorem doodadAssets_load :
    (doodadAssets.LoadKsmModel samplePlatform diskWorld sampleTypes skinnedModel 10).isSome
      = true := by
  decide

/-- C30 on `doodadAssets`, whose remap table sends the types 7 and 10 to the
type 5: `LoadKsmModel(Doodad_Hitodama)` returns a model. -/
theorem LoadKsmModel_materials_witness :
    (Option.get _ doodadAssets_load).1 ≠ 0
      ∧ ∃ object object',
        (Option.get _ doodadAssets_load).2._loadedModels (doodadAssets.GetModelInstanceType 10)
            = some ((Option.get _ doodadAssets_load).1, object')
        ∧ (doodadAssets._loadedModels (doodadAssets.GetModelInstanceType 10)
              = some ((Option.get _ doodadAssets_load).1, object)
          ∨ ((∀ cached o,
                doodadAssets._loadedModels (doodadAssets.GetModelInstanceType 10)
                  = some (cached, o) → cached = 0)
            ∧ ∃ memBlock a1,
                diskWorld.files (doodadAssets._assetRootDirectory
                  ++ sampleTypes.InstanceTypeToModelPath (doodadAssets.GetModelInstanceType 10))
                  = some memBlock
                ∧ CredibleModelData.ofKsm samplePlatform diskWorld skinnedModel memBlock
                    doodadAssets = some (object, a1)))
        ∧ ((10 : Nat) = sampleTypes.Doodad_Hitodama ∨ (10 : Nat) = sampleTypes.Doodad_Fire →
            object'.Nodes = object.brighten.Nodes ∧ Bright object'.Nodes)
        ∧ (¬ ((10 : Nat) = sampleTypes.Doodad_Hitodama ∨ (10 : Nat) = sampleTypes.Doodad_Fire) →
            object'.Nodes = object.Nodes)
        ∧ ∀ (ts : List Nat) (s'' : AssetManager),
            AssetManager.resolves samplePlatform diskWorld sampleTypes skinnedModel
              (Option.get _ doodadAssets_load).2 ts = some s'' →
            ∃ object'',
              s''._loadedModels (doodadAssets.GetModelInstanceType 10)
                = some ((Option.get _ doodadAssets_load).1, object'')
              ∧ (Bright object'.Nodes → Bright object''.Nodes)
              ∧ ∀ (t' r : Nat) (s3 : AssetManager),
                  s''.LoadKsmModel samplePlatform diskWorld sampleTypes skinnedModel t'
                    = some (r, s3) →
                  s''.GetModelInstanceType t' = doodadAssets.GetModelInstanceType 10 →
                  r = (Option.get _ doodadAssets_load).1 :=
  ⟨by decide,
    AssetManager.LoadKsmModel_materials samplePlatform diskWorld sampleTypes skinnedModel
      doodadAssets 10 (Option.get _ doodadAssets_load).1 (Option.get _ doodadAssets_load).2
      (Option.some_get doodadAssets_load).symm (by decide)⟩

/-! ## The lookup state across `DrawNode` -/

theorem boundView_Extends {m m' o o' : Nat → Option Nat} (hm : Extends m m')
    (ho : Extends o o') (h : Nat) : boundView m' o' h = boundView m o h := by
  have e1 : (m' h).getD 0 = (m h).getD 0 := by
    rcases hm h with e | ⟨n, v⟩
    · rw [e]
    · rw [n, v]; rfl
  have e2 : (o' ((m h).getD 0)).getD 0 = (o ((m h).getD 0)).getD 0 := by
    rcases ho ((m h).getD 0) with e | ⟨n, v⟩
    · rw [e]
    · rw [n, v]; rfl
  unfold boundView
  simp only [e1, e2]

theorem DrawNode_mesh_maps (dx : DirectXMath) (node i : Nat) (mesh : CredibleMesh)
    (st st' : DrawState) (h : CredibleModelData.DrawNode.mesh dx node i mesh st = some st') :
    Extends st.model._textureMapping st'.model._textureMapping
      ∧ Extends st.textureOverrides st'.textureOverrides := by
  unfold CredibleModelData.DrawNode.mesh at h
  rcases hb : CredibleModelData.DrawNode.bones dx node mesh st with _ | st1
  · rw [hb] at h
    exact Option.noConfusion h
  rw [hb] at h
  simp only [Option.some.injEq] at h
  obtain ⟨b1, b2, -, -, -, -⟩ := DrawNode_bones_post dx node mesh st st1 hb
  obtain ⟨st2, hst2⟩ : ∃ st2 : DrawState, st2 =
      { st1 with
        cb := { st1.cb with Mat := mesh.MeshMaterial }
        dc := st1.dc ++ [DeviceCall.cbApplyChanges { st1.cb with Mat := mesh.MeshMaterial }] } :=
    ⟨_, rfl⟩
  rw [← hst2] at h
  obtain ⟨hf2, -⟩ := DrawNode_texture_spec mesh st2
  have e2m : st2.model = st1.model := by rw [hst2]
  have e2o : st2.textureOverrides = st1.textureOverrides := by rw [hst2]
  have hm := hf2.mapping
  have ho := hf2.overrides
  rw [e2m, b1] at hm
  rw [e2o, b2] at ho
  rw [← h]
  exact ⟨hm, ho⟩

theorem DrawNode_meshes_maps (dx : DirectXMath) (node : Nat) (meshes : List CredibleMesh) :
    ∀ (i : Nat) (st st' : DrawState),
      CredibleModelData.DrawNode.meshes dx node i meshes st = some st' →
      Extends st.model._textureMapping st'.model._textureMapping
        ∧ Extends st.textureOverrides st'.textureOverrides := by
  induction meshes with
  | nil =>
    intro i st st' h
    simp only [CredibleModelData.DrawNode.meshes, Option.some.injEq] at h
    subst h
    exact ⟨Extends_refl _, Extends_refl _⟩
  | cons mesh rest ih =>
    intro i st st' h
    simp only [CredibleModelData.DrawNode.meshes] at h
    split at h
    · exact Option.noConfusion h
    rename_i st1 h1
    obtain ⟨a1, a2⟩ := DrawNode_mesh_maps dx node i mesh st st1 h1
    obtain ⟨c1, c2⟩ := ih (i + 1) st1 st' h
    exact ⟨Extends_trans a1 c1, Extends_trans a2 c2⟩

theorem DrawNode_children_maps (draw : DrawState → Nat → Option DrawState)
    (hdraw : ∀ (st st' : DrawState) (c : Nat), draw st c = some st' →
      Extends st.model._textureMapping st'.model._textureMapping
        ∧ Extends st.textureOverrides st'.textureOverrides)
    (children : List Nat) :
    ∀ (st st' : DrawState), CredibleModelData.DrawNode.children draw children st = some st' →
      Extends st.model._textureMapping st'.model._textureMapping
        ∧ Extends st.textureOverrides st'.textureOverrides := by
  induction children with
  | nil =>
    intro st st' h
    simp only [CredibleModelData.DrawNode.children, Option.some.injEq] at h
    subst h
    exact ⟨Extends_refl _, Extends_refl _⟩
  | cons c rest ih =>
    intro st st' h
    simp only [CredibleModelData.DrawNode.children] at h
    split at h
    · exact Option.noConfusion h
    rename_i st1 h1
    obtain ⟨a1, a2⟩ := hdraw st st1 c h1
    obtain ⟨c1, c2⟩ := ih st1 st' h
    exact ⟨Extends_trans a1 c1, Extends_trans a2 c2⟩

theorem DrawNode_go_maps (dx : DirectXMath) (InverseTranspose : XMFLOAT4X4 → XMFLOAT4X4)
    (worldTransform : XMFLOAT4X4) (disabledNodes : List wstring) :
    ∀ (fuel : Nat) (st st' : DrawState) (node : Nat),
      CredibleModelData.DrawNode.go dx InverseTranspose worldTransform disabledNodes fuel st node
        = some st' →
      Extends st.model._textureMapping st'.model._textureMapping
        ∧ Extends st.textureOverrides st'.textureOverrides := by
  intro fuel
  induction fuel with
  | zero =>
    intro st st' node h
    exact Option.noConfusion h
  | succ fuel ih =>
    intro st st' node h
    simp only [CredibleModelData.DrawNode.go] at h
    split at h
    · exact Option.noConfusion h
    rename_i n hn
    split at h
    · exact Option.noConfusion h
    rename_i st1 h1
    have hk := DrawNode_children_maps _ (fun a b c hc => ih a b c hc) n.Children st1 st' h
    have h01 : Extends st.model._textureMapping st1.model._textureMapping
        ∧ Extends st.textureOverrides st1.textureOverrides := by
      split at h1
      · have hms := DrawNode_meshes_maps dx node n.Meshes 0 _ st1 h1
        exact hms
      · simp only [Option.some.injEq] at h1
        rw [← h1]
        exact ⟨Extends_refl _, Extends_refl _⟩
    exact ⟨Extends_trans h01.1 hk.1, Extends_trans h01.2 hk.2⟩

theorem proceduralDraw_returns :
    (CredibleModelData.DrawNode sampleMath exactInverseTranspose (sampleDraw proceduralModel)
      0 1 []).isSome = true := by
  decide

/-- C29, as stated, fails on `proceduralModel`, whose mesh has the texture
handle 5, drawn with an empty handle→slot map and an empty override table:
`DrawNode` returns with the entry `5 ↦ 0` in the map and the entry `0 ↦ null`
in the override table. -/
theorem DrawNode_inserts_lookup_entries_counterexample :
    ∃ st',
      CredibleModelData.DrawNode sampleMath exactInverseTranspose (sampleDraw proceduralModel)
          0 1 [] = some st'
        ∧ (sampleDraw proceduralModel).model._textureMapping 5 = none
        ∧ st'.model._textureMapping 5 = some 0
        ∧ (sampleDraw proceduralModel).textureOverrides 0 = none
        ∧ st'.textureOverrides 0 = some 0 :=
  ⟨Option.get _ proceduralDraw_returns, (Option.some_get proceduralDraw_returns).symm,
    by decide, by decide, by decide, by decide⟩

/-- C29, amended: when `DrawNode` returns, every entry the handle→slot map of
the model and the override table of the caller had before is still there with
the same value, every entry added holds the value-initialised value (the item
slot of value 0, the null view), and the view bound for a handle is the same
with the maps after the call as with the maps before it. -/
theorem CredibleModelData.DrawNode_extends_lookup_state (dx : DirectXMath)
    (InverseTranspose : XMFLOAT4X4 → XMFLOAT4X4) (st st' : DrawState) (node : Nat)
    (worldTransform : XMFLOAT4X4) (disabledNodes : List wstring)
    (h : CredibleModelData.DrawNode dx InverseTranspose st node worldTransform disabledNodes
      = some st') :
    Extends st.model._textureMapping st'.model._textureMapping
      ∧ Extends st.textureOverrides st'.textureOverrides
      ∧ (∀ k v, st.model._textureMapping k = some v → st'.model._textureMapping k = some v)
      ∧ (∀ k v, st.textureOverrides k = some v → st'.textureOverrides k = some v)
      ∧ (∀ k, st.model._textureMapping k = none →
          st'.model._textureMapping k = none ∨ st'.model._textureMapping k = some 0)
      ∧ (∀ k, st.textureOverrides k = none →
          st'.textureOverrides k = none ∨ st'.textureOverrides k = some 0)
      ∧ ∀ handle, boundView st'.model._textureMapping st'.textureOverrides handle
          = boundView st.model._textureMapping st.textureOverrides handle := by
  obtain ⟨hm, ho⟩ := DrawNode_go_maps dx InverseTranspose worldTransform disabledNodes _ st st'
    node h
  have keep : ∀ (m m' : Nat → Option Nat), Extends m m' →
      (∀ k v, m k = some v → m' k = some v)
        ∧ ∀ k, m k = none → m' k = none ∨ m' k = some 0 := by
    intro m m' he
    constructor
    · intro k v hk
      rcases he k with e | ⟨n, -⟩
      · rw [e, hk]
      · rw [hk] at n
        exact Option.noConfusion n
    · intro k hk
      rcases he k with e | ⟨-, v⟩
      · exact Or.inl (e.trans hk)
      · exact Or.inr v
  exact ⟨hm, ho, (keep _ _ hm).1, (keep _ _ ho).1, (keep _ _ hm).2, (keep _ _ ho).2,
    fun handle => boundView_Extends hm ho handle⟩

/-- C29 (amended) on `overrideDraw`: the override 9 of the caller for the item
slot 0 is still there after the call. -/
theorem DrawNode_extends_lookup_state_witness :
    (Option.get _ overrideDraw_returns).textureOverrides 0 = some 9 :=
  (CredibleModelData.DrawNode_extends_lookup_state sampleMath exactInverseTranspose overrideDraw
    (Option.get _ overrideDraw_returns) 0 1 [] (Option.some_get overrideDraw_returns).symm).2.2.2.1
    0 9 (by decide)

/-! ## The order of the node list and the flat mesh list -/

theorem preorder_window (Nodes Nodes' : List CredibleNode)
    (hkids : ∀ (i : Nat) (n : CredibleNode), Nodes[i]? = some n →
      ∀ c ∈ n.Children, i < c ∧ c < Nodes.length)
    (lo : Nat) (hagree : ∀ j, lo ≤ j → j < Nodes.length → Nodes'[j]? = Nodes[j]?) :
    ∀ (fuel node : Nat), lo ≤ node → node < Nodes.length →
      preorder Nodes' fuel node = preorder Nodes fuel node := by
  intro fuel
  induction fuel with
  | zero => exact fun _ _ _ => rfl
  | succ fuel ih =>
    intro node hlo hlt
    have hn : Nodes[node]? = some Nodes[node] := List.getElem?_eq_getElem hlt
    simp only [preorder, hagree node hlo hlt, hn]
    congr 1
    apply List.flatMap_congr
    intro c hc
    obtain ⟨h1, h2⟩ := hkids node _ hn c hc
    exact ih c (by omega) h2

theorem AllOK_kids {Nodes : List CredibleNode} (hok : AllOK Nodes) (i : Nat) (n : CredibleNode)
    (hn : Nodes[i]? = some n) : ∀ c ∈ n.Children, i < c ∧ c < Nodes.length := by
  intro c hc
  obtain ⟨h1, cn, hcn, -⟩ := (hok i n hn).2.2 c hc
  exact ⟨h1, (List.getElem?_eq_some_iff.mp hcn).1⟩

theorem meshPointers_append (Nodes : List CredibleNode) (a b : List Nat) :
    meshPointers Nodes (a ++ b) = meshPointers Nodes a ++ meshPointers Nodes b := by
  simp only [meshPointers, List.flatMap_append]

theorem meshPointers_grows {Nodes Nodes' : List CredibleNode} (hg : Grows Nodes Nodes')
    (order : List Nat) (h : ∀ i ∈ order, i < Nodes.length) :
    meshPointers Nodes' order = meshPointers Nodes order := by
  unfold meshPointers
  apply List.flatMap_congr
  intro i hi
  have hlt : i < Nodes.length := h i hi
  have hn : Nodes[i]? = some (Nodes.get ⟨i, hlt⟩) := List.getElem?_eq_getElem hlt
  obtain ⟨m', hm', -, -, -, hmm, -⟩ := hg i _ hn
  simp only [hn, hm', hmm]

theorem range'_join (a b c : Nat) (h1 : a ≤ b) (h2 : b ≤ c) :
    List.range' a (b - a) ++ List.range' b (c - b) = List.range' a (c - a) := by
  have e : c - a = (c - b) + (b - a) := by omega
  have e2 : b = a + (b - a) := by omega
  rw [e, ← List.range'_append_1, ← e2]

theorem children_orderPost
    (readChild : CredibleModelData → Option Nat → Nat → AssetManager →
      Option (Nat × CredibleModelData × Nat × AssetManager))
    (hrc : ∀ self parent p a idx self' p' a',
      readChild self parent p a = some (idx, self', p', a') → ReadPost self parent idx self')
    (hro : ∀ self parent p a idx self' p' a',
      readChild self parent p a = some (idx, self', p', a') → AllOK self.Nodes →
      (∀ q, parent = some q → q < self.Nodes.length) → OrderPost self idx self')
    (ksmNode : Nat) :
    ∀ (count : Nat) (self : CredibleModelData) (p : Nat) (a : AssetManager)
      (self' : CredibleModelData) (p' : Nat) (a' : AssetManager),
      CredibleModelData.readNodeTree.children readChild ksmNode count self p a
          = some (self', p', a') →
      ksmNode < self.Nodes.length → AllOK self.Nodes →
      (∀ n : CredibleNode, self.Nodes[ksmNode]? = some n →
        ∃ cs, self'.Nodes[ksmNode]? = some { n with Children := n.Children ++ cs }
          ∧ ∀ fuel, self'.Nodes.length ≤ self.Nodes.length + fuel →
              cs.flatMap (preorder self'.Nodes fuel)
                = List.range' self.Nodes.length (self'.Nodes.length - self.Nodes.length))
      ∧ List.Perm self'._allMeshes
          (self._allMeshes ++ meshPointers self'.Nodes
            (List.range' self.Nodes.length (self'.Nodes.length - self.Nodes.length))) := by
  intro count
  induction count with
  | zero =>
    intro self p a self' p' a' h _ _
    simp only [CredibleModelData.readNodeTree.children, Option.some.injEq, Prod.mk.injEq] at h
    obtain ⟨rfl, -, -⟩ := h
    refine ⟨fun n hn => ⟨[], by simpa using hn, fun fuel _ => by simp⟩, ?_⟩
    simp [meshPointers]
  | succ c ih =>
    intro self p a self' p' a' h hk hok
    simp only [CredibleModelData.readNodeTree.children] at h
    split at h
    · exact absurd h (by simp)
    rename_i child s1 p1 a1 hread
    have R := hrc self (some ksmNode) p a child s1 p1 a1 hread
    have O := hro self (some ksmNode) p a child s1 p1 a1 hread hok
      (fun q hq => by cases hq; exact hk)
    have hchild : child = self.Nodes.length := R.idx_eq
    obtain ⟨n0, hn0, hn0p⟩ := R.root
    have hchildlt : child < s1.Nodes.length := (List.getElem?_eq_some_iff.mp hn0).1
    have hk2 : ksmNode < (pushChild s1.Nodes ksmNode child).length := by
      rw [pushChild_length]; omega
    have hkn : self.Nodes[ksmNode]? = some self.Nodes[ksmNode] := List.getElem?_eq_getElem hk
    have hkn1 : s1.Nodes[ksmNode]? = some self.Nodes[ksmNode] := by
      rw [R.frame ksmNode hk]; exact hkn
    have hok1 : AllOK s1.Nodes := R.ok hok (fun q hq => by cases hq; exact hk)
    have hok2 : AllOK (pushChild s1.Nodes ksmNode child) :=
      AllOK_pushChild s1.Nodes ksmNode child _ n0 hok1 hkn1 hn0 hn0p (by omega)
    have C := children_post readChild hrc ksmNode c
      { s1 with Nodes := pushChild s1.Nodes ksmNode child } p1 a1 self' p' a' h hk2
    obtain ⟨I1, I2⟩ := ih { s1 with Nodes := pushChild s1.Nodes ksmNode child } p1 a1 self' p' a'
      h hk2 hok2
    simp only [pushChild_length] at I1 I2
    have hg12 : Grows s1.Nodes (pushChild s1.Nodes ksmNode child) :=
      Grows_pushChild s1.Nodes ksmNode child
    have hg2' : Grows (pushChild s1.Nodes ksmNode child) self'.Nodes := ChildrenPost_grows C
    have hlen1 : s1.Nodes.length ≤ self'.Nodes.length := by
      have := Grows_length hg2'
      rwa [pushChild_length] at this
    constructor
    · intro n hn
      have hn1 : s1.Nodes[ksmNode]? = some n := by rw [R.frame ksmNode hk]; exact hn
      obtain ⟨cs, hcs, hpre⟩ := I1 _ (pushChild_get_self s1.Nodes ksmNode child n hn1)
      refine ⟨child :: cs, ?_, ?_⟩
      · rw [hcs]
        simp
      · intro fuel hfuel
        rw [List.flatMap_cons, hpre fuel (by omega)]
        have hw : preorder self'.Nodes fuel child = preorder s1.Nodes fuel child := by
          apply preorder_window s1.Nodes self'.Nodes (AllOK_kids hok1) child ?_ fuel child
            (le_refl _) hchildlt
          intro j hj hjlt
          have h1 := C.frame j (by simpa [pushChild_length] using hjlt) (by omega)
          simp only at h1
          rw [h1, pushChild_get_ne _ _ _ _ (by omega)]
        rw [hw, O.order fuel (by omega), ← hchild]
        exact range'_join child s1.Nodes.length self'.Nodes.length (by omega) hlen1
    · have hmp : meshPointers self'.Nodes (List.range' child (s1.Nodes.length - child))
          = meshPointers s1.Nodes (List.range' child (s1.Nodes.length - child)) := by
        apply meshPointers_grows (Grows_trans hg12 hg2')
        intro i hi
        have := List.mem_range'_1.mp hi
        omega
      have hflat := O.flat
      rw [← hmp] at hflat
      refine List.Perm.trans I2 ?_
      show List.Perm (s1._allMeshes ++ _) _
      refine List.Perm.trans (List.Perm.append_right _ hflat) ?_
      rw [List.append_assoc, ← meshPointers_append, ← hchild,
        range'_join child s1.Nodes.length self'.Nodes.length (by omega) hlen1]

theorem readNodeTree_orderPost (pf : Platform) (w : World) (data : List Nat) :
    ∀ (fuel : Nat) (self : CredibleModelData) (parent : Option Nat) (pos : Nat)
      (assets : AssetManager) (idx : Nat) (self' : CredibleModelData) (pos' : Nat)
      (assets' : AssetManager),
      CredibleModelData.readNodeTree pf w data fuel self parent pos assets
          = some (idx, self', pos', assets') →
      AllOK self.Nodes → (∀ q, parent = some q → q < self.Nodes.length) →
      OrderPost self idx self' := by
  intro fuel
  induction fuel with
  | zero =>
    intro self parent pos assets idx self' pos' assets' h
    simp [CredibleModelData.readNodeTree] at h
  | succ fuel ih =>
    intro self parent pos assets idx self' pos' assets' h hok hp
    have RP := readNodeTree_post pf w data (fuel + 1) self parent pos assets idx self' pos'
      assets' h
    simp only [CredibleModelData.readNodeTree] at h
    split at h
    · exact absurd h (by simp)
    rename_i node p1 a1 hnode
    split at h
    · exact absurd h (by simp)
    rename_i childCount p2 hcount
    split at h
    · exact absurd h (by simp)
    rename_i s3 p3 a3 hloop
    simp only [Option.some.injEq, Prod.mk.injEq] at h
    obtain ⟨hidx, hself, -, -⟩ := h
    subst hidx
    subst hself
    obtain ⟨Name, LocalTransform, this, ChannelIndex, Meshes, hthis, hnodeeq⟩ :=
      ofKsm_node_shape pf w data parent pos self.Nodes assets node p1 a1 hnode
    obtain ⟨g, hg⟩ := CalculateGlobalTransform_shape _ _ _ hthis
    have hpar : node.Parent = parent := by rw [hnodeeq, hg]
    have hch : node.Children = [] := by rw [hnodeeq, hg]; rfl
    have hok0 : AllOK (self.Nodes ++ [node]) := by
      refine AllOK_append self.Nodes node hok ?_ (fun q hq => hp q (hpar ▸ hq)) hch
      obtain ⟨g', hg', hrel⟩ := CalculateGlobalTransform_eq self.Nodes hok
        { CredibleNode.default pf with
          Name := Name, LocalTransform := LocalTransform, Parent := parent } hp
      rw [hthis] at hg'
      have hthis' := Option.some.inj hg'
      refine nodeRel_grows (Grows_refl _) _ node ?_ ?_ ?_ hrel
      · rw [hnodeeq, hthis']
      · rw [hnodeeq, hthis']
      · rw [hnodeeq, hthis']
    have hat : (self.Nodes ++ [node])[self.Nodes.length]? = some node := by simp
    obtain ⟨Q1, Q2⟩ := children_orderPost (CredibleModelData.readNodeTree pf w data fuel)
      (readNodeTree_post pf w data fuel) ih self.Nodes.length
      childCount { self with Nodes := self.Nodes ++ [node] } p2 a1 s3 p3 a3 hloop
      (by simp) hok0
    obtain ⟨cs, hcs, hpre⟩ := Q1 node hat
    simp only [List.length_append, List.length_singleton] at hpre Q2
    have hlt3 : self.Nodes.length < s3.Nodes.length := (List.getElem?_eq_some_iff.mp hcs).1
    have hsplit : List.range' self.Nodes.length (s3.Nodes.length - self.Nodes.length)
        = self.Nodes.length
          :: List.range' (self.Nodes.length + 1) (s3.Nodes.length - (self.Nodes.length + 1)) := by
      have e : s3.Nodes.length - self.Nodes.length
          = (s3.Nodes.length - (self.Nodes.length + 1)) + 1 := by omega
      rw [e, List.range'_succ]
    constructor
    · intro f hf
      have hf : s3.Nodes.length ≤ self.Nodes.length + f := hf
      show preorder s3.Nodes f self.Nodes.length = _
      obtain ⟨f', rfl⟩ : ∃ f', f = f' + 1 := ⟨f - 1, by omega⟩
      simp only [preorder, hcs, hch, List.nil_append]
      rw [hpre f' (by omega), hsplit]
    · show List.Perm (s3._allMeshes ++ _) (self._allMeshes ++ meshPointers s3.Nodes _)
      have hown : (List.range node.Meshes.length).map (fun m => (self.Nodes.length, m))
          = meshPointers s3.Nodes [self.Nodes.length] := by
        simp [meshPointers, hcs]
      rw [hown, hsplit]
      have e : self.Nodes.length
            :: List.range' (self.Nodes.length + 1) (s3.Nodes.length - (self.Nodes.length + 1))
          = [self.Nodes.length]
            ++ List.range' (self.Nodes.length + 1) (s3.Nodes.length - (self.Nodes.length + 1)) :=
        rfl
      rw [e, meshPointers_append]
      refine List.Perm.trans (List.Perm.append_right _ Q2) ?_
      rw [List.append_assoc]
      exact List.Perm.append_left _ List.perm_append_comm

theorem meshPointers_mem (Nodes : List CredibleNode) (order : List Nat) (ptr : Nat × Nat) :
    ptr ∈ meshPointers Nodes order
      ↔ ptr.1 ∈ order ∧ ∃ n, Nodes[ptr.1]? = some n ∧ ptr.2 < n.Meshes.length := by
  unfold meshPointers
  rw [List.mem_flatMap]
  constructor
  · rintro ⟨i, hi, hp⟩
    cases hn : Nodes[i]? with
    | none => rw [hn] at hp; exact absurd hp (List.not_mem_nil _)
    | some n =>
      rw [hn] at hp
      obtain ⟨m, hm, rfl⟩ := List.mem_map.mp hp
      exact ⟨hi, n, hn, List.mem_range.mp hm⟩
  · rintro ⟨hi, n, hn, hm⟩
    refine ⟨ptr.1, hi, ?_⟩
    rw [hn]
    exact List.mem_map.mpr ⟨ptr.2, List.mem_range.mpr hm, rfl⟩

theorem meshPointers_nodup (Nodes : List CredibleNode) (order : List Nat) (h : order.Nodup) :
    (meshPointers Nodes order).Nodup := by
  unfold meshPointers
  rw [List.nodup_flatMap]
  constructor
  · intro i _
    cases Nodes[i]? with
    | none => exact List.nodup_nil
    | some n =>
      exact (List.nodup_range _).map (fun a b hab => (Prod.mk.inj hab).2)
  · refine List.Pairwise.imp_of_mem ?_ h
    intro a b _ _ hab
    intro ptr ha hb
    simp only at ha hb
    have h1 : ptr.1 = a := by
      cases hn : Nodes[a]? with
      | none => rw [hn] at ha; exact absurd ha (List.not_mem_nil _)
      | some n =>
        rw [hn] at ha
        obtain ⟨m, -, rfl⟩ := List.mem_map.mp ha
        rfl
    have h2 : ptr.1 = b := by
      cases hn : Nodes[b]? with
      | none => rw [hn] at hb; exact absurd hb (List.not_mem_nil _)
      | some n =>
        rw [hn] at hb
        obtain ⟨m, -, rfl⟩ := List.mem_map.mp hb
        rfl
    exact hab (h1.symm.trans h2)

theorem ofKsm_order (pf : Platform) (w : World) (junk : CredibleModelData) (data : List Nat)
    (assets : AssetManager) (model : CredibleModelData) (assets' : AssetManager)
    (h : CredibleModelData.ofKsm pf w junk data assets = some (model, assets')) :
    (∀ fuel, model.Nodes.length ≤ fuel →
        preorder model.Nodes fuel 0 = List.range model.Nodes.length)
      ∧ List.Perm model._allMeshes (meshPointers model.Nodes (List.range model.Nodes.length))
      ∧ ∃ n0 : CredibleNode, model.Nodes[0]? = some n0 ∧ n0.Parent = none := by
  obtain ⟨s0, root, s1, pos, pos', a1, fuel, hn0, hm0, htree, hn, hm, hroot⟩ :=
    initializeFromKsm_tree pf w data (CredibleModelData.raw junk) assets model assets' h
  have hn0' : s0.Nodes = [] := hn0
  have hm0' : s0._allMeshes = [] := hm0
  have R := readNodeTree_post pf w data fuel s0 none pos assets root s1 pos' a1 htree
  have hr0 : root = 0 := by rw [R.idx_eq, hn0']; rfl
  subst hr0
  have O := readNodeTree_orderPost pf w data fuel s0 none pos assets 0 s1 pos' a1 htree
    (by
      intro i n hi
      rw [hn0'] at hi
      simp at hi) (fun p hp => by cases hp)
  refine ⟨?_, ?_, ?_⟩
  · intro f hf
    rw [hn] at hf ⊢
    rw [O.order f (by omega), List.range_eq_range']
    rfl
  · have hflat := O.flat
    rw [hm0', List.nil_append] at hflat
    rw [hn, hm, List.range_eq_range']
    exact hflat
  · rw [hn]
    exact R.root

/-- C27: when the constructor `CredibleModelData(data, ...)` returns a model,
`RootNode` is `Nodes[0]` and has no parent; the subtree of `RootNode` in
depth-first pre-order is `Nodes[0], Nodes[1], ...`, the whole list with each
node once; every node listed in the `Children` of a node has that node as its
`Parent`, and every node but the root is listed in the `Children` of its
parent; the flat mesh list is a rearrangement of the list of the pointers to
every mesh of every node, each taken once, so it has no repetition and holds
every mesh. -/
theorem CredibleModelData.ofKsm_nodes_preorder (pf : Platform) (w : World)
    (junk : CredibleModelData) (data : List Nat) (assets : AssetManager)
    (model : CredibleModelData) (assets' : AssetManager)
    (h : CredibleModelData.ofKsm pf w junk data assets = some (model, assets')) :
    model.RootNode = some 0
      ∧ (∃ n0 : CredibleNode, model.Nodes[0]? = some n0 ∧ n0.Parent = none)
      ∧ preorder model.Nodes model.Nodes.length 0 = List.range model.Nodes.length
      ∧ (∀ (i : Nat) (n : CredibleNode) (c : Nat), model.Nodes[i]? = some n → c ∈ n.Children →
          ∃ cn : CredibleNode, model.Nodes[c]? = some cn ∧ cn.Parent = some i)
      ∧ (∀ (i : Nat) (n : CredibleNode), model.Nodes[i]? = some n → 0 < i →
          ∃ (p : Nat) (pn : CredibleNode),
            n.Parent = some p ∧ model.Nodes[p]? = some pn ∧ i ∈ pn.Children)
      ∧ List.Perm model._allMeshes (meshPointers model.Nodes (List.range model.Nodes.length))
      ∧ model._allMeshes.Nodup
      ∧ ∀ (i : Nat) (n : CredibleNode) (m : Nat), model.Nodes[i]? = some n →
          m < n.Meshes.length → (i, m) ∈ model._allMeshes := by
  obtain ⟨T, -, -⟩ := ofKsm_tree pf w junk data assets model assets' h
  obtain ⟨O1, O2, O3⟩ := ofKsm_order pf w junk data assets model assets' h
  refine ⟨T.root, O3, O1 _ (le_refl _), ?_, ?_, O2, ?_, ?_⟩
  · intro i n c hn hc
    exact ((T.shape i n hn).2 c hc).2
  · intro i n hn hpos
    obtain ⟨p, hp⟩ := T.parents i n hn hpos
    obtain ⟨-, pn, hpn, hmem⟩ := (T.shape i n hn).1 p hp
    exact ⟨p, pn, hp, hpn, hmem⟩
  · exact (List.Perm.nodup_iff O2).mpr (meshPointers_nodup _ _ (List.nodup_range _))
  · intro i n m hn hm
    apply (List.Perm.mem_iff O2).mpr
    rw [meshPointers_mem]
    exact ⟨List.mem_range.mpr (List.getElem?_eq_some_iff.mp hn).1, n, hn, hm⟩

/-- C27 on the model read from `richBytes`: three nodes and two meshes. -/
theorem ofKsm_nodes_preorder_witness :
    preorder (Option.get _ richBytes_parse).1.Nodes 3 0 = [0, 1, 2]
      ∧ List.Perm (Option.get _ richBytes_parse).1._allMeshes [(0, 0), (1, 0)] := by
  have h := CredibleModelData.ofKsm_nodes_preorder samplePlatform sampleWorld skinnedModel
    richBytes sampleAssets (Option.get _ richBytes_parse).1 (Option.get _ richBytes_parse).2
    (Option.some_get richBytes_parse).symm
  have hlen : (Option.get _ richBytes_parse).1.Nodes.length = 3 := by decide
  have hmp : meshPointers (Option.get _ richBytes_parse).1.Nodes (List.range 3)
      = [(0, 0), (1, 0)] := by decide
  obtain ⟨-, -, h3, -, -, h6, -, -⟩ := h
  rw [hlen] at h3 h6
  rw [hmp] at h6
  exact ⟨h3, h6⟩

/-! ## Ray queries on the whole model -/

theorem GetAllIntersectionsBy_meshes (dx : DirectXMath) (o d : XMVECTOR)
    (T : Option XMFLOAT4X4) (hits : CredibleMesh → List XMFLOAT3) :
    ∀ (meshes : List CredibleMesh) (acc : List XMFLOAT3),
      (∀ mesh ∈ meshes, mesh.GetAllIntersectionsBy dx o d T = some (hits mesh)) →
      CredibleModelData.GetAllIntersectionsBy.meshes dx o d T meshes acc
        = some (acc ++ meshes.flatMap hits) := by
  intro meshes
  induction meshes with
  | nil => intro acc _; simp [CredibleModelData.GetAllIntersectionsBy.meshes]
  | cons mesh rest ih =>
    intro acc h
    simp only [CredibleModelData.GetAllIntersectionsBy.meshes,
      h mesh (List.mem_cons_self _ _), List.flatMap_cons]
    rw [ih _ (fun m hm => h m (List.mem_cons_of_mem _ hm)), List.append_assoc]

theorem GetAllIntersectionsBy_nodes (dx : DirectXMath) (o d : XMVECTOR)
    (T : Option XMFLOAT4X4) (hits : CredibleMesh → List XMFLOAT3) :
    ∀ (nodes : List CredibleNode) (acc : List XMFLOAT3),
      (∀ node ∈ nodes, ∀ mesh ∈ node.Meshes,
        mesh.GetAllIntersectionsBy dx o d T = some (hits mesh)) →
      CredibleModelData.GetAllIntersectionsBy.nodes dx o d T nodes acc
        = some (acc ++ nodes.flatMap fun node => node.Meshes.flatMap hits) := by
  intro nodes
  induction nodes with
  | nil => intro acc _; simp [CredibleModelData.GetAllIntersectionsBy.nodes]
  | cons node rest ih =>
    intro acc h
    simp only [CredibleModelData.GetAllIntersectionsBy.nodes,
      GetAllIntersectionsBy_meshes dx o d T hits node.Meshes acc
        (h node (List.mem_cons_self _ _)), List.flatMap_cons]
    rw [ih _ (fun n hn => h n (List.mem_cons_of_mem _ hn)), List.append_assoc]

theorem IntersectedBy_meshes (dx : DirectXMath) (o d : XMVECTOR)
    (world inverseView : XMFLOAT4X4) (node : CredibleNode) (hit : CredibleMesh → Bool) :
    ∀ (meshes : List CredibleMesh),
      (∀ mesh ∈ meshes,
        mesh.IntersectedBy dx o d world node.GlobalTransform inverseView = some (hit mesh)) →
      CredibleModelData.IntersectedBy.meshes dx o d world inverseView node meshes
        = some (meshes.any hit) := by
  intro meshes
  induction meshes with
  | nil => intro _; rfl
  | cons mesh rest ih =>
    intro h
    simp only [CredibleModelData.IntersectedBy.meshes, h mesh (List.mem_cons_self _ _),
      List.any_cons]
    cases hh : hit mesh with
    | true => simp
    | false =>
      simp only [Bool.false_eq_true, if_false, Bool.false_or]
      exact ih (fun m hm => h m (List.mem_cons_of_mem _ hm))

theorem IntersectedBy_nodes (dx : DirectXMath) (o d : XMVECTOR)
    (world inverseView : XMFLOAT4X4) (hit : CredibleNode → CredibleMesh → Bool) :
    ∀ (nodes : List CredibleNode),
      (∀ node ∈ nodes, ∀ mesh ∈ node.Meshes,
        mesh.IntersectedBy dx o d world node.GlobalTransform inverseView
          = some (hit node mesh)) →
      CredibleModelData.IntersectedBy.nodes dx o d world inverseView nodes
        = some (nodes.any fun node => node.Meshes.any (hit node)) := by
  intro nodes
  induction nodes with
  | nil => intro _; rfl
  | cons node rest ih =>
    intro h
    simp only [CredibleModelData.IntersectedBy.nodes,
      IntersectedBy_meshes dx o d world inverseView node (hit node) node.Meshes
        (h node (List.mem_cons_self _ _)), List.any_cons]
    cases hh : node.Meshes.any (hit node) with
    | true => simp
    | false =>
      simp only [Bool.false_or]
      exact ih (fun n hn => h n (List.mem_cons_of_mem _ hn))

theorem nodesAt_range (Nodes : List CredibleNode) :
    nodesAt Nodes (List.range Nodes.length) = Nodes := by
  have h1 : ∀ (k : Nat), k ≤ Nodes.length →
      (List.range k).filterMap (fun i => Nodes[i]?) = Nodes.take k := by
    intro k
    induction k with
    | zero => intro _; rfl
    | succ k ih =>
      intro hk
      rw [List.range_succ, List.filterMap_append, ih (by omega)]
      have hk' : k < Nodes.length := by omega
      simp only [List.filterMap_cons, List.filterMap_nil, List.getElem?_eq_getElem hk']
      rw [List.take_succ, List.getElem?_eq_getElem hk']
      rfl
  unfold nodesAt
  rw [h1 Nodes.length (le_refl _), List.take_length]

theorem GetAllIntersectionsBy_returns (dx : DirectXMath) (mesh : CredibleMesh)
    (o d : XMVECTOR) (T : Option XMFLOAT4X4)
    (hcount : mesh.VertexCount = mesh.PositionalVertices.length)
    (hidx : ∀ i ∈ mesh.Indices, i < mesh.VertexCount) :
    mesh.GetAllIntersectionsBy dx o d T
      = some ((List.range (mesh.Indices.length / 3)).filterMap (mesh.hitPoint dx o d T)) := by
  unfold CredibleMesh.GetAllIntersectionsBy
  rw [foldlM_step dx mesh o d T _ []
    (fun n hn => triangle_isSome mesh hcount hidx n (List.mem_range.mp hn))]
  rfl

theorem IntersectedBy_returns (dx : DirectXMath) (mesh : CredibleMesh) (o d : XMVECTOR)
    (world nodeTransform inverseView : XMFLOAT4X4)
    (hcount : mesh.VertexCount = mesh.PositionalVertices.length)
    (hidx : ∀ i ∈ mesh.Indices, i < mesh.VertexCount) :
    mesh.IntersectedBy dx o d world nodeTransform inverseView
      = some ((mesh.IntersectedBy dx o d world nodeTransform inverseView).getD false) := by
  unfold CredibleMesh.IntersectedBy
  simp only
  split
  · rw [scan_eq_any dx mesh _ _ _ _
      (fun n hn => triangle_isSome mesh hcount hidx n (List.mem_range.mp hn))]
    rfl
  · rfl

/-- C21: for a model whose node list is the depth-first pre-order of the tree
under `root`, as both constructors leave it, and whose per-mesh queries
return, `GetAllIntersectionsBy` returns the concatenation, over the nodes in
depth-first pre-order and over the meshes of a node in the order of `Meshes`,
of the result of the `GetAllIntersectionsBy` of each mesh for the same ray and
transform; `IntersectedBy` returns, and returns true if and only if the
`IntersectedBy` of some mesh of some node, called with the global transform of
that node, returns true. -/
theorem CredibleModelData.queries_aggregate (dx : DirectXMath) (self : CredibleModelData)
    (rayOrigin rayDirection : XMVECTOR) (translation : Option XMFLOAT4X4)
    (worldTransform inverseView : XMFLOAT4X4) (root : Nat)
    (hits : CredibleMesh → List XMFLOAT3) (hit : CredibleNode → CredibleMesh → Bool)
    (hpre : preorder self.Nodes self.Nodes.length root = List.range self.Nodes.length)
    (hall : ∀ node ∈ self.Nodes, ∀ mesh ∈ node.Meshes,
      mesh.GetAllIntersectionsBy dx rayOrigin rayDirection translation = some (hits mesh))
    (hany : ∀ node ∈ self.Nodes, ∀ mesh ∈ node.Meshes,
      mesh.IntersectedBy dx rayOrigin rayDirection worldTransform node.GlobalTransform
        inverseView = some (hit node mesh)) :
    self.GetAllIntersectionsBy dx rayOrigin rayDirection translation
        = some ((nodesAt self.Nodes (preorder self.Nodes self.Nodes.length root)).flatMap
            fun node => node.Meshes.flatMap hits)
      ∧ (∃ result, self.IntersectedBy dx rayOrigin rayDirection worldTransform inverseView
            = some result
          ∧ (result = true ↔ ∃ node ∈ self.Nodes, ∃ mesh ∈ node.Meshes,
              mesh.IntersectedBy dx rayOrigin rayDirection worldTransform node.GlobalTransform
                inverseView = some true)) := by
  constructor
  · rw [hpre, nodesAt_range]
    unfold CredibleModelData.GetAllIntersectionsBy
    rw [GetAllIntersectionsBy_nodes dx rayOrigin rayDirection translation hits self.Nodes []
      hall, List.nil_append]
  · refine ⟨_, IntersectedBy_nodes dx rayOrigin rayDirection worldTransform inverseView hit
      self.Nodes hany, ?_⟩
    rw [List.any_eq_true]
    constructor
    · rintro ⟨node, hnode, hm⟩
      rw [List.any_eq_true] at hm
      obtain ⟨mesh, hmesh, hh⟩ := hm
      exact ⟨node, hnode, mesh, hmesh, by rw [hany node hnode mesh hmesh, hh]⟩
    · rintro ⟨node, hnode, mesh, hmesh, hh⟩
      refine ⟨node, hnode, ?_⟩
      rw [List.any_eq_true]
      refine ⟨mesh, hmesh, ?_⟩
      rw [hany node hnode mesh hmesh] at hh
      exact Option.some.inj hh

theorem richBytes_indices :
    ∀ node ∈ (Option.get (CredibleModelData.ofKsm samplePlatform sampleWorld skinnedModel
        richBytes sampleAssets) richBytes_parse).1.Nodes,
      ∀ mesh ∈ node.Meshes, mesh.VertexCount = mesh.PositionalVertices.length
        ∧ ∀ i ∈ mesh.Indices, i < mesh.VertexCount := by
  decide

/-- C21 on the model read from `richBytes`, with the ray from (1, 1, 0) along
the z axis, no transform, and the identity as world and inverse view
matrices. -/
theorem queries_aggregate_witness :
    (Option.get _ richBytes_parse).1.GetAllIntersectionsBy sampleMath ⟨1, 1, 0, 1⟩ ⟨0, 0, 1, 0⟩
        none
      = some ((nodesAt (Option.get _ richBytes_parse).1.Nodes
          (preorder (Option.get _ richBytes_parse).1.Nodes
            (Option.get _ richBytes_parse).1.Nodes.length 0)).flatMap
          fun node => node.Meshes.flatMap fun mesh =>
            (List.range (mesh.Indices.length / 3)).filterMap
              (mesh.hitPoint sampleMath ⟨1, 1, 0, 1⟩ ⟨0, 0, 1, 0⟩ none)) :=
  (CredibleModelData.queries_aggregate sampleMath (Option.get _ richBytes_parse).1
    ⟨1, 1, 0, 1⟩ ⟨0, 0, 1, 0⟩ none 1 1 0
    (fun mesh => (List.range (mesh.Indices.length / 3)).filterMap
      (mesh.hitPoint sampleMath ⟨1, 1, 0, 1⟩ ⟨0, 0, 1, 0⟩ none))
    (fun node mesh =>
      (mesh.IntersectedBy sampleMath ⟨1, 1, 0, 1⟩ ⟨0, 0, 1, 0⟩ 1 node.GlobalTransform 1).getD
        false)
    ((ofKsm_order samplePlatform sampleWorld skinnedModel richBytes sampleAssets _ _
      (Option.some_get richBytes_parse).symm).1 _ (le_refl _))
    (fun node hnode mesh hmesh =>
      GetAllIntersectionsBy_returns sampleMath mesh _ _ none
        (richBytes_indices node hnode mesh hmesh).1 (richBytes_indices node hnode mesh hmesh).2)
    (fun node hnode mesh hmesh =>
      IntersectedBy_returns sampleMath mesh _ _ 1 node.GlobalTransform 1
        (richBytes_indices node hnode mesh hmesh).1
        (richBytes_indices node hnode mesh hmesh).2)).1

/-! ## The range of the bone pass -/

theorem foldl_assignSlot_const (itemSlot : Nat) (writes : List (Nat × Nat))
    (hw : ∀ write ∈ writes, write.2 = itemSlot) :
    ∀ (mapping : Nat → Option Nat) (k : Nat),
      ((∃ write ∈ writes, write.1 = k) → (writes.foldl assignSlot mapping) k = some itemSlot)
        ∧ ((∀ write ∈ writes, write.1 ≠ k) → (writes.foldl assignSlot mapping) k = mapping k) := by
  induction writes with
  | nil =>
    intro mapping k
    exact ⟨fun ⟨w, hw, _⟩ => absurd hw (List.not_mem_nil w), fun _ => rfl⟩
  | cons write rest ih =>
    intro mapping k
    have ih' := ih (fun w hw' => hw w (List.mem_cons_of_mem _ hw')) (assignSlot mapping write) k
    rw [List.foldl_cons]
    constructor
    · rintro ⟨w, hmem, hk⟩
      by_cases hr : ∃ w' ∈ rest, w'.1 = k
      · exact ih'.1 hr
      · have hr' : ∀ w' ∈ rest, w'.1 ≠ k := fun w' hw' e => hr ⟨w', hw', e⟩
        rw [ih'.2 hr']
        rcases List.mem_cons.mp hmem with rfl | hmem
        · subst hk
          simp only [assignSlot, Function.update_same, hw w (List.mem_cons_self _ _)]
        · exact absurd hk (hr' w hmem)
    · intro hno
      rw [ih'.2 (fun w hw' => hno w (List.mem_cons_of_mem _ hw'))]
      have hk : k ≠ write.1 := fun e => hno write (List.mem_cons_self _ _) e.symm
      simp only [assignSlot, Function.update_noteq hk]

theorem SetTextureMapping_override (self : CredibleModelData) (itemSlot : Nat)
    (textureName : wstring) (hvalid : self.meshPointersValid)
    (hall : ∀ node ∈ self.Nodes, ∀ mesh ∈ node.Meshes,
      mesh.DefaultDiffuseTextureName = textureName →
        ∃ ptr ∈ self._allMeshes, self.meshAt ptr = some mesh) :
    ∃ mapping : Nat → Option Nat,
      self.SetTextureMapping itemSlot textureName = some { self with _textureMapping := mapping }
        ∧ ∀ handle : Nat,
          ((∃ node ∈ self.Nodes, ∃ mesh ∈ node.Meshes,
              mesh.DefaultDiffuseTextureName = textureName ∧ mesh.DiffuseTexture = handle) →
            mapping handle = some itemSlot)
          ∧ ((∀ node ∈ self.Nodes, ∀ mesh ∈ node.Meshes,
              mesh.DefaultDiffuseTextureName = textureName → mesh.DiffuseTexture ≠ handle) →
            mapping handle = self._textureMapping handle) := by
  refine ⟨_, SetTextureMapping_eq self itemSlot textureName hvalid, ?_⟩
  have hmemw : ∀ write : Nat × Nat, write ∈ self.slotWrites itemSlot textureName ↔
      ∃ ptr ∈ self._allMeshes, ∃ mesh, self.meshAt ptr = some mesh
        ∧ mesh.DefaultDiffuseTextureName = textureName
        ∧ write = (mesh.DiffuseTexture, itemSlot) := by
    intro write
    simp only [CredibleModelData.slotWrites, List.mem_filterMap, CredibleModelData.meshWrite]
    constructor
    · rintro ⟨ptr, hp, hw⟩
      cases hm : self.meshAt ptr with
      | none => rw [hm] at hw; exact Option.noConfusion hw
      | some mesh =>
        rw [hm] at hw
        simp only at hw
        split at hw
        · rename_i hname
          exact ⟨ptr, hp, mesh, hm, hname, (Option.some.inj hw).symm⟩
        · exact Option.noConfusion hw
    · rintro ⟨ptr, hp, mesh, hm, hname, rfl⟩
      refine ⟨ptr, hp, ?_⟩
      rw [hm]
      simp only [hname, if_true]
  have hconst : ∀ write ∈ self.slotWrites itemSlot textureName, write.2 = itemSlot := by
    intro write hw
    obtain ⟨_, _, _, _, _, rfl⟩ := (hmemw write).mp hw
    rfl
  intro handle
  have hc := foldl_assignSlot_const itemSlot _ hconst self._textureMapping handle
  constructor
  · rintro ⟨node, hnode, mesh, hmesh, hname, hhandle⟩
    obtain ⟨ptr, hp, hm⟩ := hall node hnode mesh hmesh hname
    exact hc.1 ⟨(mesh.DiffuseTexture, itemSlot), (hmemw _).mpr ⟨ptr, hp, mesh, hm, hname, rfl⟩,
      hhandle⟩
  · intro hno
    apply hc.2
    intro write hw e
    obtain ⟨ptr, hp, mesh, hm, hname, rfl⟩ := (hmemw write).mp hw
    have hm' := hm
    unfold CredibleModelData.meshAt at hm'
    cases hnode : self.Nodes[ptr.1]? with
    | none => rw [hnode] at hm'; exact Option.noConfusion hm'
    | some node =>
      rw [hnode] at hm'
      simp only at hm'
      exact hno node (List.getElem?_mem hnode) mesh (List.getElem?_mem hm') hname e

theorem ofKsm_meshes_listed (pf : Platform) (w : World) (junk : CredibleModelData)
    (data : List Nat) (assets : AssetManager) (model : CredibleModelData)
    (assets' : AssetManager)
    (h : CredibleModelData.ofKsm pf w junk data assets = some (model, assets')) :
    ∀ node ∈ model.Nodes, ∀ mesh ∈ node.Meshes,
      ∃ ptr ∈ model._allMeshes, model.meshAt ptr = some mesh := by
  obtain ⟨-, O2, -⟩ := ofKsm_order pf w junk data assets model assets' h
  intro node hnode mesh hmesh
  obtain ⟨i, hilt, higet⟩ := List.mem_iff_getElem.mp hnode
  obtain ⟨m, hmlt, hmget⟩ := List.mem_iff_getElem.mp hmesh
  have hn : model.Nodes[i]? = some node := by
    rw [← higet]; exact List.getElem?_eq_getElem hilt
  refine ⟨(i, m), ?_, ?_⟩
  · apply (List.Perm.mem_iff O2).mpr
    rw [meshPointers_mem]
    exact ⟨List.mem_range.mpr hilt, node, hn, hmlt⟩
  · simp only [CredibleModelData.meshAt, hn]
    rw [← hmget]
    exact List.getElem?_eq_getElem hmlt

theorem ofMeshData_meshes (pf : Platform) (junk : CredibleModelData)
    (meshData : GeometryGenerator.MeshData) (diffuseTexture : Nat) :
    (CredibleModelData.ofMeshData pf junk meshData diffuseTexture)._allMeshes = []
      ∧ ∀ node ∈ (CredibleModelData.ofMeshData pf junk meshData diffuseTexture).Nodes,
          ∀ mesh ∈ node.Meshes, mesh.DefaultDiffuseTextureName = [] := by
  refine ⟨rfl, ?_⟩
  intro node hnode mesh hmesh
  simp only [CredibleModelData.ofMeshData, CredibleModelData.initializeFromMeshData,
    CredibleModelData.raw, List.nil_append, List.mem_cons, List.mem_singleton,
    List.not_mem_nil, or_false] at hnode
  rcases hnode with rfl | rfl
  · simp [CredibleNode.ofName, CredibleNode.default] at hmesh
  · simp only [List.mem_singleton] at hmesh
    subst hmesh
    rfl

/-- C5, amended: for every model built from a buffer or from procedural
geometry, in whatever state its handle-to-slot map is, every item slot and
every texture name that is not empty, `SetTextureMapping(itemSlot,
textureName)` returns the model with only `_textureMapping` changed: a handle
is mapped to `itemSlot` when it is the `DiffuseTexture` of a mesh of a node of
the model whose `DefaultDiffuseTextureName` is the name, and keeps the entry
it had when it is the handle of no such mesh. -/
theorem CredibleModelData.SetTextureMapping_named (built self : CredibleModelData)
    (itemSlot : Nat) (textureName : wstring)
    (hbuilt :
      (∃ (pf : Platform) (w : World) (junk : CredibleModelData) (data : List Nat)
          (assets assets' : AssetManager),
          CredibleModelData.ofKsm pf w junk data assets = some (built, assets'))
        ∨ ∃ (pf : Platform) (junk : CredibleModelData) (meshData : GeometryGenerator.MeshData)
            (diffuseTexture : Nat),
            built = CredibleModelData.ofMeshData pf junk meshData diffuseTexture)
    (hNodes : self.Nodes = built.Nodes) (hMeshes : self._allMeshes = built._allMeshes)
    (hname : textureName ≠ []) :
    ∃ mapping : Nat → Option Nat,
      self.SetTextureMapping itemSlot textureName = some { self with _textureMapping := mapping }
        ∧ ∀ handle : Nat,
          ((∃ node ∈ self.Nodes, ∃ mesh ∈ node.Meshes,
              mesh.DefaultDiffuseTextureName = textureName ∧ mesh.DiffuseTexture = handle) →
            mapping handle = some itemSlot)
          ∧ ((∀ node ∈ self.Nodes, ∀ mesh ∈ node.Meshes,
              mesh.DefaultDiffuseTextureName = textureName → mesh.DiffuseTexture ≠ handle) →
            mapping handle = self._textureMapping handle) := by
  rcases hbuilt with ⟨pf, w, junk, data, assets, assets', h⟩ | ⟨pf, junk, meshData, tex, rfl⟩
  · have hv : self.meshPointersValid :=
      meshPointersValid_congr built self hNodes.symm hMeshes.symm
        (ofKsm_tree pf w junk data assets built assets' h).2.2
    apply SetTextureMapping_override self itemSlot textureName hv
    intro node hnode mesh hmesh _
    rw [hNodes] at hnode
    obtain ⟨ptr, hp, hm⟩ := ofKsm_meshes_listed pf w junk data assets built assets' h node hnode
      mesh hmesh
    refine ⟨ptr, by rw [hMeshes]; exact hp, ?_⟩
    simp only [CredibleModelData.meshAt, hNodes]
    exact hm
  · obtain ⟨he, hd⟩ := ofMeshData_meshes pf junk meshData tex
    have hv : self.meshPointersValid := by
      intro ptr hp
      rw [hMeshes, he] at hp
      exact absurd hp (List.not_mem_nil ptr)
    apply SetTextureMapping_override self itemSlot textureName hv
    intro node hnode mesh hmesh hn
    rw [hNodes] at hnode
    exact absurd ((hd node hnode mesh hmesh).symm.trans hn).symm hname

/-- C5, amended, on the model read from `sampleBytes`, whose single mesh has
the default name `t` and the texture handle 6: after
`SetTextureMapping(3, L"t")` the handle 6 is mapped to the slot 3, and the
handle 7, which no mesh has, is still unmapped. -/
theorem SetTextureMapping_named_witness :
    ∃ model assets',
      CredibleModelData.ofKsm samplePlatform sampleWorld skinnedModel sampleBytes sampleAssets
          = some (model, assets')
        ∧ ([116] : wstring) ≠ []
        ∧ (model.Nodes.map fun n =>
            n.Meshes.map fun mesh => (mesh.DefaultDiffuseTextureName, mesh.DiffuseTexture))
          = [[], [([116], 6)]]
        ∧ ((model.SetTextureMapping 3 [116]).map fun m =>
            (m._textureMapping 6, m._textureMapping 7)) = some (some 3, none)
        ∧ ∃ mapping : Nat → Option Nat,
          model.SetTextureMapping 3 [116] = some { model with _textureMapping := mapping }
            ∧ ∀ handle : Nat,
              ((∃ node ∈ model.Nodes, ∃ mesh ∈ node.Meshes,
                  mesh.DefaultDiffuseTextureName = [116] ∧ mesh.DiffuseTexture = handle) →
                mapping handle = some 3)
              ∧ ((∀ node ∈ model.Nodes, ∀ mesh ∈ node.Meshes,
                  mesh.DefaultDiffuseTextureName = [116] → mesh.DiffuseTexture ≠ handle) →
                mapping handle = model._textureMapping handle) :=
  have e : CredibleModelData.ofKsm samplePlatform sampleWorld skinnedModel sampleBytes
      sampleAssets
      = some ((Option.get _ sampleBytes_parse).1, (Option.get _ sampleBytes_parse).2) :=
    (Option.some_get sampleBytes_parse).symm
  ⟨_, _, e, by decide, by decide, by decide,
    CredibleModelData.SetTextureMapping_named (Option.get _ sampleBytes_parse).1
      (Option.get _ sampleBytes_parse).1 3 [116]
      (Or.inl ⟨samplePlatform, sampleWorld, skinnedModel, sampleBytes, sampleAssets, _, e⟩)
      rfl rfl (by decide)⟩

end Engine
